import Mathlib

/-!
# RISC-V IPI multiplexer (arch/riscv/kernel/ipi-mux.c)

A shallow embedding of the IPI multiplexer: the per-CPU pending words
`ipi_mux_bits`, the dispatch operation `ipi_mux_send_mask`, the drain loop
`riscv_ipi_mux_handle_irq`, the line allocation `ipi_mux_domain_alloc`, the CPU
hotplug hooks and the lifecycle functions `riscv_ipi_mux_create` and
`riscv_ipi_mux_destroy`, followed by the properties proved about them.

Conventions of the embedding.

* `unsigned long` values are natural numbers; `W` stands for `BITS_PER_LONG`,
  so a well-formed word is below `2 ^ W`.
* A `struct cpumask` is the list of the CPU numbers it holds; `for_each_cpu`
  visits them in list order.
* Function pointers of `struct ipi_mux` are booleans telling whether the
  pointer is non-NULL; what the platform callbacks do is recorded in the
  state (`pending_ipi`) and in the event log.
* Every externally visible action appends an `Event` to `State.log`, so that
  "is called exactly once", "is called before" etc. are statements on the log.
* Handlers bound by upper software act on the multiplexer only by sending
  IPIs; `Env.handler` lists the sends each of them makes.
* The drain loop has no bound of its own; it is run with a number of passes
  (`fuel`), and "returns" means that some number of passes is enough.
* Two execution models are given. In the first, sends and drains are whole
  operations run one after the other, the sends of a handler being made inside
  the drain that runs it. In the second, the atomic steps of any number of
  sends and of the drains of all CPUs are interleaved by a scheduler, memory
  being sequentially consistent.
* The lifecycle functions act on a `Machine`: the statics of ipi-mux.c and of
  irq.c together with the kernel objects the functions create and release
  (domains, mappings, line bindings, chained handlers, hotplug states, the IPI
  virq range) and the list of the kernel services called. What the kernel
  answers to one creation is a `Platform`. Addresses and virq numbers are
  natural numbers, 0 being NULL and "no irq".
-/

namespace IpiMux

/-! ## Data model -/

/-- Source `struct ipi_mux`, the type of the singleton `ipi_mux_priv`. `domain` is
the address of the irq domain (0 is NULL); the two callbacks are kept as "pointer
is non-NULL". -/
structure ipi_mux where
  domain : Nat
  parent_virq : Int
  clear_ipi : Bool
  send_ipi : Bool
deriving DecidableEq, Repr

/-- Observable actions of the multiplexer, in program order. -/
inductive Event where
  /-- The call `set_bit(hwirq, per_cpu_ptr(&ipi_mux_bits, cpu))`. -/
  | set_bit (hwirq cpu : Nat)
  /-- The call `ipi_mux_priv.send_ipi(mask)`. -/
  | send_ipi (mask : List Nat)
  /-- The call `ipi_mux_priv.clear_ipi()` made on `cpu`. -/
  | clear_ipi (cpu : Nat)
  /-- The exchange `irqs = xchg(bits, 0)` made on `cpu`, with the value read. -/
  | xchg (cpu irqs : Nat)
  /-- The call `generic_handle_domain_irq(ipi_mux_priv.domain, hwirq)` on `cpu`. -/
  | deliver (cpu hwirq : Nat)
  /-- The handler bound to `hwirq` starts running on `cpu`. -/
  | handler (cpu hwirq : Nat)
  /-- The call `pr_warn_ratelimited("can't find mapping for hwirq ...")` on `cpu`. -/
  | warn (cpu hwirq : Nat)
deriving DecidableEq, Repr

/-- Machine state seen by the multiplexer: the singleton `ipi_mux_priv`, the
per-CPU variable `ipi_mux_bits`, the physical IPI lines and the event log.
`ipi_mux_bits cpu k` is the word at offset `k` (in words) from the per-CPU
variable `ipi_mux_bits` of `cpu`; offset 0 is the variable itself, that is, the
pending set of `cpu`. `pending_ipi cpu` tells whether the physical IPI of `cpu`
is raised. -/
structure State where
  ipi_mux_priv : ipi_mux
  ipi_mux_bits : Nat → Nat → Nat
  pending_ipi : Nat → Bool
  log : List Event

/-- The pending set of `cpu`: the per-CPU variable `ipi_mux_bits`. -/
def PendingSet (s : State) (cpu : Nat) : Nat := s.ipi_mux_bits cpu 0

/-- What surrounds the multiplexer: the word width, which lines
`generic_handle_domain_irq` can resolve, and what the handlers bound by upper
software do. A handler acts on the multiplexer only by sending IPIs: `handler
cpu hwirq s` lists the sends `(hwirq', mask)` the handler of `hwirq` performs
when run on `cpu` in state `s`. -/
structure Env where
  W : Nat
  mapped : Nat → Bool
  handler : Nat → Nat → State → List (Nat × List Nat)

/-! ## Kernel primitives and platform callbacks used by the file -/

/-- Modelled from the spec: kernel `set_bit(nr, addr)`, which is not under src/,
applied to `per_cpu_ptr(&ipi_mux_bits, cpu)`: "atomically OR bit `reason_index`
into that CPU's PendingSet". As the kernel primitive does, the OR of
`BIT_MASK(nr) = 1 << (nr % BITS_PER_LONG)` goes to the word
`addr[BIT_WORD(nr)] = addr[nr / BITS_PER_LONG]`; for `nr < W` that is bit `nr` of
the pending set itself. -/
def set_bit (W nr cpu : Nat) (s : State) : State :=
  { s with
    ipi_mux_bits := fun c k =>
      if c = cpu ∧ k = nr / W then s.ipi_mux_bits c k ||| (1 <<< (nr % W))
      else s.ipi_mux_bits c k
    log := s.log ++ [Event.set_bit nr cpu] }

/-- Modelled from the spec: kernel `xchg(bits, 0)`, which is not under src/, on
`this_cpu_ptr(&ipi_mux_bits)`: "atomically exchange the local PendingSet with 0,
capturing the prior value". -/
def xchg (cpu : Nat) (s : State) : Nat × State :=
  (s.ipi_mux_bits cpu 0,
   { s with
     ipi_mux_bits := fun c k => if c = cpu ∧ k = 0 then 0 else s.ipi_mux_bits c k
     log := s.log ++ [Event.xchg cpu (s.ipi_mux_bits cpu 0)] })

/-- Modelled from the spec: the platform callback behind `ipi_mux_priv.send_ipi`
(for instance `aclint_swi_ipi_send`), which "raises the physical signal on each
CPU in the set". -/
def send_ipi (mask : List Nat) (s : State) : State :=
  { s with
    pending_ipi := fun c => if c ∈ mask then true else s.pending_ipi c
    log := s.log ++ [Event.send_ipi mask] }

/-- Modelled from the spec: the platform callback behind `ipi_mux_priv.clear_ipi`
(for instance `aclint_swi_ipi_clear`), which "acks the physical signal on the
current CPU". -/
def clear_ipi (cpu : Nat) (s : State) : State :=
  { s with
    pending_ipi := fun c => if c = cpu then false else s.pending_ipi c
    log := s.log ++ [Event.clear_ipi cpu] }

/-- Scan of `addr` upwards from bit `off`, over at most `n` positions: the first
position holding a set bit, or `off + n` when there is none. -/
def find_bit_from (addr : Nat) : Nat → Nat → Nat
  | 0, off => off
  | n + 1, off => if addr.testBit off then off else find_bit_from addr n (off + 1)

/-- Modelled from the spec: kernel `find_next_bit(addr, size, offset)`, which is
not under src/, the step of `for_each_set_bit`: the position of the first set bit
at or above `offset` and below `size`, or `size` when there is none. -/
def find_next_bit (addr size offset : Nat) : Nat :=
  if offset < size then find_bit_from addr (size - offset) offset else size

/-- Modelled from the spec: kernel `find_first_bit(addr, size)`, which is not
under src/, the start of `for_each_set_bit`. -/
def find_first_bit (addr size : Nat) : Nat := find_next_bit addr size 0

/-- The iteration of `for_each_set_bit` from the current position `bit`; `n`
bounds the number of iterations. -/
def for_each_set_bit_from {σ : Type} (addr size : Nat) (body : Nat → σ → σ) :
    Nat → Nat → σ → σ
  | 0, _, s => s
  | n + 1, bit, s =>
    if bit < size then
      for_each_set_bit_from addr size body n (find_next_bit addr size (bit + 1)) (body bit s)
    else s

/-- Modelled from the spec: kernel macro `for_each_set_bit(bit, addr, size)`,
which is not under src/: "for every set bit in `irqs` (order: ascending bit
index)", written as the kernel writes it,
`for (bit = find_first_bit(addr, size); bit < size;
      bit = find_next_bit(addr, size, bit + 1)) body`.
Every iteration visits a new position below `size`, so `size` iterations are
all the loop can make. -/
def for_each_set_bit {σ : Type} (addr size : Nat) (body : Nat → σ → σ) (s : σ) : σ :=
  for_each_set_bit_from addr size body size (find_first_bit addr size) s

/-! ## ipi-mux.c -/

/-- Source `ipi_mux_send_mask(d, mask)` with `hwirq = d->hwirq`:
set the bit in the pending word of every CPU of the mask, then call the
`send_ipi` callback, if there is one, once on the whole mask. The two barriers
have no effect in a sequentially consistent model. -/
def ipi_mux_send_mask (W hwirq : Nat) (mask : List Nat) (s : State) : State :=
  let s1 := mask.foldl (fun st cpu => set_bit W hwirq cpu st) s
  if s1.ipi_mux_priv.send_ipi then send_ipi mask s1 else s1

/-- The handler bound to `hwirq` runs on `cpu`: it performs its sends in order. -/
def run_handler (env : Env) (cpu hwirq : Nat) (s : State) : State :=
  let s1 := { s with log := s.log ++ [Event.handler cpu hwirq] }
  (env.handler cpu hwirq s1).foldl (fun st sd => ipi_mux_send_mask env.W sd.1 sd.2 st) s1

/-- Modelled from the spec: kernel `generic_handle_domain_irq(domain, hwirq)`,
the spec's `deliver(index)`: "invokes the bound handler; if no handler is
bound, it must not crash — it signals a no mapping condition". Returns 0 after
running the handler, or `-EINVAL` when the line cannot be resolved. -/
def generic_handle_domain_irq (env : Env) (cpu hwirq : Nat) (s : State) : Int × State :=
  let s1 := { s with log := s.log ++ [Event.deliver cpu hwirq] }
  if env.mapped hwirq then (0, run_handler env cpu hwirq s1) else (-22, s1)

/-- Body of the `for_each_set_bit` loop of `riscv_ipi_mux_handle_irq`
(lines 112-117): deliver `hwirq`, and warn if that reports an error. -/
def handle_one (env : Env) (cpu hwirq : Nat) (s : State) : State :=
  let r := generic_handle_domain_irq env cpu hwirq s
  if r.1 ≠ 0 then { r.2 with log := r.2.log ++ [Event.warn cpu hwirq] } else r.2

/-- The `for_each_set_bit(hwirq, &irqs, BITS_PER_LONG)` loop of one drain pass
(lines 111-118) on the captured value `irqs`. -/
def deliver_pending (env : Env) (cpu irqs : Nat) (s : State) : State :=
  for_each_set_bit irqs env.W (handle_one env cpu) s

/-- The `while (true)` loop of `riscv_ipi_mux_handle_irq` run on `cpu` for at
most `fuel` passes. Returns the state reached and whether the loop was left
through `break`. -/
def handle_irq_loop (env : Env) (cpu : Nat) : Nat → State → State × Bool
  | 0, s => (s, false)
  | fuel + 1, s =>
    let s1 := if s.ipi_mux_priv.clear_ipi then clear_ipi cpu s else s
    let r := xchg cpu s1
    if r.1 = 0 then (r.2, true)
    else handle_irq_loop env cpu fuel (deliver_pending env cpu r.1 r.2)

/-- Source `riscv_ipi_mux_handle_irq()` called on `cpu`: `some s` when the
function returns within `fuel` passes of its loop, with the state at return. -/
def riscv_ipi_mux_handle_irq (env : Env) (cpu fuel : Nat) (s : State) : Option State :=
  let r := handle_irq_loop env cpu fuel s
  if r.2 then some r.1 else none

/-! ## Sequences of whole operations -/

/-- One operation of the facility as upper software and the platform use it:
a send of `hwirq` to `mask`, or the physical interrupt handled on `cpu`. -/
inductive Op where
  | send (hwirq : Nat) (mask : List Nat)
  | drain (cpu : Nat)
deriving DecidableEq, Repr

/-- Run one operation to completion; a drain is given `fuel` passes. -/
def run_op (env : Env) (fuel : Nat) : Op → State → Option State
  | Op.send hwirq mask, s => some (ipi_mux_send_mask env.W hwirq mask s)
  | Op.drain cpu, s => riscv_ipi_mux_handle_irq env cpu fuel s

/-- Run a sequence of operations, each to completion, in order. -/
def run_ops (env : Env) (fuel : Nat) : List Op → State → Option State
  | [], s => some s
  | op :: ops, s => (run_op env fuel op s).bind (run_ops env fuel ops)

/-- State of a facility right after creation with the given callbacks: every
pending word is 0, no physical IPI is raised, nothing has happened yet. -/
def init (p : ipi_mux) : State :=
  { ipi_mux_priv := p, ipi_mux_bits := fun _ _ => 0, pending_ipi := fun _ => false, log := [] }

/-! ## Reading the event log -/

/-- Positions of the set bits of `p` below `W`, in increasing order. -/
def set_bits (W p : Nat) : List Nat := (List.range W).filter (fun i => p.testBit i)

/-- The line number of a `generic_handle_domain_irq` call made on `cpu`. -/
def deliver_on (cpu : Nat) : Event → Option Nat
  | Event.deliver c i => if c = cpu then some i else none
  | _ => none

/-- The line number of a handler started on `cpu`. -/
def handler_on (cpu : Nat) : Event → Option Nat
  | Event.handler c i => if c = cpu then some i else none
  | _ => none

/-- The line number of a "can't find mapping" warning printed on `cpu`. -/
def warn_on (cpu : Nat) : Event → Option Nat
  | Event.warn c i => if c = cpu then some i else none
  | _ => none

/-- The line numbers passed to `generic_handle_domain_irq` on `cpu`, in call order. -/
def delivered (cpu : Nat) (log : List Event) : List Nat := log.filterMap (deliver_on cpu)

/-- The line numbers whose handler ran on `cpu`, in order. -/
def handled (cpu : Nat) (log : List Event) : List Nat := log.filterMap (handler_on cpu)

/-- The line numbers for which a "can't find mapping" warning was printed on
`cpu`, in order. -/
def warned (cpu : Nat) (log : List Event) : List Nat := log.filterMap (warn_on cpu)

/-- The mask of a `send_ipi` call. -/
def mask_of_send : Event → Option (List Nat)
  | Event.send_ipi m => some m
  | _ => none

/-- The masks passed to the `send_ipi` callback, in call order. -/
def ipi_sent (log : List Event) : List (List Nat) := log.filterMap mask_of_send

/-- Whether reason `r` is armed for `cpu` at the end of `log`: the bit was set
by a send (`set_bit r cpu`) and `r` was not delivered on `cpu` since. -/
def armed (cpu r : Nat) (log : List Event) : Bool :=
  log.foldl (fun a e =>
    if e = Event.set_bit r cpu then true
    else if e = Event.deliver cpu r then false
    else a) false

/-- No spurious delivery of `r` on `cpu` in `log`, in its strict form: every
`deliver r` on `cpu` comes after a send of `r` to `cpu` with no other `deliver r`
on `cpu` in between. -/
def NoSpurious (cpu r : Nat) (log : List Event) : Prop :=
  ∀ pre post, log = pre ++ Event.deliver cpu r :: post →
    ∃ a b, pre = a ++ Event.set_bit r cpu :: b ∧ Event.deliver cpu r ∉ b

/-- No lost reason `r` for `cpu` in `log`: every completed `set_bit r cpu` is
followed by a `deliver r` on `cpu`. -/
def NoLost (cpu r : Nat) (log : List Event) : Prop :=
  ∀ pre post, log = pre ++ Event.set_bit r cpu :: post → Event.deliver cpu r ∈ post

/-- What an event says about reason `r` on `cpu`: `some true` for the `set_bit`
of a send of `r` to `cpu`, `some false` for a delivery of `r` on `cpu`, `none` for
every other event. -/
def rel_on (cpu r : Nat) : Event → Option Bool
  | Event.set_bit h c => if h = r ∧ c = cpu then some true else none
  | Event.deliver c h => if c = cpu ∧ h = r then some false else none
  | _ => none

/-- Strict alternation on a list of sends (`true`) and deliveries (`false`):
every delivery has a send since the delivery before it; `a` tells whether a send
is outstanding at the start. -/
def alternates : Bool → List Bool → Bool
  | _, [] => true
  | _, true :: l => alternates true l
  | a, false :: l => a && alternates false l

/-- The last entry of a list of sends and deliveries, `a` for the empty list. -/
def last_or (a : Bool) (l : List Bool) : Bool := l.foldl (fun _ b => b) a

/-- State `s'` comes from `s` by events of which none is a delivery of `r` on
`cpu`, and bit `r` of the pending set of `cpu` is set in `s'` only if it was set in
`s` or one of the events is a send of `r` to `cpu`. -/
def OnlySends (cpu r : Nat) (s s' : State) : Prop :=
  ∃ X : List Bool,
    s'.log.filterMap (rel_on cpu r) = s.log.filterMap (rel_on cpu r) ++ X ∧
    (∀ b ∈ X, b = true) ∧
    ((s'.ipi_mux_bits cpu 0).testBit r = true →
      (s.ipi_mux_bits cpu 0).testBit r = true ∨ X ≠ [])

/-- Invariant of operation sequences for reason `r` on `cpu`: the sends and
deliveries of the log alternate strictly, and when bit `r` of the pending set of
`cpu` is set, the last of them is a send. -/
def SendTracked (cpu r : Nat) (s : State) : Prop :=
  alternates false (s.log.filterMap (rel_on cpu r)) = true ∧
  ((s.ipi_mux_bits cpu 0).testBit r = true →
    last_or false (s.log.filterMap (rel_on cpu r)) = true)

/-! ## Interleaving of sends and drains -/

/-- A call of `ipi_mux_send_mask` in progress: `rest` holds the CPUs the
`for_each_cpu` loop has still to visit; when it is empty the next step is the
`send_ipi` call. -/
structure Sender where
  hwirq : Nat
  mask : List Nat
  rest : List Nat
deriving DecidableEq, Repr

/-- Where `riscv_ipi_mux_handle_irq` stands on a CPU: not running; at the head of
the loop (line 101); before the exchange (line 107); or inside the
`for_each_set_bit` loop with the captured `irqs` and the current `bit`. -/
inductive DrainPC where
  | idle
  | at_clear
  | at_xchg
  | delivering (irqs bit : Nat)
deriving DecidableEq, Repr

/-- The whole system: shared state, sends in progress, and the drain of every CPU. -/
structure Sys where
  st : State
  senders : List Sender
  drain : Nat → DrainPC

/-- What the scheduler picks next: some CPU calls `ipi_mux_send_mask`; the
`k`-th send in progress makes its next atomic step; or the drain of `cpu` makes
its next atomic step (entering the handler when it was not running). -/
inductive Action where
  | send_call (hwirq : Nat) (mask : List Nat)
  | send_step (k : Nat)
  | irq_step (cpu : Nat)
deriving DecidableEq, Repr

/-- The environment with handlers that send nothing by themselves: in the
interleaved system a send issued by a handler is a send in progress like any
other. -/
def quiet (env : Env) : Env := { env with handler := fun _ _ _ => [] }

/-- Next atomic step of a send in progress: one `set_bit` of the `for_each_cpu`
loop, or the final `send_ipi` call, after which the send is over. -/
def send_step (W : Nat) (k : Nat) (y : Sys) : Sys :=
  match y.senders.get? k with
  | none => y
  | some sd =>
    match sd.rest with
    | cpu :: rest =>
      { y with st := set_bit W sd.hwirq cpu y.st
               senders := y.senders.set k { sd with rest := rest } }
    | [] =>
      { y with st := if y.st.ipi_mux_priv.send_ipi then send_ipi sd.mask y.st else y.st
               senders := y.senders.eraseIdx k }

/-- Next atomic step of `riscv_ipi_mux_handle_irq` on `cpu`. -/
def irq_step (env : Env) (cpu : Nat) (y : Sys) : Sys :=
  match y.drain cpu with
  | DrainPC.idle =>
    { y with drain := fun c => if c = cpu then DrainPC.at_clear else y.drain c }
  | DrainPC.at_clear =>
    { y with st := if y.st.ipi_mux_priv.clear_ipi then clear_ipi cpu y.st else y.st
             drain := fun c => if c = cpu then DrainPC.at_xchg else y.drain c }
  | DrainPC.at_xchg =>
    let r := xchg cpu y.st
    { y with st := r.2
             drain := fun c =>
               if c = cpu then
                 (if r.1 = 0 then DrainPC.idle
                  else DrainPC.delivering r.1 (find_first_bit r.1 env.W))
               else y.drain c }
  | DrainPC.delivering irqs bit =>
    if bit < env.W then
      { y with st := handle_one (quiet env) cpu bit y.st
               drain := fun c =>
                 if c = cpu then DrainPC.delivering irqs (find_next_bit irqs env.W (bit + 1))
                 else y.drain c }
    else
      { y with drain := fun c => if c = cpu then DrainPC.at_clear else y.drain c }

/-- One scheduling step. -/
def step (env : Env) : Action → Sys → Sys
  | Action.send_call hwirq mask, y =>
    { y with senders := y.senders ++ [{ hwirq := hwirq, mask := mask, rest := mask }] }
  | Action.send_step k, y => send_step env.W k y
  | Action.irq_step cpu, y => irq_step env cpu y

/-- Run a schedule from a system state. -/
def run (env : Env) (acts : List Action) (y : Sys) : Sys :=
  acts.foldl (fun st a => step env a st) y

/-- The system right after creation of the facility. -/
def Sys.init (p : ipi_mux) : Sys :=
  { st := IpiMux.init p, senders := [], drain := fun _ => DrainPC.idle }

/-- Quiescence for `cpu`: no send in progress, the drain of `cpu` not running,
and the physical IPI of `cpu` not raised. -/
def Quiescent (y : Sys) (cpu : Nat) : Prop :=
  y.senders = [] ∧ y.drain cpu = DrainPC.idle ∧ y.st.pending_ipi cpu = false

/-- The events a drain pass on `cpu` makes by itself for the lines `l`, in
order: the delivery of each line, followed by the start of its handler or by
the warning. The events of the sends made by handlers are not part of it. -/
def line_events (env : Env) (cpu : Nat) : List Nat → List Event
  | [] => []
  | i :: l =>
    Event.deliver cpu i ::
      (if env.mapped i then Event.handler cpu i else Event.warn cpu i) ::
        line_events env cpu l

/-- Invariant of the interleaved system: the `send_ipi` callback is registered;
a send in progress visits only CPUs of its mask; a non-empty pending set of a
CPU `C` has its physical IPI raised, or a send to `C` in progress, or the drain of
`C` running; and a reason `r` armed for `C` is still in the pending set of `C` or
among the bits the running pass of the drain of `C` has yet to deliver. -/
def SysInv (env : Env) (y : Sys) : Prop :=
  y.st.ipi_mux_priv.send_ipi = true ∧
  (∀ sd ∈ y.senders, ∀ x ∈ sd.rest, x ∈ sd.mask) ∧
  (∀ C, y.st.ipi_mux_bits C 0 ≠ 0 →
    y.st.pending_ipi C = true ∨ (∃ sd ∈ y.senders, C ∈ sd.mask) ∨
      y.drain C ≠ DrainPC.idle) ∧
  (∀ C r, r < env.W → armed C r y.st.log = true →
    (y.st.ipi_mux_bits C 0).testBit r = true ∨
      ∃ irqs bit, y.drain C = DrainPC.delivering irqs bit ∧
        irqs.testBit r = true ∧ bit ≤ r)

/-! ## Concrete configurations -/

/-- A facility with both platform callbacks registered. -/
def priv_both : ipi_mux := { domain := 1, parent_virq := 0, clear_ipi := true, send_ipi := true }

/-- A facility created without a `clear_ipi` callback
(`riscv_ipi_mux_create(..., NULL, send_ipi)`). -/
def priv_no_clear : ipi_mux :=
  { domain := 1, parent_virq := 0, clear_ipi := false, send_ipi := true }

/-- Word width 32, lines 0 and 5 resolvable, handlers that send nothing. -/
def env_passive : Env :=
  { W := 32, mapped := fun i => i == 0 || i == 5, handler := fun _ _ _ => [] }

/-- Word width 32, every line but 7 resolvable, handlers that send nothing. -/
def env_unmapped7 : Env :=
  { W := 32, mapped := fun i => i != 7, handler := fun _ _ _ => [] }

/-- Word width 32, every line resolvable; the handler of line 1 sends reason 3
to CPU 0, the other handlers send nothing. -/
def env_resend : Env :=
  { W := 32, mapped := fun _ => true,
    handler := fun _ i _ => if i = 1 then [(3, [0])] else [] }

/-- Word width 32, every line but 7 resolvable; the handler of line 2 sends
reason 7 to CPU 0, the other handlers send nothing. -/
def env_resend7 : Env :=
  { W := 32, mapped := fun i => i != 7,
    handler := fun _ i _ => if i = 2 then [(7, [0])] else [] }

/-- Word width 32, every line but 7 resolvable; the handler of line 2 sends
reason 2 to the CPU it runs on, the other handlers send nothing. -/
def env_restart : Env :=
  { W := 32, mapped := fun i => i != 7,
    handler := fun c i _ => if i = 2 then [(2, [c])] else [] }

/-! ## Lifecycle: line allocation, CPU hotplug hooks, creation and destruction -/

/-- Calls of kernel services made by the lifecycle functions of ipi-mux.c, in
program order. -/
inductive KCall where
  | irq_find_matching_fwnode (fwnode : Nat)
  | irq_create_mapping (domain hwirq : Nat)
  | irq_domain_add_linear (size : Nat)
  | irq_domain_alloc_irqs (domain nr_irqs : Nat) (param_count : Int) (param : List Nat)
  | irq_set_percpu_devid (irq : Nat)
  | irq_domain_set_info (domain virq hwirq : Nat)
  | irq_set_chained_handler (virq : Nat)
  | cpuhp_setup_state
  | riscv_ipi_set_virq_range (virq : Int) (nr : Nat) (use_for_rfence : Bool)
  | irq_domain_remove (domain : Nat)
  | irq_dispose_mapping (virq : Nat)
  | enable_percpu_irq (virq cpu : Nat)
  | disable_percpu_irq (virq cpu : Nat)
deriving DecidableEq, Repr

/-- Kernel `struct irq_fwspec` as far as ipi-mux.c uses it: the firmware node,
the number of parameters and the parameters. -/
structure irq_fwspec where
  fwnode : Nat
  param_count : Int
  param : List Nat
deriving DecidableEq, Repr

/-- The machine as the lifecycle functions see it: the statics of ipi-mux.c
(`st`), the static `intc_fwnode` of irq.c, and the kernel objects they create
and release. Addresses and virq numbers are natural numbers, 0 standing for
NULL and for "no irq".
`domains` are the irq domains alive, `mappings` the virqs of the irq mappings
alive, `lines` the bindings `(domain, virq, hwirq)` made by
`irq_domain_set_info`, `chained` the virqs whose chained handler is
`ipi_mux_handle_irq`, `cpuhp` the number of hotplug states set up with the two
hooks, `virq_range` the IPI virq range registered with the architecture,
`percpu_enabled virq cpu` whether the per-CPU irq `virq` is enabled on `cpu`. -/
structure Machine where
  st : State
  intc_fwnode : Nat
  domains : List Nat
  mappings : List Nat
  lines : List (Nat × Nat × Nat)
  chained : List Nat
  cpuhp : Nat
  virq_range : Option (Int × Nat × Bool)
  percpu_enabled : Nat → Nat → Bool
  calls : List KCall

/-- What the kernel answers to the services one call of `riscv_ipi_mux_create`
asks of it: the result of `irq_domain_alloc_named_fwnode`, of
`irq_find_matching_fwnode` on the INTC node, of `irq_create_mapping`, of
`irq_domain_add_linear`, and the first virq of the descriptors
`__irq_domain_alloc_irqs` obtains (0 or negative when it obtains none).
`RV_IRQ_SOFT` is the kernel constant of that name, which is not under src/. -/
structure Platform where
  fwnode_alloc : Nat
  intc_domain : Nat
  soft_virq : Nat
  new_domain : Nat
  virq_base : Int
  RV_IRQ_SOFT : Nat

/-- The value `memset(&ipi_mux_priv, 0, sizeof(ipi_mux_priv))` leaves, which is
also the value of the static before any creation. -/
def ipi_mux_zero : ipi_mux := { domain := 0, parent_virq := 0, clear_ipi := false, send_ipi := false }

/-- The machine at boot: statics zero, no kernel object of the multiplexer. -/
def boot : Machine :=
  { st := init ipi_mux_zero, intc_fwnode := 0, domains := [], mappings := [], lines := [],
    chained := [], cpuhp := 0, virq_range := none, percpu_enabled := fun _ _ => false,
    calls := [] }

/-- Modelled from the spec: `riscv_ipi_have_virq_range()`, which is not under
src/: whether "the registered IPI virq range" exists. -/
def riscv_ipi_have_virq_range (m : Machine) : Bool := m.virq_range.isSome

/-- Modelled from the spec: `riscv_ipi_set_virq_range(virq, nr, use_for_rfence)`,
which is not under src/: "registers the virq range (base virq, W,
use_for_rfence)". -/
def riscv_ipi_set_virq_range (virq : Int) (nr : Nat) (use_for_rfence : Bool)
    (m : Machine) : Machine :=
  { m with
    virq_range := some (virq, nr, use_for_rfence)
    calls := m.calls ++ [KCall.riscv_ipi_set_virq_range virq nr use_for_rfence] }

/-- Source `riscv_intc_fwnode()` of irq.c: allocate the named node on first use,
keep it in the static, return it. -/
def riscv_intc_fwnode (pl : Platform) (m : Machine) : Nat × Machine :=
  let m1 := if m.intc_fwnode = 0 then { m with intc_fwnode := pl.fwnode_alloc } else m
  (m1.intc_fwnode, m1)

/-- Modelled from the spec: kernel `irq_find_matching_fwnode`, which is not under
src/: locates "the platform's underlying single-physical-line interrupt"
domain, or returns NULL. -/
def irq_find_matching_fwnode (pl : Platform) (fwnode : Nat) (m : Machine) : Nat × Machine :=
  (pl.intc_domain, { m with calls := m.calls ++ [KCall.irq_find_matching_fwnode fwnode] })

/-- Modelled from the spec: kernel `irq_create_mapping`, which is not under src/:
maps the physical line and returns its virq, or returns 0 when it "cannot be
located/mapped". Every successful call adds one entry to `mappings`, and
`irq_dispose_mapping` takes one away. -/
def irq_create_mapping (pl : Platform) (domain hwirq : Nat) (m : Machine) : Nat × Machine :=
  (pl.soft_virq,
   { m with
     mappings := if pl.soft_virq = 0 then m.mappings else pl.soft_virq :: m.mappings
     calls := m.calls ++ [KCall.irq_create_mapping domain hwirq] })

/-- Modelled from the spec: kernel `irq_dispose_mapping`, which is not under src/:
"releases the physical-line mapping". -/
def irq_dispose_mapping (virq : Nat) (m : Machine) : Machine :=
  { m with
    mappings := m.mappings.erase virq
    calls := m.calls ++ [KCall.irq_dispose_mapping virq] }

/-- Modelled from the spec: kernel `irq_domain_add_linear`, which is not under
src/: builds the registry of `size` virtual lines and returns it, or returns NULL
("registry/allocation failure"). -/
def irq_domain_add_linear (pl : Platform) (size : Nat) (m : Machine) : Nat × Machine :=
  (pl.new_domain,
   { m with
     domains := if pl.new_domain = 0 then m.domains else pl.new_domain :: m.domains
     calls := m.calls ++ [KCall.irq_domain_add_linear size] })

/-- Modelled from the spec: kernel `irq_domain_remove`, which is not under src/:
tears the registry down. -/
def irq_domain_remove (domain : Nat) (m : Machine) : Machine :=
  { m with
    domains := m.domains.erase domain
    calls := m.calls ++ [KCall.irq_domain_remove domain] }

/-- Modelled from the spec: kernel `irq_domain_translate_onecell`, which is not
under src/: 'translate externally-described identifier to an index', "returning
an error if the descriptor is malformed". Returns the error code (0 or `-EINVAL`)
and the index `param[0]`. -/
def irq_domain_translate_onecell (fwspec : irq_fwspec) : Int × Nat :=
  if fwspec.param_count < 1 then (-22, 0) else (0, fwspec.param.getD 0 0)

/-- Source `ipi_mux_domain_map(d, irq, hwirq)`: mark the irq per-CPU and bind it
to line `hwirq` of the domain with the chip of the multiplexer; returns 0. -/
def ipi_mux_domain_map (d irq hwirq : Nat) (m : Machine) : Int × Machine :=
  (0,
   { m with
     lines := m.lines ++ [(d, irq, hwirq)]
     calls := m.calls ++ [KCall.irq_set_percpu_devid irq, KCall.irq_domain_set_info d irq hwirq] })

/-- The `int` counter `i` of the loop of `ipi_mux_domain_alloc` after `n`
increments from 0: `n` as far as an `int` holds it, the increment past `INT_MAX`
wrapping to `INT_MIN`. -/
def loop_counter (n : Nat) : Int :=
  if n % 2 ^ 32 < 2 ^ 31 then Int.ofNat (n % 2 ^ 32) else Int.ofNat (n % 2 ^ 32) - 2 ^ 32

/-- The expression `virq + i` of `ipi_mux_domain_alloc` in the iteration `n`:
`virq` is an `unsigned int`, to which type `i` is converted, and the sum wraps
at `2 ^ 32`. -/
def virq_plus (virq n : Nat) : Nat := ((Int.ofNat virq + loop_counter n) % 2 ^ 32).toNat

/-- The expression `hwirq + i` of `ipi_mux_domain_alloc` in the iteration `n`:
`hwirq` is an `irq_hw_number_t`, an `unsigned long` of `W = BITS_PER_LONG` bits,
to which type `i` is converted, and the sum wraps at `2 ^ W`. -/
def hwirq_plus (W hwirq n : Nat) : Nat := ((Int.ofNat hwirq + loop_counter n) % 2 ^ W).toNat

/-- The loop `for (i = 0; i < nr_irqs; i++)` of `ipi_mux_domain_alloc` from the
iteration `i`, with `n` iterations to go; it stops at the first error. -/
def ipi_mux_domain_alloc_loop (W d virq hwirq : Nat) : Nat → Nat → Machine → Int × Machine
  | 0, _, m => (0, m)
  | n + 1, i, m =>
    let r := ipi_mux_domain_map d (virq_plus virq i) (hwirq_plus W hwirq i) m
    if r.1 ≠ 0 then r else ipi_mux_domain_alloc_loop W d virq hwirq n (i + 1) r.2

/-- Source `ipi_mux_domain_alloc(d, virq, nr_irqs, arg)`, `arg` being the
`struct irq_fwspec`: translate the descriptor, then map `virq + i` to
`hwirq + i` for every `i < nr_irqs`, the two sums being computed in
`unsigned int` and in `unsigned long` of `W` bits. -/
def ipi_mux_domain_alloc (W d virq nr_irqs : Nat) (fwspec : irq_fwspec) (m : Machine) :
    Int × Machine :=
  let t := irq_domain_translate_onecell fwspec
  if t.1 ≠ 0 then (t.1, m) else ipi_mux_domain_alloc_loop W d virq t.2 nr_irqs 0 m

/-- Modelled from the spec: kernel `__irq_domain_alloc_irqs`, which is not under
src/: obtains `nr_irqs` consecutive irq descriptors and hands them to the
`alloc` operation of the domain, which for the domain of the multiplexer is
`ipi_mux_domain_alloc`; returns the first virq, or what failed. -/
def __irq_domain_alloc_irqs (W : Nat) (pl : Platform) (domain nr_irqs : Nat)
    (fwspec : irq_fwspec) (m : Machine) : Int × Machine :=
  let m1 := { m with calls := m.calls ++
    [KCall.irq_domain_alloc_irqs domain nr_irqs fwspec.param_count fwspec.param] }
  if pl.virq_base ≤ 0 then (pl.virq_base, m1)
  else
    let r := ipi_mux_domain_alloc W domain pl.virq_base.toNat nr_irqs fwspec m1
    if r.1 < 0 then r else (pl.virq_base, r.2)

/-- Modelled from the spec: kernel `enable_percpu_irq`, which is not under src/:
"re-arm (enable) the physical trigger delivery path for that CPU". -/
def enable_percpu_irq (virq cpu : Nat) (m : Machine) : Machine :=
  { m with
    percpu_enabled := fun v c => if v = virq ∧ c = cpu then true else m.percpu_enabled v c
    calls := m.calls ++ [KCall.enable_percpu_irq virq cpu] }

/-- Modelled from the spec: kernel `disable_percpu_irq`, which is not under src/:
"on a CPU going offline, disarm it". -/
def disable_percpu_irq (virq cpu : Nat) (m : Machine) : Machine :=
  { m with
    percpu_enabled := fun v c => if v = virq ∧ c = cpu then false else m.percpu_enabled v c
    calls := m.calls ++ [KCall.disable_percpu_irq virq cpu] }

/-- Source `ipi_mux_dying_cpu(cpu)`, run on the CPU going offline. -/
def ipi_mux_dying_cpu (cpu : Nat) (m : Machine) : Int × Machine :=
  let m1 :=
    if m.st.ipi_mux_priv.parent_virq ≠ 0 then
      disable_percpu_irq m.st.ipi_mux_priv.parent_virq.toNat cpu m
    else m
  (0, m1)

/-- Source `ipi_mux_starting_cpu(cpu)`, run on the CPU coming online; the trigger
type passed on is the one the kernel has on record for the irq. -/
def ipi_mux_starting_cpu (cpu : Nat) (m : Machine) : Int × Machine :=
  let m1 :=
    if m.st.ipi_mux_priv.parent_virq ≠ 0 then
      enable_percpu_irq m.st.ipi_mux_priv.parent_virq.toNat cpu m
    else m
  (0, m1)

/-- Modelled from the spec: kernel `irq_set_chained_handler(parent_virq,
ipi_mux_handle_irq)`, which is not under src/: wires the drain loop as "a chained
interrupt handler" of the physical line. -/
def irq_set_chained_handler (virq : Nat) (m : Machine) : Machine :=
  { m with
    chained := virq :: m.chained
    calls := m.calls ++ [KCall.irq_set_chained_handler virq] }

/-- Modelled from the spec: kernel `cpuhp_setup_state` with `ipi_mux_starting_cpu`
and `ipi_mux_dying_cpu`, which is not under src/: 'registers a per-CPU
online/offline hook'. -/
def cpuhp_setup_state (m : Machine) : Machine :=
  { m with cpuhp := m.cpuhp + 1, calls := m.calls ++ [KCall.cpuhp_setup_state] }

/-- The label `fail_dispose_mapping` of `riscv_ipi_mux_create` (lines 208-211). -/
def fail_dispose_mapping (parent_virq : Int) (m : Machine) : Nat × Machine :=
  (0, if parent_virq ≠ 0 then irq_dispose_mapping parent_virq.toNat m else m)

/-- The label `fail_domain_remove` of `riscv_ipi_mux_create` (lines 206-211),
which falls through to `fail_dispose_mapping`. -/
def fail_domain_remove (domain : Nat) (parent_virq : Int) (m : Machine) : Nat × Machine :=
  fail_dispose_mapping parent_virq (irq_domain_remove domain m)

/-- Lines 173-204 of `riscv_ipi_mux_create`, entered with the `parent_virq`
obtained so far: add the domain, allocate the `BITS_PER_LONG` lines from
`param[0] = 0`, install the facility, wire the chained handler and the hotplug
hooks, register the virq range. -/
def create_domain (W : Nat) (pl : Platform) (use_for_rfence clear_ipi send_ipi : Bool)
    (parent_virq : Int) (m : Machine) : Nat × Machine :=
  let a := irq_domain_add_linear pl W m
  if a.1 = 0 then fail_dispose_mapping parent_virq a.2
  else
    let r := __irq_domain_alloc_irqs W pl a.1 W
      { fwnode := a.1, param_count := 1, param := [0] } a.2
    if r.1 ≤ 0 then fail_domain_remove a.1 parent_virq r.2
    else
      let m3 := { r.2 with st := { r.2.st with ipi_mux_priv :=
        { domain := a.1, parent_virq := parent_virq,
          clear_ipi := clear_ipi, send_ipi := send_ipi } } }
      let m4 := if parent_virq ≠ 0 then irq_set_chained_handler parent_virq.toNat m3 else m3
      let m5 := cpuhp_setup_state m4
      let m6 := riscv_ipi_set_virq_range r.1 W use_for_rfence m5
      (m6.st.ipi_mux_priv.domain, m6)

/-- Source `riscv_ipi_mux_create(use_soft_irq, use_for_rfence, clear_ipi,
send_ipi)`: returns the domain, or NULL (0). -/
def riscv_ipi_mux_create (W : Nat) (pl : Platform)
    (use_soft_irq use_for_rfence clear_ipi send_ipi : Bool) (m : Machine) : Nat × Machine :=
  if m.st.ipi_mux_priv.domain ≠ 0 ∨ riscv_ipi_have_virq_range m = true then (0, m)
  else if use_soft_irq then
    let f := riscv_intc_fwnode pl m
    let d := irq_find_matching_fwnode pl f.1 f.2
    if d.1 = 0 then (0, d.2)
    else
      let v := irq_create_mapping pl d.1 pl.RV_IRQ_SOFT d.2
      if v.1 = 0 then (0, v.2)
      else create_domain W pl use_for_rfence clear_ipi send_ipi (Int.ofNat v.1) v.2
  else create_domain W pl use_for_rfence clear_ipi send_ipi 0 m

/-- Source `riscv_ipi_mux_destroy(d)`. -/
def riscv_ipi_mux_destroy (d : Nat) (m : Machine) : Machine :=
  if d = 0 ∨ m.st.ipi_mux_priv.domain ≠ d then m
  else
    let m1 := irq_domain_remove m.st.ipi_mux_priv.domain m
    let m2 :=
      if m1.st.ipi_mux_priv.parent_virq ≠ 0 then
        irq_dispose_mapping m1.st.ipi_mux_priv.parent_virq.toNat m1
      else m1
    { m2 with st := { m2.st with ipi_mux_priv := ipi_mux_zero } }

/-- A platform on which creation without the soft irq succeeds: the domain is
built at address 1 and the lines get virqs from 8 on. -/
def platform_ok : Platform :=
  { fwnode_alloc := 5, intc_domain := 0, soft_virq := 0, new_domain := 1, virq_base := 8,
    RV_IRQ_SOFT := 1 }

/-- A platform on which creation with the soft irq succeeds: INTC domain at
address 2, soft irq mapped to virq 3, new domain at address 1, lines from virq
8 on. -/
def platform_soft : Platform :=
  { fwnode_alloc := 5, intc_domain := 2, soft_virq := 3, new_domain := 1, virq_base := 8,
    RV_IRQ_SOFT := 1 }

/-- Whether a kernel call is one of the two lookups of the physical line made
by `riscv_ipi_mux_create` for `use_soft_irq`. -/
def is_lookup : KCall → Bool
  | KCall.irq_find_matching_fwnode _ => true
  | KCall.irq_create_mapping _ _ => true
  | _ => false

/-- The machine after a creation without the soft irq on `platform_ok`, with
both callbacks, from boot: an Active facility with handle 1. -/
def machine_active : Machine :=
  (riscv_ipi_mux_create 32 platform_ok false true true true boot).2

/-- The machine after a creation with the soft irq on `platform_soft`, with both
callbacks, from boot: an Active facility with handle 1 and parent virq 3. -/
def machine_soft : Machine :=
  (riscv_ipi_mux_create 32 platform_soft true true true true boot).2

/-- A platform on which the soft irq is found and mapped and the domain is
built, but no irq descriptor is left for the lines: `__irq_domain_alloc_irqs`
returns 0. -/
def platform_no_virq : Platform :=
  { fwnode_alloc := 5, intc_domain := 2, soft_virq := 3, new_domain := 1, virq_base := 0,
    RV_IRQ_SOFT := 1 }

/-- A platform on which a later allocation of lines gets its descriptors from
virq 40 on. -/
def platform_more : Platform :=
  { fwnode_alloc := 5, intc_domain := 0, soft_virq := 0, new_domain := 1, virq_base := 40,
    RV_IRQ_SOFT := 1 }

/-- Whether `ipi_mux_send_mask` can be entered for line `hwirq`: it is the
`ipi_send_mask` operation of `ipi_mux_chip`, and only `ipi_mux_domain_map` puts
that chip on an irq, so some irq must have been bound to `hwirq`. -/
def has_line (hwirq : Nat) (m : Machine) : Bool := m.lines.any (fun l => l.2.2 == hwirq)

/-- What can happen to the machine after boot: the two exported lifecycle
functions, an allocation of further lines from a domain that is alive, a send
on a bound line, a drain of at most `fuel` passes on a CPU, and the two hotplug
hooks. -/
inductive LifeOp where
  | create (pl : Platform) (use_soft_irq use_for_rfence clear_ipi send_ipi : Bool)
  | destroy (d : Nat)
  | alloc (pl : Platform) (d nr_irqs : Nat) (fwspec : irq_fwspec)
  | send (hwirq : Nat) (mask : List Nat)
  | drain (cpu fuel : Nat)
  | starting_cpu (cpu : Nat)
  | dying_cpu (cpu : Nat)

/-- One operation on the machine. An allocation from a domain that is not alive
and a send on a line that was never bound cannot be made and leave the machine
as it is; a drain is run for at most `fuel` passes and leaves the state those
passes reach. -/
def life_step (env : Env) (op : LifeOp) (m : Machine) : Machine :=
  match op with
  | LifeOp.create pl us rf c s => (riscv_ipi_mux_create env.W pl us rf c s m).2
  | LifeOp.destroy d => riscv_ipi_mux_destroy d m
  | LifeOp.alloc pl d nr_irqs fwspec =>
    if d ∈ m.domains then (__irq_domain_alloc_irqs env.W pl d nr_irqs fwspec m).2 else m
  | LifeOp.send hwirq mask =>
    if has_line hwirq m then { m with st := ipi_mux_send_mask env.W hwirq mask m.st } else m
  | LifeOp.drain cpu fuel => { m with st := (handle_irq_loop env cpu fuel m.st).1 }
  | LifeOp.starting_cpu cpu => (ipi_mux_starting_cpu cpu m).2
  | LifeOp.dying_cpu cpu => (ipi_mux_dying_cpu cpu m).2

/-- A sequence of operations on the machine, in order. -/
def life_run (env : Env) (ops : List LifeOp) (m : Machine) : Machine :=
  ops.foldl (fun st op => life_step env op st) m

/-- Source `ipi_mux_dummy(d)`: the empty function; `d` is the line of the
`struct irq_data` it is given. -/
def ipi_mux_dummy (_d : Nat) (m : Machine) : Machine := m

/-- Kernel `struct irq_chip` as far as `ipi_mux_chip` fills it: the mask, unmask
and send operations, each given the line of its `struct irq_data`. -/
structure irq_chip where
  irq_mask : Nat → Machine → Machine
  irq_unmask : Nat → Machine → Machine
  ipi_send_mask : Nat → List Nat → Machine → Machine

/-- Source `ipi_mux_chip`, the chip of every line of the multiplexer. -/
def ipi_mux_chip (W : Nat) : irq_chip :=
  { irq_mask := ipi_mux_dummy
    irq_unmask := ipi_mux_dummy
    ipi_send_mask := fun hwirq mask m => { m with st := ipi_mux_send_mask W hwirq mask m.st } }

/-- The events the drain loop of `cpu` makes by itself: the `clear_ipi` call, the
exchange and the `generic_handle_domain_irq` calls. What the handlers do and
the warning are left out. -/
def loop_event_on (cpu : Nat) : Event → Option Event
  | Event.clear_ipi c => if c = cpu then some (Event.clear_ipi c) else none
  | Event.xchg c v => if c = cpu then some (Event.xchg c v) else none
  | Event.deliver c i => if c = cpu then some (Event.deliver c i) else none
  | _ => none

/-- The events of the drain loop of `cpu` in `log`, in order. -/
def loop_events (cpu : Nat) (log : List Event) : List Event := log.filterMap (loop_event_on cpu)

/-- Where a reader of a drain trace stands: at the head of a pass, after the
`clear_ipi` call of a pass, or among the deliveries of a pass. -/
inductive TracePos where
  | head
  | cleared
  | delivering
deriving DecidableEq, Repr

/-- Whether `l`, read from position `pos`, is the trace of a whole drain on
`cpu`: passes made of the `clear_ipi` call (when `cb` says a callback is
registered, and no such call when it says none is), an exchange that reads a
value other than 0 and deliveries, and after them the `clear_ipi` call (likewise)
and an exchange that reads 0, with which the trace ends. -/
def is_drain_trace (cb : Bool) (cpu : Nat) : TracePos → List Event → Bool
  | _, [] => false
  | TracePos.head, Event.clear_ipi c :: l =>
    cb && decide (c = cpu) && is_drain_trace cb cpu TracePos.cleared l
  | TracePos.head, Event.xchg c v :: l =>
    !cb && decide (c = cpu) &&
      (if v = 0 then l.isEmpty else is_drain_trace cb cpu TracePos.delivering l)
  | TracePos.head, _ :: _ => false
  | TracePos.cleared, Event.xchg c v :: l =>
    decide (c = cpu) &&
      (if v = 0 then l.isEmpty else is_drain_trace cb cpu TracePos.delivering l)
  | TracePos.cleared, _ :: _ => false
  | TracePos.delivering, Event.deliver c _ :: l =>
    decide (c = cpu) && is_drain_trace cb cpu TracePos.delivering l
  | TracePos.delivering, Event.clear_ipi c :: l =>
    cb && decide (c = cpu) && is_drain_trace cb cpu TracePos.cleared l
  | TracePos.delivering, Event.xchg c v :: l =>
    !cb && decide (c = cpu) &&
      (if v = 0 then l.isEmpty else is_drain_trace cb cpu TracePos.delivering l)
  | TracePos.delivering, _ :: _ => false

/-- Whether a kernel call is a registration of the IPI virq range. -/
def is_set_range : KCall → Bool
  | KCall.riscv_ipi_set_virq_range _ _ _ => true
  | _ => false

/-- The part of `SysInv` that does not depend on the `send_ipi` callback: a reason
`r` armed for `C` is still in the pending set of `C` or among the bits the running
pass of the drain of `C` has yet to deliver. -/
def ArmedInv (env : Env) (y : Sys) : Prop :=
  ∀ C r, r < env.W → armed C r y.st.log = true →
    (y.st.ipi_mux_bits C 0).testBit r = true ∨
      ∃ irqs bit, y.drain C = DrainPC.delivering irqs bit ∧
        irqs.testBit r = true ∧ bit ≤ r

/-- The machine after creation on `platform_ok` and destruction of the handle:
no facility installed, the virq range still registered. -/
def machine_destroyed : Machine := riscv_ipi_mux_destroy 1 machine_active

end IpiMux

/-!
# Allwinner sun20i (D1) wakeup irqchip (drivers/irqchip/irq-sun20i.c)

The translation of a firmware interrupt specifier and the allocation of
interrupts in the hierarchy domain of the driver. `unsigned long` has
`BITS_PER_LONG` bits, a parameter `W` of the functions that compute with it;
`unsigned int` and the `u32` cells of a specifier have 32.
-/

namespace Sun20iIntc

/-- Source `SUN20I_HWIRQ_OFFSET`. -/
def SUN20I_HWIRQ_OFFSET : Nat := 16

/-- Source `SUN20I_NR_HWIRQS`. -/
def SUN20I_NR_HWIRQS : Nat := 160

/-- Modelled from the spec: kernel constant `IRQ_TYPE_SENSE_MASK` of
include/linux/irq.h, which is not under src/ and of which the spec says
nothing: the kernel's value `0x0000000f`. -/
def IRQ_TYPE_SENSE_MASK : Nat := 0xf

/-- Modelled from the spec: the errno `EINVAL`, which is not under src/ and of
which the spec says nothing: the kernel's value 22. -/
def EINVAL : Int := 22

/-- Kernel `struct irq_fwspec` as far as the driver reads it: the number of
cells and the `u32` cells. -/
structure irq_fwspec where
  param_count : Int
  param : Nat → Nat

/-- What the driver does to the interrupt hierarchy: `bound` lists the pairs
`(virq, hwirq)` set with `sun20i_intc_chip` by `irq_domain_set_hwirq_and_chip`,
`parent` the allocations `(virq, nr_irqs)` asked of the parent domain, both in
call order. -/
structure Hierarchy where
  bound : List (Nat × Nat)
  parent : List (Nat × Nat)
deriving DecidableEq, Repr

/-- Source `sun20i_intc_domain_translate(domain, fwspec, &hwirq, &type)`: the
error returned, or the values stored to `*hwirq` and `*type` when 0 is
returned. -/
def sun20i_intc_domain_translate (fwspec : irq_fwspec) : Except Int (Nat × Nat) :=
  if fwspec.param_count < 2 then Except.error (-EINVAL)
  else if fwspec.param 0 < SUN20I_HWIRQ_OFFSET then Except.error (-EINVAL)
  else Except.ok (fwspec.param 0, fwspec.param 1 &&& IRQ_TYPE_SENSE_MASK)

/-- Modelled from the spec: kernel `irq_domain_alloc_irqs_parent`, which is not
under src/ and of which the spec says nothing: the allocation is asked of the
parent domain, whose answer `ret` (0 or an error) is returned. -/
def irq_domain_alloc_irqs_parent (ret : Int) (virq nr_irqs : Nat) (h : Hierarchy) :
    Int × Hierarchy :=
  (ret, { h with parent := h.parent ++ [(virq, nr_irqs)] })

/-- Modelled from the spec: kernel `irq_domain_set_hwirq_and_chip(domain, virq,
hwirq, &sun20i_intc_chip, 0)`, which is not under src/ and of which the spec says
nothing: binds `virq` to `hwirq` with the chip of the driver. -/
def irq_domain_set_hwirq_and_chip (virq hwirq : Nat) (h : Hierarchy) : Hierarchy :=
  { h with bound := h.bound ++ [(virq, hwirq)] }

/-- The loop `for (i = 0; i < nr_irqs; ++i, ++hwirq, ++virq)` of
`sun20i_intc_domain_alloc` with `n` iterations to go: `hwirq` is an
`unsigned long`, `virq` an `unsigned int`. -/
def set_loop (W : Nat) : Nat → Nat → Nat → Hierarchy → Hierarchy
  | 0, _, _, h => h
  | n + 1, virq, hwirq, h =>
    set_loop W n ((virq + 1) % 2 ^ 32) ((hwirq + 1) % 2 ^ W)
      (irq_domain_set_hwirq_and_chip virq hwirq h)

/-- Source `sun20i_intc_domain_alloc(domain, virq, nr_irqs, arg)`, `arg` being the
specifier; `ret` is the answer of the parent domain. The sum `hwirq + nr_irqs` is
computed in `unsigned long`. -/
def sun20i_intc_domain_alloc (W : Nat) (ret : Int) (virq nr_irqs : Nat) (fwspec : irq_fwspec)
    (h : Hierarchy) : Int × Hierarchy :=
  match sun20i_intc_domain_translate fwspec with
  | Except.error e => (e, h)
  | Except.ok t =>
    if (t.1 + nr_irqs) % 2 ^ W > SUN20I_HWIRQ_OFFSET + SUN20I_NR_HWIRQS then (-EINVAL, h)
    else
      let r := irq_domain_alloc_irqs_parent ret virq nr_irqs h
      if r.1 ≠ 0 then r
      else (0, set_loop W nr_irqs virq t.1 r.2)

/-- The specifier with the cells `a` and `b`. -/
def fwspec_of (a b : Nat) : irq_fwspec :=
  { param_count := 2, param := fun i => if i = 0 then a else b }

/-- A hierarchy in which nothing is bound yet. -/
def empty : Hierarchy := { bound := [], parent := [] }

end Sun20iIntc

/-!
# Allwinner sun8i-v536 PWM controller (drivers/pwm/pwm-sun8i-v536.c)

The computation and the register writes of `sun8i_pwm_config`. `unsigned long`
has `BITS_PER_LONG` bits, a parameter `W`; `unsigned long long` and `u64` have 64,
`u32` and `unsigned int` 32. The registers of the controller are a map from
offsets to `u32` values.
-/

namespace Sun8iPwm

/-- Modelled from the spec: kernel macro `BIT(n)`, which is not under src/ and of
which the spec says nothing: `1UL << n`. -/
def BIT (n : Nat) : Nat := 1 <<< n

/-- Modelled from the spec: kernel macro `GENMASK(h, l)`, which is not under src/
and of which the spec says nothing: the bits `l` to `h`, both included. -/
def GENMASK (h l : Nat) : Nat := (2 ^ (h + 1) - 1) - (2 ^ l - 1)

/-- The complement `~x` of an `unsigned long`. -/
def lnot (W x : Nat) : Nat := 2 ^ W - 1 - x % 2 ^ W

/-- Source `PWM_GET_CLK_OFFSET(chan)`. -/
def PWM_GET_CLK_OFFSET (chan : Nat) : Nat := 0x20 + (chan >>> 1) * 0x4

/-- Source `PWM_CLK_APB_SCR`. -/
def PWM_CLK_APB_SCR : Nat := BIT 7

/-- Source `PWM_DIV_M`. -/
def PWM_DIV_M : Nat := 0

/-- Source `PWM_DIV_M_MASK`. -/
def PWM_DIV_M_MASK : Nat := GENMASK 3 PWM_DIV_M

/-- Source `PWM_CTL_REG(chan)`. -/
def PWM_CTL_REG (chan : Nat) : Nat := 0x100 + 0x20 * chan

/-- Source `PWM_PRESCAL_K`. -/
def PWM_PRESCAL_K : Nat := 0

/-- Source `PWM_PRESCAL_K_MASK`. -/
def PWM_PRESCAL_K_MASK : Nat := GENMASK 7 PWM_PRESCAL_K

/-- Source `PWM_PERIOD_REG(chan)`. -/
def PWM_PERIOD_REG (chan : Nat) : Nat := 0x104 + 0x20 * chan

/-- Source `PWM_ENTIRE_CYCLE`. -/
def PWM_ENTIRE_CYCLE : Nat := 16

/-- Source `PWM_ENTIRE_CYCLE_MASK`. -/
def PWM_ENTIRE_CYCLE_MASK : Nat := GENMASK 31 PWM_ENTIRE_CYCLE

/-- Source `PWM_ACT_CYCLE`. -/
def PWM_ACT_CYCLE : Nat := 0

/-- Source `PWM_ACT_CYCLE_MASK`. -/
def PWM_ACT_CYCLE_MASK : Nat := GENMASK 15 PWM_ACT_CYCLE

/-- Source `SET_BITS(shift, mask, reg, val)`, computed in `unsigned long`:
`((reg) & ~mask) | (val << (shift))`. -/
def SET_BITS (W shift mask reg val : Nat) : Nat :=
  (reg &&& lnot W mask) ||| ((val <<< shift) % 2 ^ W)

/-- Source `PWM_OSC_CLK`. -/
def PWM_OSC_CLK : Nat := 24000000

/-- Source `PWM_PRESCALER_MAX`. -/
def PWM_PRESCALER_MAX : Nat := 256

/-- Source `PWM_CLK_DIV_M__MAX`. -/
def PWM_CLK_DIV_M__MAX : Nat := 9

/-- Source `PWM_ENTIRE_CYCLE_MAX`. -/
def PWM_ENTIRE_CYCLE_MAX : Nat := 65536

/-- Modelled from the spec: kernel constant `NSEC_PER_SEC`, which is not under
src/ and of which the spec says nothing: 1000000000. -/
def NSEC_PER_SEC : Nat := 1000000000

/-- Modelled from the spec: the errno `EINVAL`, which is not under src/ and of
which the spec says nothing: the kernel's value 22. -/
def EINVAL : Int := 22

/-- Modelled from the spec: kernel macro `do_div(n, base)`, which is not under
src/ and of which the spec says nothing: the quotient of the 64-bit `n` by
`base` taken as a `uint32_t`; `none` stands for the division by 0. -/
def do_div (n base : Nat) : Option Nat :=
  if base % 2 ^ 32 = 0 then none else some (n / (base % 2 ^ 32))

/-- Modelled from the spec: kernel macro `DIV_ROUND_CLOSEST_ULL(x, divisor)`,
which is not under src/ and of which the spec says nothing:
`_tmp = (x) + (divisor) / 2; do_div(_tmp, divisor); _tmp`, the sum being an
`unsigned long long`. -/
def DIV_ROUND_CLOSEST_ULL (x divisor : Nat) : Option Nat :=
  do_div ((x + divisor / 2) % 2 ^ 64) divisor

/-- Kernel `struct pwm_state` as far as `sun8i_pwm_config` reads it. -/
structure pwm_state where
  period : Nat
  duty_cycle : Nat
deriving DecidableEq, Repr

/-- Source `struct sun8i_pwm_chip` as far as `sun8i_pwm_config` uses it: the
registers behind `base`, by offset, and the rate of `clk` as `clk_get_rate`
gives it. -/
structure sun8i_pwm_chip where
  regs : Nat → Nat
  clk_rate : Nat

/-- Source `sun8i_pwm_readl(chip, offset)`. -/
def sun8i_pwm_readl (pc : sun8i_pwm_chip) (offset : Nat) : Nat := pc.regs offset

/-- Source `sun8i_pwm_writel(chip, val, offset)`, `val` being a `u32`. -/
def sun8i_pwm_writel (pc : sun8i_pwm_chip) (val offset : Nat) : sun8i_pwm_chip :=
  { pc with regs := fun o => if o = offset then val % 2 ^ 32 else pc.regs o }

/-- The inner loop `for (prescaler = 0; prescaler < PWM_PRESCALER_MAX;
prescaler++)` of `sun8i_pwm_config` from the current `prescaler`, with `n`
iterations to go: the `prescaler` and the `entire_cycles` with which the loop is
left through `goto calc_end`, if it is. -/
def find_prescaler (W c div_m : Nat) : Nat → Nat → Option (Nat × Nat)
  | 0, _ => none
  | n + 1, prescaler =>
    let entire_cycles := ((c % 2 ^ W) >>> div_m) / (prescaler + 1)
    if entire_cycles ≤ PWM_ENTIRE_CYCLE_MAX then some (prescaler, entire_cycles)
    else find_prescaler W c div_m n (prescaler + 1)

/-- The outer loop `for (div_m = 0; div_m < PWM_CLK_DIV_M__MAX; div_m++)` from
the current `div_m`, with `n` iterations to go: `div_m`, `prescaler` and
`entire_cycles` at `calc_end`, or `none` when both loops run out. -/
def find_div_m (W c : Nat) : Nat → Nat → Option (Nat × Nat × Nat)
  | 0, _ => none
  | n + 1, div_m =>
    match find_prescaler W c div_m PWM_PRESCALER_MAX 0 with
    | some r => some (div_m, r.1, r.2)
    | none => find_div_m W c n (div_m + 1)

/-- The value of `c` before the loops of `sun8i_pwm_config`: the clock rate
`clk` times the period, divided by `NSEC_PER_SEC`. -/
def period_cycles (clk period_ns : Nat) : Option Nat :=
  DIV_ROUND_CLOSEST_ULL ((clk * period_ns) % 2 ^ 64) NSEC_PER_SEC

/-- The values of `active_cycles` and `entire_cycles` after label `calc_end`
of `sun8i_pwm_config` (lines 208-212), from the `entire_cycles` of the loops. -/
def calc_end (W entire_cycles duty_ns period_ns : Nat) : Option (Nat × Nat) :=
  match DIV_ROUND_CLOSEST_ULL ((entire_cycles * duty_ns) % 2 ^ 64) period_ns with
  | none => none
  | some c => some (c % 2 ^ W, if entire_cycles = 0 then entire_cycles + 1 else entire_cycles)

/-- The register writes of `sun8i_pwm_config` after `calc_end` (lines
214-228): `div_m`, the prescaler, and the active and entire cycles. -/
def write_config (W hwpwm div_m prescaler active_cycles entire_cycles : Nat)
    (pc : sun8i_pwm_chip) : sun8i_pwm_chip :=
  let pc1 := sun8i_pwm_writel pc
    (SET_BITS W PWM_DIV_M PWM_DIV_M_MASK (sun8i_pwm_readl pc (PWM_GET_CLK_OFFSET hwpwm)) div_m)
    (PWM_GET_CLK_OFFSET hwpwm)
  let pc2 := sun8i_pwm_writel pc1
    (SET_BITS W PWM_PRESCAL_K PWM_PRESCAL_K_MASK (sun8i_pwm_readl pc1 (PWM_CTL_REG hwpwm))
      prescaler)
    (PWM_CTL_REG hwpwm)
  let config := (SET_BITS W PWM_ACT_CYCLE PWM_ACT_CYCLE_MASK
    (sun8i_pwm_readl pc2 (PWM_PERIOD_REG hwpwm)) active_cycles) % 2 ^ 32
  sun8i_pwm_writel pc2
    (SET_BITS W PWM_ENTIRE_CYCLE PWM_ENTIRE_CYCLE_MASK config (entire_cycles - 1))
    (PWM_PERIOD_REG hwpwm)

/-- The clock selection at the head of `sun8i_pwm_config` (lines 163-175): the
clock rate chosen and the chip after the write of the clock register. -/
def select_clock (W hwpwm period_ns : Nat) (pc : sun8i_pwm_chip) : Nat × sun8i_pwm_chip :=
  if period_ns > 334 then
    (PWM_OSC_CLK,
     sun8i_pwm_writel pc
      (sun8i_pwm_readl pc (PWM_GET_CLK_OFFSET hwpwm) &&& lnot W PWM_CLK_APB_SCR)
      (PWM_GET_CLK_OFFSET hwpwm))
  else
    (pc.clk_rate,
     sun8i_pwm_writel pc
      (sun8i_pwm_readl pc (PWM_GET_CLK_OFFSET hwpwm) ||| PWM_CLK_APB_SCR)
      (PWM_GET_CLK_OFFSET hwpwm))

/-- Source `sun8i_pwm_config(chip, pwm, state)` for channel `hwpwm`: the value
returned and the chip after the call; `none` stands for a division by 0. -/
def sun8i_pwm_config (W hwpwm : Nat) (state : pwm_state) (pc : sun8i_pwm_chip) :
    Option (Int × sun8i_pwm_chip) :=
  let k := select_clock W hwpwm state.period pc
  match period_cycles k.1 state.period with
  | none => none
  | some c =>
    match find_div_m W c PWM_CLK_DIV_M__MAX 0 with
    | none => some (-EINVAL, k.2)
    | some r =>
      match calc_end W r.2.2 state.duty_cycle state.period with
      | none => none
      | some a => some (0, write_config W hwpwm r.1 r.2.1 a.1 a.2 k.2)

/-- The cycles `sun8i_pwm_config` computes for a chip clocked at `clk`:
`div_m`, `prescaler`, `active_cycles` and `entire_cycles` as they are written to
the registers, when the function gets that far. -/
def config_cycles (W clk : Nat) (state : pwm_state) : Option (Nat × Nat × Nat × Nat) :=
  match period_cycles clk state.period with
  | none => none
  | some c =>
    match find_div_m W c PWM_CLK_DIV_M__MAX 0 with
    | none => none
    | some r =>
      match calc_end W r.2.2 state.duty_cycle state.period with
      | none => none
      | some a => some (r.1, r.2.1, a.1, a.2)

/-- The field `ACT_CYCLE` of a value of the period register. -/
def act_cycle (reg : Nat) : Nat := (reg &&& PWM_ACT_CYCLE_MASK) >>> PWM_ACT_CYCLE

/-- The field `ENTIRE_CYCLE` of a value of the period register. -/
def entire_cycle (reg : Nat) : Nat := (reg &&& PWM_ENTIRE_CYCLE_MASK) >>> PWM_ENTIRE_CYCLE

/-- A controller with every register 0, on a 100 MHz bus clock. -/
def chip0 : sun8i_pwm_chip := { regs := fun _ => 0, clk_rate := 100000000 }

end Sun8iPwm

/-!
# Allwinner R329 LED controller (drivers/leds/leds-sun50i-r329.c)

The update path of the driver: `sun50i_r329_ledc_brightness_set`, the interrupt
handler `sun50i_r329_ledc_irq` and the transfer functions they call. An `int` is
an integer, a `u32` a natural number below `2 ^ 32`; the registers are a map
from offsets to the last value written. The spinlock makes the two critical
sections atomic, and the operations are run one after the other.
-/

namespace Sun50iLedc

/-- Source `LEDC_CTRL_REG`. -/
def LEDC_CTRL_REG : Nat := 0x0000

/-- Source `LEDC_CTRL_REG_DATA_LENGTH`. -/
def LEDC_CTRL_REG_DATA_LENGTH : Nat := 0x1fff <<< 16

/-- Source `LEDC_CTRL_REG_LEDC_EN`. -/
def LEDC_CTRL_REG_LEDC_EN : Nat := 1 <<< 0

/-- Source `LEDC_DATA_REG`. -/
def LEDC_DATA_REG : Nat := 0x0014

/-- Source `LEDC_INT_CTRL_REG`. -/
def LEDC_INT_CTRL_REG : Nat := 0x001c

/-- Source `LEDC_INT_CTRL_REG_FIFO_CPUREQ_INT_EN`. -/
def LEDC_INT_CTRL_REG_FIFO_CPUREQ_INT_EN : Nat := 1 <<< 1

/-- Source `LEDC_INT_STS_REG`. -/
def LEDC_INT_STS_REG : Nat := 0x0020

/-- Source `LEDC_INT_STS_REG_FIFO_CPUREQ_INT`. -/
def LEDC_INT_STS_REG_FIFO_CPUREQ_INT : Nat := 1 <<< 1

/-- Source `LEDC_INT_STS_REG_TRANS_FINISH_INT`. -/
def LEDC_INT_STS_REG_TRANS_FINISH_INT : Nat := 1 <<< 0

/-- Source `LEDC_FIFO_DEPTH`. -/
def LEDC_FIFO_DEPTH : Int := 32

/-- Conversion of an `int` to `u32`. -/
def u32_of_int (x : Int) : Nat := (x % 2 ^ 32).toNat

/-- Conversion of a `u32` to `int`. -/
def int_of_u32 (x : Nat) : Int := if x < 2 ^ 31 then Int.ofNat x else Int.ofNat x - 2 ^ 32

/-- The complement `~x` of a `u32`. -/
def lnot32 (x : Nat) : Nat := 2 ^ 32 - 1 - x % 2 ^ 32

/-- What the driver asks of the hardware and of the DMA engine, in program
order. -/
inductive Event where
  /-- `sun50i_r329_ledc_start_xfer` is entered with `length`. -/
  | start_xfer (length : Int)
  /-- `sun50i_r329_ledc_dma_xfer` is called with `length` and returns `ret`. -/
  | dma_xfer (length ret : Int)
  /-- The call `iowrite32_rep(priv->base + LEDC_DATA_REG, priv->buffer + offset, burst)`. -/
  | fifo_write (offset burst : Nat)
  /-- The warning "Failed to set up DMA". -/
  | dma_warn (ret : Int)
deriving DecidableEq, Repr

/-- What the DMA engine answers to one `sun50i_r329_ledc_dma_xfer`: no
descriptor, a submit error, or the transfer is issued. -/
inductive DmaAnswer where
  | no_desc
  | submit_error
  | issued
deriving DecidableEq, Repr

/-- Source `struct sun50i_r329_ledc` as far as the update path uses it, with
the registers behind `base` and the log of what was asked of the hardware. -/
structure sun50i_r329_ledc where
  regs : Nat → Nat
  buffer : Nat → Nat
  pio_length : Int
  pio_offset : Int
  next_length : Int
  xfer_active : Bool
  log : List Event

/-- Kernel `readl(priv->base + offset)`. -/
def readl (priv : sun50i_r329_ledc) (offset : Nat) : Nat := priv.regs offset

/-- Kernel `writel(val, priv->base + offset)`. -/
def writel (val offset : Nat) (priv : sun50i_r329_ledc) : sun50i_r329_ledc :=
  { priv with regs := fun o => if o = offset then val % 2 ^ 32 else priv.regs o }

/-- Source `sun50i_r329_ledc_dma_xfer(priv, length)`: `-ENOMEM` without a
descriptor, `-EIO` on a submit error, 0 once the transfer is issued. -/
def sun50i_r329_ledc_dma_xfer (ans : DmaAnswer) (length : Int) (priv : sun50i_r329_ledc) :
    Int × sun50i_r329_ledc :=
  let ret : Int :=
    match ans with
    | DmaAnswer.no_desc => -12
    | DmaAnswer.submit_error => -5
    | DmaAnswer.issued => 0
  (ret, { priv with log := priv.log ++ [Event.dma_xfer length ret] })

/-- Source `sun50i_r329_ledc_pio_xfer(priv, length)`. -/
def sun50i_r329_ledc_pio_xfer (length : Int) (priv : sun50i_r329_ledc) : sun50i_r329_ledc :=
  let len : Int := if length ≠ 0 then length else priv.pio_length
  let offset : Nat := if length ≠ 0 then 0 else u32_of_int priv.pio_offset
  let burst : Nat :=
    if length ≠ 0 then u32_of_int (min length LEDC_FIFO_DEPTH)
    else u32_of_int (min len (LEDC_FIFO_DEPTH / 2))
  let p1 := { priv with log := priv.log ++ [Event.fifo_write offset burst] }
  if burst < u32_of_int len then
    let p2 := { p1 with
      pio_length := int_of_u32 ((u32_of_int len + 2 ^ 32 - burst) % 2 ^ 32)
      pio_offset := int_of_u32 ((offset + burst) % 2 ^ 32) }
    if offset = 0 then
      writel (readl p2 LEDC_INT_CTRL_REG ||| LEDC_INT_CTRL_REG_FIFO_CPUREQ_INT_EN)
        LEDC_INT_CTRL_REG p2
    else p2
  else
    writel (readl p1 LEDC_INT_CTRL_REG &&& lnot32 LEDC_INT_CTRL_REG_FIFO_CPUREQ_INT_EN)
      LEDC_INT_CTRL_REG p1

/-- Source `sun50i_r329_ledc_start_xfer(priv, length)`; `ans` is the answer of the
DMA engine, asked only for more than `LEDC_FIFO_DEPTH` LEDs. -/
def sun50i_r329_ledc_start_xfer (ans : DmaAnswer) (length : Int) (priv : sun50i_r329_ledc) :
    sun50i_r329_ledc :=
  let p0 := { priv with log := priv.log ++ [Event.start_xfer length] }
  let val := (readl p0 LEDC_CTRL_REG &&& lnot32 LEDC_CTRL_REG_DATA_LENGTH) |||
    (((u32_of_int length <<< 16) % 2 ^ 32) ||| LEDC_CTRL_REG_LEDC_EN)
  let p1 := writel val LEDC_CTRL_REG p0
  if length > LEDC_FIFO_DEPTH then
    let r := sun50i_r329_ledc_dma_xfer ans length p1
    if r.1 = 0 then r.2
    else
      sun50i_r329_ledc_pio_xfer length { r.2 with log := r.2.log ++ [Event.dma_warn r.1] }
  else sun50i_r329_ledc_pio_xfer length p1

/-- Source `sun50i_r329_ledc_irq(irq, dev_id)`; `val` is the value read from
`LEDC_INT_STS_REG`, which the hardware sets. -/
def sun50i_r329_ledc_irq (ans : DmaAnswer) (val : Nat) (priv : sun50i_r329_ledc) :
    sun50i_r329_ledc :=
  let p1 :=
    if val &&& LEDC_INT_STS_REG_TRANS_FINISH_INT ≠ 0 then
      let next_length := priv.next_length
      let p0 :=
        if next_length ≠ 0 then { priv with next_length := 0 }
        else { priv with xfer_active := false }
      if next_length ≠ 0 then sun50i_r329_ledc_start_xfer ans next_length p0 else p0
    else if val &&& LEDC_INT_STS_REG_FIFO_CPUREQ_INT ≠ 0 then
      sun50i_r329_ledc_pio_xfer 0 priv
    else priv
  writel val LEDC_INT_STS_REG p1

/-- Source `sun50i_r329_ledc_brightness_set(cdev, brightness)` for the LED at
index `addr` of `priv->leds`; `b0`, `b1`, `b2` are the brightness values of the
three sub-LEDs after `led_mc_calc_color_components`, which is not under src/. -/
def sun50i_r329_ledc_brightness_set (ans : DmaAnswer) (addr b0 b1 b2 : Nat)
    (priv : sun50i_r329_ledc) : sun50i_r329_ledc :=
  let p0 := { priv with
    buffer := fun a =>
      if a = addr then ((b0 <<< 16) ||| (b1 <<< 8) ||| b2) % 2 ^ 32 else priv.buffer a }
  let next_length := max p0.next_length (Int.ofNat addr + 1)
  let xfer_active := p0.xfer_active
  let p1 :=
    if xfer_active then { p0 with next_length := next_length }
    else { p0 with xfer_active := true }
  if !xfer_active then sun50i_r329_ledc_start_xfer ans next_length p1 else p1

/-- The state `sun50i_r329_ledc_probe` leaves: the structure comes from
`devm_kzalloc`, so that no transfer is active and none is asked for. -/
def probe (regs buffer : Nat → Nat) : sun50i_r329_ledc :=
  { regs := regs, buffer := buffer, pio_length := 0, pio_offset := 0, next_length := 0,
    xfer_active := false, log := [] }

/-- What happens to the controller after probe: a brightness is set, or the
interrupt fires with a value of the status register. -/
inductive Op where
  | brightness_set (ans : DmaAnswer) (addr b0 b1 b2 : Nat)
  | irq (ans : DmaAnswer) (val : Nat)
deriving DecidableEq, Repr

/-- One operation. -/
def step (op : Op) (priv : sun50i_r329_ledc) : sun50i_r329_ledc :=
  match op with
  | Op.brightness_set ans addr b0 b1 b2 => sun50i_r329_ledc_brightness_set ans addr b0 b1 b2 priv
  | Op.irq ans val => sun50i_r329_ledc_irq ans val priv

/-- A sequence of operations, in order. -/
def run (ops : List Op) (priv : sun50i_r329_ledc) : sun50i_r329_ledc :=
  ops.foldl (fun p op => step op p) priv

/-- The length of a transfer started. -/
def start_length : Event → Option Int
  | Event.start_xfer length => some length
  | _ => none

/-- The lengths of the transfers started, in order. -/
def started (log : List Event) : List Int := log.filterMap start_length

/-- Registers, and a LED buffer, that hold zeroes. -/
def all_zero : Nat → Nat := fun _ => 0

/-- Two brightness updates, for the LEDs 2 and 4: the first starts a transfer of
3 LEDs, the second finds it active and asks for 5. -/
def two_updates : List Op :=
  [Op.brightness_set DmaAnswer.issued 2 1 2 3, Op.brightness_set DmaAnswer.no_desc 4 1 2 3]

end Sun50iLedc

/-!
# GPIO library of the ClockworkPi boards (wiringPi/wiringCPi.c), D1 configuration

The file as it compiles under `CONFIG_CLOCKWORKPI_D1`: the pin functions
`CPiPinMode`, `CPiDigitalWrite`, `CPiDigitalRead`, and the register functions
they call. An `int` is an integer, an `unsigned int` a natural number below
`2 ^ 32`, and a `size_t` one below `2 ^ 64`, the D1 being a 64-bit machine; `>>`
on an `int` is the arithmetic shift. The mapping `gpio_base` is a map from word
indices to words. A subscript outside `CPI_PIN_MASK` yields no value: the
functions return the fault that names the two subscripts instead. Of the
`printf` calls, those under `wiringPiDebug` are left out and the others are the
messages of the state.
-/

namespace WiringCPi

/-- Source `GPIOA_BASE` of wiringCPi.h under `CONFIG_CLOCKWORKPI_D1`. -/
def GPIOA_BASE : Nat := 0x02000000

/-- Source `GPIO_BASE_MAP` of wiringCPi.h under `CONFIG_CLOCKWORKPI_D1`. -/
def GPIO_BASE_MAP : Nat := GPIOA_BASE + 0x30

/-- Source `GPIO_NUM` of wiringCPi.h under `CONFIG_CLOCKWORKPI_D1`. -/
def GPIO_NUM : Int := 256

/-- Source `MAP_SIZE`. -/
def MAP_SIZE : Nat := 4 * 1024

/-- Source `MAP_MASK`. -/
def MAP_MASK : Nat := MAP_SIZE - 1

/-- Source `WPI_MODE_BCM`. -/
def WPI_MODE_BCM : Int := 0

/-- Source `WPI_MODE_RAW`. -/
def WPI_MODE_RAW : Int := 1

/-- Modelled from the spec: the pin mode `INPUT` of wiringPi.h, which is not under
src/ and of which the spec says nothing: the value 0 of that header. -/
def INPUT : Int := 0

/-- Modelled from the spec: the pin mode `OUTPUT` of wiringPi.h, which is not under
src/ and of which the spec says nothing: the value 1 of that header. -/
def OUTPUT : Int := 1

/-- Source `bcmToGpioCPi[64]` under `CONFIG_CLOCKWORKPI_D1`. -/
def bcmToGpioCPi : List Int :=
  [11, 10,
   105, 171,
   170, 178,
   177, 176,
   83, 84,
   12, 97,
   98, 99,
   166, 167,

   169, 168,
   173, 172,
   174, 175,
   160, 161,
   162, 163,
   164, 165,
   113, 112,
   111, 110,

   8, 9,
   109, 108,
   107, 106,
   76, 75,
   86, 74,
   77, 81,
   78, 79,
   -1, -1,

   -1, -1, -1, -1, -1, -1, -1, -1, -1, -1, -1, -1, -1, -1, -1, -1]

/-- Source `CPI_PIN_MASK[6][32]` under `CONFIG_CLOCKWORKPI_D1`: one row for each
of the banks PB, PC, PD, PE, PF, PG. -/
def CPI_PIN_MASK : List (List Int) :=
  [[1, 1, 1, 1, 1, 1, 1, 1, 1, 1, 1, 1, 1, -1, -1, -1, -1, -1, -1, -1, -1, -1, -1, -1, -1, -1,
      -1, -1, -1, -1, -1, -1],
   [1, 1, 1, 1, 1, 1, 1, 1, -1, -1, -1, -1, -1, -1, -1, -1, -1, -1, -1, -1, -1, -1, -1, -1, -1,
      -1, -1, -1, -1, -1, -1, -1],
   [1, 1, 1, 1, 1, 1, 1, 1, 1, 1, 1, 1, 1, 1, 1, 1, 1, 1, 1, 1, 1, 1, 1, -1, -1, -1, -1, -1, -1,
      -1, -1, -1],
   [1, 1, 1, 1, 1, 1, 1, 1, 1, 1, 1, 1, 1, 1, 1, 1, 1, 1, -1, -1, -1, -1, -1, -1, -1, -1, -1, -1,
      -1, -1, -1, -1],
   [1, 1, 1, 1, 1, 1, 1, -1, -1, -1, -1, -1, -1, -1, -1, -1, -1, -1, -1, -1, -1, -1, -1, -1, -1,
      -1, -1, -1, -1, -1, -1, -1],
   [1, 1, 1, 1, 1, 1, 1, 1, 1, 1, 1, 1, 1, 1, 1, 1, 1, 1, 1, -1, -1, -1, -1, -1, -1, -1, -1, -1,
      -1, -1, -1, -1]]

/-- The value an `int` has when it is converted to `unsigned int`. -/
def to_unsigned (x : Int) : Nat := (x % 2 ^ 32).toNat

/-- The value an `unsigned int` has when it is converted to `int`. -/
def to_int (x : Nat) : Int :=
  if x % 2 ^ 32 < 2 ^ 31 then Int.ofNat (x % 2 ^ 32) else Int.ofNat (x % 2 ^ 32) - 2 ^ 32

/-- The value an `int` has when it is converted to `size_t`. -/
def to_size_t (x : Int) : Nat := (x % 2 ^ 64).toNat

/-- Bitwise complement of an `unsigned int`. -/
def lnot32 (x : Nat) : Nat := 2 ^ 32 - 1 - x % 2 ^ 32

/-- The expression `x >> n` on an `int`: the arithmetic shift, which rounds
towards minus infinity. -/
def asr (x : Int) (n : Nat) : Int := x / 2 ^ n

/-- What the library prints outside of debugging. -/
inductive Message where
  | invalid_pin (pin : Int)
  | unused_pin
  | unknown_mode
deriving DecidableEq, Repr

/-- A subscript pair `[bank][index]` outside `CPI_PIN_MASK[6][32]`. -/
structure Fault where
  bank : Int
  index : Int
deriving DecidableEq, Repr

/-- The globals of the file and the mapped registers: `wpimode`, the words behind
`gpio_base`, and the messages printed so far. -/
structure World where
  wpimode : Int
  gpio_base : Nat → Nat
  out : List Message

/-- The expression `CPI_PIN_MASK[bank][index]`. -/
def pin_mask_at (bank index : Int) : Except Fault Int :=
  if 0 ≤ bank ∧ bank < 6 ∧ 0 ≤ index ∧ index < 32 then
    Except.ok ((CPI_PIN_MASK.getD bank.toNat []).getD index.toNat 0)
  else Except.error { bank := bank, index := index }

/-- Source `readR(addr)` under `CONFIG_CLOCKWORKPI_D1`. -/
def readR (addr : Nat) (w : World) : Nat :=
  let mmap_base := addr &&& lnot32 MAP_MASK
  let mmap_seek := ((addr + 2 ^ 32 - mmap_base) % 2 ^ 32) >>> 2
  w.gpio_base mmap_seek

/-- Source `writeR(val, addr)` under `CONFIG_CLOCKWORKPI_D1`. -/
def writeR (val addr : Nat) (w : World) : World :=
  let mmap_base := addr &&& lnot32 MAP_MASK
  let mmap_seek := ((addr + 2 ^ 32 - mmap_base) % 2 ^ 32) >>> 2
  { w with gpio_base := fun i => if i = mmap_seek then val else w.gpio_base i }

/-- Source `CPi_set_gpio_mode(pin, mode)` under `CONFIG_CLOCKWORKPI_D1`; `bank`,
`index` and `phyaddr` are `unsigned int`; `offset` is an `int` that is never
negative, `(index % 8) << 2`. The function has no `return` statement, and the
value it returns is not modelled. -/
def CPi_set_gpio_mode (pin mode : Int) (w : World) : Except Fault World :=
  let bank : Nat := to_unsigned (asr pin 5)
  let index : Nat := (to_unsigned pin + 2 ^ 32 - (bank <<< 5) % 2 ^ 32) % 2 ^ 32
  let offset : Nat :=
    (((index + 2 ^ 32 - ((index >>> 3) <<< 3) % 2 ^ 32) % 2 ^ 32) <<< 2) % 2 ^ 32
  let phyaddr : Nat := (GPIO_BASE_MAP + bank * 0x30 + ((index >>> 3) <<< 2)) % 2 ^ 32
  match pin_mask_at (Int.ofNat bank) (Int.ofNat index) with
  | Except.error f => Except.error f
  | Except.ok m =>
    if m ≠ -1 then
      let regval := readR phyaddr w
      if INPUT = mode then
        let regval := regval &&& lnot32 (7 <<< offset)
        Except.ok (writeR regval phyaddr w)
      else if OUTPUT = mode then
        let regval := regval &&& lnot32 (7 <<< offset)
        let regval := regval ||| (1 <<< offset) % 2 ^ 32
        Except.ok (writeR regval phyaddr w)
      else Except.ok { w with out := w.out ++ [Message.unknown_mode] }
    else Except.ok { w with out := w.out ++ [Message.unused_pin] }

/-- Source `CPi_digitalWrite(pin, value)` under `CONFIG_CLOCKWORKPI_D1`; `bank`,
`index`, `phyaddr` and `regval` are `unsigned int`. -/
def CPi_digitalWrite (pin value : Int) (w : World) : Except Fault World :=
  let bank : Nat := to_unsigned (asr pin 5)
  let index : Nat := (to_unsigned pin + 2 ^ 32 - (bank <<< 5) % 2 ^ 32) % 2 ^ 32
  let phyaddr : Nat := (GPIO_BASE_MAP + bank * 0x30 + 0x10) % 2 ^ 32
  match pin_mask_at (Int.ofNat bank) (Int.ofNat index) with
  | Except.error f => Except.error f
  | Except.ok m =>
    if m ≠ -1 then
      let regval := readR phyaddr w
      if 0 = value then
        Except.ok (writeR (regval &&& lnot32 (1 <<< index)) phyaddr w)
      else
        Except.ok (writeR (regval ||| (1 <<< index) % 2 ^ 32) phyaddr w)
    else Except.ok w

/-- Source `CPi_digitalRead(pin)` under `CONFIG_CLOCKWORKPI_D1`; `bank`, `index`
and `val` are `int`, `phyaddr` is `unsigned int`. -/
def CPi_digitalRead (pin : Int) (w : World) : Except Fault Int :=
  let bank : Int := asr pin 5
  let index : Int := pin - bank * 2 ^ 5
  let phyaddr : Nat := to_unsigned (Int.ofNat GPIO_BASE_MAP + bank * 0x30 + 0x10)
  match pin_mask_at bank index with
  | Except.error f => Except.error f
  | Except.ok m =>
    if m ≠ -1 then
      let val : Int := to_int (readR phyaddr w)
      let val := asr val index.toNat
      Except.ok (val % 2)
    else Except.ok 0

/-- Source `CPiSetupRaw()`. -/
def CPiSetupRaw (w : World) : World := { w with wpimode := WPI_MODE_RAW }

/-- Source `CPiPinMode(pin, mode)`; `sizeof(bcmToGpioCPi)/sizeof(bcmToGpioCPi[0])`
is the `size_t` 64, to which `pin` is converted for the comparison. -/
def CPiPinMode (pin mode : Int) (w : World) : Except Fault World :=
  if pin ≥ GPIO_NUM then Except.ok { w with out := w.out ++ [Message.invalid_pin pin] }
  else if w.wpimode = WPI_MODE_BCM then
    if to_size_t pin ≥ bcmToGpioCPi.length then
      Except.ok { w with out := w.out ++ [Message.invalid_pin pin] }
    else CPi_set_gpio_mode (bcmToGpioCPi.getD pin.toNat 0) mode w
  else CPi_set_gpio_mode pin mode w

/-- Source `CPiDigitalWrite(pin, value)`. -/
def CPiDigitalWrite (pin value : Int) (w : World) : Except Fault World :=
  if pin ≥ GPIO_NUM then Except.ok { w with out := w.out ++ [Message.invalid_pin pin] }
  else if w.wpimode = WPI_MODE_BCM then
    if to_size_t pin ≥ bcmToGpioCPi.length then
      Except.ok { w with out := w.out ++ [Message.invalid_pin pin] }
    else CPi_digitalWrite (bcmToGpioCPi.getD pin.toNat 0) value w
  else CPi_digitalWrite pin value w

/-- Source `CPiDigitalRead(pin)`: the value returned and the state. -/
def CPiDigitalRead (pin : Int) (w : World) : Except Fault (Int × World) :=
  if pin ≥ GPIO_NUM then Except.ok (-1, { w with out := w.out ++ [Message.invalid_pin pin] })
  else if w.wpimode = WPI_MODE_BCM then
    if to_size_t pin ≥ bcmToGpioCPi.length then
      Except.ok (-1, { w with out := w.out ++ [Message.invalid_pin pin] })
    else (CPi_digitalRead (bcmToGpioCPi.getD pin.toNat 0) w).map (fun value => (value, w))
  else (CPi_digitalRead pin w).map (fun value => (value, w))

/-- The state after `CPiSetup`, whose last statement sets the BCM mode, with the
registers holding zeroes. -/
def world_bcm : World := { wpimode := WPI_MODE_BCM, gpio_base := fun _ => 0, out := [] }

/-- The state after `CPiSetup` and `CPiSetupRaw`. -/
def world_raw : World := CPiSetupRaw world_bcm

/-- The fault of a call, if it made one. -/
def fault_of {α : Type} : Except Fault α → Option Fault
  | Except.error f => some f
  | Except.ok _ => none

/-- The messages of a call that returned. -/
def messages_of : Except Fault World → Option (List Message)
  | Except.error _ => none
  | Except.ok w => some w.out

end WiringCPi

namespace IpiMux

/-! ## Properties

### The bit scan -/

theorem find_bit_from_filter (addr : Nat) : ∀ (n off : Nat),
    (List.range' off n).filter (fun i => addr.testBit i) =
      if find_bit_from addr n off < off + n then
        find_bit_from addr n off ::
          (List.range' (find_bit_from addr n off + 1)
            (off + n - (find_bit_from addr n off + 1))).filter (fun i => addr.testBit i)
      else [] := by
  intro n
  induction n with
  | zero => intro off; simp [find_bit_from]
  | succ n ih =>
    intro off
    rw [List.range'_succ, find_bit_from]
    by_cases h : addr.testBit off = true
    · have e : off + (n + 1) - (off + 1) = n := by omega
      simp [h, e]
    · have h' : addr.testBit off = false := by simpa using h
      rw [List.filter_cons_of_neg (by simp [h']), ih (off + 1)]
      have e1 : off + 1 + n = off + (n + 1) := by omega
      simp only [h', e1]
      simp

theorem find_bit_from_le (addr : Nat) : ∀ (n off : Nat), find_bit_from addr n off ≤ off + n := by
  intro n
  induction n with
  | zero => intro off; simp [find_bit_from]
  | succ n ih =>
    intro off
    rw [find_bit_from]
    split
    · omega
    · have := ih (off + 1); omega

theorem find_bit_from_ge (addr : Nat) : ∀ (n off : Nat), off ≤ find_bit_from addr n off := by
  intro n
  induction n with
  | zero => intro off; simp [find_bit_from]
  | succ n ih =>
    intro off
    rw [find_bit_from]
    split
    · omega
    · have := ih (off + 1); omega

theorem find_next_bit_ge (addr size off : Nat) (h : off ≤ size) :
    off ≤ find_next_bit addr size off := by
  unfold find_next_bit
  split
  · exact find_bit_from_ge addr _ _
  · exact h

/-- The set bits at or above `off` and below `size`. -/
theorem filter_range_find_next_bit (addr size off : Nat) (h : off ≤ size) :
    (List.range' off (size - off)).filter (fun i => addr.testBit i) =
      if find_next_bit addr size off < size then
        find_next_bit addr size off ::
          (List.range' (find_next_bit addr size off + 1)
            (size - (find_next_bit addr size off + 1))).filter (fun i => addr.testBit i)
      else [] := by
  unfold find_next_bit
  by_cases hlt : off < size
  · have e : off + (size - off) = size := by omega
    have := find_bit_from_filter addr (size - off) off
    rw [e] at this
    simp only [hlt, if_true]
    exact this
  · have e : size - off = 0 := by omega
    simp [hlt, e]

theorem for_each_set_bit_from_eq {σ : Type} (addr size : Nat) (body : Nat → σ → σ) :
    ∀ (n off : Nat) (s : σ), off ≤ size → size - off ≤ n →
      for_each_set_bit_from addr size body n (find_next_bit addr size off) s =
        ((List.range' off (size - off)).filter (fun i => addr.testBit i)).foldl
          (fun st i => body i st) s := by
  intro n
  induction n with
  | zero =>
    intro off s h1 h2
    have e : size - off = 0 := by omega
    simp [for_each_set_bit_from, e]
  | succ n ih =>
    intro off s h1 h2
    rw [for_each_set_bit_from, filter_range_find_next_bit addr size off h1]
    by_cases hlt : find_next_bit addr size off < size
    · simp only [hlt, if_true, List.foldl_cons]
      have hge := find_next_bit_ge addr size off h1
      exact ih (find_next_bit addr size off + 1) _ (by omega) (by omega)
    · simp [hlt]

theorem for_each_set_bit_eq {σ : Type} (addr size : Nat) (body : Nat → σ → σ) (s : σ) :
    for_each_set_bit addr size body s =
      (set_bits size addr).foldl (fun st i => body i st) s := by
  unfold for_each_set_bit find_first_bit set_bits
  rw [for_each_set_bit_from_eq addr size body size 0 s (by omega) (by omega)]
  simp [List.range_eq_range']

/-! ### The set bits of a word -/

theorem mem_set_bits (W p i : Nat) : i ∈ set_bits W p ↔ i < W ∧ p.testBit i = true := by
  simp [set_bits]

theorem set_bits_sorted (W p : Nat) : (set_bits W p).Sorted (· < ·) := by
  unfold set_bits
  exact List.Pairwise.filter _ (List.pairwise_lt_range W)

theorem set_bits_nodup (W p : Nat) : (set_bits W p).Nodup :=
  (List.nodup_range W).filter _

theorem testBit_lt_of_lt_two_pow {W p i : Nat} (hp : p < 2 ^ W) (h : p.testBit i = true) :
    i < W := by
  by_contra hge
  have hle : 2 ^ W ≤ 2 ^ i := Nat.pow_le_pow_right (by decide) (by omega)
  have : p.testBit i = false := Nat.testBit_lt_two_pow (by omega)
  simp [this] at h

theorem count_set_bits (W p i : Nat) :
    (set_bits W p).count i = if i < W ∧ p.testBit i = true then 1 else 0 := by
  by_cases h : i < W ∧ p.testBit i = true
  · rw [if_pos h]
    exact List.count_eq_one_of_mem (set_bits_nodup W p) ((mem_set_bits W p i).2 h)
  · rw [if_neg h]
    exact List.count_eq_zero_of_not_mem (fun hm => h ((mem_set_bits W p i).1 hm))

theorem set_bits_zero (W : Nat) : set_bits W 0 = [] := by
  simp [set_bits]

/-! ### Bit arithmetic of `set_bit` -/

theorem testBit_lor_one_shiftLeft (x r i : Nat) :
    (x ||| (1 <<< r)).testBit i = (x.testBit i || decide (r = i)) := by
  rw [Nat.testBit_lor, Nat.one_shiftLeft, Nat.testBit_two_pow]

theorem lor_lor_self (x m : Nat) : (x ||| m) ||| m = x ||| m := by
  rw [Nat.lor_assoc, Nat.or_self]

/-! ### `ipi_mux_send_mask` -/

theorem foldl_set_bit_priv (W r : Nat) : ∀ (T : List Nat) (s : State),
    (T.foldl (fun st cpu => set_bit W r cpu st) s).ipi_mux_priv = s.ipi_mux_priv := by
  intro T
  induction T with
  | nil => intro s; rfl
  | cons a T ih => intro s; rw [List.foldl_cons, ih]; rfl

theorem foldl_set_bit_log (W r : Nat) : ∀ (T : List Nat) (s : State),
    (T.foldl (fun st cpu => set_bit W r cpu st) s).log = s.log ++ T.map (Event.set_bit r) := by
  intro T
  induction T with
  | nil => intro s; simp
  | cons a T ih => intro s; rw [List.foldl_cons, ih]; simp [set_bit]

theorem foldl_set_bit_bits (W r : Nat) : ∀ (T : List Nat) (s : State) (c k : Nat),
    (T.foldl (fun st cpu => set_bit W r cpu st) s).ipi_mux_bits c k =
      if c ∈ T ∧ k = r / W then s.ipi_mux_bits c k ||| (1 <<< (r % W))
      else s.ipi_mux_bits c k := by
  intro T
  induction T with
  | nil => intro s c k; simp
  | cons a T ih =>
    intro s c k
    rw [List.foldl_cons, ih]
    by_cases hk : k = r / W
    · by_cases ha : c = a
      · by_cases hT : c ∈ T <;> simp [set_bit, hk, ha, hT, lor_lor_self]
      · by_cases hT : c ∈ T <;> simp [set_bit, hk, ha, hT]
    · simp [set_bit, hk]

theorem send_mask_priv (W r : Nat) (T : List Nat) (s : State) :
    (ipi_mux_send_mask W r T s).ipi_mux_priv = s.ipi_mux_priv := by
  unfold ipi_mux_send_mask
  simp only [foldl_set_bit_priv]
  split <;> simp [send_ipi, foldl_set_bit_priv]

theorem send_mask_bits (W r : Nat) (T : List Nat) (s : State) (c k : Nat) :
    (ipi_mux_send_mask W r T s).ipi_mux_bits c k =
      if c ∈ T ∧ k = r / W then s.ipi_mux_bits c k ||| (1 <<< (r % W))
      else s.ipi_mux_bits c k := by
  unfold ipi_mux_send_mask
  simp only [foldl_set_bit_priv]
  split <;> simp only [send_ipi, foldl_set_bit_bits]

theorem send_mask_log (W r : Nat) (T : List Nat) (s : State) :
    (ipi_mux_send_mask W r T s).log =
      s.log ++ T.map (Event.set_bit r) ++
        (if s.ipi_mux_priv.send_ipi then [Event.send_ipi T] else []) := by
  unfold ipi_mux_send_mask
  simp only [foldl_set_bit_priv]
  split <;> simp [send_ipi, foldl_set_bit_log]

/-- A send of `r` with `r < W` ORs `1 << r` into the pending set of the targets
and touches no other pending set. -/
theorem send_mask_PendingSet (W r : Nat) (hr : r < W) (T : List Nat) (s : State) (c : Nat) :
    PendingSet (ipi_mux_send_mask W r T s) c =
      if c ∈ T then PendingSet s c ||| (1 <<< r) else PendingSet s c := by
  unfold PendingSet
  rw [send_mask_bits]
  have h1 : r / W = 0 := Nat.div_eq_of_lt hr
  have h2 : r % W = r := Nat.mod_eq_of_lt hr
  simp [h1, h2]

/-! ### Handlers and one drain pass -/

theorem send_mask_filterMap {β : Type} (f : Event → Option β) (W r : Nat) (T : List Nat)
    (s : State) (hf1 : ∀ m, f (Event.send_ipi m) = none)
    (hf2 : ∀ c ∈ T, f (Event.set_bit r c) = none) :
    (ipi_mux_send_mask W r T s).log.filterMap f = s.log.filterMap f := by
  rw [send_mask_log]
  have h : (T.map (Event.set_bit r)).filterMap f = [] := by
    rw [List.filterMap_eq_nil_iff]
    intro e he
    obtain ⟨c, hc, rfl⟩ := List.mem_map.1 he
    exact hf2 c hc
  split <;> simp [List.filterMap_append, h, hf1]

theorem foldl_send_priv (W : Nat) : ∀ (L : List (Nat × List Nat)) (s : State),
    (L.foldl (fun st sd => ipi_mux_send_mask W sd.1 sd.2 st) s).ipi_mux_priv = s.ipi_mux_priv := by
  intro L
  induction L with
  | nil => intro s; rfl
  | cons a L ih => intro s; rw [List.foldl_cons, ih, send_mask_priv]

theorem foldl_send_filterMap {β : Type} (f : Event → Option β) (W : Nat)
    (hf1 : ∀ m, f (Event.send_ipi m) = none) :
    ∀ (L : List (Nat × List Nat)) (s : State),
      (∀ sd ∈ L, ∀ c ∈ sd.2, f (Event.set_bit sd.1 c) = none) →
      (L.foldl (fun st sd => ipi_mux_send_mask W sd.1 sd.2 st) s).log.filterMap f =
        s.log.filterMap f := by
  intro L
  induction L with
  | nil => intro s _; rfl
  | cons a L ih =>
    intro s h
    rw [List.foldl_cons, ih _ (fun sd hsd => h sd (List.mem_cons_of_mem _ hsd)),
      send_mask_filterMap f W a.1 a.2 s hf1 (h a (List.mem_cons_self _ _))]

theorem foldl_send_bits_frame (W c : Nat) :
    ∀ (L : List (Nat × List Nat)) (s : State), (∀ sd ∈ L, c ∉ sd.2) →
      (L.foldl (fun st sd => ipi_mux_send_mask W sd.1 sd.2 st) s).ipi_mux_bits c =
        s.ipi_mux_bits c := by
  intro L
  induction L with
  | nil => intro s _; rfl
  | cons a L ih =>
    intro s h
    rw [List.foldl_cons, ih _ (fun sd hsd => h sd (List.mem_cons_of_mem _ hsd))]
    funext k
    rw [send_mask_bits]
    simp [h a (List.mem_cons_self _ _)]

theorem handle_one_priv (env : Env) (cpu i : Nat) (s : State) :
    (handle_one env cpu i s).ipi_mux_priv = s.ipi_mux_priv := by
  unfold handle_one generic_handle_domain_irq run_handler
  by_cases hm : env.mapped i = true
  · simp [hm, foldl_send_priv]
  · simp [hm]

theorem handle_one_filterMap {β : Type} (f : Event → Option β) (env : Env) (cpu i : Nat)
    (s : State) (hf1 : ∀ m, f (Event.send_ipi m) = none)
    (hf2 : ∀ st, ∀ sd ∈ env.handler cpu i st, ∀ c ∈ sd.2, f (Event.set_bit sd.1 c) = none) :
    (handle_one env cpu i s).log.filterMap f =
      s.log.filterMap f ++ (line_events env cpu [i]).filterMap f := by
  unfold handle_one generic_handle_domain_irq run_handler
  by_cases hm : env.mapped i = true
  · simp only [hm, if_true, ne_eq, not_true_eq_false, if_false]
    rw [foldl_send_filterMap f env.W hf1 _ _ (hf2 _)]
    simp [line_events, hm, List.filterMap_append]
  · simp [hm, line_events, List.filterMap_append]

theorem handle_one_bits_frame (env : Env) (cpu i c : Nat) (s : State)
    (hq : ∀ st, ∀ sd ∈ env.handler cpu i st, c ∉ sd.2) :
    (handle_one env cpu i s).ipi_mux_bits c = s.ipi_mux_bits c := by
  unfold handle_one generic_handle_domain_irq run_handler
  by_cases hm : env.mapped i = true
  · simp only [hm, if_true, ne_eq, not_true_eq_false, if_false]
    rw [foldl_send_bits_frame env.W c _ _ (hq _)]
  · simp [hm]

theorem line_events_append (env : Env) (cpu : Nat) (l1 l2 : List Nat) :
    line_events env cpu (l1 ++ l2) = line_events env cpu l1 ++ line_events env cpu l2 := by
  induction l1 with
  | nil => rfl
  | cons a l ih => simp [line_events, ih]

theorem foldl_handle_one_priv (env : Env) (cpu : Nat) : ∀ (l : List Nat) (s : State),
    (l.foldl (fun st i => handle_one env cpu i st) s).ipi_mux_priv = s.ipi_mux_priv := by
  intro l
  induction l with
  | nil => intro s; rfl
  | cons a l ih => intro s; rw [List.foldl_cons, ih, handle_one_priv]

theorem foldl_handle_one_filterMap {β : Type} (f : Event → Option β) (env : Env) (cpu : Nat)
    (hf1 : ∀ m, f (Event.send_ipi m) = none)
    (hf2 : ∀ i st, ∀ sd ∈ env.handler cpu i st, ∀ c ∈ sd.2, f (Event.set_bit sd.1 c) = none) :
    ∀ (l : List Nat) (s : State),
      (l.foldl (fun st i => handle_one env cpu i st) s).log.filterMap f =
        s.log.filterMap f ++ (line_events env cpu l).filterMap f := by
  intro l
  induction l with
  | nil => intro s; simp [line_events]
  | cons a l ih =>
    intro s
    rw [List.foldl_cons, ih, handle_one_filterMap f env cpu a s hf1 (hf2 a)]
    have : line_events env cpu (a :: l) = line_events env cpu [a] ++ line_events env cpu l :=
      line_events_append env cpu [a] l
    rw [this, List.filterMap_append, List.append_assoc]

theorem foldl_handle_one_bits_frame (env : Env) (cpu c : Nat)
    (hq : ∀ i st, ∀ sd ∈ env.handler cpu i st, c ∉ sd.2) : ∀ (l : List Nat) (s : State),
    (l.foldl (fun st i => handle_one env cpu i st) s).ipi_mux_bits c = s.ipi_mux_bits c := by
  intro l
  induction l with
  | nil => intro s; rfl
  | cons a l ih => intro s; rw [List.foldl_cons, ih, handle_one_bits_frame env cpu a c s (hq a)]

theorem deliver_pending_eq (env : Env) (cpu irqs : Nat) (s : State) :
    deliver_pending env cpu irqs s =
      (set_bits env.W irqs).foldl (fun st i => handle_one env cpu i st) s := by
  unfold deliver_pending
  rw [for_each_set_bit_eq]

theorem deliver_pending_priv (env : Env) (cpu irqs : Nat) (s : State) :
    (deliver_pending env cpu irqs s).ipi_mux_priv = s.ipi_mux_priv := by
  rw [deliver_pending_eq, foldl_handle_one_priv]

theorem deliver_pending_filterMap {β : Type} (f : Event → Option β) (env : Env)
    (cpu irqs : Nat) (s : State) (hf1 : ∀ m, f (Event.send_ipi m) = none)
    (hf2 : ∀ i st, ∀ sd ∈ env.handler cpu i st, ∀ c ∈ sd.2, f (Event.set_bit sd.1 c) = none) :
    (deliver_pending env cpu irqs s).log.filterMap f =
      s.log.filterMap f ++ (line_events env cpu (set_bits env.W irqs)).filterMap f := by
  rw [deliver_pending_eq, foldl_handle_one_filterMap f env cpu hf1 hf2]

theorem deliver_pending_bits_frame (env : Env) (cpu irqs c : Nat) (s : State)
    (hq : ∀ i st, ∀ sd ∈ env.handler cpu i st, c ∉ sd.2) :
    (deliver_pending env cpu irqs s).ipi_mux_bits c = s.ipi_mux_bits c := by
  rw [deliver_pending_eq, foldl_handle_one_bits_frame env cpu c hq]

/-! ### Projections of the events of a pass -/

theorem delivered_line_events (env : Env) (cpu c : Nat) (l : List Nat) :
    delivered c (line_events env cpu l) = if c = cpu then l else [] := by
  induction l with
  | nil => simp [line_events, delivered]
  | cons a l ih =>
    unfold delivered at ih ⊢
    by_cases h : c = cpu
    · subst h
      by_cases hm : env.mapped a = true <;> simp_all [line_events, deliver_on]
    · have h' : ¬ cpu = c := fun e => h e.symm
      by_cases hm : env.mapped a = true <;> simp_all [line_events, deliver_on]

theorem handled_line_events (env : Env) (cpu : Nat) (l : List Nat) :
    handled cpu (line_events env cpu l) = l.filter (fun i => env.mapped i) := by
  induction l with
  | nil => simp [line_events, handled]
  | cons a l ih =>
    unfold handled at ih ⊢
    by_cases hm : env.mapped a = true <;> simp_all [line_events, handler_on]

theorem warned_line_events (env : Env) (cpu : Nat) (l : List Nat) :
    warned cpu (line_events env cpu l) = l.filter (fun i => !env.mapped i) := by
  induction l with
  | nil => simp [line_events, warned]
  | cons a l ih =>
    unfold warned at ih ⊢
    by_cases hm : env.mapped a = true <;> simp_all [line_events, warn_on]

/-! ### The drain loop -/

theorem delivered_cons_deliver (c c' j : Nat) (l : List Event) :
    delivered c (Event.deliver c' j :: l) =
      if c' = c then j :: delivered c l else delivered c l := by
  by_cases h : c' = c <;> simp [delivered, deliver_on, List.filterMap_cons, h]

theorem count_deliver_eq (c i : Nat) (log : List Event) :
    log.count (Event.deliver c i) = (delivered c log).count i := by
  induction log with
  | nil => rfl
  | cons e l ih =>
    cases e with
    | deliver c' j =>
      rw [delivered_cons_deliver, List.count_cons, ih]
      by_cases hc : c' = c
      · subst hc
        by_cases hj : j = i
        · subst hj; simp
        · simp [hj, List.count_cons]
      · have : ¬ (c' = c ∧ j = i) := fun h => hc h.1
        simp [hc, this]
    | _ => rw [List.count_cons, ih]; simp [delivered, deliver_on, List.filterMap_cons]

/-- A pass that finds the pending set empty: the callback, the exchange, and
the loop is left. -/
theorem handle_irq_loop_empty (env : Env) (c fuel : Nat) (s : State)
    (h0 : s.ipi_mux_bits c 0 = 0) :
    handle_irq_loop env c (fuel + 1) s =
      ((xchg c (if s.ipi_mux_priv.clear_ipi then clear_ipi c s else s)).2, true) := by
  rw [handle_irq_loop]
  have h : (xchg c (if s.ipi_mux_priv.clear_ipi then clear_ipi c s else s)).1 = 0 := by
    split <;> simpa [xchg, clear_ipi] using h0
  simp only [h, if_true]

/-- A pass that finds the pending set non-empty: the lines are delivered and
the loop goes round. -/
theorem handle_irq_loop_nonempty (env : Env) (c fuel : Nat) (s : State)
    (h0 : s.ipi_mux_bits c 0 ≠ 0) :
    handle_irq_loop env c (fuel + 1) s =
      handle_irq_loop env c fuel
        (deliver_pending env c (s.ipi_mux_bits c 0)
          (xchg c (if s.ipi_mux_priv.clear_ipi then clear_ipi c s else s)).2) := by
  rw [handle_irq_loop]
  have h : (xchg c (if s.ipi_mux_priv.clear_ipi then clear_ipi c s else s)).1 = s.ipi_mux_bits c 0 := by
    split <;> simp [xchg, clear_ipi]
  simp only [h, h0, if_false]

theorem xchg_clear_priv (c : Nat) (s : State) :
    (xchg c (if s.ipi_mux_priv.clear_ipi then clear_ipi c s else s)).2.ipi_mux_priv = s.ipi_mux_priv := by
  split <;> simp [xchg, clear_ipi]

theorem xchg_clear_bits (c : Nat) (s : State) (c' k : Nat) :
    (xchg c (if s.ipi_mux_priv.clear_ipi then clear_ipi c s else s)).2.ipi_mux_bits c' k =
      if c' = c ∧ k = 0 then 0 else s.ipi_mux_bits c' k := by
  split <;> simp [xchg, clear_ipi]

theorem xchg_clear_log (c : Nat) (s : State) :
    (xchg c (if s.ipi_mux_priv.clear_ipi then clear_ipi c s else s)).2.log =
      s.log ++ (if s.ipi_mux_priv.clear_ipi then [Event.clear_ipi c] else []) ++
        [Event.xchg c (s.ipi_mux_bits c 0)] := by
  split <;> simp [xchg, clear_ipi]

theorem xchg_clear_filterMap {β : Type} (f : Event → Option β) (c : Nat) (s : State)
    (hf3 : ∀ c', f (Event.clear_ipi c') = none) (hf4 : ∀ c' v, f (Event.xchg c' v) = none) :
    (xchg c (if s.ipi_mux_priv.clear_ipi then clear_ipi c s else s)).2.log.filterMap f =
      s.log.filterMap f := by
  rw [xchg_clear_log]
  split <;> simp [List.filterMap_append, hf3, hf4]

/-- With handlers that do not send to the draining CPU, the drain returns within
two passes, leaves the pending set empty, and has made exactly the deliveries of
one pass over the pending set found at entry. -/
theorem drain_quiet (env : Env) (c : Nat)
    (hq : ∀ i st, ∀ sd ∈ env.handler c i st, c ∉ sd.2) (fuel : Nat) (s : State) :
    (handle_irq_loop env c (fuel + 2) s).2 = true ∧
    (handle_irq_loop env c (fuel + 2) s).1.ipi_mux_priv = s.ipi_mux_priv ∧
    (handle_irq_loop env c (fuel + 2) s).1.ipi_mux_bits c 0 = 0 ∧
    ∀ (β : Type) (f : Event → Option β), (∀ m, f (Event.send_ipi m) = none) →
      (∀ i st, ∀ sd ∈ env.handler c i st, ∀ c' ∈ sd.2, f (Event.set_bit sd.1 c') = none) →
      (∀ c', f (Event.clear_ipi c') = none) → (∀ c' v, f (Event.xchg c' v) = none) →
      (handle_irq_loop env c (fuel + 2) s).1.log.filterMap f =
        s.log.filterMap f ++
          (line_events env c (set_bits env.W (PendingSet s c))).filterMap f := by
  by_cases h0 : s.ipi_mux_bits c 0 = 0
  · rw [handle_irq_loop_empty env c (fuel + 1) s h0]
    refine ⟨rfl, xchg_clear_priv c s, ?_, ?_⟩
    · rw [xchg_clear_bits]; simp
    · intro β f _ _ hf3 hf4
      rw [xchg_clear_filterMap f c s hf3 hf4]
      simp [PendingSet, h0, set_bits_zero, line_events]
  · rw [handle_irq_loop_nonempty env c (fuel + 1) s h0]
    have hb : (deliver_pending env c (s.ipi_mux_bits c 0)
        (xchg c (if s.ipi_mux_priv.clear_ipi then clear_ipi c s else s)).2).ipi_mux_bits c 0 = 0 := by
      rw [deliver_pending_bits_frame env c _ c _ hq, xchg_clear_bits]; simp
    rw [handle_irq_loop_empty env c fuel _ hb]
    refine ⟨rfl, ?_, ?_, ?_⟩
    · rw [xchg_clear_priv, deliver_pending_priv, xchg_clear_priv]
    · rw [xchg_clear_bits]; simp
    · intro β f hf1 hf2 hf3 hf4
      rw [xchg_clear_filterMap f c _ hf3 hf4, deliver_pending_filterMap f env c _ _ hf1 hf2,
        xchg_clear_filterMap f c s hf3 hf4]
      rfl

/-- A drain on `c` whose handlers do not send to `c'` never writes to the words of `c'`. -/
theorem handle_irq_loop_frame (env : Env) (c c' : Nat) (hne : c' ≠ c)
    (hq : ∀ i st, ∀ sd ∈ env.handler c i st, c' ∉ sd.2) :
    ∀ (fuel : Nat) (s : State),
      (handle_irq_loop env c fuel s).1.ipi_mux_bits c' = s.ipi_mux_bits c' := by
  intro fuel
  induction fuel with
  | zero => intro s; rfl
  | succ n ih =>
    intro s
    by_cases h0 : s.ipi_mux_bits c 0 = 0
    · rw [handle_irq_loop_empty env c n s h0]
      funext k
      rw [xchg_clear_bits]; simp [hne]
    · rw [handle_irq_loop_nonempty env c n s h0, ih,
        deliver_pending_bits_frame env c _ c' _ hq]
      funext k
      rw [xchg_clear_bits]; simp [hne]

/-! ### Consequences for the drain with handlers that do not send to the draining CPU -/

theorem drain_quiet_delivered (env : Env) (c : Nat)
    (hq : ∀ i st, ∀ sd ∈ env.handler c i st, c ∉ sd.2) (fuel : Nat) (s : State) :
    delivered c (handle_irq_loop env c (fuel + 2) s).1.log =
      delivered c s.log ++ set_bits env.W (PendingSet s c) := by
  have h := (drain_quiet env c hq fuel s).2.2.2 Nat
    (deliver_on c)
    (fun _ => rfl) (fun _ _ _ _ _ _ => rfl) (fun _ => rfl) (fun _ _ => rfl)
  have h2 := delivered_line_events env c c (set_bits env.W (PendingSet s c))
  unfold delivered at h2 ⊢
  rw [h, h2, if_pos rfl]

theorem drain_quiet_warned (env : Env) (c : Nat)
    (hq : ∀ i st, ∀ sd ∈ env.handler c i st, c ∉ sd.2) (fuel : Nat) (s : State) :
    warned c (handle_irq_loop env c (fuel + 2) s).1.log =
      warned c s.log ++ (set_bits env.W (PendingSet s c)).filter (fun i => !env.mapped i) := by
  have h := (drain_quiet env c hq fuel s).2.2.2 Nat
    (warn_on c)
    (fun _ => rfl) (fun _ _ _ _ _ _ => rfl) (fun _ => rfl) (fun _ _ => rfl)
  have h2 := warned_line_events env c (set_bits env.W (PendingSet s c))
  unfold warned at h2 ⊢
  rw [h, h2]

theorem drain_quiet_handled (env : Env) (c : Nat)
    (hq : ∀ i st, ∀ sd ∈ env.handler c i st, c ∉ sd.2) (fuel : Nat) (s : State) :
    handled c (handle_irq_loop env c (fuel + 2) s).1.log =
      handled c s.log ++ (set_bits env.W (PendingSet s c)).filter (fun i => env.mapped i) := by
  have h := (drain_quiet env c hq fuel s).2.2.2 Nat
    (handler_on c)
    (fun _ => rfl) (fun _ _ _ _ _ _ => rfl) (fun _ => rfl) (fun _ _ => rfl)
  have h2 := handled_line_events env c (set_bits env.W (PendingSet s c))
  unfold handled at h2 ⊢
  rw [h, h2]

theorem handle_irq_of_loop (env : Env) (c fuel : Nat) (s : State)
    (h : (handle_irq_loop env c fuel s).2 = true) :
    riscv_ipi_mux_handle_irq env c fuel s = some (handle_irq_loop env c fuel s).1 := by
  simp [riscv_ipi_mux_handle_irq, h]

theorem handle_irq_eq_some (env : Env) (c fuel : Nat) (s s' : State)
    (h : riscv_ipi_mux_handle_irq env c fuel s = some s') :
    s' = (handle_irq_loop env c fuel s).1 := by
  unfold riscv_ipi_mux_handle_irq at h
  by_cases hb : (handle_irq_loop env c fuel s).2 = true
  · simp only [hb, if_true] at h
    exact (Option.some.inj h).symm
  · simp [hb] at h

theorem count_filter_set_bits (W p i : Nat) (q : Nat → Bool) :
    ((set_bits W p).filter q).count i =
      if (i < W ∧ p.testBit i = true) ∧ q i = true then 1 else 0 := by
  by_cases hq : q i = true
  · rw [List.count_filter hq, count_set_bits]
    simp [hq]
  · rw [List.count_eq_zero_of_not_mem (fun hm => hq (List.mem_filter.1 hm).2)]
    simp [hq]

/-! ### Reading send and deliver events of one reason on one CPU -/

theorem armed_from_iff (cpu r : Nat) : ∀ (l : List Event) (a : Bool),
    l.foldl (fun a e =>
        if e = Event.set_bit r cpu then true
        else if e = Event.deliver cpu r then false
        else a) a = true ↔
      (∃ x y, l = x ++ Event.set_bit r cpu :: y ∧ Event.deliver cpu r ∉ y) ∨
        (a = true ∧ Event.deliver cpu r ∉ l) := by
  intro l
  induction l with
  | nil => intro a; simp
  | cons e l ih =>
    intro a
    rw [List.foldl_cons, ih]
    by_cases hS : e = Event.set_bit r cpu
    · subst hS
      simp only [if_true, true_and]
      constructor
      · rintro (⟨x, y, rfl, hy⟩ | h)
        · exact Or.inl ⟨Event.set_bit r cpu :: x, y, rfl, hy⟩
        · exact Or.inl ⟨[], l, rfl, h⟩
      · rintro (⟨x, y, hxy, hy⟩ | ⟨_, h⟩)
        · rcases List.cons_eq_append_iff.1 hxy with ⟨rfl, h2⟩ | ⟨x', rfl, h2⟩
          · injection h2 with _ h3
            subst h3
            exact Or.inr hy
          · exact Or.inl ⟨x', y, h2, hy⟩
        · exact Or.inr (fun hm => h (List.mem_cons_of_mem _ hm))
    · by_cases hD : e = Event.deliver cpu r
      · subst hD
        simp only [hS, if_false, if_true]
        constructor
        · rintro (⟨x, y, rfl, hy⟩ | ⟨h, _⟩)
          · exact Or.inl ⟨Event.deliver cpu r :: x, y, rfl, hy⟩
          · cases h
        · rintro (⟨x, y, hxy, hy⟩ | ⟨_, h⟩)
          · rcases List.cons_eq_append_iff.1 hxy with ⟨rfl, h2⟩ | ⟨x', rfl, h2⟩
            · injection h2 with h3 _
              exact absurd h3.symm hS
            · exact Or.inl ⟨x', y, h2, hy⟩
          · exact absurd (List.mem_cons_self _ _) h
      · simp only [hS, hD, if_false]
        constructor
        · rintro (⟨x, y, rfl, hy⟩ | ⟨ha, h⟩)
          · exact Or.inl ⟨e :: x, y, rfl, hy⟩
          · refine Or.inr ⟨ha, fun hm => ?_⟩
            rcases List.mem_cons.1 hm with h1 | h1
            · exact hD h1.symm
            · exact h h1
        · rintro (⟨x, y, hxy, hy⟩ | ⟨ha, h⟩)
          · rcases List.cons_eq_append_iff.1 hxy with ⟨rfl, h2⟩ | ⟨x', rfl, h2⟩
            · injection h2 with h3 _
              exact absurd h3.symm hS
            · exact Or.inl ⟨x', y, h2, hy⟩
          · exact Or.inr ⟨ha, fun hm => h (List.mem_cons_of_mem _ hm)⟩

/-- Reason `r` is armed for `cpu` at the end of a log exactly when the log holds a
send of `r` to `cpu` with no delivery of `r` on `cpu` after it. -/
theorem armed_iff (cpu r : Nat) (l : List Event) :
    armed cpu r l = true ↔
      ∃ x y, l = x ++ Event.set_bit r cpu :: y ∧ Event.deliver cpu r ∉ y := by
  unfold armed
  rw [armed_from_iff]
  simp

theorem noSpurious_iff_armed (cpu r : Nat) (log : List Event) :
    NoSpurious cpu r log ↔
      ∀ pre post, log = pre ++ Event.deliver cpu r :: post → armed cpu r pre = true := by
  unfold NoSpurious
  constructor
  · intro h pre post e; exact (armed_iff cpu r pre).2 (h pre post e)
  · intro h pre post e; exact (armed_iff cpu r pre).1 (h pre post e)

theorem noLost_iff_armed (cpu r : Nat) (log : List Event) :
    NoLost cpu r log ↔ armed cpu r log = false := by
  rw [← Bool.not_eq_true, armed_iff]
  unfold NoLost
  constructor
  · rintro h ⟨x, y, e, hy⟩
    exact hy (h x y e)
  · intro h pre post e
    by_contra hn
    exact h ⟨pre, post, e, hn⟩

theorem rel_on_set_bit_self (cpu r : Nat) : rel_on cpu r (Event.set_bit r cpu) = some true := by
  simp [rel_on]

theorem rel_on_deliver_self (cpu r : Nat) : rel_on cpu r (Event.deliver cpu r) = some false := by
  simp [rel_on]

theorem rel_on_other (cpu r : Nat) (e : Event) (hS : e ≠ Event.set_bit r cpu)
    (hD : e ≠ Event.deliver cpu r) : rel_on cpu r e = none := by
  cases e with
  | set_bit h c =>
    have : ¬ (h = r ∧ c = cpu) := fun hh => hS (by rw [hh.1, hh.2])
    simp [rel_on, this]
  | deliver c h =>
    have : ¬ (c = cpu ∧ h = r) := fun hh => hD (by rw [hh.1, hh.2])
    simp [rel_on, this]
  | _ => rfl

theorem alternates_iff_from (cpu r : Nat) : ∀ (log : List Event) (a : Bool),
    (∀ pre post, log = pre ++ Event.deliver cpu r :: post →
      pre.foldl (fun a e =>
        if e = Event.set_bit r cpu then true
        else if e = Event.deliver cpu r then false
        else a) a = true) ↔
    alternates a (log.filterMap (rel_on cpu r)) = true := by
  intro log
  induction log with
  | nil => intro a; simp [alternates]
  | cons e l ih =>
    intro a
    have key : (∀ pre post, e :: l = pre ++ Event.deliver cpu r :: post →
        pre.foldl (fun a e =>
          if e = Event.set_bit r cpu then true
          else if e = Event.deliver cpu r then false
          else a) a = true) ↔
        ((e = Event.deliver cpu r → a = true) ∧
          ∀ pre post, l = pre ++ Event.deliver cpu r :: post →
            pre.foldl (fun a e =>
              if e = Event.set_bit r cpu then true
              else if e = Event.deliver cpu r then false
              else a)
              (if e = Event.set_bit r cpu then true
               else if e = Event.deliver cpu r then false else a) = true) := by
      constructor
      · intro h
        refine ⟨fun he => ?_, fun pre post hl => ?_⟩
        · have := h [] l (by rw [he]; rfl)
          simpa using this
        · have := h (e :: pre) post (by rw [hl]; rfl)
          simpa [List.foldl_cons] using this
      · rintro ⟨h1, h2⟩ pre post hl
        rcases List.cons_eq_append_iff.1 hl with ⟨rfl, h3⟩ | ⟨pre', rfl, h3⟩
        · injection h3 with h4 _
          simpa using h1 h4.symm
        · rw [List.foldl_cons]
          exact h2 pre' post h3
    rw [key, ih]
    by_cases hS : e = Event.set_bit r cpu
    · subst hS
      simp [List.filterMap_cons, rel_on_set_bit_self, alternates]
    · by_cases hD : e = Event.deliver cpu r
      · subst hD
        simp [List.filterMap_cons, rel_on_deliver_self, alternates]
      · simp [List.filterMap_cons, rel_on_other cpu r e hS hD, hS, hD]

/-- The strict no-spurious-delivery property of a log is the alternation of its
sends and deliveries of the reason. -/
theorem noSpurious_iff_alternates (cpu r : Nat) (log : List Event) :
    NoSpurious cpu r log ↔ alternates false (log.filterMap (rel_on cpu r)) = true := by
  rw [noSpurious_iff_armed, ← alternates_iff_from]
  rfl

theorem alternates_append : ∀ (l1 l2 : List Bool) (a : Bool),
    alternates a (l1 ++ l2) = (alternates a l1 && alternates (last_or a l1) l2) := by
  intro l1
  induction l1 with
  | nil => intro l2 a; simp [alternates, last_or]
  | cons b l ih =>
    intro l2 a
    cases b
    · show (a && alternates false (l ++ l2)) =
        ((a && alternates false l) && alternates (last_or false l) l2)
      rw [ih, Bool.and_assoc]
    · show alternates true (l ++ l2) = (alternates true l && alternates (last_or true l) l2)
      rw [ih]

theorem last_or_append (l1 l2 : List Bool) (a : Bool) :
    last_or a (l1 ++ l2) = last_or (last_or a l1) l2 := by
  simp [last_or, List.foldl_append]

theorem alternates_all_true : ∀ (X : List Bool) (a : Bool), (∀ b ∈ X, b = true) →
    alternates a X = true := by
  intro X
  induction X with
  | nil => intro a _; rfl
  | cons b l ih =>
    intro a h
    have hb : b = true := h b (List.mem_cons_self _ _)
    subst hb
    exact ih true (fun b hb => h b (List.mem_cons_of_mem _ hb))

theorem last_or_all_true : ∀ (X : List Bool) (a : Bool), (∀ b ∈ X, b = true) →
    (a = true ∨ X ≠ []) → last_or a X = true := by
  intro X
  induction X with
  | nil => intro a _ h; simpa [last_or] using h
  | cons b l ih =>
    intro a h _
    have hb : b = true := h b (List.mem_cons_self _ _)
    subst hb
    exact ih true (fun b hb => h b (List.mem_cons_of_mem _ hb)) (Or.inl rfl)

/-! ### Steps that deliver nothing of a given reason on a given CPU -/

theorem onlySends_refl (C r : Nat) (s : State) : OnlySends C r s s :=
  ⟨[], by simp, by simp, fun h => Or.inl h⟩

theorem onlySends_trans (C r : Nat) (s s' s'' : State) (h1 : OnlySends C r s s')
    (h2 : OnlySends C r s' s'') : OnlySends C r s s'' := by
  obtain ⟨X1, e1, t1, b1⟩ := h1
  obtain ⟨X2, e2, t2, b2⟩ := h2
  refine ⟨X1 ++ X2, by rw [e2, e1, List.append_assoc], ?_, ?_⟩
  · intro b hb
    rcases List.mem_append.1 hb with h | h
    · exact t1 b h
    · exact t2 b h
  · intro h
    rcases b2 h with h' | h'
    · rcases b1 h' with h'' | h''
      · exact Or.inl h''
      · exact Or.inr (by simp [h''])
    · exact Or.inr (by simp [h'])

theorem onlySends_of (C r : Nat) (s s' : State) (seg : List Event)
    (hlog : s'.log = s.log ++ seg) (hnd : ∀ e ∈ seg, e ≠ Event.deliver C r)
    (hbits : (s'.ipi_mux_bits C 0).testBit r = true →
      (s.ipi_mux_bits C 0).testBit r = true ∨ Event.set_bit r C ∈ seg) :
    OnlySends C r s s' := by
  refine ⟨seg.filterMap (rel_on C r), by rw [hlog, List.filterMap_append], ?_, ?_⟩
  · intro b hb
    obtain ⟨e, he, hre⟩ := List.mem_filterMap.1 hb
    by_cases hS : e = Event.set_bit r C
    · rw [hS, rel_on_set_bit_self] at hre
      exact (Option.some.inj hre).symm
    · rw [rel_on_other C r e hS (hnd e he)] at hre
      cases hre
  · intro h
    rcases hbits h with h' | h'
    · exact Or.inl h'
    · refine Or.inr (fun hnil => ?_)
      have : true ∈ seg.filterMap (rel_on C r) :=
        List.mem_filterMap.2 ⟨_, h', rel_on_set_bit_self C r⟩
      rw [hnil] at this
      cases this

theorem word0_bit (W nr r : Nat) (h0 : 0 = nr / W) (hr : nr % W = r) : nr = r := by
  rcases Nat.eq_zero_or_pos W with hW | hW
  · subst hW; simpa using hr
  · have : nr < W := by
      by_contra hge
      have : 0 < nr / W := Nat.div_pos (by omega) hW
      omega
    rw [Nat.mod_eq_of_lt this] at hr
    exact hr

theorem onlySends_set_bit (C r W nr c : Nat) (s : State) :
    OnlySends C r s (set_bit W nr c s) := by
  refine onlySends_of C r s _ [Event.set_bit nr c] rfl (by simp) ?_
  intro h
  simp only [set_bit] at h
  by_cases hc : C = c ∧ 0 = nr / W
  · rw [if_pos hc, testBit_lor_one_shiftLeft] at h
    rcases (Bool.or_eq_true_iff).1 h with h' | h'
    · exact Or.inl h'
    · have hr : nr % W = r := by simpa using h'
      have := word0_bit W nr r hc.2 hr
      right
      rw [← this, hc.1]
      exact List.mem_singleton_self _
  · rw [if_neg hc] at h
    exact Or.inl h

theorem onlySends_send_ipi (C r : Nat) (m : List Nat) (s : State) :
    OnlySends C r s (send_ipi m s) :=
  onlySends_of C r s _ [Event.send_ipi m] rfl (by simp) (fun h => Or.inl h)

theorem onlySends_foldl {α : Type} (C r : Nat) (step : State → α → State)
    (h : ∀ s x, OnlySends C r s (step s x)) : ∀ (l : List α) (s : State),
    OnlySends C r s (l.foldl step s) := by
  intro l
  induction l with
  | nil => intro s; exact onlySends_refl C r s
  | cons a l ih =>
    intro s
    rw [List.foldl_cons]
    exact onlySends_trans C r _ _ _ (h s a) (ih _)

theorem onlySends_send_mask (C r W nr : Nat) (T : List Nat) (s : State) :
    OnlySends C r s (ipi_mux_send_mask W nr T s) := by
  unfold ipi_mux_send_mask
  have h1 := onlySends_foldl C r (fun st cpu => set_bit W nr cpu st)
    (fun s x => onlySends_set_bit C r W nr x s) T s
  simp only
  split
  · exact onlySends_trans C r _ _ _ h1 (onlySends_send_ipi C r T _)
  · exact h1

theorem onlySends_log (C r : Nat) (s : State) (e : Event) (he : e ≠ Event.deliver C r) :
    OnlySends C r s { s with log := s.log ++ [e] } :=
  onlySends_of C r s _ [e] rfl (by simpa using he) (fun h => Or.inl h)

theorem onlySends_handle_one (C r : Nat) (env : Env) (c i : Nat) (s : State)
    (hne : ¬ (c = C ∧ i = r)) : OnlySends C r s (handle_one env c i s) := by
  have hd : Event.deliver c i ≠ Event.deliver C r := by
    intro h; injection h with h1 h2; exact hne ⟨h1, h2⟩
  have h1 := onlySends_log C r s (Event.deliver c i) hd
  unfold handle_one generic_handle_domain_irq run_handler
  by_cases hm : env.mapped i = true
  · simp only [hm, if_true, ne_eq, not_true_eq_false, if_false]
    refine onlySends_trans C r _ _ _ h1 (onlySends_trans C r _ _ _
      (onlySends_log C r _ (Event.handler c i) (by simp)) ?_)
    exact onlySends_foldl C r
      (fun (st : State) (sd : Nat × List Nat) => ipi_mux_send_mask env.W sd.1 sd.2 st)
      (fun s x => onlySends_send_mask C r env.W x.1 x.2 s) _ _
  · simp only [hm]
    exact onlySends_trans C r _ _ _ h1 (onlySends_log C r _ (Event.warn c i) (by simp))

theorem onlySends_xchg_clear (C r c : Nat) (s : State) (hne : c ≠ C) :
    OnlySends C r s (xchg c (if s.ipi_mux_priv.clear_ipi then clear_ipi c s else s)).2 := by
  refine onlySends_of C r s _
    ((if s.ipi_mux_priv.clear_ipi then [Event.clear_ipi c] else []) ++
      [Event.xchg c (s.ipi_mux_bits c 0)])
    (by rw [xchg_clear_log, List.append_assoc]) ?_ ?_
  · intro e he
    rcases List.mem_append.1 he with h | h
    · split at h
      · rw [List.mem_singleton.1 h]; simp
      · cases h
    · rw [List.mem_singleton.1 h]; simp
  · intro h
    rw [xchg_clear_bits, if_neg (fun e => hne e.1.symm)] at h
    exact Or.inl h

theorem onlySends_deliver_pending (C r : Nat) (env : Env) (c irqs : Nat) (s : State)
    (hne : c ≠ C) : OnlySends C r s (deliver_pending env c irqs s) := by
  rw [deliver_pending_eq]
  exact onlySends_foldl C r (fun st i => handle_one env c i st)
    (fun s x => onlySends_handle_one C r env c x s (fun h => hne h.1)) _ _

theorem onlySends_handle_irq_loop (C r : Nat) (env : Env) (c : Nat) (hne : c ≠ C) :
    ∀ (fuel : Nat) (s : State), OnlySends C r s (handle_irq_loop env c fuel s).1 := by
  intro fuel
  induction fuel with
  | zero => intro s; exact onlySends_refl C r s
  | succ n ih =>
    intro s
    by_cases h0 : s.ipi_mux_bits c 0 = 0
    · rw [handle_irq_loop_empty env c n s h0]
      exact onlySends_xchg_clear C r c s hne
    · rw [handle_irq_loop_nonempty env c n s h0]
      exact onlySends_trans C r _ _ _ (onlySends_xchg_clear C r c s hne)
        (onlySends_trans C r _ _ _ (onlySends_deliver_pending C r env c _ _ hne) (ih _))

/-! ### The invariant of operation sequences -/

theorem sendTracked_onlySends (C r : Nat) (s s' : State) (h : SendTracked C r s)
    (hs : OnlySends C r s s') : SendTracked C r s' := by
  obtain ⟨X, e, t, b⟩ := hs
  obtain ⟨h1, h2⟩ := h
  unfold SendTracked
  rw [e, alternates_append, last_or_append, h1, alternates_all_true X _ t]
  refine ⟨rfl, fun hb => ?_⟩
  rcases b hb with h' | h'
  · exact last_or_all_true X _ t (Or.inl (h2 h'))
  · exact last_or_all_true X _ t (Or.inr h')

theorem rel_on_line_events (env : Env) (C r : Nat) (l : List Nat) :
    (line_events env C l).filterMap (rel_on C r) = List.replicate (l.count r) false := by
  induction l with
  | nil => rfl
  | cons i l ih =>
    have h2 : rel_on C r (if env.mapped i then Event.handler C i else Event.warn C i) = none := by
      split <;> rfl
    rw [line_events, List.filterMap_cons, List.filterMap_cons, h2, ih, List.count_cons]
    by_cases hi : i = r
    · subst hi
      simp [rel_on, List.replicate_succ]
    · simp [rel_on, hi]

theorem sendTracked_drain (env : Env) (C r fuel : Nat) (s : State)
    (hq : ∀ i st, ∀ sd ∈ env.handler C i st, C ∉ sd.2) (h : SendTracked C r s) :
    SendTracked C r (handle_irq_loop env C (fuel + 2) s).1 := by
  obtain ⟨_, _, hb, hf⟩ := drain_quiet env C hq fuel s
  have hlog := hf Bool (rel_on C r) (fun _ => rfl)
    (fun i st sd hsd c' hc' => by
      have hne : c' ≠ C := fun e => hq i st sd hsd (e ▸ hc')
      simp [rel_on, hne])
    (fun _ => rfl) (fun _ _ => rfl)
  obtain ⟨h1, h2⟩ := h
  unfold SendTracked
  rw [hlog, rel_on_line_events, count_set_bits, hb, alternates_append, h1]
  refine ⟨?_, fun hz => by simp at hz⟩
  by_cases hr : r < env.W ∧ (PendingSet s C).testBit r = true
  · rw [if_pos hr]
    have := h2 hr.2
    simp [alternates, this]
  · rw [if_neg hr]
    simp [alternates]

theorem sendTracked_run_op (env : Env) (fuel : Nat)
    (hq : ∀ c i st, ∀ sd ∈ env.handler c i st, c ∉ sd.2) (op : Op) (s : State) :
    ∃ s', run_op env (fuel + 2) op s = some s' ∧
      ∀ C r, SendTracked C r s → SendTracked C r s' := by
  cases op with
  | send hwirq mask =>
    exact ⟨_, rfl, fun C r h =>
      sendTracked_onlySends C r s _ h (onlySends_send_mask C r env.W hwirq mask s)⟩
  | drain c =>
    refine ⟨_, handle_irq_of_loop env c _ s (drain_quiet env c (hq c) fuel s).1, ?_⟩
    intro C r h
    by_cases hc : c = C
    · subst hc
      exact sendTracked_drain env c r fuel s (hq c) h
    · exact sendTracked_onlySends C r s _ h (onlySends_handle_irq_loop C r env c hc _ s)

theorem sendTracked_run_ops (env : Env) (fuel : Nat)
    (hq : ∀ c i st, ∀ sd ∈ env.handler c i st, c ∉ sd.2) :
    ∀ (ops : List Op) (s : State),
      ∃ s', run_ops env (fuel + 2) ops s = some s' ∧
        ∀ C r, SendTracked C r s → SendTracked C r s' := by
  intro ops
  induction ops with
  | nil => intro s; exact ⟨s, rfl, fun _ _ h => h⟩
  | cons op ops ih =>
    intro s
    obtain ⟨s1, e1, h1⟩ := sendTracked_run_op env fuel hq op s
    obtain ⟨s2, e2, h2⟩ := ih s1
    refine ⟨s2, ?_, fun C r h => h2 C r (h1 C r h)⟩
    rw [run_ops, e1]
    exact e2

theorem sendTracked_init (p : ipi_mux) (C r : Nat) : SendTracked C r (init p) := by
  refine ⟨rfl, fun h => ?_⟩
  simp [init] at h

/-! ### The interleaved system -/

theorem find_bit_from_le_of_testBit (addr r : Nat) (hr : addr.testBit r = true) :
    ∀ (n off : Nat), off ≤ r → r < off + n → find_bit_from addr n off ≤ r := by
  intro n
  induction n with
  | zero => intro off h1 h2; omega
  | succ n ih =>
    intro off h1 h2
    rw [find_bit_from]
    split
    · exact h1
    · rename_i hoff
      have hne : off ≠ r := fun e => hoff (e ▸ hr)
      exact ih (off + 1) (by omega) (by omega)

theorem find_next_bit_le_of_testBit (addr size off r : Nat) (hr : addr.testBit r = true)
    (h1 : off ≤ r) (h2 : r < size) : find_next_bit addr size off ≤ r := by
  unfold find_next_bit
  rw [if_pos (by omega)]
  exact find_bit_from_le_of_testBit addr r hr _ _ h1 (by omega)

theorem mem_set_or {α : Type} (l : List α) (k : Nat) (sd x sd' : α)
    (hk : l[k]? = some sd) (h : sd' ∈ l) : sd' ∈ l.set k x ∨ sd' = sd := by
  obtain ⟨n, hn⟩ := List.mem_iff_getElem?.1 h
  by_cases e : n = k
  · subst e
    rw [hk] at hn
    exact Or.inr (Option.some.inj hn).symm
  · refine Or.inl (List.mem_iff_getElem?.2 ⟨n, ?_⟩)
    rw [List.getElem?_set_ne (fun e' => e e'.symm)]
    exact hn

theorem mem_eraseIdx_or {α : Type} (l : List α) (k : Nat) (sd sd' : α)
    (hk : l[k]? = some sd) (h : sd' ∈ l) : sd' ∈ l.eraseIdx k ∨ sd' = sd := by
  obtain ⟨n, hn⟩ := List.mem_iff_getElem?.1 h
  by_cases e : n = k
  · subst e
    rw [hk] at hn
    exact Or.inr (Option.some.inj hn).symm
  · exact Or.inl (List.mem_eraseIdx_iff_getElem?.2 ⟨n, e, hn⟩)

theorem mem_set_self_of_getElem? {α : Type} (l : List α) (k : Nat) (sd x : α)
    (hk : l[k]? = some sd) : x ∈ l.set k x := by
  have hlt : k < l.length := by
    by_contra hge
    rw [List.getElem?_eq_none (by omega)] at hk
    cases hk
  exact List.mem_set l k hlt x

theorem armed_append (C r : Nat) (l seg : List Event) :
    armed C r (l ++ seg) =
      seg.foldl (fun a e =>
        if e = Event.set_bit r C then true
        else if e = Event.deliver C r then false
        else a) (armed C r l) := by
  unfold armed
  rw [List.foldl_append]

theorem handle_one_quiet_log (env : Env) (c i : Nat) (s : State) :
    (handle_one (quiet env) c i s).log =
      s.log ++ [Event.deliver c i,
        if env.mapped i then Event.handler c i else Event.warn c i] := by
  unfold handle_one generic_handle_domain_irq run_handler quiet
  by_cases hm : env.mapped i = true <;> simp [hm]

theorem handle_one_quiet_bits (env : Env) (c i : Nat) (s : State) :
    (handle_one (quiet env) c i s).ipi_mux_bits = s.ipi_mux_bits := by
  unfold handle_one generic_handle_domain_irq run_handler quiet
  by_cases hm : env.mapped i = true <;> simp [hm]

theorem handle_one_quiet_pending_ipi (env : Env) (c i : Nat) (s : State) :
    (handle_one (quiet env) c i s).pending_ipi = s.pending_ipi := by
  unfold handle_one generic_handle_domain_irq run_handler quiet
  by_cases hm : env.mapped i = true <;> simp [hm]

theorem armed_handle_one_quiet (env : Env) (C r c i : Nat) (s : State) :
    armed C r (handle_one (quiet env) c i s).log =
      if c = C ∧ i = r then false else armed C r s.log := by
  rw [handle_one_quiet_log, armed_append]
  by_cases h : c = C ∧ i = r
  · obtain ⟨rfl, rfl⟩ := h
    by_cases hm : env.mapped i = true <;> simp [hm]
  · have hd : Event.deliver c i ≠ Event.deliver C r := by
      intro e; injection e with e1 e2; exact h ⟨e1, e2⟩
    by_cases hm : env.mapped i = true <;> simp [hm, hd, h]

theorem sysInv_init (env : Env) (p : ipi_mux) (hp : p.send_ipi = true) :
    SysInv env (Sys.init p) := by
  refine ⟨hp, ?_, ?_, ?_⟩
  · intro sd hsd; simp [Sys.init] at hsd
  · intro C h; simp [Sys.init, init] at h
  · intro C r _ h; simp [Sys.init, init, armed] at h

theorem sysInv_send_call (env : Env) (y : Sys) (hwirq : Nat) (mask : List Nat)
    (h : SysInv env y) : SysInv env (step env (Action.send_call hwirq mask) y) := by
  obtain ⟨h0, hK, hJ, hL⟩ := h
  refine ⟨h0, ?_, ?_, hL⟩
  · intro sd hsd
    rcases List.mem_append.1 hsd with h1 | h1
    · exact hK sd h1
    · rw [List.mem_singleton.1 h1]; exact fun x hx => hx
  · intro C hC
    rcases hJ C hC with h1 | ⟨sd, hsd, hm⟩ | h1
    · exact Or.inl h1
    · exact Or.inr (Or.inl ⟨sd, List.mem_append_left _ hsd, hm⟩)
    · exact Or.inr (Or.inr h1)

theorem send_step_none (W k : Nat) (y : Sys) (h : y.senders.get? k = none) :
    send_step W k y = y := by
  unfold send_step
  rw [h]

theorem send_step_cons (W k : Nat) (y : Sys) (sd : Sender) (cpu : Nat) (rest : List Nat)
    (h : y.senders.get? k = some sd) (hr : sd.rest = cpu :: rest) :
    send_step W k y =
      { y with st := set_bit W sd.hwirq cpu y.st
               senders := y.senders.set k { sd with rest := rest } } := by
  unfold send_step
  rw [h]
  simp only [hr]

theorem send_step_nil (W k : Nat) (y : Sys) (sd : Sender)
    (h : y.senders.get? k = some sd) (hr : sd.rest = []) :
    send_step W k y =
      { y with st := if y.st.ipi_mux_priv.send_ipi then send_ipi sd.mask y.st else y.st
               senders := y.senders.eraseIdx k } := by
  unfold send_step
  rw [h]
  simp only [hr]

theorem sysInv_send_step (env : Env) (y : Sys) (k : Nat) (h : SysInv env y) :
    SysInv env (step env (Action.send_step k) y) := by
  show SysInv env (send_step env.W k y)
  obtain ⟨h0, hK, hJ, hL⟩ := h
  cases hk : y.senders.get? k with
  | none => rw [send_step_none env.W k y hk]; exact ⟨h0, hK, hJ, hL⟩
  | some sd =>
    have hk' : y.senders[k]? = some sd := by simpa using hk
    have hsd : sd ∈ y.senders := List.mem_iff_getElem?.2 ⟨k, hk'⟩
    cases hr : sd.rest with
    | nil =>
      rw [send_step_nil env.W k y sd hk hr]
      simp only [h0, if_true]
      refine ⟨h0, ?_, ?_, ?_⟩
      · intro sd' hsd'
        exact hK sd' (List.mem_of_mem_eraseIdx hsd')
      · intro C hC
        rcases hJ C hC with h1 | ⟨sd', hsd', hm⟩ | h1
        · left
          show (if C ∈ sd.mask then true else y.st.pending_ipi C) = true
          split <;> simp [h1]
        · rcases mem_eraseIdx_or y.senders k sd sd' hk' hsd' with h2 | h2
          · exact Or.inr (Or.inl ⟨sd', h2, hm⟩)
          · left
            show (if C ∈ sd.mask then true else y.st.pending_ipi C) = true
            rw [h2] at hm
            rw [if_pos hm]
        · exact Or.inr (Or.inr h1)
      · intro C r hr' ha
        have ha' : armed C r y.st.log = true := by
          have := armed_append C r y.st.log [Event.send_ipi sd.mask]
          simp only [List.foldl_cons, List.foldl_nil] at this
          rw [← ha]
          rw [show (send_ipi sd.mask y.st).log = y.st.log ++ [Event.send_ipi sd.mask] from rfl,
            this]
          simp
        exact hL C r hr' ha'
    | cons cpu rest =>
      rw [send_step_cons env.W k y sd cpu rest hk hr]
      have hcpu : cpu ∈ sd.mask := hK sd hsd cpu (by rw [hr]; exact List.mem_cons_self _ _)
      refine ⟨h0, ?_, ?_, ?_⟩
      · intro sd' hsd'
        rcases List.mem_or_eq_of_mem_set hsd' with h1 | h1
        · exact hK sd' h1
        · rw [h1]
          intro x hx
          exact hK sd hsd x (by rw [hr]; exact List.mem_cons_of_mem _ hx)
      · intro C hC
        by_cases hc : C = cpu
        · refine Or.inr (Or.inl ⟨{ sd with rest := rest },
            mem_set_self_of_getElem? y.senders k sd _ hk', ?_⟩)
          rw [hc]; exact hcpu
        · have hC' : y.st.ipi_mux_bits C 0 ≠ 0 := by
            have : (set_bit env.W sd.hwirq cpu y.st).ipi_mux_bits C 0 = y.st.ipi_mux_bits C 0 := by
              simp [set_bit, hc]
            rw [← this]; exact hC
          rcases hJ C hC' with h1 | ⟨sd', hsd', hm⟩ | h1
          · exact Or.inl h1
          · rcases mem_set_or y.senders k sd { sd with rest := rest } sd' hk' hsd' with h2 | h2
            · exact Or.inr (Or.inl ⟨sd', h2, hm⟩)
            · refine Or.inr (Or.inl ⟨{ sd with rest := rest },
                mem_set_self_of_getElem? y.senders k sd _ hk', ?_⟩)
              rw [h2] at hm; exact hm
          · exact Or.inr (Or.inr h1)
      · intro C r hr' ha
        have hlog : (set_bit env.W sd.hwirq cpu y.st).log =
            y.st.log ++ [Event.set_bit sd.hwirq cpu] := rfl
        have hmono : (y.st.ipi_mux_bits C 0).testBit r = true →
            ((set_bit env.W sd.hwirq cpu y.st).ipi_mux_bits C 0).testBit r = true := by
          intro hb
          simp only [set_bit]
          split
          · rw [Nat.testBit_lor, hb]; rfl
          · exact hb
        show ((set_bit env.W sd.hwirq cpu y.st).ipi_mux_bits C 0).testBit r = true ∨ _
        rw [show ({ y with st := set_bit env.W sd.hwirq cpu y.st,
                           senders := y.senders.set k { sd with rest := rest } } : Sys).st.log =
            y.st.log ++ [Event.set_bit sd.hwirq cpu] from rfl, armed_append] at ha
        simp only [List.foldl_cons, List.foldl_nil] at ha
        by_cases he : Event.set_bit sd.hwirq cpu = Event.set_bit r C
        · injection he with e1 e2
          left
          simp only [set_bit]
          rw [if_pos ⟨e2.symm, by rw [e1, Nat.div_eq_of_lt hr']⟩, e1, Nat.mod_eq_of_lt hr',
            testBit_lor_one_shiftLeft]
          simp
        · rw [if_neg he, if_neg (by simp)] at ha
          rcases hL C r hr' ha with h1 | h1
          · exact Or.inl (hmono h1)
          · exact Or.inr h1

theorem irq_step_idle (env : Env) (c : Nat) (y : Sys) (h : y.drain c = DrainPC.idle) :
    irq_step env c y =
      { y with drain := fun c' => if c' = c then DrainPC.at_clear else y.drain c' } := by
  unfold irq_step
  rw [h]

theorem irq_step_at_clear (env : Env) (c : Nat) (y : Sys) (h : y.drain c = DrainPC.at_clear) :
    irq_step env c y =
      { y with st := if y.st.ipi_mux_priv.clear_ipi then clear_ipi c y.st else y.st
               drain := fun c' => if c' = c then DrainPC.at_xchg else y.drain c' } := by
  unfold irq_step
  rw [h]

theorem irq_step_at_xchg (env : Env) (c : Nat) (y : Sys) (h : y.drain c = DrainPC.at_xchg) :
    irq_step env c y =
      { y with st := (xchg c y.st).2
               drain := fun c' =>
                 if c' = c then
                   (if (xchg c y.st).1 = 0 then DrainPC.idle
                    else DrainPC.delivering (xchg c y.st).1
                      (find_first_bit (xchg c y.st).1 env.W))
                 else y.drain c' } := by
  unfold irq_step
  rw [h]

theorem irq_step_delivering (env : Env) (c irqs bit : Nat) (y : Sys)
    (h : y.drain c = DrainPC.delivering irqs bit) (hb : bit < env.W) :
    irq_step env c y =
      { y with st := handle_one (quiet env) c bit y.st
               drain := fun c' =>
                 if c' = c then DrainPC.delivering irqs (find_next_bit irqs env.W (bit + 1))
                 else y.drain c' } := by
  unfold irq_step
  rw [h]
  simp only [hb, if_true]

theorem irq_step_pass_end (env : Env) (c irqs bit : Nat) (y : Sys)
    (h : y.drain c = DrainPC.delivering irqs bit) (hb : ¬ bit < env.W) :
    irq_step env c y =
      { y with drain := fun c' => if c' = c then DrainPC.at_clear else y.drain c' } := by
  unfold irq_step
  rw [h]
  simp only [hb, if_false]

theorem armed_clear (C r c : Nat) (s : State) :
    armed C r (if s.ipi_mux_priv.clear_ipi then clear_ipi c s else s).log = armed C r s.log := by
  split
  · rw [show (clear_ipi c s).log = s.log ++ [Event.clear_ipi c] from rfl, armed_append]
    simp
  · rfl

theorem sysInv_irq_step (env : Env) (y : Sys) (c : Nat) (h : SysInv env y) :
    SysInv env (step env (Action.irq_step c) y) := by
  show SysInv env (irq_step env c y)
  obtain ⟨h0, hK, hJ, hL⟩ := h
  cases hpc : y.drain c with
  | idle =>
    rw [irq_step_idle env c y hpc]
    refine ⟨h0, hK, ?_, ?_⟩
    · intro C hC
      by_cases hc : C = c
      · right; right; simp [hc]
      · rcases hJ C hC with h1 | h1 | h1
        · exact Or.inl h1
        · exact Or.inr (Or.inl h1)
        · right; right; simpa [hc] using h1
    · intro C r hr ha
      rcases hL C r hr ha with h1 | ⟨irqs, bit, h1, h2, h3⟩
      · exact Or.inl h1
      · have hc : C ≠ c := by
          intro e; rw [e, hpc] at h1; cases h1
        exact Or.inr ⟨irqs, bit, by simpa [hc] using h1, h2, h3⟩
  | at_clear =>
    rw [irq_step_at_clear env c y hpc]
    have hpriv : (if y.st.ipi_mux_priv.clear_ipi then clear_ipi c y.st else y.st).ipi_mux_priv = y.st.ipi_mux_priv := by
      split <;> rfl
    have hbits : (if y.st.ipi_mux_priv.clear_ipi then clear_ipi c y.st else y.st).ipi_mux_bits =
        y.st.ipi_mux_bits := by
      split <;> rfl
    have hpend : ∀ C, C ≠ c →
        (if y.st.ipi_mux_priv.clear_ipi then clear_ipi c y.st else y.st).pending_ipi C =
          y.st.pending_ipi C := by
      intro C hC
      split
      · simp [clear_ipi, hC]
      · rfl
    refine ⟨by rw [hpriv]; exact h0, hK, ?_, ?_⟩
    · intro C hC
      by_cases hc : C = c
      · right; right; simp [hc]
      · rw [hbits] at hC
        rcases hJ C hC with h1 | h1 | h1
        · left; rw [hpend C hc]; exact h1
        · exact Or.inr (Or.inl h1)
        · right; right; simpa [hc] using h1
    · intro C r hr ha
      rw [armed_clear] at ha
      rw [hbits]
      rcases hL C r hr ha with h1 | ⟨irqs, bit, h1, h2, h3⟩
      · exact Or.inl h1
      · have hc : C ≠ c := by
          intro e; rw [e, hpc] at h1; cases h1
        exact Or.inr ⟨irqs, bit, by simpa [hc] using h1, h2, h3⟩
  | at_xchg =>
    rw [irq_step_at_xchg env c y hpc]
    have hbits : ∀ C, C ≠ c → (xchg c y.st).2.ipi_mux_bits C 0 = y.st.ipi_mux_bits C 0 := by
      intro C hC; simp [xchg, hC]
    have harm : ∀ C r, armed C r (xchg c y.st).2.log = armed C r y.st.log := by
      intro C r
      rw [show (xchg c y.st).2.log = y.st.log ++ [Event.xchg c (y.st.ipi_mux_bits c 0)] from rfl,
        armed_append]
      simp
    refine ⟨h0, hK, ?_, ?_⟩
    · intro C hC
      by_cases hc : C = c
      · exfalso; apply hC; simp [xchg, hc]
      · rw [hbits C hc] at hC
        rcases hJ C hC with h1 | h1 | h1
        · exact Or.inl h1
        · exact Or.inr (Or.inl h1)
        · right; right; simpa [hc] using h1
    · intro C r hr ha
      rw [harm] at ha
      by_cases hc : C = c
      · subst hc
        right
        rcases hL C r hr ha with h1 | ⟨irqs, bit, h1, _, _⟩
        · have hne : (xchg C y.st).1 ≠ 0 := by
            intro e
            have : (xchg C y.st).1 = y.st.ipi_mux_bits C 0 := rfl
            rw [this] at e
            rw [e] at h1
            simp at h1
          refine ⟨(xchg C y.st).1, find_first_bit (xchg C y.st).1 env.W, by simp [hne], h1, ?_⟩
          exact find_next_bit_le_of_testBit _ _ _ _ h1 (Nat.zero_le _) hr
        · rw [hpc] at h1; cases h1
      · rw [hbits C hc]
        rcases hL C r hr ha with h1 | ⟨irqs, bit, h1, h2, h3⟩
        · exact Or.inl h1
        · exact Or.inr ⟨irqs, bit, by simpa [hc] using h1, h2, h3⟩
  | delivering irqs bit =>
    by_cases hb : bit < env.W
    · rw [irq_step_delivering env c irqs bit y hpc hb]
      refine ⟨by rw [handle_one_priv]; exact h0, hK, ?_, ?_⟩
      · intro C hC
        by_cases hc : C = c
        · right; right; simp [hc]
        · simp only [handle_one_quiet_bits, handle_one_quiet_pending_ipi] at hC ⊢
          rcases hJ C hC with h1 | h1 | h1
          · exact Or.inl h1
          · exact Or.inr (Or.inl h1)
          · right; right; simpa [hc] using h1
      · intro C r hr ha
        simp only [armed_handle_one_quiet] at ha
        simp only [handle_one_quiet_bits]
        by_cases hcr : c = C ∧ bit = r
        · rw [if_pos hcr] at ha; cases ha
        · rw [if_neg hcr] at ha
          rcases hL C r hr ha with h1 | ⟨irqs', bit', h1, h2, h3⟩
          · exact Or.inl h1
          · right
            by_cases hc : C = c
            · subst hc
              rw [hpc] at h1
              injection h1 with e1 e2
              rw [← e1] at h2
              rw [← e2] at h3
              have hne : bit ≠ r := fun e => hcr ⟨rfl, e⟩
              exact ⟨irqs, find_next_bit irqs env.W (bit + 1), by simp, h2,
                find_next_bit_le_of_testBit _ _ _ _ h2 (by omega) hr⟩
            · exact ⟨irqs', bit', by simpa [hc] using h1, h2, h3⟩
    · rw [irq_step_pass_end env c irqs bit y hpc hb]
      refine ⟨h0, hK, ?_, ?_⟩
      · intro C hC
        by_cases hc : C = c
        · right; right; simp [hc]
        · rcases hJ C hC with h1 | h1 | h1
          · exact Or.inl h1
          · exact Or.inr (Or.inl h1)
          · right; right; simpa [hc] using h1
      · intro C r hr ha
        rcases hL C r hr ha with h1 | ⟨irqs', bit', h1, h2, h3⟩
        · exact Or.inl h1
        · by_cases hc : C = c
          · subst hc
            rw [hpc] at h1
            injection h1 with e1 e2
            rw [← e2] at h3
            omega
          · exact Or.inr ⟨irqs', bit', by simpa [hc] using h1, h2, h3⟩

theorem sysInv_step (env : Env) (a : Action) (y : Sys) (h : SysInv env y) :
    SysInv env (step env a y) := by
  cases a with
  | send_call hwirq mask => exact sysInv_send_call env y hwirq mask h
  | send_step k => exact sysInv_send_step env y k h
  | irq_step c => exact sysInv_irq_step env y c h

theorem sysInv_run (env : Env) : ∀ (acts : List Action) (y : Sys), SysInv env y →
    SysInv env (run env acts y) := by
  intro acts
  induction acts with
  | nil => intro y h; exact h
  | cons a acts ih =>
    intro y h
    show SysInv env (List.foldl (fun st a => step env a st) y (a :: acts))
    rw [List.foldl_cons]
    exact ih _ (sysInv_step env a y h)

/-! ### Sends never clear a bit -/

theorem send_mask_mono (W nr : Nat) (T : List Nat) (s : State) (c k r : Nat)
    (h : (s.ipi_mux_bits c k).testBit r = true) :
    ((ipi_mux_send_mask W nr T s).ipi_mux_bits c k).testBit r = true := by
  rw [send_mask_bits]
  split
  · rw [Nat.testBit_lor, h]; rfl
  · exact h

theorem foldl_send_mono (W c k r : Nat) : ∀ (L : List (Nat × List Nat)) (s : State),
    (s.ipi_mux_bits c k).testBit r = true →
    ((L.foldl (fun st sd => ipi_mux_send_mask W sd.1 sd.2 st) s).ipi_mux_bits c k).testBit r =
      true := by
  intro L
  induction L with
  | nil => intro s h; exact h
  | cons a L ih =>
    intro s h
    rw [List.foldl_cons]
    exact ih _ (send_mask_mono W a.1 a.2 s c k r h)

theorem handle_one_mono (env : Env) (cpu i c k r : Nat) (s : State)
    (h : (s.ipi_mux_bits c k).testBit r = true) :
    ((handle_one env cpu i s).ipi_mux_bits c k).testBit r = true := by
  unfold handle_one generic_handle_domain_irq run_handler
  by_cases hm : env.mapped i = true
  · simp only [hm, if_true, ne_eq, not_true_eq_false, if_false]
    exact foldl_send_mono env.W c k r _ _ h
  · simpa [hm] using h

theorem foldl_handle_one_mono (env : Env) (cpu c k r : Nat) : ∀ (l : List Nat) (s : State),
    (s.ipi_mux_bits c k).testBit r = true →
    ((l.foldl (fun st i => handle_one env cpu i st) s).ipi_mux_bits c k).testBit r = true := by
  intro l
  induction l with
  | nil => intro s h; exact h
  | cons a l ih =>
    intro s h
    rw [List.foldl_cons]
    exact ih _ (handle_one_mono env cpu a c k r s h)

/-! ### A handler that sends its own reason to its own CPU -/

theorem handle_one_restart (c : Nat) (s : State) :
    ((handle_one env_restart c 2 s).ipi_mux_bits c 0).testBit 2 = true := by
  unfold handle_one generic_handle_domain_irq run_handler
  simp only [env_restart]
  simp [send_mask_bits, testBit_lor_one_shiftLeft]
  exact Or.inr (by decide)

theorem foldl_handle_one_restart (c : Nat) : ∀ (l : List Nat) (s : State), 2 ∈ l →
    ((l.foldl (fun st i => handle_one env_restart c i st) s).ipi_mux_bits c 0).testBit 2 =
      true := by
  intro l
  induction l with
  | nil => intro s h; cases h
  | cons a l ih =>
    intro s h
    rw [List.foldl_cons]
    by_cases ha : a = 2
    · subst ha
      exact foldl_handle_one_mono env_restart c c 0 2 l _ (handle_one_restart c s)
    · rcases List.mem_cons.1 h with h' | h'
      · exact absurd h'.symm ha
      · exact ih _ h'

/-- With a handler of line 2 that sends reason 2 to its own CPU, a drain entered
with bit 2 pending never leaves its loop. -/
theorem handle_irq_loop_restart (c : Nat) : ∀ (fuel : Nat) (s : State),
    (s.ipi_mux_bits c 0).testBit 2 = true →
    (handle_irq_loop env_restart c fuel s).2 = false := by
  intro fuel
  induction fuel with
  | zero => intro s _; rfl
  | succ n ih =>
    intro s h
    have h0 : s.ipi_mux_bits c 0 ≠ 0 := by
      intro e; rw [e] at h; simp at h
    rw [handle_irq_loop_nonempty env_restart c n s h0]
    apply ih
    rw [deliver_pending_eq]
    exact foldl_handle_one_restart c _ _ ((mem_set_bits _ _ _).2 ⟨by decide, h⟩)

/-! ### Line allocation -/

theorem loop_counter_of_lt (n : Nat) (h : n < 2 ^ 31) : loop_counter n = Int.ofNat n := by
  unfold loop_counter
  have h1 : n % 2 ^ 32 = n := Nat.mod_eq_of_lt (by omega)
  rw [h1, if_pos h]

/-- The sum `virq + i` is the sum of the two numbers modulo `2 ^ 32`. -/
theorem virq_plus_eq (virq n : Nat) : virq_plus virq n = (virq + n) % 2 ^ 32 := by
  unfold virq_plus loop_counter
  simp only [Int.ofNat_eq_coe]
  split_ifs <;> omega

theorem virq_plus_of_lt (virq n : Nat) (h : virq + n < 2 ^ 32) : virq_plus virq n = virq + n := by
  rw [virq_plus_eq, Nat.mod_eq_of_lt h]

/-- Below `2 ^ 31` iterations the sum `hwirq + i` is the sum of the two numbers
modulo `2 ^ W`. -/
theorem hwirq_plus_eq (W hwirq n : Nat) (h : n < 2 ^ 31) :
    hwirq_plus W hwirq n = (hwirq + n) % 2 ^ W := by
  unfold hwirq_plus
  rw [loop_counter_of_lt n h]
  simp only [Int.ofNat_eq_coe]
  have e : ((hwirq : Int) + (n : Int)) % 2 ^ W = (((hwirq + n) % 2 ^ W : Nat) : Int) := by
    push_cast
    rfl
  rw [e, Int.toNat_natCast]

theorem hwirq_plus_of_lt (W hwirq n : Nat) (h : n < 2 ^ 31) (hw : hwirq + n < 2 ^ W) :
    hwirq_plus W hwirq n = hwirq + n := by
  rw [hwirq_plus_eq W hwirq n h, Nat.mod_eq_of_lt hw]

theorem domain_alloc_loop_ret (W d virq hwirq : Nat) : ∀ (n i : Nat) (m : Machine),
    (ipi_mux_domain_alloc_loop W d virq hwirq n i m).1 = 0 := by
  intro n
  induction n with
  | zero => intro i m; rfl
  | succ n ih =>
    intro i m
    rw [ipi_mux_domain_alloc_loop]
    simp only [ipi_mux_domain_map, ne_eq, not_true_eq_false, if_false]
    exact ih _ _

theorem domain_alloc_loop_frame {α : Type} (f : Machine → α) (W d virq hwirq : Nat)
    (hf : ∀ irq hw m, f (ipi_mux_domain_map d irq hw m).2 = f m) :
    ∀ (n i : Nat) (m : Machine),
      f (ipi_mux_domain_alloc_loop W d virq hwirq n i m).2 = f m := by
  intro n
  induction n with
  | zero => intro i m; rfl
  | succ n ih =>
    intro i m
    rw [ipi_mux_domain_alloc_loop]
    have h0 : (ipi_mux_domain_map d (virq_plus virq i) (hwirq_plus W hwirq i) m).1 = 0 := rfl
    simp only [h0, ne_eq, not_true_eq_false, if_false]
    rw [ih, hf]

theorem domain_alloc_loop_lines (W d virq hwirq : Nat) : ∀ (n i : Nat) (m : Machine),
    (ipi_mux_domain_alloc_loop W d virq hwirq n i m).2.lines =
      m.lines ++ (List.range' i n).map
        (fun j => (d, virq_plus virq j, hwirq_plus W hwirq j)) := by
  intro n
  induction n with
  | zero => intro i m; simp [ipi_mux_domain_alloc_loop]
  | succ n ih =>
    intro i m
    rw [ipi_mux_domain_alloc_loop]
    have h0 : (ipi_mux_domain_map d (virq_plus virq i) (hwirq_plus W hwirq i) m).1 = 0 := rfl
    simp only [h0, ne_eq, not_true_eq_false, if_false]
    rw [ih, List.range'_succ]
    simp [ipi_mux_domain_map]

/-- With a well-formed descriptor, `ipi_mux_domain_alloc` returns 0 and binds
`virq + j` to line `param[0] + j` for `j < nr_irqs`, in order, and nothing else,
the sums being those of the C types. -/
theorem domain_alloc_ok (W d virq nr_irqs : Nat) (fwspec : irq_fwspec) (m : Machine)
    (h : 1 ≤ fwspec.param_count) :
    (ipi_mux_domain_alloc W d virq nr_irqs fwspec m).1 = 0 ∧
    (ipi_mux_domain_alloc W d virq nr_irqs fwspec m).2.lines =
      m.lines ++ (List.range nr_irqs).map
        (fun j => (d, virq_plus virq j, hwirq_plus W (fwspec.param.getD 0 0) j)) := by
  have ht : irq_domain_translate_onecell fwspec = (0, fwspec.param.getD 0 0) := by
    unfold irq_domain_translate_onecell
    rw [if_neg (by omega)]
  unfold ipi_mux_domain_alloc
  simp only [ht, ne_eq, not_true_eq_false, if_false]
  refine ⟨domain_alloc_loop_ret _ _ _ _ _ _ _, ?_⟩
  rw [domain_alloc_loop_lines, List.range_eq_range']

/-- The bindings of an allocation in which no sum wraps. -/
theorem map_plus_of_no_wrap (W d virq hwirq n : Nat) (hn : n ≤ 2 ^ 31)
    (hv : virq + n ≤ 2 ^ 32) (hw : hwirq + n ≤ 2 ^ W) :
    (List.range n).map (fun j => (d, virq_plus virq j, hwirq_plus W hwirq j)) =
      (List.range n).map (fun j => (d, virq + j, hwirq + j)) := by
  apply List.map_congr_left
  intro j hj
  have hj' : j < n := List.mem_range.1 hj
  rw [virq_plus_of_lt virq j (by omega), hwirq_plus_of_lt W hwirq j (by omega) (by omega)]

theorem domain_alloc_frame {α : Type} (f : Machine → α) (W d virq nr_irqs : Nat)
    (fwspec : irq_fwspec) (m : Machine)
    (hf : ∀ irq hw m, f (ipi_mux_domain_map d irq hw m).2 = f m) :
    f (ipi_mux_domain_alloc W d virq nr_irqs fwspec m).2 = f m := by
  unfold ipi_mux_domain_alloc
  by_cases h : (irq_domain_translate_onecell fwspec).1 ≠ 0
  · show f (if (irq_domain_translate_onecell fwspec).1 ≠ 0 then
        ((irq_domain_translate_onecell fwspec).1, m)
      else ipi_mux_domain_alloc_loop W d virq (irq_domain_translate_onecell fwspec).2
        nr_irqs 0 m).2 = f m
    rw [if_pos h]
  · show f (if (irq_domain_translate_onecell fwspec).1 ≠ 0 then
        ((irq_domain_translate_onecell fwspec).1, m)
      else ipi_mux_domain_alloc_loop W d virq (irq_domain_translate_onecell fwspec).2
        nr_irqs 0 m).2 = f m
    rw [if_neg h]
    exact domain_alloc_loop_frame f W d virq _ hf _ _ _

/-! ### Creation -/

theorem alloc_irqs_frame {α : Type} {Wl : Nat} (f : Machine → α) (pl : Platform) (d nr : Nat)
    (fwspec : irq_fwspec) (m : Machine)
    (hf : ∀ irq hw m, f (ipi_mux_domain_map d irq hw m).2 = f m)
    (hc : ∀ (m : Machine) cs, f { m with calls := cs } = f m) :
    f (__irq_domain_alloc_irqs Wl pl d nr fwspec m).2 = f m := by
  unfold __irq_domain_alloc_irqs
  by_cases hv : pl.virq_base ≤ 0
  · simp only [hv, if_true]; exact hc _ _
  · simp only [hv, if_false]
    split
    · rw [domain_alloc_frame f Wl d _ nr fwspec _ hf]; exact hc _ _
    · show f (ipi_mux_domain_alloc Wl d _ nr fwspec _).2 = f m
      rw [domain_alloc_frame f Wl d _ nr fwspec _ hf]; exact hc _ _

/-- The allocation `riscv_ipi_mux_create` requests: it fails exactly when no
descriptors are obtained, and otherwise binds `virq_base + j` to line `0 + j` for
`j < W`, the sums being those of the C types. -/
theorem alloc_irqs_create (pl : Platform) (d W : Nat) (m : Machine) :
    (__irq_domain_alloc_irqs W pl d W { fwnode := d, param_count := 1, param := [0] } m).1 =
      pl.virq_base ∧
    (__irq_domain_alloc_irqs W pl d W
        { fwnode := d, param_count := 1, param := [0] } m).2.lines =
      if pl.virq_base ≤ 0 then m.lines
      else m.lines ++ (List.range W).map
        (fun j => (d, virq_plus pl.virq_base.toNat j, hwirq_plus W 0 j)) := by
  unfold __irq_domain_alloc_irqs
  by_cases hv : pl.virq_base ≤ 0
  · simp only [hv, if_true, and_self]
  · simp only [hv, if_false]
    obtain ⟨h1, h2⟩ := domain_alloc_ok W d pl.virq_base.toNat W
      { fwnode := d, param_count := 1, param := [0] }
      { m with calls := m.calls ++ [KCall.irq_domain_alloc_irqs d W 1 [0]] } (le_refl _)
    simp only [h1, lt_self_iff_false, if_false, true_and]
    rw [h2]
    simp


theorem create_domain_of_no_domain (W : Nat) (pl : Platform) (rf c s : Bool) (pv : Int)
    (m : Machine) (hnd : pl.new_domain = 0) :
    create_domain W pl rf c s pv m = fail_dispose_mapping pv (irq_domain_add_linear pl W m).2 := by
  unfold create_domain
  simp only [irq_domain_add_linear, hnd, if_true]

theorem create_domain_of_no_virq (W : Nat) (pl : Platform) (rf c s : Bool) (pv : Int)
    (m : Machine) (hnd : pl.new_domain ≠ 0) (hv : pl.virq_base ≤ 0) :
    create_domain W pl rf c s pv m =
      fail_domain_remove pl.new_domain pv
        (__irq_domain_alloc_irqs W pl pl.new_domain W
          { fwnode := pl.new_domain, param_count := 1, param := [0] }
          (irq_domain_add_linear pl W m).2).2 := by
  unfold create_domain
  have h1 : (irq_domain_add_linear pl W m).1 = pl.new_domain := rfl
  simp only [h1, hnd, if_false, (alloc_irqs_create pl pl.new_domain W _).1, hv, if_true]

theorem create_domain_of_ok (W : Nat) (pl : Platform) (rf c s : Bool) (pv : Int)
    (m : Machine) (hnd : pl.new_domain ≠ 0) (hv : 0 < pl.virq_base) :
    create_domain W pl rf c s pv m =
      (pl.new_domain,
       riscv_ipi_set_virq_range pl.virq_base W rf
        (cpuhp_setup_state
          (if pv ≠ 0 then
            irq_set_chained_handler pv.toNat
              { (__irq_domain_alloc_irqs W pl pl.new_domain W
                  { fwnode := pl.new_domain, param_count := 1, param := [0] }
                  (irq_domain_add_linear pl W m).2).2 with
                st := { (__irq_domain_alloc_irqs W pl pl.new_domain W
                  { fwnode := pl.new_domain, param_count := 1, param := [0] }
                  (irq_domain_add_linear pl W m).2).2.st with
                  ipi_mux_priv := { domain := pl.new_domain, parent_virq := pv,
                                    clear_ipi := c, send_ipi := s } } }
           else
              { (__irq_domain_alloc_irqs W pl pl.new_domain W
                  { fwnode := pl.new_domain, param_count := 1, param := [0] }
                  (irq_domain_add_linear pl W m).2).2 with
                st := { (__irq_domain_alloc_irqs W pl pl.new_domain W
                  { fwnode := pl.new_domain, param_count := 1, param := [0] }
                  (irq_domain_add_linear pl W m).2).2.st with
                  ipi_mux_priv := { domain := pl.new_domain, parent_virq := pv,
                                    clear_ipi := c, send_ipi := s } } }))) := by
  unfold create_domain
  have h1 : (irq_domain_add_linear pl W m).1 = pl.new_domain := rfl
  have hv' : ¬ pl.virq_base ≤ 0 := by omega
  simp only [h1, hnd, if_false, (alloc_irqs_create pl pl.new_domain W _).1, hv']
  by_cases hpv : pv ≠ 0 <;> simp [hpv, riscv_ipi_set_virq_range, cpuhp_setup_state,
    irq_set_chained_handler]

/-- What `create_domain` returns: NULL exactly when the domain cannot be added or
no irq descriptors are obtained, the new domain otherwise. -/
theorem create_domain_ret (W : Nat) (pl : Platform) (rf c s : Bool) (pv : Int) (m : Machine) :
    (create_domain W pl rf c s pv m).1 =
      if pl.new_domain = 0 ∨ pl.virq_base ≤ 0 then 0 else pl.new_domain := by
  by_cases hnd : pl.new_domain = 0
  · rw [create_domain_of_no_domain W pl rf c s pv m hnd, if_pos (Or.inl hnd)]; rfl
  · by_cases hv : pl.virq_base ≤ 0
    · rw [create_domain_of_no_virq W pl rf c s pv m hnd hv, if_pos (Or.inr hv)]; rfl
    · rw [create_domain_of_ok W pl rf c s pv m hnd (by omega), if_neg (not_or.2 ⟨hnd, hv⟩)]


theorem filter_lookup_domain_map (d irq hw : Nat) (m : Machine) :
    (ipi_mux_domain_map d irq hw m).2.calls.filter is_lookup = m.calls.filter is_lookup := by
  simp [ipi_mux_domain_map, List.filter_append, is_lookup]

theorem alloc_irqs_lookup {Wl : Nat} (pl : Platform) (d nr : Nat) (fwspec : irq_fwspec)
    (m : Machine) :
    (__irq_domain_alloc_irqs Wl pl d nr fwspec m).2.calls.filter is_lookup =
      m.calls.filter is_lookup := by
  have h1 : ∀ m1 : Machine,
      (ipi_mux_domain_alloc Wl d pl.virq_base.toNat nr fwspec m1).2.calls.filter is_lookup =
        m1.calls.filter is_lookup :=
    fun m1 => domain_alloc_frame (fun m => m.calls.filter is_lookup) Wl d _ nr fwspec m1
      (fun irq hw m => filter_lookup_domain_map d irq hw m)
  unfold __irq_domain_alloc_irqs
  by_cases hv : pl.virq_base ≤ 0
  · simp [hv, List.filter_append, is_lookup]
  · simp only [hv, if_false]
    split <;> (rw [h1]; simp [List.filter_append, is_lookup])

/-- When `create_domain` returns NULL it leaves the machine as it found it, but
for the parent mapping it was entered with, which it has disposed of, and for the
calls made. -/
theorem create_domain_null (W : Nat) (pl : Platform) (rf c s : Bool) (pv : Int) (m : Machine)
    (h : (create_domain W pl rf c s pv m).1 = 0) :
    (create_domain W pl rf c s pv m).2.st = m.st ∧
    (create_domain W pl rf c s pv m).2.intc_fwnode = m.intc_fwnode ∧
    (create_domain W pl rf c s pv m).2.domains = m.domains ∧
    (create_domain W pl rf c s pv m).2.mappings =
      (if pv ≠ 0 then m.mappings.erase pv.toNat else m.mappings) ∧
    (create_domain W pl rf c s pv m).2.lines = m.lines ∧
    (create_domain W pl rf c s pv m).2.chained = m.chained ∧
    (create_domain W pl rf c s pv m).2.cpuhp = m.cpuhp ∧
    (create_domain W pl rf c s pv m).2.virq_range = m.virq_range ∧
    (create_domain W pl rf c s pv m).2.percpu_enabled = m.percpu_enabled ∧
    (create_domain W pl rf c s pv m).2.calls.filter is_lookup = m.calls.filter is_lookup := by
  by_cases hnd : pl.new_domain = 0
  · rw [create_domain_of_no_domain W pl rf c s pv m hnd]
    unfold fail_dispose_mapping
    by_cases hpv : pv ≠ 0 <;>
      simp [hpv, irq_dispose_mapping, irq_domain_add_linear, hnd, List.filter_append, is_lookup]
  · by_cases hv : pl.virq_base ≤ 0
    · rw [create_domain_of_no_virq W pl rf c s pv m hnd hv]
      have hl : (__irq_domain_alloc_irqs W pl pl.new_domain W
          { fwnode := pl.new_domain, param_count := 1, param := [0] }
          (irq_domain_add_linear pl W m).2).2.lines = m.lines := by
        rw [(alloc_irqs_create pl pl.new_domain W (irq_domain_add_linear pl W m).2).2, if_pos hv]
        rfl
      have hst : (__irq_domain_alloc_irqs W pl pl.new_domain W
          { fwnode := pl.new_domain, param_count := 1, param := [0] }
          (irq_domain_add_linear pl W m).2).2.st = m.st :=
        alloc_irqs_frame (fun m => m.st) pl pl.new_domain W _ _ (fun _ _ _ => rfl)
          (fun _ _ => rfl)
      have hfw : (__irq_domain_alloc_irqs W pl pl.new_domain W
          { fwnode := pl.new_domain, param_count := 1, param := [0] }
          (irq_domain_add_linear pl W m).2).2.intc_fwnode = m.intc_fwnode :=
        alloc_irqs_frame (fun m => m.intc_fwnode) pl pl.new_domain W _ _ (fun _ _ _ => rfl)
          (fun _ _ => rfl)
      have hdo : (__irq_domain_alloc_irqs W pl pl.new_domain W
          { fwnode := pl.new_domain, param_count := 1, param := [0] }
          (irq_domain_add_linear pl W m).2).2.domains = pl.new_domain :: m.domains := by
        rw [alloc_irqs_frame (fun m => m.domains) pl pl.new_domain W _ _ (fun _ _ _ => rfl)
          (fun _ _ => rfl)]
        simp [irq_domain_add_linear, hnd]
      have hma : (__irq_domain_alloc_irqs W pl pl.new_domain W
          { fwnode := pl.new_domain, param_count := 1, param := [0] }
          (irq_domain_add_linear pl W m).2).2.mappings = m.mappings :=
        alloc_irqs_frame (fun m => m.mappings) pl pl.new_domain W _ _ (fun _ _ _ => rfl)
          (fun _ _ => rfl)
      have hch : (__irq_domain_alloc_irqs W pl pl.new_domain W
          { fwnode := pl.new_domain, param_count := 1, param := [0] }
          (irq_domain_add_linear pl W m).2).2.chained = m.chained :=
        alloc_irqs_frame (fun m => m.chained) pl pl.new_domain W _ _ (fun _ _ _ => rfl)
          (fun _ _ => rfl)
      have hcp : (__irq_domain_alloc_irqs W pl pl.new_domain W
          { fwnode := pl.new_domain, param_count := 1, param := [0] }
          (irq_domain_add_linear pl W m).2).2.cpuhp = m.cpuhp :=
        alloc_irqs_frame (fun m => m.cpuhp) pl pl.new_domain W _ _ (fun _ _ _ => rfl)
          (fun _ _ => rfl)
      have hvr : (__irq_domain_alloc_irqs W pl pl.new_domain W
          { fwnode := pl.new_domain, param_count := 1, param := [0] }
          (irq_domain_add_linear pl W m).2).2.virq_range = m.virq_range :=
        alloc_irqs_frame (fun m => m.virq_range) pl pl.new_domain W _ _ (fun _ _ _ => rfl)
          (fun _ _ => rfl)
      have hpe : (__irq_domain_alloc_irqs W pl pl.new_domain W
          { fwnode := pl.new_domain, param_count := 1, param := [0] }
          (irq_domain_add_linear pl W m).2).2.percpu_enabled = m.percpu_enabled :=
        alloc_irqs_frame (fun m => m.percpu_enabled) pl pl.new_domain W _ _ (fun _ _ _ => rfl)
          (fun _ _ => rfl)
      have hca : (__irq_domain_alloc_irqs W pl pl.new_domain W
          { fwnode := pl.new_domain, param_count := 1, param := [0] }
          (irq_domain_add_linear pl W m).2).2.calls.filter is_lookup =
          m.calls.filter is_lookup := by
        rw [alloc_irqs_lookup]
        simp [irq_domain_add_linear, List.filter_append, is_lookup]
      generalize (__irq_domain_alloc_irqs W pl pl.new_domain W
          { fwnode := pl.new_domain, param_count := 1, param := [0] }
          (irq_domain_add_linear pl W m).2).2 = Y at hl hst hfw hdo hma hch hcp hvr hpe hca ⊢
      unfold fail_domain_remove fail_dispose_mapping
      by_cases hpv : pv ≠ 0 <;>
        simp [hpv, irq_dispose_mapping, irq_domain_remove, hst, hfw, hdo, hma, hch, hcp, hvr,
          hpe, hl, hca, List.filter_append, is_lookup]
    · rw [create_domain_ret, if_neg (not_or.2 ⟨hnd, hv⟩)] at h
      exact absurd h hnd


/-- When `create_domain` succeeds: the facility installed, the lines bound, the
range registered, the hooks set up once, the new domain alive. -/
theorem create_domain_some (W : Nat) (pl : Platform) (rf c s : Bool) (pv : Int) (m : Machine)
    (hnd : pl.new_domain ≠ 0) (hv : 0 < pl.virq_base) :
    (create_domain W pl rf c s pv m).1 = pl.new_domain ∧
    (create_domain W pl rf c s pv m).2.st =
      { m.st with ipi_mux_priv :=
        { domain := pl.new_domain, parent_virq := pv, clear_ipi := c, send_ipi := s } } ∧
    (create_domain W pl rf c s pv m).2.lines =
      m.lines ++ (List.range W).map
        (fun j => (pl.new_domain, virq_plus pl.virq_base.toNat j, hwirq_plus W 0 j)) ∧
    (create_domain W pl rf c s pv m).2.virq_range = some (pl.virq_base, W, rf) ∧
    (create_domain W pl rf c s pv m).2.cpuhp = m.cpuhp + 1 ∧
    (create_domain W pl rf c s pv m).2.domains = pl.new_domain :: m.domains ∧
    (create_domain W pl rf c s pv m).2.mappings = m.mappings ∧
    (create_domain W pl rf c s pv m).2.chained =
      (if pv ≠ 0 then pv.toNat :: m.chained else m.chained) := by
  have hl : (__irq_domain_alloc_irqs W pl pl.new_domain W
      { fwnode := pl.new_domain, param_count := 1, param := [0] }
      (irq_domain_add_linear pl W m).2).2.lines =
      m.lines ++ (List.range W).map
        (fun j => (pl.new_domain, virq_plus pl.virq_base.toNat j, hwirq_plus W 0 j)) := by
    rw [(alloc_irqs_create pl pl.new_domain W (irq_domain_add_linear pl W m).2).2,
      if_neg (by omega)]
    rfl
  have hst : (__irq_domain_alloc_irqs W pl pl.new_domain W
      { fwnode := pl.new_domain, param_count := 1, param := [0] }
      (irq_domain_add_linear pl W m).2).2.st = m.st :=
    alloc_irqs_frame (fun m => m.st) pl pl.new_domain W _ _ (fun _ _ _ => rfl)
      (fun _ _ => rfl)
  have hdo : (__irq_domain_alloc_irqs W pl pl.new_domain W
      { fwnode := pl.new_domain, param_count := 1, param := [0] }
      (irq_domain_add_linear pl W m).2).2.domains = pl.new_domain :: m.domains := by
    rw [alloc_irqs_frame (fun m => m.domains) pl pl.new_domain W _ _ (fun _ _ _ => rfl)
      (fun _ _ => rfl)]
    simp [irq_domain_add_linear, hnd]
  have hma : (__irq_domain_alloc_irqs W pl pl.new_domain W
      { fwnode := pl.new_domain, param_count := 1, param := [0] }
      (irq_domain_add_linear pl W m).2).2.mappings = m.mappings :=
    alloc_irqs_frame (fun m => m.mappings) pl pl.new_domain W _ _ (fun _ _ _ => rfl)
      (fun _ _ => rfl)
  have hch : (__irq_domain_alloc_irqs W pl pl.new_domain W
      { fwnode := pl.new_domain, param_count := 1, param := [0] }
      (irq_domain_add_linear pl W m).2).2.chained = m.chained :=
    alloc_irqs_frame (fun m => m.chained) pl pl.new_domain W _ _ (fun _ _ _ => rfl)
      (fun _ _ => rfl)
  have hcp : (__irq_domain_alloc_irqs W pl pl.new_domain W
      { fwnode := pl.new_domain, param_count := 1, param := [0] }
      (irq_domain_add_linear pl W m).2).2.cpuhp = m.cpuhp :=
    alloc_irqs_frame (fun m => m.cpuhp) pl pl.new_domain W _ _ (fun _ _ _ => rfl)
      (fun _ _ => rfl)
  rw [create_domain_of_ok W pl rf c s pv m hnd hv]
  generalize (__irq_domain_alloc_irqs W pl pl.new_domain W
      { fwnode := pl.new_domain, param_count := 1, param := [0] }
      (irq_domain_add_linear pl W m).2).2 = Y at hl hst hdo hma hch hcp ⊢
  by_cases hpv : pv ≠ 0 <;>
    simp [hpv, riscv_ipi_set_virq_range, cpuhp_setup_state, irq_set_chained_handler, hl, hst,
      hdo, hma, hch, hcp]

theorem create_of_active (W : Nat) (pl : Platform) (us rf c s : Bool) (m : Machine)
    (h : m.st.ipi_mux_priv.domain ≠ 0 ∨ riscv_ipi_have_virq_range m = true) :
    riscv_ipi_mux_create W pl us rf c s m = (0, m) := by
  unfold riscv_ipi_mux_create
  rw [if_pos h]

theorem create_of_no_soft (W : Nat) (pl : Platform) (rf c s : Bool) (m : Machine)
    (h : ¬ (m.st.ipi_mux_priv.domain ≠ 0 ∨ riscv_ipi_have_virq_range m = true)) :
    riscv_ipi_mux_create W pl false rf c s m = create_domain W pl rf c s 0 m := by
  unfold riscv_ipi_mux_create
  rw [if_neg h]
  simp

theorem create_of_no_intc (W : Nat) (pl : Platform) (rf c s : Bool) (m : Machine)
    (h : ¬ (m.st.ipi_mux_priv.domain ≠ 0 ∨ riscv_ipi_have_virq_range m = true))
    (hd : pl.intc_domain = 0) :
    riscv_ipi_mux_create W pl true rf c s m =
      (0, (irq_find_matching_fwnode pl (riscv_intc_fwnode pl m).1 (riscv_intc_fwnode pl m).2).2) := by
  unfold riscv_ipi_mux_create
  rw [if_neg h]
  simp [irq_find_matching_fwnode, hd]

theorem create_of_no_mapping (W : Nat) (pl : Platform) (rf c s : Bool) (m : Machine)
    (h : ¬ (m.st.ipi_mux_priv.domain ≠ 0 ∨ riscv_ipi_have_virq_range m = true))
    (hd : pl.intc_domain ≠ 0) (hs : pl.soft_virq = 0) :
    riscv_ipi_mux_create W pl true rf c s m =
      (0, (irq_create_mapping pl pl.intc_domain pl.RV_IRQ_SOFT
        (irq_find_matching_fwnode pl (riscv_intc_fwnode pl m).1 (riscv_intc_fwnode pl m).2).2).2) := by
  unfold riscv_ipi_mux_create
  rw [if_neg h]
  simp [irq_find_matching_fwnode, irq_create_mapping, hd, hs]

theorem create_of_soft (W : Nat) (pl : Platform) (rf c s : Bool) (m : Machine)
    (h : ¬ (m.st.ipi_mux_priv.domain ≠ 0 ∨ riscv_ipi_have_virq_range m = true))
    (hd : pl.intc_domain ≠ 0) (hs : pl.soft_virq ≠ 0) :
    riscv_ipi_mux_create W pl true rf c s m =
      create_domain W pl rf c s (Int.ofNat pl.soft_virq)
        (irq_create_mapping pl pl.intc_domain pl.RV_IRQ_SOFT
          (irq_find_matching_fwnode pl (riscv_intc_fwnode pl m).1
            (riscv_intc_fwnode pl m).2).2).2 := by
  unfold riscv_ipi_mux_create
  rw [if_neg h]
  have h1 : (irq_find_matching_fwnode pl (riscv_intc_fwnode pl m).1
      (riscv_intc_fwnode pl m).2).1 = pl.intc_domain := rfl
  have h2 : ∀ m', (irq_create_mapping pl pl.intc_domain pl.RV_IRQ_SOFT m').1 = pl.soft_virq :=
    fun _ => rfl
  simp only [if_true, h1, hd, if_false, h2, hs]

/-- What `riscv_ipi_mux_create` returns. -/
theorem create_ret (W : Nat) (pl : Platform) (us rf c s : Bool) (m : Machine) :
    (riscv_ipi_mux_create W pl us rf c s m).1 =
      if m.st.ipi_mux_priv.domain ≠ 0 ∨ riscv_ipi_have_virq_range m = true then 0
      else if us = true ∧ (pl.intc_domain = 0 ∨ pl.soft_virq = 0) then 0
      else if pl.new_domain = 0 ∨ pl.virq_base ≤ 0 then 0
      else pl.new_domain := by
  by_cases h : m.st.ipi_mux_priv.domain ≠ 0 ∨ riscv_ipi_have_virq_range m = true
  · rw [create_of_active W pl us rf c s m h, if_pos h]
  · rw [if_neg h]
    cases us with
    | false => rw [create_of_no_soft W pl rf c s m h, create_domain_ret]; simp
    | true =>
      by_cases hd : pl.intc_domain = 0
      · rw [create_of_no_intc W pl rf c s m h hd, if_pos ⟨rfl, Or.inl hd⟩]
      · by_cases hs : pl.soft_virq = 0
        · rw [create_of_no_mapping W pl rf c s m h hd hs, if_pos ⟨rfl, Or.inr hs⟩]
        · rw [create_of_soft W pl rf c s m h hd hs, create_domain_ret]
          simp [hd, hs]


theorem create_domain_lookup (W : Nat) (pl : Platform) (rf c s : Bool) (pv : Int) (m : Machine) :
    (create_domain W pl rf c s pv m).2.calls.filter is_lookup = m.calls.filter is_lookup ∧
    (create_domain W pl rf c s pv m).2.intc_fwnode = m.intc_fwnode ∧
    (create_domain W pl rf c s pv m).2.percpu_enabled = m.percpu_enabled := by
  by_cases hz : (create_domain W pl rf c s pv m).1 = 0
  · obtain ⟨_, h2, _, _, _, _, _, _, h9, h10⟩ := create_domain_null W pl rf c s pv m hz
    exact ⟨h10, h2, h9⟩
  · have hnd : pl.new_domain ≠ 0 := by
      intro e; apply hz; rw [create_domain_ret, if_pos (Or.inl e)]
    have hv : 0 < pl.virq_base := by
      by_contra e; apply hz; rw [create_domain_ret, if_pos (Or.inr (by omega))]
    have hca : (__irq_domain_alloc_irqs W pl pl.new_domain W
        { fwnode := pl.new_domain, param_count := 1, param := [0] }
        (irq_domain_add_linear pl W m).2).2.calls.filter is_lookup =
        m.calls.filter is_lookup := by
      rw [alloc_irqs_lookup]
      simp [irq_domain_add_linear, List.filter_append, is_lookup]
    have hfw : (__irq_domain_alloc_irqs W pl pl.new_domain W
        { fwnode := pl.new_domain, param_count := 1, param := [0] }
        (irq_domain_add_linear pl W m).2).2.intc_fwnode = m.intc_fwnode :=
      alloc_irqs_frame (fun m => m.intc_fwnode) pl pl.new_domain W _ _ (fun _ _ _ => rfl)
        (fun _ _ => rfl)
    have hpe : (__irq_domain_alloc_irqs W pl pl.new_domain W
        { fwnode := pl.new_domain, param_count := 1, param := [0] }
        (irq_domain_add_linear pl W m).2).2.percpu_enabled = m.percpu_enabled :=
      alloc_irqs_frame (fun m => m.percpu_enabled) pl pl.new_domain W _ _ (fun _ _ _ => rfl)
        (fun _ _ => rfl)
    rw [create_domain_of_ok W pl rf c s pv m hnd hv]
    generalize (__irq_domain_alloc_irqs W pl pl.new_domain W
        { fwnode := pl.new_domain, param_count := 1, param := [0] }
        (irq_domain_add_linear pl W m).2).2 = Y at hca hfw hpe ⊢
    by_cases hpv : pv ≠ 0 <;>
      simp [hpv, riscv_ipi_set_virq_range, cpuhp_setup_state, irq_set_chained_handler, hca, hfw,
        hpe, List.filter_append, is_lookup]

/-- When `riscv_ipi_mux_create` returns NULL, the statics of ipi-mux.c and every
kernel object of the multiplexer are as it found them. -/
theorem create_null (W : Nat) (pl : Platform) (us rf c s : Bool) (m : Machine)
    (h : (riscv_ipi_mux_create W pl us rf c s m).1 = 0) :
    (riscv_ipi_mux_create W pl us rf c s m).2.st = m.st ∧
    (riscv_ipi_mux_create W pl us rf c s m).2.domains = m.domains ∧
    (riscv_ipi_mux_create W pl us rf c s m).2.mappings = m.mappings ∧
    (riscv_ipi_mux_create W pl us rf c s m).2.lines = m.lines ∧
    (riscv_ipi_mux_create W pl us rf c s m).2.chained = m.chained ∧
    (riscv_ipi_mux_create W pl us rf c s m).2.cpuhp = m.cpuhp ∧
    (riscv_ipi_mux_create W pl us rf c s m).2.virq_range = m.virq_range ∧
    (riscv_ipi_mux_create W pl us rf c s m).2.percpu_enabled = m.percpu_enabled := by
  by_cases ha : m.st.ipi_mux_priv.domain ≠ 0 ∨ riscv_ipi_have_virq_range m = true
  · rw [create_of_active W pl us rf c s m ha]
    exact ⟨rfl, rfl, rfl, rfl, rfl, rfl, rfl, rfl⟩
  · cases us with
    | false =>
      rw [create_of_no_soft W pl rf c s m ha] at h ⊢
      obtain ⟨h1, _, h3, h4, h5, h6, h7, h8, h9, _⟩ := create_domain_null W pl rf c s 0 m h
      exact ⟨h1, h3, by simpa using h4, h5, h6, h7, h8, h9⟩
    | true =>
      by_cases hd : pl.intc_domain = 0
      · rw [create_of_no_intc W pl rf c s m ha hd]
        unfold irq_find_matching_fwnode riscv_intc_fwnode
        refine ⟨?_, ?_, ?_, ?_, ?_, ?_, ?_, ?_⟩ <;> (simp only []; split <;> rfl)
      · by_cases hs : pl.soft_virq = 0
        · rw [create_of_no_mapping W pl rf c s m ha hd hs]
          unfold irq_create_mapping irq_find_matching_fwnode riscv_intc_fwnode
          refine ⟨?_, ?_, ?_, ?_, ?_, ?_, ?_, ?_⟩ <;>
            (simp only [hs, if_true]; split <;> rfl)
        · rw [create_of_soft W pl rf c s m ha hd hs] at h ⊢
          obtain ⟨h1, _, h3, h4, h5, h6, h7, h8, h9, _⟩ :=
            create_domain_null W pl rf c s (Int.ofNat pl.soft_virq) _ h
          have hne : (Int.ofNat pl.soft_virq) ≠ 0 := by
            intro e; exact hs (Int.ofNat.inj e)
          rw [if_pos hne] at h4
          have hm : ∀ m0 : Machine, (irq_create_mapping pl pl.intc_domain pl.RV_IRQ_SOFT
              (irq_find_matching_fwnode pl (riscv_intc_fwnode pl m0).1
                (riscv_intc_fwnode pl m0).2).2).2.mappings = pl.soft_virq :: m0.mappings := by
            intro m0
            unfold irq_create_mapping irq_find_matching_fwnode riscv_intc_fwnode
            simp only [hs, if_false]
            split <;> rfl
          have hfr : ∀ m0 : Machine,
              (irq_create_mapping pl pl.intc_domain pl.RV_IRQ_SOFT
                (irq_find_matching_fwnode pl (riscv_intc_fwnode pl m0).1
                  (riscv_intc_fwnode pl m0).2).2).2.st = m0.st ∧
              (irq_create_mapping pl pl.intc_domain pl.RV_IRQ_SOFT
                (irq_find_matching_fwnode pl (riscv_intc_fwnode pl m0).1
                  (riscv_intc_fwnode pl m0).2).2).2.domains = m0.domains ∧
              (irq_create_mapping pl pl.intc_domain pl.RV_IRQ_SOFT
                (irq_find_matching_fwnode pl (riscv_intc_fwnode pl m0).1
                  (riscv_intc_fwnode pl m0).2).2).2.lines = m0.lines ∧
              (irq_create_mapping pl pl.intc_domain pl.RV_IRQ_SOFT
                (irq_find_matching_fwnode pl (riscv_intc_fwnode pl m0).1
                  (riscv_intc_fwnode pl m0).2).2).2.chained = m0.chained ∧
              (irq_create_mapping pl pl.intc_domain pl.RV_IRQ_SOFT
                (irq_find_matching_fwnode pl (riscv_intc_fwnode pl m0).1
                  (riscv_intc_fwnode pl m0).2).2).2.cpuhp = m0.cpuhp ∧
              (irq_create_mapping pl pl.intc_domain pl.RV_IRQ_SOFT
                (irq_find_matching_fwnode pl (riscv_intc_fwnode pl m0).1
                  (riscv_intc_fwnode pl m0).2).2).2.virq_range = m0.virq_range ∧
              (irq_create_mapping pl pl.intc_domain pl.RV_IRQ_SOFT
                (irq_find_matching_fwnode pl (riscv_intc_fwnode pl m0).1
                  (riscv_intc_fwnode pl m0).2).2).2.percpu_enabled = m0.percpu_enabled := by
            intro m0
            unfold irq_create_mapping irq_find_matching_fwnode riscv_intc_fwnode
            refine ⟨?_, ?_, ?_, ?_, ?_, ?_, ?_⟩ <;> (simp only []; split <;> rfl)
          obtain ⟨f1, f2, f3, f4, f5, f6, f7⟩ := hfr m
          rw [hm m] at h4
          refine ⟨h1.trans f1, h3.trans f2, ?_, h5.trans f3, h6.trans f4, h7.trans f5,
            h8.trans f6, h9.trans f7⟩
          rw [h4]
          simp


/-- When `riscv_ipi_mux_create` succeeds: it was entered with no facility and no
virq range, the handle is the new domain, the facility is installed with the
callbacks given, the `W` lines are bound from line 0, the range is registered and
the hooks are set up once. -/
theorem create_some (W : Nat) (pl : Platform) (us rf c s : Bool) (m : Machine)
    (h : (riscv_ipi_mux_create W pl us rf c s m).1 ≠ 0) :
    (m.st.ipi_mux_priv.domain = 0 ∧ m.virq_range = none) ∧
    (riscv_ipi_mux_create W pl us rf c s m).1 = pl.new_domain ∧
    (riscv_ipi_mux_create W pl us rf c s m).2.st =
      { m.st with ipi_mux_priv :=
        { domain := pl.new_domain, parent_virq := if us then Int.ofNat pl.soft_virq else 0,
          clear_ipi := c, send_ipi := s } } ∧
    (riscv_ipi_mux_create W pl us rf c s m).2.lines =
      m.lines ++ (List.range W).map
        (fun j => (pl.new_domain, virq_plus pl.virq_base.toNat j, hwirq_plus W 0 j)) ∧
    (riscv_ipi_mux_create W pl us rf c s m).2.virq_range = some (pl.virq_base, W, rf) ∧
    (riscv_ipi_mux_create W pl us rf c s m).2.cpuhp = m.cpuhp + 1 := by
  have hr := create_ret W pl us rf c s m
  by_cases ha : m.st.ipi_mux_priv.domain ≠ 0 ∨ riscv_ipi_have_virq_range m = true
  · rw [if_pos ha] at hr; exact absurd hr h
  · rw [if_neg ha] at hr
    by_cases hb : us = true ∧ (pl.intc_domain = 0 ∨ pl.soft_virq = 0)
    · rw [if_pos hb] at hr; exact absurd hr h
    · rw [if_neg hb] at hr
      by_cases hc : pl.new_domain = 0 ∨ pl.virq_base ≤ 0
      · rw [if_pos hc] at hr; exact absurd hr h
      · have hnd : pl.new_domain ≠ 0 := fun e => hc (Or.inl e)
        have hv : 0 < pl.virq_base := by
          by_contra e; exact hc (Or.inr (by omega))
        have hcold : m.st.ipi_mux_priv.domain = 0 ∧ m.virq_range = none := by
          constructor
          · by_contra e; exact ha (Or.inl e)
          · cases hvr : m.virq_range with
            | none => rfl
            | some x => exact absurd (Or.inr (by simp [riscv_ipi_have_virq_range, hvr])) ha
        refine ⟨hcold, ?_⟩
        cases us with
        | false =>
          rw [create_of_no_soft W pl rf c s m ha]
          obtain ⟨g1, g2, g3, g4, g5, _⟩ := create_domain_some W pl rf c s 0 m hnd hv
          exact ⟨g1, by simpa using g2, g3, g4, g5⟩
        | true =>
          have hd : pl.intc_domain ≠ 0 := fun e => hb ⟨rfl, Or.inl e⟩
          have hs : pl.soft_virq ≠ 0 := fun e => hb ⟨rfl, Or.inr e⟩
          rw [create_of_soft W pl rf c s m ha hd hs]
          obtain ⟨g1, g2, g3, g4, g5, _⟩ :=
            create_domain_some W pl rf c s (Int.ofNat pl.soft_virq)
              (irq_create_mapping pl pl.intc_domain pl.RV_IRQ_SOFT
                (irq_find_matching_fwnode pl (riscv_intc_fwnode pl m).1
                  (riscv_intc_fwnode pl m).2).2).2 hnd hv
          have f1 : (irq_create_mapping pl pl.intc_domain pl.RV_IRQ_SOFT
              (irq_find_matching_fwnode pl (riscv_intc_fwnode pl m).1
                (riscv_intc_fwnode pl m).2).2).2.st = m.st := by
            unfold irq_create_mapping irq_find_matching_fwnode riscv_intc_fwnode
            simp only []; split <;> rfl
          have f2 : (irq_create_mapping pl pl.intc_domain pl.RV_IRQ_SOFT
              (irq_find_matching_fwnode pl (riscv_intc_fwnode pl m).1
                (riscv_intc_fwnode pl m).2).2).2.lines = m.lines := by
            unfold irq_create_mapping irq_find_matching_fwnode riscv_intc_fwnode
            simp only []; split <;> rfl
          have f3 : (irq_create_mapping pl pl.intc_domain pl.RV_IRQ_SOFT
              (irq_find_matching_fwnode pl (riscv_intc_fwnode pl m).1
                (riscv_intc_fwnode pl m).2).2).2.cpuhp = m.cpuhp := by
            unfold irq_create_mapping irq_find_matching_fwnode riscv_intc_fwnode
            simp only []; split <;> rfl
          rw [f1] at g2
          rw [f2] at g3
          rw [f3] at g5
          exact ⟨g1, by simpa using g2, g3, g4, g5⟩

/-- With `use_soft_irq` false, creation does not depend on what the lookups of
the physical line would answer. -/
theorem create_no_soft_indep (W : Nat) (pl pl' : Platform) (rf c s : Bool) (m : Machine)
    (h1 : pl'.new_domain = pl.new_domain) (h2 : pl'.virq_base = pl.virq_base) :
    riscv_ipi_mux_create W pl' false rf c s m = riscv_ipi_mux_create W pl false rf c s m := by
  by_cases ha : m.st.ipi_mux_priv.domain ≠ 0 ∨ riscv_ipi_have_virq_range m = true
  · rw [create_of_active W pl' false rf c s m ha, create_of_active W pl false rf c s m ha]
  · rw [create_of_no_soft W pl' rf c s m ha, create_of_no_soft W pl rf c s m ha]
    unfold create_domain irq_domain_add_linear __irq_domain_alloc_irqs
    simp only [h1, h2]

theorem create_no_soft_lookup (W : Nat) (pl : Platform) (rf c s : Bool) (m : Machine) :
    (riscv_ipi_mux_create W pl false rf c s m).2.calls.filter is_lookup =
      m.calls.filter is_lookup ∧
    (riscv_ipi_mux_create W pl false rf c s m).2.intc_fwnode = m.intc_fwnode := by
  by_cases ha : m.st.ipi_mux_priv.domain ≠ 0 ∨ riscv_ipi_have_virq_range m = true
  · rw [create_of_active W pl false rf c s m ha]; exact ⟨rfl, rfl⟩
  · rw [create_of_no_soft W pl rf c s m ha]
    exact ⟨(create_domain_lookup W pl rf c s 0 m).1, (create_domain_lookup W pl rf c s 0 m).2.1⟩

/-! ### Destruction -/

theorem destroy_of_mismatch (d : Nat) (m : Machine)
    (h : d = 0 ∨ m.st.ipi_mux_priv.domain ≠ d) : riscv_ipi_mux_destroy d m = m := by
  unfold riscv_ipi_mux_destroy
  rw [if_pos h]

theorem destroy_uninit (d : Nat) (m : Machine) (h : m.st.ipi_mux_priv.domain = 0) :
    riscv_ipi_mux_destroy d m = m := by
  apply destroy_of_mismatch
  by_cases hd : d = 0
  · exact Or.inl hd
  · right; rw [h]; exact fun e => hd e.symm

/-- What `riscv_ipi_mux_destroy` does when the handle is the installed domain. -/
theorem destroy_of_match (m : Machine) (h : m.st.ipi_mux_priv.domain ≠ 0) :
    (riscv_ipi_mux_destroy m.st.ipi_mux_priv.domain m).st.ipi_mux_priv = ipi_mux_zero ∧
    (riscv_ipi_mux_destroy m.st.ipi_mux_priv.domain m).domains =
      m.domains.erase m.st.ipi_mux_priv.domain ∧
    (riscv_ipi_mux_destroy m.st.ipi_mux_priv.domain m).mappings =
      (if m.st.ipi_mux_priv.parent_virq ≠ 0 then
        m.mappings.erase m.st.ipi_mux_priv.parent_virq.toNat
       else m.mappings) ∧
    (riscv_ipi_mux_destroy m.st.ipi_mux_priv.domain m).calls =
      m.calls ++ [KCall.irq_domain_remove m.st.ipi_mux_priv.domain] ++
        (if m.st.ipi_mux_priv.parent_virq ≠ 0 then
          [KCall.irq_dispose_mapping m.st.ipi_mux_priv.parent_virq.toNat]
         else []) := by
  unfold riscv_ipi_mux_destroy
  rw [if_neg (not_or.2 ⟨h, fun e => e rfl⟩)]
  by_cases hp : m.st.ipi_mux_priv.parent_virq = 0
  · simp [irq_domain_remove, hp]
  · simp [irq_domain_remove, irq_dispose_mapping, hp]

/-- In no case does `riscv_ipi_mux_destroy` write a pending word, the virq range,
the lines, or the hotplug state. -/
theorem destroy_frame (d : Nat) (m : Machine) :
    (riscv_ipi_mux_destroy d m).st.ipi_mux_bits = m.st.ipi_mux_bits ∧
    (riscv_ipi_mux_destroy d m).st.pending_ipi = m.st.pending_ipi ∧
    (riscv_ipi_mux_destroy d m).st.log = m.st.log ∧
    (riscv_ipi_mux_destroy d m).virq_range = m.virq_range ∧
    (riscv_ipi_mux_destroy d m).lines = m.lines ∧
    (riscv_ipi_mux_destroy d m).cpuhp = m.cpuhp ∧
    (riscv_ipi_mux_destroy d m).percpu_enabled = m.percpu_enabled ∧
    (riscv_ipi_mux_destroy d m).intc_fwnode = m.intc_fwnode := by
  unfold riscv_ipi_mux_destroy
  by_cases h : d = 0 ∨ m.st.ipi_mux_priv.domain ≠ d
  · rw [if_pos h]; exact ⟨rfl, rfl, rfl, rfl, rfl, rfl, rfl, rfl⟩
  · rw [if_neg h]
    by_cases hp : m.st.ipi_mux_priv.parent_virq = 0
    · simp [irq_domain_remove, hp]
    · simp [irq_domain_remove, irq_dispose_mapping, hp]

theorem destroy_priv (d : Nat) (m : Machine) :
    (riscv_ipi_mux_destroy d m).st.ipi_mux_priv =
      if d = 0 ∨ m.st.ipi_mux_priv.domain ≠ d then m.st.ipi_mux_priv else ipi_mux_zero := by
  by_cases h : d = 0 ∨ m.st.ipi_mux_priv.domain ≠ d
  · rw [destroy_of_mismatch d m h, if_pos h]
  · rw [if_neg h]
    have hd : m.st.ipi_mux_priv.domain = d := by
      by_contra e; exact h (Or.inr e)
    have h0 : m.st.ipi_mux_priv.domain ≠ 0 := by
      rw [hd]; exact fun e => h (Or.inl e)
    rw [← hd]
    exact (destroy_of_match m h0).1

theorem destroy_twice (d : Nat) (m : Machine) :
    riscv_ipi_mux_destroy d (riscv_ipi_mux_destroy d m) = riscv_ipi_mux_destroy d m := by
  by_cases h : d = 0 ∨ m.st.ipi_mux_priv.domain ≠ d
  · rw [destroy_of_mismatch d m h, destroy_of_mismatch d m h]
  · apply destroy_uninit
    rw [destroy_priv, if_neg h]
    rfl

/-! ### The hotplug hooks -/

theorem starting_cpu_of_virq (cpu : Nat) (m : Machine)
    (h : m.st.ipi_mux_priv.parent_virq ≠ 0) :
    ipi_mux_starting_cpu cpu m =
      (0, enable_percpu_irq m.st.ipi_mux_priv.parent_virq.toNat cpu m) := by
  unfold ipi_mux_starting_cpu
  rw [if_pos h]

theorem starting_cpu_of_no_virq (cpu : Nat) (m : Machine)
    (h : m.st.ipi_mux_priv.parent_virq = 0) : ipi_mux_starting_cpu cpu m = (0, m) := by
  unfold ipi_mux_starting_cpu
  rw [if_neg (fun e => e h)]

theorem dying_cpu_of_virq (cpu : Nat) (m : Machine)
    (h : m.st.ipi_mux_priv.parent_virq ≠ 0) :
    ipi_mux_dying_cpu cpu m =
      (0, disable_percpu_irq m.st.ipi_mux_priv.parent_virq.toNat cpu m) := by
  unfold ipi_mux_dying_cpu
  rw [if_pos h]

theorem dying_cpu_of_no_virq (cpu : Nat) (m : Machine)
    (h : m.st.ipi_mux_priv.parent_virq = 0) : ipi_mux_dying_cpu cpu m = (0, m) := by
  unfold ipi_mux_dying_cpu
  rw [if_neg (fun e => e h)]

/-- The hooks never write the statics of ipi-mux.c, the lines or the virq
range. -/
theorem starting_cpu_frame (cpu : Nat) (m : Machine) :
    (ipi_mux_starting_cpu cpu m).2.st = m.st ∧
    (ipi_mux_starting_cpu cpu m).2.domains = m.domains ∧
    (ipi_mux_starting_cpu cpu m).2.lines = m.lines ∧
    (ipi_mux_starting_cpu cpu m).2.virq_range = m.virq_range := by
  unfold ipi_mux_starting_cpu
  simp only []
  split
  · exact ⟨rfl, rfl, rfl, rfl⟩
  · exact ⟨rfl, rfl, rfl, rfl⟩

theorem dying_cpu_frame (cpu : Nat) (m : Machine) :
    (ipi_mux_dying_cpu cpu m).2.st = m.st ∧
    (ipi_mux_dying_cpu cpu m).2.domains = m.domains ∧
    (ipi_mux_dying_cpu cpu m).2.lines = m.lines ∧
    (ipi_mux_dying_cpu cpu m).2.virq_range = m.virq_range := by
  unfold ipi_mux_dying_cpu
  simp only []
  split
  · exact ⟨rfl, rfl, rfl, rfl⟩
  · exact ⟨rfl, rfl, rfl, rfl⟩

/-! ### Sends outside the contract -/

theorem send_mask_pending_ipi (W r : Nat) (T : List Nat) (s : State) (c : Nat) :
    (ipi_mux_send_mask W r T s).pending_ipi c =
      if s.ipi_mux_priv.send_ipi = true ∧ c ∈ T then true else s.pending_ipi c := by
  have hp : ∀ (T' : List Nat) (s' : State),
      (T'.foldl (fun st cpu => set_bit W r cpu st) s').pending_ipi = s'.pending_ipi := by
    intro T'
    induction T' with
    | nil => intro s'; rfl
    | cons a T' ih => intro s'; rw [List.foldl_cons, ih]; rfl
  unfold ipi_mux_send_mask
  simp only [foldl_set_bit_priv]
  by_cases hs : s.ipi_mux_priv.send_ipi = true
  · rw [if_pos hs]
    simp only [send_ipi, hp, hs, true_and]
  · rw [if_neg hs, hp]
    simp [hs]

/-- A send to nobody writes nothing. -/
theorem send_mask_nil (W r : Nat) (s : State) :
    (ipi_mux_send_mask W r [] s).ipi_mux_bits = s.ipi_mux_bits ∧
    (ipi_mux_send_mask W r [] s).pending_ipi = s.pending_ipi ∧
    (ipi_mux_send_mask W r [] s).ipi_mux_priv = s.ipi_mux_priv := by
  refine ⟨?_, ?_, send_mask_priv W r [] s⟩
  · funext c k; rw [send_mask_bits]; simp
  · funext c; rw [send_mask_pending_ipi]; simp

/-- A send of an index at or above `W` writes the word `r / W` past the pending
set and leaves every pending set as it is. -/
theorem send_mask_out_of_range (W r : Nat) (T : List Nat) (s : State) (hW : 0 < W)
    (hr : W ≤ r) (c : Nat) :
    PendingSet (ipi_mux_send_mask W r T s) c = PendingSet s c := by
  unfold PendingSet
  rw [send_mask_bits]
  have h1 : 0 < r / W := Nat.div_pos hr hW
  rw [if_neg]
  intro h
  omega

/-! ### The cached INTC node -/

/-- The only thing `riscv_ipi_mux_create` does to the static of irq.c is the
first-use allocation made by `riscv_intc_fwnode`, which needs `use_soft_irq`. -/
theorem create_intc_fwnode (W : Nat) (pl : Platform) (us rf c s : Bool) (m : Machine) :
    (riscv_ipi_mux_create W pl us rf c s m).2.intc_fwnode =
      if (¬ (m.st.ipi_mux_priv.domain ≠ 0 ∨ riscv_ipi_have_virq_range m = true)) ∧
          us = true ∧ m.intc_fwnode = 0 then pl.fwnode_alloc
      else m.intc_fwnode := by
  by_cases ha : m.st.ipi_mux_priv.domain ≠ 0 ∨ riscv_ipi_have_virq_range m = true
  · rw [create_of_active W pl us rf c s m ha, if_neg (fun h => h.1 ha)]
  · cases us with
    | false =>
      rw [create_of_no_soft W pl rf c s m ha, (create_domain_lookup W pl rf c s 0 m).2.1]
      simp
    | true =>
      have hf : (riscv_intc_fwnode pl m).2.intc_fwnode =
          if m.intc_fwnode = 0 then pl.fwnode_alloc else m.intc_fwnode := by
        unfold riscv_intc_fwnode
        simp only []
        split <;> simp_all
      have e : (riscv_ipi_mux_create W pl true rf c s m).2.intc_fwnode =
          (riscv_intc_fwnode pl m).2.intc_fwnode := by
        unfold riscv_ipi_mux_create
        rw [if_neg ha]
        simp only [if_true]
        split
        · rfl
        · split
          · rfl
          · rw [(create_domain_lookup W pl rf c s _ _).2.1]
            rfl
      rw [e, hf]
      simp [ha]

/-! ### Runs of lifecycle operations from boot -/

theorem has_line_nil (hwirq : Nat) (m : Machine) (h : m.lines = []) :
    has_line hwirq m = false := by
  unfold has_line
  rw [h]
  rfl

/-- A drain entered with every pending word 0 leaves every pending word 0. -/
theorem handle_irq_loop_zero (env : Env) (cpu fuel : Nat) (s : State)
    (h : ∀ c k, s.ipi_mux_bits c k = 0) :
    ∀ c k, (handle_irq_loop env cpu fuel s).1.ipi_mux_bits c k = 0 := by
  intro c k
  cases fuel with
  | zero => exact h c k
  | succ n =>
    rw [handle_irq_loop_empty env cpu n s (h cpu 0)]
    show (xchg cpu (if s.ipi_mux_priv.clear_ipi then clear_ipi cpu s else s)).2.ipi_mux_bits c k = 0
    rw [xchg_clear_bits]
    split
    · rfl
    · exact h c k

/-- As long as no virq range is registered, no domain is alive, no line is bound
and every pending word is 0: one operation keeps this. -/
theorem life_step_cold (env : Env) (op : LifeOp) (m : Machine)
    (hI : m.virq_range = none →
      m.domains = [] ∧ m.lines = [] ∧ ∀ c k, m.st.ipi_mux_bits c k = 0) :
    (life_step env op m).virq_range = none →
      (life_step env op m).domains = [] ∧ (life_step env op m).lines = [] ∧
        ∀ c k, (life_step env op m).st.ipi_mux_bits c k = 0 := by
  cases op with
  | create pl us rf c s =>
    show (riscv_ipi_mux_create env.W pl us rf c s m).2.virq_range = none →
      (riscv_ipi_mux_create env.W pl us rf c s m).2.domains = [] ∧
      (riscv_ipi_mux_create env.W pl us rf c s m).2.lines = [] ∧
      ∀ c' k, (riscv_ipi_mux_create env.W pl us rf c s m).2.st.ipi_mux_bits c' k = 0
    by_cases hz : (riscv_ipi_mux_create env.W pl us rf c s m).1 = 0
    · obtain ⟨h1, h2, _, h4, _, _, h7, _⟩ := create_null env.W pl us rf c s m hz
      rw [h1, h2, h4, h7]
      exact hI
    · obtain ⟨_, _, _, _, h5, _⟩ := create_some env.W pl us rf c s m hz
      rw [h5]
      intro e
      exact absurd e (by simp)
  | destroy d =>
    show (riscv_ipi_mux_destroy d m).virq_range = none →
      (riscv_ipi_mux_destroy d m).domains = [] ∧
      (riscv_ipi_mux_destroy d m).lines = [] ∧
      ∀ c k, (riscv_ipi_mux_destroy d m).st.ipi_mux_bits c k = 0
    obtain ⟨h1, _, _, h4, h5, _⟩ := destroy_frame d m
    rw [h1, h4, h5]
    intro hv
    refine ⟨?_, (hI hv).2⟩
    by_cases hm : d = 0 ∨ m.st.ipi_mux_priv.domain ≠ d
    · rw [destroy_of_mismatch d m hm]; exact (hI hv).1
    · have hd : m.st.ipi_mux_priv.domain = d := by
        by_contra e; exact hm (Or.inr e)
      have h0 : m.st.ipi_mux_priv.domain ≠ 0 := by
        rw [hd]; exact fun e => hm (Or.inl e)
      rw [← hd, (destroy_of_match m h0).2.1, (hI hv).1]
      rfl
  | alloc pl d nr fwspec =>
    intro hv
    by_cases hl : d ∈ m.domains
    · have e : life_step env (LifeOp.alloc pl d nr fwspec) m =
          (__irq_domain_alloc_irqs env.W pl d nr fwspec m).2 := by
        show (if d ∈ m.domains then _ else _) = _
        rw [if_pos hl]
      rw [e, alloc_irqs_frame (fun x => x.virq_range) pl d nr fwspec m
        (fun _ _ _ => rfl) (fun _ _ => rfl)] at hv
      rw [(hI hv).1] at hl
      exact absurd hl (by simp)
    · have e : life_step env (LifeOp.alloc pl d nr fwspec) m = m := by
        show (if d ∈ m.domains then _ else _) = _
        rw [if_neg hl]
      rw [e] at hv ⊢
      exact hI hv
  | send hwirq mask =>
    intro hv
    by_cases hl : has_line hwirq m = true
    · have e : life_step env (LifeOp.send hwirq mask) m =
          { m with st := ipi_mux_send_mask env.W hwirq mask m.st } := by
        show (if has_line hwirq m then _ else _) = _
        rw [if_pos hl]
      rw [e] at hv
      have hn := has_line_nil hwirq m (hI hv).2.1
      rw [hn] at hl
      exact absurd hl (by simp)
    · have e : life_step env (LifeOp.send hwirq mask) m = m := by
        show (if has_line hwirq m then _ else _) = _
        rw [if_neg hl]
      rw [e] at hv ⊢
      exact hI hv
  | drain cpu fuel =>
    intro hv
    have h := hI hv
    exact ⟨h.1, h.2.1, handle_irq_loop_zero env cpu fuel m.st h.2.2⟩
  | starting_cpu cpu =>
    show (ipi_mux_starting_cpu cpu m).2.virq_range = none →
      (ipi_mux_starting_cpu cpu m).2.domains = [] ∧
      (ipi_mux_starting_cpu cpu m).2.lines = [] ∧
      ∀ c k, (ipi_mux_starting_cpu cpu m).2.st.ipi_mux_bits c k = 0
    obtain ⟨h1, h2, h3, h4⟩ := starting_cpu_frame cpu m
    rw [h1, h2, h3, h4]
    exact hI
  | dying_cpu cpu =>
    show (ipi_mux_dying_cpu cpu m).2.virq_range = none →
      (ipi_mux_dying_cpu cpu m).2.domains = [] ∧
      (ipi_mux_dying_cpu cpu m).2.lines = [] ∧
      ∀ c k, (ipi_mux_dying_cpu cpu m).2.st.ipi_mux_bits c k = 0
    obtain ⟨h1, h2, h3, h4⟩ := dying_cpu_frame cpu m
    rw [h1, h2, h3, h4]
    exact hI

theorem life_run_cold (env : Env) : ∀ (ops : List LifeOp) (m : Machine),
    (m.virq_range = none →
      m.domains = [] ∧ m.lines = [] ∧ ∀ c k, m.st.ipi_mux_bits c k = 0) →
    (life_run env ops m).virq_range = none →
      (life_run env ops m).domains = [] ∧ (life_run env ops m).lines = [] ∧
        ∀ c k, (life_run env ops m).st.ipi_mux_bits c k = 0 := by
  intro ops
  induction ops with
  | nil => intro m hI; exact hI
  | cons op ops ih =>
    intro m hI
    show (life_run env ops (life_step env op m)).virq_range = none → _
    exact ih (life_step env op m) (life_step_cold env op m hI)

/-- After any operations from boot, a machine without a virq range has every
pending word 0. -/
theorem life_run_boot_cold (env : Env) (ops : List LifeOp)
    (h : (life_run env ops boot).virq_range = none) :
    ∀ c k, (life_run env ops boot).st.ipi_mux_bits c k = 0 :=
  (life_run_cold env ops boot (fun _ => ⟨rfl, rfl, fun _ _ => rfl⟩) h).2.2

/-- `riscv_ipi_mux_create` never writes a pending word, a physical line or the
event log of the multiplexer. -/
theorem create_bits (W : Nat) (pl : Platform) (us rf c s : Bool) (m : Machine) :
    (riscv_ipi_mux_create W pl us rf c s m).2.st.ipi_mux_bits = m.st.ipi_mux_bits ∧
    (riscv_ipi_mux_create W pl us rf c s m).2.st.pending_ipi = m.st.pending_ipi ∧
    (riscv_ipi_mux_create W pl us rf c s m).2.st.log = m.st.log := by
  by_cases hz : (riscv_ipi_mux_create W pl us rf c s m).1 = 0
  · rw [(create_null W pl us rf c s m hz).1]
    exact ⟨rfl, rfl, rfl⟩
  · rw [(create_some W pl us rf c s m hz).2.2.1]
    exact ⟨rfl, rfl, rfl⟩

/-! ### Creation after destruction -/

/-- Once a creation has succeeded, the virq range it registered survives every
`riscv_ipi_mux_destroy`, and every later creation stops at the entry check. -/
theorem create_after_destroy (W : Nat) (pl : Platform) (us rf c s : Bool) (m : Machine)
    (h : (riscv_ipi_mux_create W pl us rf c s m).1 ≠ 0)
    (d W' : Nat) (pl' : Platform) (us' rf' c' s' : Bool) :
    (riscv_ipi_mux_destroy d (riscv_ipi_mux_create W pl us rf c s m).2).virq_range =
      some (pl.virq_base, W, rf) ∧
    riscv_ipi_mux_create W' pl' us' rf' c' s'
        (riscv_ipi_mux_destroy d (riscv_ipi_mux_create W pl us rf c s m).2) =
      (0, riscv_ipi_mux_destroy d (riscv_ipi_mux_create W pl us rf c s m).2) := by
  have hv : (riscv_ipi_mux_destroy d (riscv_ipi_mux_create W pl us rf c s m).2).virq_range =
      some (pl.virq_base, W, rf) := by
    rw [(destroy_frame d _).2.2.2.1]
    exact (create_some W pl us rf c s m h).2.2.2.2.1
  refine ⟨hv, ?_⟩
  apply create_of_active
  right
  unfold riscv_ipi_have_virq_range
  rw [hv]
  rfl

/-! ### The calls of a creation -/

theorem domain_alloc_loop_calls (W d virq hwirq : Nat) (x : KCall) :
    ∀ (n i : Nat) (m : Machine), x ∈ m.calls →
      x ∈ (ipi_mux_domain_alloc_loop W d virq hwirq n i m).2.calls := by
  intro n
  induction n with
  | zero => intro i m h; exact h
  | succ n ih =>
    intro i m h
    rw [ipi_mux_domain_alloc_loop]
    have e : (ipi_mux_domain_map d (virq_plus virq i) (hwirq_plus W hwirq i) m).1 = 0 := rfl
    simp only [e, ne_eq, not_true_eq_false, if_false]
    apply ih
    unfold ipi_mux_domain_map
    simp only [List.mem_append]
    exact Or.inl h

theorem alloc_irqs_calls (pl : Platform) (d W : Nat) (m : Machine) :
    KCall.irq_domain_alloc_irqs d W 1 [0] ∈
      (__irq_domain_alloc_irqs W pl d W
        { fwnode := d, param_count := 1, param := [0] } m).2.calls := by
  unfold __irq_domain_alloc_irqs
  by_cases hv : pl.virq_base ≤ 0
  · simp only [hv, if_true]
    simp
  · simp only [hv, if_false]
    have hm : KCall.irq_domain_alloc_irqs d W 1 [0] ∈
        (ipi_mux_domain_alloc W d pl.virq_base.toNat W
          { fwnode := d, param_count := 1, param := [0] }
          { m with calls := m.calls ++ [KCall.irq_domain_alloc_irqs d W 1 [0]] }).2.calls := by
      unfold ipi_mux_domain_alloc irq_domain_translate_onecell
      simp only [lt_self_iff_false, if_false, ne_eq, not_true_eq_false]
      apply domain_alloc_loop_calls
      simp
    split
    · exact hm
    · exact hm

/-- A successful creation has asked for its lines with a one-cell descriptor
whose cell is 0. -/
theorem create_requests_line_zero (W : Nat) (pl : Platform) (us rf c s : Bool) (m : Machine)
    (h : (riscv_ipi_mux_create W pl us rf c s m).1 ≠ 0) :
    KCall.irq_domain_alloc_irqs pl.new_domain W 1 [0] ∈
      (riscv_ipi_mux_create W pl us rf c s m).2.calls := by
  have hr := create_ret W pl us rf c s m
  by_cases ha : m.st.ipi_mux_priv.domain ≠ 0 ∨ riscv_ipi_have_virq_range m = true
  · rw [if_pos ha] at hr; exact absurd hr h
  · rw [if_neg ha] at hr
    by_cases hb : us = true ∧ (pl.intc_domain = 0 ∨ pl.soft_virq = 0)
    · rw [if_pos hb] at hr; exact absurd hr h
    · rw [if_neg hb] at hr
      by_cases hc : pl.new_domain = 0 ∨ pl.virq_base ≤ 0
      · rw [if_pos hc] at hr; exact absurd hr h
      · have hnd : pl.new_domain ≠ 0 := fun e => hc (Or.inl e)
        have hv : 0 < pl.virq_base := by
          by_contra e; exact hc (Or.inr (by omega))
        have key : ∀ (pv : Int) (m' : Machine),
            KCall.irq_domain_alloc_irqs pl.new_domain W 1 [0] ∈
              (create_domain W pl rf c s pv m').2.calls := by
          intro pv m'
          rw [create_domain_of_ok W pl rf c s pv m' hnd hv]
          have hm := alloc_irqs_calls pl pl.new_domain W (irq_domain_add_linear pl W m').2
          by_cases hpv : pv ≠ 0
          · rw [if_pos hpv]
            simp only [riscv_ipi_set_virq_range, cpuhp_setup_state, irq_set_chained_handler,
              List.mem_append]
            exact Or.inl (Or.inl (Or.inl hm))
          · rw [if_neg hpv]
            simp only [riscv_ipi_set_virq_range, cpuhp_setup_state, List.mem_append]
            exact Or.inl (Or.inl hm)
        cases us with
        | false => rw [create_of_no_soft W pl rf c s m ha]; exact key _ _
        | true =>
          have hd : pl.intc_domain ≠ 0 := fun e => hb ⟨rfl, Or.inl e⟩
          have hs : pl.soft_virq ≠ 0 := fun e => hb ⟨rfl, Or.inr e⟩
          rw [create_of_soft W pl rf c s m ha hd hs]; exact key _ _

/-! ### The log only grows -/

theorem send_mask_log_grows (W r : Nat) (T : List Nat) (s : State) :
    s.log <+: (ipi_mux_send_mask W r T s).log := by
  rw [send_mask_log, List.append_assoc]
  exact List.prefix_append _ _

theorem foldl_send_log_grows (W : Nat) : ∀ (L : List (Nat × List Nat)) (s : State),
    s.log <+: (L.foldl (fun st sd => ipi_mux_send_mask W sd.1 sd.2 st) s).log := by
  intro L
  induction L with
  | nil => intro s; exact List.prefix_refl _
  | cons a L ih =>
    intro s
    rw [List.foldl_cons]
    exact List.IsPrefix.trans (send_mask_log_grows W a.1 a.2 s) (ih _)

theorem handle_one_log_grows (env : Env) (cpu i : Nat) (s : State) :
    s.log <+: (handle_one env cpu i s).log := by
  have h1 : s.log <+: s.log ++ [Event.deliver cpu i] := List.prefix_append _ _
  unfold handle_one generic_handle_domain_irq
  by_cases hm : env.mapped i = true
  · simp only [hm, if_true, ne_eq, not_true_eq_false, if_false]
    unfold run_handler
    refine List.IsPrefix.trans ?_ (foldl_send_log_grows env.W _ _)
    show s.log <+: (s.log ++ [Event.deliver cpu i]) ++ [Event.handler cpu i]
    rw [List.append_assoc]
    exact List.prefix_append _ _
  · simp only [hm]
    show s.log <+: (s.log ++ [Event.deliver cpu i]) ++ [Event.warn cpu i]
    rw [List.append_assoc]
    exact List.prefix_append _ _

theorem foldl_handle_one_log_grows (env : Env) (cpu : Nat) : ∀ (l : List Nat) (s : State),
    s.log <+: (l.foldl (fun st i => handle_one env cpu i st) s).log := by
  intro l
  induction l with
  | nil => intro s; exact List.prefix_refl _
  | cons a l ih =>
    intro s
    rw [List.foldl_cons]
    exact List.IsPrefix.trans (handle_one_log_grows env cpu a s) (ih _)

theorem deliver_pending_log_grows (env : Env) (cpu irqs : Nat) (s : State) :
    s.log <+: (deliver_pending env cpu irqs s).log := by
  rw [deliver_pending_eq]
  exact foldl_handle_one_log_grows env cpu _ s

theorem xchg_clear_log_grows (c : Nat) (s : State) :
    s.log <+: (xchg c (if s.ipi_mux_priv.clear_ipi then clear_ipi c s else s)).2.log := by
  rw [xchg_clear_log, List.append_assoc]
  exact List.prefix_append _ _

theorem handle_irq_loop_log_grows (env : Env) (c : Nat) : ∀ (fuel : Nat) (s : State),
    s.log <+: (handle_irq_loop env c fuel s).1.log := by
  intro fuel
  induction fuel with
  | zero => intro s; exact List.prefix_refl _
  | succ n ih =>
    intro s
    by_cases h0 : s.ipi_mux_bits c 0 = 0
    · rw [handle_irq_loop_empty env c n s h0]
      exact xchg_clear_log_grows c s
    · rw [handle_irq_loop_nonempty env c n s h0]
      exact List.IsPrefix.trans
        (List.IsPrefix.trans (xchg_clear_log_grows c s) (deliver_pending_log_grows env c _ _))
        (ih _)

/-! ### What the first pass of a drain delivers, whatever the handlers do -/

theorem deliver_pending_delivered (env : Env) (c irqs : Nat) (s : State) :
    delivered c (deliver_pending env c irqs s).log = delivered c s.log ++ set_bits env.W irqs := by
  unfold delivered
  rw [deliver_pending_filterMap (deliver_on c) env c irqs s (fun _ => rfl)
    (fun _ _ _ _ _ _ => rfl)]
  have := delivered_line_events env c c (set_bits env.W irqs)
  unfold delivered at this
  rw [this, if_pos rfl]

/-- A pass entered with bit `r` of the pending set set delivers line `r`: after at
least one pass the log holds one more `generic_handle_domain_irq` call for `r` than
before, at least. -/
theorem first_pass_delivers (env : Env) (c fuel r : Nat) (s : State) (hr : r < env.W)
    (hb : (PendingSet s c).testBit r = true) :
    s.log.count (Event.deliver c r) + 1 ≤
      (handle_irq_loop env c (fuel + 1) s).1.log.count (Event.deliver c r) := by
  have h0 : s.ipi_mux_bits c 0 ≠ 0 := by
    intro e
    unfold PendingSet at hb
    rw [e] at hb
    simp at hb
  rw [handle_irq_loop_nonempty env c fuel s h0]
  obtain ⟨X, hX⟩ := handle_irq_loop_log_grows env c fuel
    (deliver_pending env c (s.ipi_mux_bits c 0)
      (xchg c (if s.ipi_mux_priv.clear_ipi then clear_ipi c s else s)).2)
  rw [← hX, List.count_append, count_deliver_eq c r (deliver_pending env c _ _).log,
    deliver_pending_delivered, List.count_append, ← count_deliver_eq]
  have hx : (xchg c (if s.ipi_mux_priv.clear_ipi then clear_ipi c s else s)).2.log.count
      (Event.deliver c r) = s.log.count (Event.deliver c r) := by
    rw [xchg_clear_log]
    by_cases hcb : s.ipi_mux_priv.clear_ipi = true <;> simp [hcb, List.count_append]
  have hm : r ∈ set_bits env.W (s.ipi_mux_bits c 0) := (mem_set_bits _ _ _).2 ⟨hr, hb⟩
  have hc : 1 ≤ (set_bits env.W (s.ipi_mux_bits c 0)).count r := List.count_pos_iff.2 hm
  rw [hx]
  omega

/-- The drain returns only after an exchange that read 0: at return the pending
set of the draining CPU is 0. -/
theorem handle_irq_loop_returns_empty (env : Env) (c : Nat) : ∀ (fuel : Nat) (s : State),
    (handle_irq_loop env c fuel s).2 = true →
    (handle_irq_loop env c fuel s).1.ipi_mux_bits c 0 = 0 := by
  intro fuel
  induction fuel with
  | zero => intro s h; simp [handle_irq_loop] at h
  | succ n ih =>
    intro s h
    by_cases h0 : s.ipi_mux_bits c 0 = 0
    · rw [handle_irq_loop_empty env c n s h0]
      show (xchg c (if s.ipi_mux_priv.clear_ipi then clear_ipi c s else s)).2.ipi_mux_bits c 0 = 0
      rw [xchg_clear_bits, if_pos ⟨rfl, rfl⟩]
    · rw [handle_irq_loop_nonempty env c n s h0] at h ⊢
      exact ih _ h

/-! ### The trace of a drain -/

theorem loop_events_line_events (env : Env) (c : Nat) : ∀ l : List Nat,
    (line_events env c l).filterMap (loop_event_on c) = l.map (Event.deliver c) := by
  intro l
  induction l with
  | nil => rfl
  | cons i l ih =>
    unfold line_events
    by_cases hm : env.mapped i = true
    · simp [hm, loop_event_on, ih, List.filterMap_cons]
    · simp [hm, loop_event_on, ih, List.filterMap_cons]

theorem deliver_pending_loop_events (env : Env) (c irqs : Nat) (s : State) :
    loop_events c (deliver_pending env c irqs s).log =
      loop_events c s.log ++ (set_bits env.W irqs).map (Event.deliver c) := by
  unfold loop_events
  rw [deliver_pending_filterMap (loop_event_on c) env c irqs s (fun _ => rfl)
    (fun _ _ _ _ _ _ => rfl), loop_events_line_events]

theorem xchg_clear_loop_events (c : Nat) (s : State) :
    loop_events c (xchg c (if s.ipi_mux_priv.clear_ipi then clear_ipi c s else s)).2.log =
      loop_events c s.log ++ (if s.ipi_mux_priv.clear_ipi then [Event.clear_ipi c] else []) ++
        [Event.xchg c (s.ipi_mux_bits c 0)] := by
  unfold loop_events
  rw [xchg_clear_log]
  by_cases hcb : s.ipi_mux_priv.clear_ipi = true <;>
    simp [hcb, loop_event_on, List.filterMap_append]

theorem is_drain_trace_delivering_of_head (cb : Bool) (c : Nat) (l : List Event)
    (h : is_drain_trace cb c TracePos.head l = true) :
    is_drain_trace cb c TracePos.delivering l = true := by
  cases l with
  | nil => simp [is_drain_trace] at h
  | cons e l =>
    cases e with
    | clear_ipi c' => simpa [is_drain_trace] using h
    | xchg c' v => simpa [is_drain_trace] using h
    | set_bit a b => simp [is_drain_trace] at h
    | send_ipi a => simp [is_drain_trace] at h
    | deliver a b => simp [is_drain_trace] at h
    | handler a b => simp [is_drain_trace] at h
    | warn a b => simp [is_drain_trace] at h

theorem is_drain_trace_delivers (cb : Bool) (c : Nat) (rest : List Event) : ∀ L : List Nat,
    is_drain_trace cb c TracePos.delivering rest = true →
    is_drain_trace cb c TracePos.delivering (L.map (Event.deliver c) ++ rest) = true := by
  intro L
  induction L with
  | nil => intro h; exact h
  | cons i L ih =>
    intro h
    simp only [List.map_cons, List.cons_append, is_drain_trace, decide_True, Bool.true_and]
    exact ih h

/-- A pass that goes round, followed by the trace of a drain, is the trace of a
drain. -/
theorem is_drain_trace_pass (cb : Bool) (c p : Nat) (L : List Nat) (rest : List Event)
    (hp : p ≠ 0) (h : is_drain_trace cb c TracePos.head rest = true) :
    is_drain_trace cb c TracePos.head
      ((if cb then [Event.clear_ipi c] else []) ++ [Event.xchg c p] ++
        (L.map (Event.deliver c) ++ rest)) = true := by
  have hd := is_drain_trace_delivers cb c rest L (is_drain_trace_delivering_of_head cb c rest h)
  cases cb with
  | true => simp [is_drain_trace, hp, hd]
  | false => simp [is_drain_trace, hp, hd]

theorem is_drain_trace_last (cb : Bool) (c : Nat) :
    is_drain_trace cb c TracePos.head
      ((if cb then [Event.clear_ipi c] else []) ++ [Event.xchg c 0]) = true := by
  cases cb with
  | true => simp [is_drain_trace]
  | false => simp [is_drain_trace]

/-- The events the drain loop of `c` adds to the log, when the drain returns, are
the trace of a drain. -/
theorem handle_irq_loop_trace (env : Env) (c : Nat) : ∀ (fuel : Nat) (s : State),
    (handle_irq_loop env c fuel s).2 = true →
    ∃ ev, loop_events c (handle_irq_loop env c fuel s).1.log = loop_events c s.log ++ ev ∧
      is_drain_trace s.ipi_mux_priv.clear_ipi c TracePos.head ev = true := by
  intro fuel
  induction fuel with
  | zero => intro s h; simp [handle_irq_loop] at h
  | succ n ih =>
    intro s h
    by_cases h0 : s.ipi_mux_bits c 0 = 0
    · rw [handle_irq_loop_empty env c n s h0]
      refine ⟨(if s.ipi_mux_priv.clear_ipi then [Event.clear_ipi c] else []) ++
        [Event.xchg c 0], ?_, is_drain_trace_last _ c⟩
      show loop_events c (xchg c (if s.ipi_mux_priv.clear_ipi then clear_ipi c s else s)).2.log = _
      rw [xchg_clear_loop_events, h0, List.append_assoc]
    · rw [handle_irq_loop_nonempty env c n s h0] at h ⊢
      obtain ⟨ev, h1, h2⟩ := ih _ h
      rw [deliver_pending_priv, xchg_clear_priv] at h2
      refine ⟨(if s.ipi_mux_priv.clear_ipi then [Event.clear_ipi c] else []) ++
        [Event.xchg c (s.ipi_mux_bits c 0)] ++
        ((set_bits env.W (s.ipi_mux_bits c 0)).map (Event.deliver c) ++ ev), ?_,
        is_drain_trace_pass _ c _ _ ev h0 h2⟩
      rw [h1, deliver_pending_loop_events, xchg_clear_loop_events]
      simp only [List.append_assoc]

/-! ### The armed reasons of the interleaved system, whatever the callbacks -/

theorem armedInv_init (env : Env) (p : ipi_mux) : ArmedInv env (Sys.init p) := by
  intro C r _ h
  simp [Sys.init, init, armed] at h

theorem armedInv_send_step (env : Env) (y : Sys) (k : Nat) (hL : ArmedInv env y) :
    ArmedInv env (step env (Action.send_step k) y) := by
  show ArmedInv env (send_step env.W k y)
  cases hk : y.senders.get? k with
  | none => rw [send_step_none env.W k y hk]; exact hL
  | some sd =>
    cases hr : sd.rest with
    | nil =>
      rw [send_step_nil env.W k y sd hk hr]
      intro C r hr' ha
      have hst : (armed C r (if y.st.ipi_mux_priv.send_ipi then send_ipi sd.mask y.st
          else y.st).log = armed C r y.st.log) ∧
          (if y.st.ipi_mux_priv.send_ipi then send_ipi sd.mask y.st else y.st).ipi_mux_bits =
            y.st.ipi_mux_bits := by
        split
        · refine ⟨?_, rfl⟩
          rw [show (send_ipi sd.mask y.st).log = y.st.log ++ [Event.send_ipi sd.mask] from rfl,
            armed_append]
          simp
        · exact ⟨rfl, rfl⟩
      have ha' : armed C r y.st.log = true := by
        rw [← hst.1]; exact ha
      show ((if y.st.ipi_mux_priv.send_ipi then send_ipi sd.mask y.st
          else y.st).ipi_mux_bits C 0).testBit r = true ∨ _
      rw [hst.2]
      exact hL C r hr' ha'
    | cons cpu rest =>
      rw [send_step_cons env.W k y sd cpu rest hk hr]
      intro C r hr' ha
      have hmono : (y.st.ipi_mux_bits C 0).testBit r = true →
          ((set_bit env.W sd.hwirq cpu y.st).ipi_mux_bits C 0).testBit r = true := by
        intro hb
        simp only [set_bit]
        split
        · rw [Nat.testBit_lor, hb]; rfl
        · exact hb
      show ((set_bit env.W sd.hwirq cpu y.st).ipi_mux_bits C 0).testBit r = true ∨ _
      rw [show ({ y with st := set_bit env.W sd.hwirq cpu y.st,
                         senders := y.senders.set k { sd with rest := rest } } : Sys).st.log =
          y.st.log ++ [Event.set_bit sd.hwirq cpu] from rfl, armed_append] at ha
      simp only [List.foldl_cons, List.foldl_nil] at ha
      by_cases he : Event.set_bit sd.hwirq cpu = Event.set_bit r C
      · injection he with e1 e2
        left
        simp only [set_bit]
        rw [if_pos ⟨e2.symm, by rw [e1, Nat.div_eq_of_lt hr']⟩, e1, Nat.mod_eq_of_lt hr',
          testBit_lor_one_shiftLeft]
        simp
      · rw [if_neg he, if_neg (by simp)] at ha
        rcases hL C r hr' ha with h1 | h1
        · exact Or.inl (hmono h1)
        · exact Or.inr h1

theorem armedInv_irq_step (env : Env) (y : Sys) (c : Nat) (hL : ArmedInv env y) :
    ArmedInv env (step env (Action.irq_step c) y) := by
  show ArmedInv env (irq_step env c y)
  cases hpc : y.drain c with
  | idle =>
    rw [irq_step_idle env c y hpc]
    intro C r hr ha
    rcases hL C r hr ha with h1 | ⟨irqs, bit, h1, h2, h3⟩
    · exact Or.inl h1
    · have hc : C ≠ c := by
        intro e; rw [e, hpc] at h1; cases h1
      exact Or.inr ⟨irqs, bit, by simpa [hc] using h1, h2, h3⟩
  | at_clear =>
    rw [irq_step_at_clear env c y hpc]
    have hbits : (if y.st.ipi_mux_priv.clear_ipi then clear_ipi c y.st else y.st).ipi_mux_bits =
        y.st.ipi_mux_bits := by
      split <;> rfl
    intro C r hr ha
    show ((if y.st.ipi_mux_priv.clear_ipi then clear_ipi c y.st
      else y.st).ipi_mux_bits C 0).testBit r = true ∨ _
    have ha' : armed C r y.st.log = true := by
      rw [← armed_clear C r c y.st]; exact ha
    rw [hbits]
    rcases hL C r hr ha' with h1 | ⟨irqs, bit, h1, h2, h3⟩
    · exact Or.inl h1
    · have hc : C ≠ c := by
        intro e; rw [e, hpc] at h1; cases h1
      exact Or.inr ⟨irqs, bit, by simpa [hc] using h1, h2, h3⟩
  | at_xchg =>
    rw [irq_step_at_xchg env c y hpc]
    have hbits : ∀ C, C ≠ c → (xchg c y.st).2.ipi_mux_bits C 0 = y.st.ipi_mux_bits C 0 := by
      intro C hC; simp [xchg, hC]
    have harm : ∀ C r, armed C r (xchg c y.st).2.log = armed C r y.st.log := by
      intro C r
      rw [show (xchg c y.st).2.log = y.st.log ++ [Event.xchg c (y.st.ipi_mux_bits c 0)] from rfl,
        armed_append]
      simp
    intro C r hr ha
    have ha' : armed C r y.st.log = true := by
      rw [← harm C r]; exact ha
    by_cases hc : C = c
    · subst hc
      right
      rcases hL C r hr ha' with h1 | ⟨irqs, bit, h1, _, _⟩
      · have hne : (xchg C y.st).1 ≠ 0 := by
          intro e
          have : (xchg C y.st).1 = y.st.ipi_mux_bits C 0 := rfl
          rw [this] at e
          rw [e] at h1
          simp at h1
        refine ⟨(xchg C y.st).1, find_first_bit (xchg C y.st).1 env.W, by simp [hne], h1, ?_⟩
        exact find_next_bit_le_of_testBit _ _ _ _ h1 (Nat.zero_le _) hr
      · rw [hpc] at h1; cases h1
    · show ((xchg c y.st).2.ipi_mux_bits C 0).testBit r = true ∨ _
      rw [hbits C hc]
      rcases hL C r hr ha' with h1 | ⟨irqs, bit, h1, h2, h3⟩
      · exact Or.inl h1
      · exact Or.inr ⟨irqs, bit, by simpa [hc] using h1, h2, h3⟩
  | delivering irqs bit =>
    by_cases hb : bit < env.W
    · rw [irq_step_delivering env c irqs bit y hpc hb]
      intro C r hr ha
      simp only [armed_handle_one_quiet] at ha
      simp only [handle_one_quiet_bits]
      by_cases hcr : c = C ∧ bit = r
      · rw [if_pos hcr] at ha; cases ha
      · rw [if_neg hcr] at ha
        rcases hL C r hr ha with h1 | ⟨irqs', bit', h1, h2, h3⟩
        · exact Or.inl h1
        · right
          by_cases hc : C = c
          · subst hc
            rw [hpc] at h1
            injection h1 with e1 e2
            rw [← e1] at h2
            rw [← e2] at h3
            have hne : bit ≠ r := fun e => hcr ⟨rfl, e⟩
            exact ⟨irqs, find_next_bit irqs env.W (bit + 1), by simp, h2,
              find_next_bit_le_of_testBit _ _ _ _ h2 (by omega) hr⟩
          · exact ⟨irqs', bit', by simpa [hc] using h1, h2, h3⟩
    · rw [irq_step_pass_end env c irqs bit y hpc hb]
      intro C r hr ha
      rcases hL C r hr ha with h1 | ⟨irqs', bit', h1, h2, h3⟩
      · exact Or.inl h1
      · by_cases hc : C = c
        · subst hc
          rw [hpc] at h1
          injection h1 with e1 e2
          rw [← e2] at h3
          omega
        · exact Or.inr ⟨irqs', bit', by simpa [hc] using h1, h2, h3⟩

theorem armedInv_step (env : Env) (a : Action) (y : Sys) (h : ArmedInv env y) :
    ArmedInv env (step env a y) := by
  cases a with
  | send_call hwirq mask => exact h
  | send_step k => exact armedInv_send_step env y k h
  | irq_step c => exact armedInv_irq_step env y c h

theorem armedInv_run (env : Env) : ∀ (acts : List Action) (y : Sys), ArmedInv env y →
    ArmedInv env (run env acts y) := by
  intro acts
  induction acts with
  | nil => intro y h; exact h
  | cons a acts ih =>
    intro y h
    show ArmedInv env (run env acts (step env a y))
    exact ih _ (armedInv_step env a y h)

/-! ### Registrations of the virq range -/

theorem alloc_irqs_filter (p : KCall → Bool)
    (hp1 : ∀ irq, p (KCall.irq_set_percpu_devid irq) = false)
    (hp2 : ∀ d v h, p (KCall.irq_domain_set_info d v h) = false)
    (hp3 : ∀ d n c l, p (KCall.irq_domain_alloc_irqs d n c l) = false)
    {Wl : Nat} (pl : Platform) (d nr : Nat) (fwspec : irq_fwspec) (m : Machine) :
    (__irq_domain_alloc_irqs Wl pl d nr fwspec m).2.calls.filter p = m.calls.filter p := by
  have h1 : ∀ m1 : Machine,
      (ipi_mux_domain_alloc Wl d pl.virq_base.toNat nr fwspec m1).2.calls.filter p =
        m1.calls.filter p :=
    fun m1 => domain_alloc_frame (fun m => m.calls.filter p) Wl d _ nr fwspec m1
      (fun irq hw m => by
        unfold ipi_mux_domain_map
        simp [List.filter_append, List.filter_cons, hp1, hp2])
  unfold __irq_domain_alloc_irqs
  by_cases hv : pl.virq_base ≤ 0
  · simp [hv, List.filter_append, List.filter_cons, hp3]
  · simp only [hv, if_false]
    split <;> (rw [h1]; simp [List.filter_append, List.filter_cons, hp3])

theorem create_domain_set_range (W : Nat) (pl : Platform) (rf c s : Bool) (pv : Int)
    (m : Machine) (hnd : pl.new_domain ≠ 0) (hv : 0 < pl.virq_base) :
    (create_domain W pl rf c s pv m).2.calls.filter is_set_range =
      m.calls.filter is_set_range ++ [KCall.riscv_ipi_set_virq_range pl.virq_base W rf] := by
  rw [create_domain_of_ok W pl rf c s pv m hnd hv]
  have ha := @alloc_irqs_filter is_set_range (fun _ => rfl) (fun _ _ _ => rfl)
    (fun _ _ _ _ => rfl) W pl pl.new_domain W
    { fwnode := pl.new_domain, param_count := 1, param := [0] } (irq_domain_add_linear pl W m).2
  have hb : (irq_domain_add_linear pl W m).2.calls.filter is_set_range =
      m.calls.filter is_set_range := by
    simp [irq_domain_add_linear, List.filter_append, is_set_range]
  rw [hb] at ha
  by_cases hpv : pv ≠ 0
  · rw [if_pos hpv]
    simp only [riscv_ipi_set_virq_range, cpuhp_setup_state, irq_set_chained_handler,
      List.filter_append, ha]
    simp [is_set_range]
  · rw [if_neg hpv]
    simp only [riscv_ipi_set_virq_range, cpuhp_setup_state, List.filter_append, ha]
    simp [is_set_range]

/-- A successful creation registers the virq range once: it adds one
`riscv_ipi_set_virq_range` call, with the first virq of the lines, the width and
`use_for_rfence`. -/
theorem create_set_range (W : Nat) (pl : Platform) (us rf c s : Bool) (m : Machine)
    (h : (riscv_ipi_mux_create W pl us rf c s m).1 ≠ 0) :
    (riscv_ipi_mux_create W pl us rf c s m).2.calls.filter is_set_range =
      m.calls.filter is_set_range ++ [KCall.riscv_ipi_set_virq_range pl.virq_base W rf] := by
  have hr := create_ret W pl us rf c s m
  by_cases ha : m.st.ipi_mux_priv.domain ≠ 0 ∨ riscv_ipi_have_virq_range m = true
  · rw [if_pos ha] at hr; exact absurd hr h
  · rw [if_neg ha] at hr
    by_cases hb : us = true ∧ (pl.intc_domain = 0 ∨ pl.soft_virq = 0)
    · rw [if_pos hb] at hr; exact absurd hr h
    · rw [if_neg hb] at hr
      by_cases hc : pl.new_domain = 0 ∨ pl.virq_base ≤ 0
      · rw [if_pos hc] at hr; exact absurd hr h
      · have hnd : pl.new_domain ≠ 0 := fun e => hc (Or.inl e)
        have hv : 0 < pl.virq_base := by
          by_contra e; exact hc (Or.inr (by omega))
        cases us with
        | false =>
          rw [create_of_no_soft W pl rf c s m ha]
          exact create_domain_set_range W pl rf c s 0 m hnd hv
        | true =>
          have hd : pl.intc_domain ≠ 0 := fun e => hb ⟨rfl, Or.inl e⟩
          have hs : pl.soft_virq ≠ 0 := fun e => hb ⟨rfl, Or.inr e⟩
          rw [create_of_soft W pl rf c s m ha hd hs, create_domain_set_range W pl rf c s _ _ hnd hv]
          have : (irq_create_mapping pl pl.intc_domain pl.RV_IRQ_SOFT
              (irq_find_matching_fwnode pl (riscv_intc_fwnode pl m).1
                (riscv_intc_fwnode pl m).2).2).2.calls.filter is_set_range =
              m.calls.filter is_set_range := by
            unfold irq_create_mapping irq_find_matching_fwnode riscv_intc_fwnode
            simp only []
            split <;> simp [List.filter_append, is_set_range]
          rw [this]

/-! ### Allocation with a malformed descriptor -/

theorem domain_alloc_of_bad (W d virq nr_irqs : Nat) (fwspec : irq_fwspec) (m : Machine)
    (h : fwspec.param_count < 1) :
    ipi_mux_domain_alloc W d virq nr_irqs fwspec m = (-22, m) := by
  unfold ipi_mux_domain_alloc irq_domain_translate_onecell
  simp only [h, if_true]
  rfl

/-! ## The claims -/

/-- C1: when no handler run by the drain on CPU `c` sends to `c`, the drain
`riscv_ipi_mux_handle_irq` on `c`, entered with pending set `p`, returns, has
called `generic_handle_domain_irq` exactly once more for every index whose bit is
set in `p` and not at all for an index whose bit is clear (so that the handler of
a mapped line has run once if its bit is set in `p` and not at all otherwise),
and leaves the pending set of `c` equal to 0. -/
theorem handle_irq_delivers_pending (env : Env) (c p fuel : Nat) (s : State)
    (hp : PendingSet s c = p) (hW : p < 2 ^ env.W)
    (hq : ∀ i st, ∀ sd ∈ env.handler c i st, c ∉ sd.2) :
    ∃ s', riscv_ipi_mux_handle_irq env c (fuel + 2) s = some s' ∧
      (∀ i, p.testBit i = true →
        s'.log.count (Event.deliver c i) = s.log.count (Event.deliver c i) + 1) ∧
      (∀ i, p.testBit i = false →
        s'.log.count (Event.deliver c i) = s.log.count (Event.deliver c i)) ∧
      (∀ i, env.mapped i = true →
        (handled c s'.log).count i =
          (handled c s.log).count i + (if p.testBit i = true then 1 else 0)) ∧
      PendingSet s' c = 0 := by
  obtain ⟨h1, _, h3, _⟩ := drain_quiet env c hq fuel s
  refine ⟨_, handle_irq_of_loop env c _ s h1, ?_, ?_, ?_, h3⟩
  · intro i hi
    rw [count_deliver_eq, count_deliver_eq, drain_quiet_delivered env c hq, hp,
      List.count_append, count_set_bits, if_pos ⟨testBit_lt_of_lt_two_pow hW hi, hi⟩]
  · intro i hi
    rw [count_deliver_eq, count_deliver_eq, drain_quiet_delivered env c hq, hp,
      List.count_append, count_set_bits, if_neg (by simp [hi])]
    rfl
  · intro i hm
    rw [drain_quiet_handled env c hq, hp, List.count_append, count_filter_set_bits]
    by_cases hi : p.testBit i = true
    · simp [hi, testBit_lt_of_lt_two_pow hW hi, hm]
    · simp [hi]

/-- Scenario A: width 32, handlers on 0 and 5, `send(5, {0})`, then the drain on
CPU 0 with two passes of fuel. -/
theorem handle_irq_delivers_pending_witness :
    PendingSet (ipi_mux_send_mask 32 5 [0] (init priv_both)) 0 = 32 ∧
    32 < 2 ^ env_passive.W ∧
    (∀ i st, ∀ sd ∈ env_passive.handler 0 i st, 0 ∉ sd.2) ∧
    ∃ s', riscv_ipi_mux_handle_irq env_passive 0 2
        (ipi_mux_send_mask 32 5 [0] (init priv_both)) = some s' ∧
      (∀ i, Nat.testBit 32 i = true →
        s'.log.count (Event.deliver 0 i) =
          (ipi_mux_send_mask 32 5 [0] (init priv_both)).log.count (Event.deliver 0 i) + 1) ∧
      (∀ i, Nat.testBit 32 i = false →
        s'.log.count (Event.deliver 0 i) =
          (ipi_mux_send_mask 32 5 [0] (init priv_both)).log.count (Event.deliver 0 i)) ∧
      (∀ i, env_passive.mapped i = true →
        (handled 0 s'.log).count i =
          (handled 0 (ipi_mux_send_mask 32 5 [0] (init priv_both)).log).count i +
            (if Nat.testBit 32 i = true then 1 else 0)) ∧
      PendingSet s' 0 = 0 :=
  ⟨by decide, by decide, by intro i st sd h; simp [env_passive] at h,
   handle_irq_delivers_pending env_passive 0 32 0 (ipi_mux_send_mask 32 5 [0] (init priv_both))
    (by decide) (by decide) (by intro i st sd h; simp [env_passive] at h)⟩

/-- C2: in every state the interleaved system reaches from a fresh facility
with a `send_ipi` callback, by any schedule of the atomic steps of sends and of
the drains, if the state is quiescent for CPU `C` (no send in progress, the drain
of `C` not running, the physical IPI of `C` not raised) then the pending set of
`C` is 0, and for every reason `r < W` every completed `set_bit` of a send of `r`
to `C` has been followed by a delivery of `r` on `C`. -/
theorem no_lost_reason (env : Env) (p : ipi_mux) (acts : List Action) (C : Nat)
    (hp : p.send_ipi = true) (hq : Quiescent (run env acts (Sys.init p)) C) :
    PendingSet (run env acts (Sys.init p)).st C = 0 ∧
    ∀ r, r < env.W → NoLost C r (run env acts (Sys.init p)).st.log := by
  obtain ⟨_, _, hJ, hL⟩ := sysInv_run env acts _ (sysInv_init env p hp)
  obtain ⟨q1, q2, q3⟩ := hq
  have hz : (run env acts (Sys.init p)).st.ipi_mux_bits C 0 = 0 := by
    by_contra hne
    rcases hJ C hne with h1 | ⟨sd, hsd, _⟩ | h1
    · rw [q3] at h1; cases h1
    · rw [q1] at hsd; cases hsd
    · exact h1 q2
  refine ⟨hz, fun r hr => ?_⟩
  rw [noLost_iff_armed]
  by_contra hne
  have ha : armed C r (run env acts (Sys.init p)).st.log = true := by
    simpa using hne
  rcases hL C r hr ha with h1 | ⟨irqs, bit, h1, _, _⟩
  · rw [hz] at h1; simp at h1
  · rw [q2] at h1; cases h1

/-- A send of reason 5 to CPU 0 racing with the drain of CPU 0: the bit is set,
the drain enters, clears the physical IPI and captures the bit, the send then
raises the physical IPI, and the drain delivers line 5 and goes round once more. -/
theorem no_lost_reason_witness :
    priv_both.send_ipi = true ∧
    Quiescent (run env_passive
      [Action.send_call 5 [0], Action.send_step 0, Action.irq_step 0, Action.irq_step 0,
       Action.irq_step 0, Action.send_step 0, Action.irq_step 0, Action.irq_step 0,
       Action.irq_step 0, Action.irq_step 0] (Sys.init priv_both)) 0 ∧
    PendingSet (run env_passive
      [Action.send_call 5 [0], Action.send_step 0, Action.irq_step 0, Action.irq_step 0,
       Action.irq_step 0, Action.send_step 0, Action.irq_step 0, Action.irq_step 0,
       Action.irq_step 0, Action.irq_step 0] (Sys.init priv_both)).st 0 = 0 ∧
    ∀ r, r < env_passive.W → NoLost 0 r (run env_passive
      [Action.send_call 5 [0], Action.send_step 0, Action.irq_step 0, Action.irq_step 0,
       Action.irq_step 0, Action.send_step 0, Action.irq_step 0, Action.irq_step 0,
       Action.irq_step 0, Action.irq_step 0] (Sys.init priv_both)).st.log :=
  ⟨rfl, ⟨rfl, rfl, rfl⟩,
   no_lost_reason env_passive priv_both
    [Action.send_call 5 [0], Action.send_step 0, Action.irq_step 0, Action.irq_step 0,
     Action.irq_step 0, Action.send_step 0, Action.irq_step 0, Action.irq_step 0,
     Action.irq_step 0, Action.irq_step 0] 0 rfl ⟨rfl, rfl, rfl⟩⟩

/-- C3 fails as stated: the handler of line 1 sends reason 3 to CPU 0. The
sequence `send(1, {0})`, `send(3, {0})`, drain on CPU 0 runs to completion, and
in its log line 3 is delivered twice on CPU 0 while no send of reason 3 to CPU 0
lies between the two deliveries: both sends of reason 3, the one of the sequence
and the one of the handler of line 1, come before the first. -/
theorem spurious_resend_counterexample :
    ∃ s, run_ops env_resend 3 [Op.send 1 [0], Op.send 3 [0], Op.drain 0] (init priv_both) =
        some s ∧
      delivered 0 s.log = [1, 3, 3] ∧ ¬ NoSpurious 0 3 s.log := by
  refine ⟨_, rfl, by decide, ?_⟩
  rw [noSpurious_iff_alternates]
  decide

/-- C3 as amended: starting from a fresh facility, for every sequence of sends and
drains in which no handler sends to the CPU it runs on, the sequence runs to
completion and, for every CPU `C` and reason `r`, every delivery of `r` on `C`
comes after a send of `r` to `C` with no other delivery of `r` on `C` in
between. -/
theorem no_spurious_delivery (env : Env) (p : ipi_mux) (fuel : Nat) (ops : List Op)
    (hq : ∀ c i st, ∀ sd ∈ env.handler c i st, c ∉ sd.2) :
    ∃ s, run_ops env (fuel + 2) ops (init p) = some s ∧
      ∀ C r, NoSpurious C r s.log := by
  obtain ⟨s, e, h⟩ := sendTracked_run_ops env fuel hq ops (init p)
  exact ⟨s, e, fun C r =>
    (noSpurious_iff_alternates C r s.log).2 (h C r (sendTracked_init p C r)).1⟩

/-- A sequence with the same reason sent, drained, sent again twice and drained. -/
theorem no_spurious_delivery_witness :
    (∀ c i st, ∀ sd ∈ env_passive.handler c i st, c ∉ sd.2) ∧
    ∃ s, run_ops env_passive 2
        [Op.send 5 [0], Op.drain 0, Op.send 5 [0, 1], Op.send 5 [0], Op.drain 0, Op.drain 1]
        (init priv_both) = some s ∧
      ∀ C r, NoSpurious C r s.log :=
  ⟨by intro c i st sd h; simp [env_passive] at h,
   no_spurious_delivery env_passive priv_both 0
    [Op.send 5 [0], Op.drain 0, Op.send 5 [0, 1], Op.send 5 [0], Op.drain 0, Op.drain 1]
    (by intro c i st sd h; simp [env_passive] at h)⟩

/-- C4: for `r < W`, `ipi_mux_send_mask` with `hwirq = r` makes the pending set of
every CPU of the mask its old value OR `1 << r` and leaves the pending set of
every other CPU unchanged. -/
theorem send_mask_sets_bit (W r : Nat) (T : List Nat) (s : State) (hr : r < W) :
    (∀ c, c ∈ T →
      PendingSet (ipi_mux_send_mask W r T s) c = PendingSet s c ||| (1 <<< r)) ∧
    (∀ c, c ∉ T → PendingSet (ipi_mux_send_mask W r T s) c = PendingSet s c) := by
  constructor
  · intro c hc; rw [send_mask_PendingSet W r hr, if_pos hc]
  · intro c hc; rw [send_mask_PendingSet W r hr, if_neg hc]

/-- Scenario C: `send(2, {0, 1})` on width 32. -/
theorem send_mask_sets_bit_witness :
    2 < 32 ∧
    (∀ c, c ∈ [0, 1] →
      PendingSet (ipi_mux_send_mask 32 2 [0, 1] (init priv_both)) c =
        PendingSet (init priv_both) c ||| (1 <<< 2)) ∧
    (∀ c, c ∉ [0, 1] →
      PendingSet (ipi_mux_send_mask 32 2 [0, 1] (init priv_both)) c =
        PendingSet (init priv_both) c) :=
  ⟨by decide, send_mask_sets_bit 32 2 [0, 1] (init priv_both) (by decide)⟩

/-- C5: with a `send_ipi` callback registered, one call of `ipi_mux_send_mask`
with `hwirq = r` and mask `T` calls `send_ipi` exactly once, on the whole mask `T`;
the call is made on the state `s1` the `set_bit` loop has produced, before which
no `send_ipi` call was made, and in which, `r` being a reason index (`r < W`),
bit `r` is set in the pending set of every CPU of `T`. -/
theorem send_mask_calls_send_ipi_once (W r : Nat) (T : List Nat) (s : State)
    (hcb : s.ipi_mux_priv.send_ipi = true) :
    ∃ s1, ipi_mux_send_mask W r T s = send_ipi T s1 ∧
      ipi_sent s1.log = ipi_sent s.log ∧
      ipi_sent (ipi_mux_send_mask W r T s).log = ipi_sent s.log ++ [T] ∧
      (r < W → ∀ c, c ∈ T → (PendingSet s1 c).testBit r = true) := by
  have hnil : (T.map (Event.set_bit r)).filterMap mask_of_send = [] := by
    rw [List.filterMap_eq_nil_iff]
    intro e he
    obtain ⟨c, _, rfl⟩ := List.mem_map.1 he
    rfl
  refine ⟨T.foldl (fun st cpu => set_bit W r cpu st) s, ?_, ?_, ?_, ?_⟩
  · simp [ipi_mux_send_mask, foldl_set_bit_priv, hcb]
  · rw [foldl_set_bit_log]
    unfold ipi_sent
    rw [List.filterMap_append, hnil, List.append_nil]
  · rw [send_mask_log, hcb]
    unfold ipi_sent
    simp [List.filterMap_append, hnil, mask_of_send]
  · intro hr c hc
    unfold PendingSet
    rw [foldl_set_bit_bits, if_pos ⟨hc, (Nat.div_eq_of_lt hr).symm⟩, Nat.mod_eq_of_lt hr,
      testBit_lor_one_shiftLeft]
    simp

/-- A send of reason 2 to CPUs 0 and 1 on a fresh facility with both callbacks. -/
theorem send_mask_calls_send_ipi_once_witness :
    (init priv_both).ipi_mux_priv.send_ipi = true ∧
    ∃ s1, ipi_mux_send_mask 32 2 [0, 1] (init priv_both) = send_ipi [0, 1] s1 ∧
      ipi_sent s1.log = ipi_sent (init priv_both).log ∧
      ipi_sent (ipi_mux_send_mask 32 2 [0, 1] (init priv_both)).log =
        ipi_sent (init priv_both).log ++ [[0, 1]] ∧
      (2 < 32 → ∀ c, c ∈ [0, 1] → (PendingSet s1 c).testBit 2 = true) :=
  ⟨rfl, send_mask_calls_send_ipi_once 32 2 [0, 1] (init priv_both) rfl⟩

/-- C6 fails as stated: the handler of line 1 sends reason 3 to CPU 0. After
`send(1, {0})` and `send(3, {0})` twice, the drain on CPU 0 returns having
delivered line 3 twice: once in the pass that captured it, and once more in the
next pass for the send made by the handler of line 1. -/
theorem coalescing_resend_counterexample :
    (riscv_ipi_mux_handle_irq env_resend 0 3
      (ipi_mux_send_mask 32 3 [0] (ipi_mux_send_mask 32 3 [0]
        (ipi_mux_send_mask 32 1 [0] (init priv_both))))).map
      (fun s' => delivered 0 s'.log) = some [1, 3, 3] ∧
    (riscv_ipi_mux_handle_irq env_resend 0 3
      (ipi_mux_send_mask 32 3 [0] (ipi_mux_send_mask 32 3 [0]
        (ipi_mux_send_mask 32 1 [0] (init priv_both))))).map
      (fun s' => s'.log.count (Event.deliver 0 3)) = some 2 := by
  decide

/-- C6 as amended: for `r < W`, sending `r` to `T` twice leaves every pending set
as sending it once does; and when no handler run by the drain on a CPU `c` of `T`
sends to `c`, the drain on `c` that follows returns and has delivered `r` exactly
once. -/
theorem send_twice_coalesces (env : Env) (r c fuel : Nat) (T : List Nat) (s : State)
    (hr : r < env.W) (hc : c ∈ T)
    (hq : ∀ i st, ∀ sd ∈ env.handler c i st, c ∉ sd.2) :
    (∀ c', PendingSet (ipi_mux_send_mask env.W r T (ipi_mux_send_mask env.W r T s)) c' =
      PendingSet (ipi_mux_send_mask env.W r T s) c') ∧
    ∃ s', riscv_ipi_mux_handle_irq env c (fuel + 2)
        (ipi_mux_send_mask env.W r T (ipi_mux_send_mask env.W r T s)) = some s' ∧
      s'.log.count (Event.deliver c r) =
        (ipi_mux_send_mask env.W r T (ipi_mux_send_mask env.W r T s)).log.count
          (Event.deliver c r) + 1 := by
  constructor
  · intro c'
    rw [send_mask_PendingSet env.W r hr, send_mask_PendingSet env.W r hr]
    by_cases h : c' ∈ T <;> simp [h, lor_lor_self]
  · obtain ⟨h1, _, _, _⟩ := drain_quiet env c hq fuel
      (ipi_mux_send_mask env.W r T (ipi_mux_send_mask env.W r T s))
    refine ⟨_, handle_irq_of_loop env c _ _ h1, ?_⟩
    have hbit : (PendingSet (ipi_mux_send_mask env.W r T
        (ipi_mux_send_mask env.W r T s)) c).testBit r = true := by
      rw [send_mask_PendingSet env.W r hr, if_pos hc, testBit_lor_one_shiftLeft]
      simp
    rw [count_deliver_eq, count_deliver_eq, drain_quiet_delivered env c hq,
      List.count_append, count_set_bits, if_pos ⟨hr, hbit⟩]

/-- Scenario B: `send(3, {0})` twice, then the drain on CPU 0. -/
theorem send_twice_coalesces_witness :
    3 < env_unmapped7.W ∧ 0 ∈ [0] ∧
    (∀ i st, ∀ sd ∈ env_unmapped7.handler 0 i st, 0 ∉ sd.2) ∧
    (∀ c', PendingSet (ipi_mux_send_mask env_unmapped7.W 3 [0]
        (ipi_mux_send_mask env_unmapped7.W 3 [0] (init priv_both))) c' =
      PendingSet (ipi_mux_send_mask env_unmapped7.W 3 [0] (init priv_both)) c') ∧
    ∃ s', riscv_ipi_mux_handle_irq env_unmapped7 0 2
        (ipi_mux_send_mask env_unmapped7.W 3 [0]
          (ipi_mux_send_mask env_unmapped7.W 3 [0] (init priv_both))) = some s' ∧
      s'.log.count (Event.deliver 0 3) =
        (ipi_mux_send_mask env_unmapped7.W 3 [0]
          (ipi_mux_send_mask env_unmapped7.W 3 [0] (init priv_both))).log.count
          (Event.deliver 0 3) + 1 :=
  ⟨by decide, by decide, by intro i st sd h; simp [env_unmapped7] at h,
   send_twice_coalesces env_unmapped7 3 0 0 [0] (init priv_both) (by decide) (by decide)
    (by intro i st sd h; simp [env_unmapped7] at h)⟩

/-- C7: for distinct CPUs `c` and `c'`, when no handler run by the drain on `c`
sends to `c'`, the drain on `c` leaves the pending set of `c'` unchanged: this
holds of the state after any number of passes, and so of the state at return. -/
theorem handle_irq_frame (env : Env) (c c' fuel : Nat) (s : State) (hne : c ≠ c')
    (hq : ∀ i st, ∀ sd ∈ env.handler c i st, c' ∉ sd.2) :
    PendingSet (handle_irq_loop env c fuel s).1 c' = PendingSet s c' ∧
    ∀ s', riscv_ipi_mux_handle_irq env c fuel s = some s' → PendingSet s' c' = PendingSet s c' := by
  have h : PendingSet (handle_irq_loop env c fuel s).1 c' = PendingSet s c' := by
    unfold PendingSet
    rw [handle_irq_loop_frame env c c' (fun e => hne e.symm) hq]
  refine ⟨h, ?_⟩
  intro s' hs'
  rw [handle_irq_eq_some env c fuel s s' hs']
  exact h

/-- Scenario C: after `send(2, {0, 1})`, the drain on CPU 0 leaves the pending set
of CPU 1 as it is. -/
theorem handle_irq_frame_witness :
    (0 : Nat) ≠ 1 ∧
    (∀ i st, ∀ sd ∈ env_unmapped7.handler 0 i st, 1 ∉ sd.2) ∧
    PendingSet (handle_irq_loop env_unmapped7 0 2
      (ipi_mux_send_mask 32 2 [0, 1] (init priv_both))).1 1 =
        PendingSet (ipi_mux_send_mask 32 2 [0, 1] (init priv_both)) 1 ∧
    ∀ s', riscv_ipi_mux_handle_irq env_unmapped7 0 2
        (ipi_mux_send_mask 32 2 [0, 1] (init priv_both)) = some s' →
      PendingSet s' 1 = PendingSet (ipi_mux_send_mask 32 2 [0, 1] (init priv_both)) 1 :=
  ⟨by decide, by intro i st sd h; simp [env_unmapped7] at h,
   handle_irq_frame env_unmapped7 0 1 2 (ipi_mux_send_mask 32 2 [0, 1] (init priv_both))
    (by decide) (by intro i st sd h; simp [env_unmapped7] at h)⟩

/-- C8 fails as stated: on a facility created without a `clear_ipi` callback, the
drain entered with an empty pending set returns having made the exchange only;
`clear_ipi` is called zero times, not once. -/
theorem drain_empty_without_clear_callback :
    PendingSet (init priv_no_clear) 0 = 0 ∧
    (riscv_ipi_mux_handle_irq env_passive 0 1 (init priv_no_clear)).map (fun s' => s'.log) =
      some [Event.xchg 0 0] ∧
    (riscv_ipi_mux_handle_irq env_passive 0 1 (init priv_no_clear)).map
      (fun s' => s'.log.count (Event.clear_ipi 0)) ≠ some 1 := by
  decide

/-- C8 as amended: entered with the pending set of the calling CPU equal to 0,
the drain returns after one pass, having called `clear_ipi` exactly once when that
callback is registered and not at all when it is not, having delivered nothing,
and with the pending set still 0. -/
theorem drain_empty (env : Env) (c fuel : Nat) (s : State) (h0 : PendingSet s c = 0) :
    ∃ s', riscv_ipi_mux_handle_irq env c (fuel + 1) s = some s' ∧
      s'.log.count (Event.clear_ipi c) =
        s.log.count (Event.clear_ipi c) + (if s.ipi_mux_priv.clear_ipi then 1 else 0) ∧
      (∀ c' i, s'.log.count (Event.deliver c' i) = s.log.count (Event.deliver c' i)) ∧
      PendingSet s' c = 0 := by
  have hl := handle_irq_loop_empty env c fuel s h0
  refine ⟨(xchg c (if s.ipi_mux_priv.clear_ipi then clear_ipi c s else s)).2, ?_, ?_, ?_, ?_⟩
  · simp [riscv_ipi_mux_handle_irq, hl]
  · rw [xchg_clear_log]
    split <;> simp [List.count_append, List.count_cons]
  · intro c' i
    rw [xchg_clear_log]
    split <;> simp [List.count_append, List.count_cons]
  · unfold PendingSet
    rw [xchg_clear_bits]; simp

/-- Scenario D: the drain on CPU 0 of a fresh facility with both callbacks. -/
theorem drain_empty_witness :
    PendingSet (init priv_both) 0 = 0 ∧
    ∃ s', riscv_ipi_mux_handle_irq env_passive 0 1 (init priv_both) = some s' ∧
      s'.log.count (Event.clear_ipi 0) =
        (init priv_both).log.count (Event.clear_ipi 0) +
          (if (init priv_both).ipi_mux_priv.clear_ipi then 1 else 0) ∧
      (∀ c' i, s'.log.count (Event.deliver c' i) =
        (init priv_both).log.count (Event.deliver c' i)) ∧
      PendingSet s' 0 = 0 :=
  ⟨rfl, drain_empty env_passive 0 0 (init priv_both) rfl⟩

/-- C9 fails as stated, line 7 being unmapped. When the handler of line 2 sends
reason 7 to CPU 0, the drain on CPU 0 entered with bits 2 and 7 pending returns
having printed the warning for line 7 twice, though bit 7 was set once in the
pending set found at entry. When the handler of line 2 sends reason 2 to its own
CPU, the drain entered with the same pending set does not return, whatever the
number of passes it is given. -/
theorem no_mapping_resend_counterexample :
    PendingSet (ipi_mux_send_mask 32 7 [0] (ipi_mux_send_mask 32 2 [0] (init priv_both))) 0 =
      132 ∧
    (riscv_ipi_mux_handle_irq env_resend7 0 3
      (ipi_mux_send_mask 32 7 [0] (ipi_mux_send_mask 32 2 [0] (init priv_both)))).map
      (fun s' => warned 0 s'.log) = some [7, 7] ∧
    ∀ fuel, riscv_ipi_mux_handle_irq env_restart 0 fuel
      (ipi_mux_send_mask 32 7 [0] (ipi_mux_send_mask 32 2 [0] (init priv_both))) = none := by
  refine ⟨by decide, by decide, fun fuel => ?_⟩
  have h := handle_irq_loop_restart 0 fuel
    (ipi_mux_send_mask 32 7 [0] (ipi_mux_send_mask 32 2 [0] (init priv_both))) (by decide)
  simp [riscv_ipi_mux_handle_irq, h]

/-- C9 as amended: when no handler run by the drain on `c` sends to `c`, the drain
entered with pending set `p` returns with the pending set 0, and for every index
`i` it has, once if bit `i` of `p` is set and not at all otherwise, called
`generic_handle_domain_irq`; the call was followed by the warning when `i` is
unmapped and by the handler when `i` is mapped. -/
theorem drain_survives_no_mapping (env : Env) (c p fuel : Nat) (s : State)
    (hp : PendingSet s c = p) (hW : p < 2 ^ env.W)
    (hq : ∀ i st, ∀ sd ∈ env.handler c i st, c ∉ sd.2) :
    ∃ s', riscv_ipi_mux_handle_irq env c (fuel + 2) s = some s' ∧
      (∀ i, (delivered c s'.log).count i =
        (delivered c s.log).count i + (if p.testBit i = true then 1 else 0)) ∧
      (∀ i, (warned c s'.log).count i =
        (warned c s.log).count i +
          (if p.testBit i = true ∧ env.mapped i = false then 1 else 0)) ∧
      (∀ i, (handled c s'.log).count i =
        (handled c s.log).count i +
          (if p.testBit i = true ∧ env.mapped i = true then 1 else 0)) ∧
      PendingSet s' c = 0 := by
  obtain ⟨h1, _, h3, _⟩ := drain_quiet env c hq fuel s
  have hlt : ∀ i, p.testBit i = true → i < env.W := fun i hi => testBit_lt_of_lt_two_pow hW hi
  refine ⟨_, handle_irq_of_loop env c _ s h1, ?_, ?_, ?_, h3⟩
  · intro i
    rw [drain_quiet_delivered env c hq, hp, List.count_append, count_set_bits]
    by_cases hi : p.testBit i = true
    · simp [hi, hlt i hi]
    · simp [hi]
  · intro i
    rw [drain_quiet_warned env c hq, hp, List.count_append, count_filter_set_bits]
    by_cases hi : p.testBit i = true
    · by_cases hm : env.mapped i = true <;> simp [hi, hlt i hi, hm]
    · simp [hi]
  · intro i
    rw [drain_quiet_handled env c hq, hp, List.count_append, count_filter_set_bits]
    by_cases hi : p.testBit i = true
    · by_cases hm : env.mapped i = true <;> simp [hi, hlt i hi, hm]
    · simp [hi]

/-- Scenario E: line 7 unmapped, `send(7, {0})`, then the drain on CPU 0. -/
theorem drain_survives_no_mapping_witness :
    PendingSet (ipi_mux_send_mask 32 7 [0] (init priv_both)) 0 = 128 ∧
    128 < 2 ^ env_unmapped7.W ∧
    (∀ i st, ∀ sd ∈ env_unmapped7.handler 0 i st, 0 ∉ sd.2) ∧
    ∃ s', riscv_ipi_mux_handle_irq env_unmapped7 0 2
        (ipi_mux_send_mask 32 7 [0] (init priv_both)) = some s' ∧
      (∀ i, (delivered 0 s'.log).count i =
        (delivered 0 (ipi_mux_send_mask 32 7 [0] (init priv_both)).log).count i +
          (if Nat.testBit 128 i = true then 1 else 0)) ∧
      (∀ i, (warned 0 s'.log).count i =
        (warned 0 (ipi_mux_send_mask 32 7 [0] (init priv_both)).log).count i +
          (if Nat.testBit 128 i = true ∧ env_unmapped7.mapped i = false then 1 else 0)) ∧
      (∀ i, (handled 0 s'.log).count i =
        (handled 0 (ipi_mux_send_mask 32 7 [0] (init priv_both)).log).count i +
          (if Nat.testBit 128 i = true ∧ env_unmapped7.mapped i = true then 1 else 0)) ∧
      PendingSet s' 0 = 0 :=
  ⟨by decide, by decide, by intro i st sd h; simp [env_unmapped7] at h,
   drain_survives_no_mapping env_unmapped7 0 128 0 (ipi_mux_send_mask 32 7 [0] (init priv_both))
    (by decide) (by decide) (by intro i st sd h; simp [env_unmapped7] at h)⟩

/-- C10: within one drain pass on the captured value `irqs`, whatever the handlers
do, the line numbers passed to `generic_handle_domain_irq` are, in call order, the
positions of the set bits of `irqs` in strictly increasing order. -/
theorem pass_delivers_ascending (env : Env) (c irqs : Nat) (s : State)
    (hW : irqs < 2 ^ env.W) :
    ∃ L, delivered c (deliver_pending env c irqs s).log = delivered c s.log ++ L ∧
      L.Sorted (· < ·) ∧ (∀ i, i ∈ L ↔ irqs.testBit i = true) ∧
      L = (List.range env.W).filter (fun i => irqs.testBit i) := by
  refine ⟨set_bits env.W irqs, ?_, set_bits_sorted _ _, ?_, rfl⟩
  · have h := deliver_pending_filterMap (deliver_on c) env c irqs s (fun _ => rfl)
      (fun _ _ _ _ _ _ => rfl)
    have h2 := delivered_line_events env c c (set_bits env.W irqs)
    unfold delivered at h2 ⊢
    rw [h, h2, if_pos rfl]
  · intro i
    rw [mem_set_bits]
    exact ⟨fun h => h.2, fun h => ⟨testBit_lt_of_lt_two_pow hW h, h⟩⟩

/-- One pass on `irqs = 0b101010` with handlers that send while the pass runs. -/
theorem pass_delivers_ascending_witness :
    42 < 2 ^ env_resend.W ∧
    ∃ L, delivered 0 (deliver_pending env_resend 0 42 (init priv_both)).log =
        delivered 0 (init priv_both).log ++ L ∧
      L.Sorted (· < ·) ∧ (∀ i, i ∈ L ↔ Nat.testBit 42 i = true) ∧
      L = (List.range env_resend.W).filter (fun i => Nat.testBit 42 i) :=
  ⟨by decide, pass_delivers_ascending env_resend 0 42 (init priv_both) (by decide)⟩

/-- C11 fails as stated: a send with `reason_index = W` is not rejected but
performed. On width 32, `ipi_mux_send_mask` with `hwirq = 32` and mask `{0}` makes
the `set_bit` call and the `send_ipi` call as for any other index, and the
physical IPI of CPU 0 is raised. Such a send can be made from boot: the creation
binds the lines 0 to 31 only, an allocation of one more line from the domain with
the descriptor cell 32 is not refused and binds line 32, and the send on that
line is performed. -/
theorem send_index_W_performed :
    ((ipi_mux_send_mask 32 32 [0] (init priv_both)).log =
        [Event.set_bit 32 0, Event.send_ipi [0]] ∧
      (init priv_both).pending_ipi 0 = false ∧
      (ipi_mux_send_mask 32 32 [0] (init priv_both)).pending_ipi 0 = true) ∧
    (has_line 32 (life_run env_passive
        [LifeOp.create platform_ok false true true true] boot) = false ∧
      has_line 32 (life_run env_passive
        [LifeOp.create platform_ok false true true true,
         LifeOp.alloc platform_more 1 1 { fwnode := 1, param_count := 1, param := [32] }]
        boot) = true ∧
      (life_run env_passive
        [LifeOp.create platform_ok false true true true,
         LifeOp.alloc platform_more 1 1 { fwnode := 1, param_count := 1, param := [32] },
         LifeOp.send 32 [0]] boot).st.log = [Event.set_bit 32 0, Event.send_ipi [0]] ∧
      (life_run env_passive
        [LifeOp.create platform_ok false true true true,
         LifeOp.alloc platform_more 1 1 { fwnode := 1, param_count := 1, param := [32] },
         LifeOp.send 32 [0]] boot).st.pending_ipi 0 = true) := by
  decide

/-- C11 as amended: with `W > 0`, a send with `reason_index = 0` and a send with
`reason_index = W - 1` set exactly that bit in the pending set of every target
and leave the pending set of every other CPU unchanged; a send with
`reason_index = W` is performed as well, `ipi_mux_send_mask` having no range
check: it makes the `set_bit` call for every target and then the `send_ipi` call,
and leaves every pending set unchanged. -/
theorem send_bit_width_boundary (W : Nat) (T : List Nat) (s : State) (hW : 0 < W) :
    ((∀ c, c ∈ T → PendingSet (ipi_mux_send_mask W 0 T s) c = PendingSet s c ||| (1 <<< 0)) ∧
     (∀ c, c ∉ T → PendingSet (ipi_mux_send_mask W 0 T s) c = PendingSet s c)) ∧
    ((∀ c, c ∈ T →
        PendingSet (ipi_mux_send_mask W (W - 1) T s) c = PendingSet s c ||| (1 <<< (W - 1))) ∧
     (∀ c, c ∉ T → PendingSet (ipi_mux_send_mask W (W - 1) T s) c = PendingSet s c)) ∧
    (ipi_mux_send_mask W W T s).log =
      s.log ++ T.map (Event.set_bit W) ++
        (if s.ipi_mux_priv.send_ipi then [Event.send_ipi T] else []) ∧
    (∀ c, PendingSet (ipi_mux_send_mask W W T s) c = PendingSet s c) := by
  refine ⟨⟨?_, ?_⟩, ⟨?_, ?_⟩, send_mask_log W W T s, ?_⟩
  · intro c hc; rw [send_mask_PendingSet W 0 hW, if_pos hc]
  · intro c hc; rw [send_mask_PendingSet W 0 hW, if_neg hc]
  · intro c hc; rw [send_mask_PendingSet W (W - 1) (by omega), if_pos hc]
  · intro c hc; rw [send_mask_PendingSet W (W - 1) (by omega), if_neg hc]
  · intro c; exact send_mask_out_of_range W W T s hW (le_refl W) c

/-- The boundary sends on width 32 with mask `{0, 1}`. -/
theorem send_bit_width_boundary_witness :
    0 < 32 ∧
    (((∀ c, c ∈ [0, 1] →
        PendingSet (ipi_mux_send_mask 32 0 [0, 1] (init priv_both)) c =
          PendingSet (init priv_both) c ||| (1 <<< 0)) ∧
      (∀ c, c ∉ [0, 1] →
        PendingSet (ipi_mux_send_mask 32 0 [0, 1] (init priv_both)) c =
          PendingSet (init priv_both) c)) ∧
     ((∀ c, c ∈ [0, 1] →
        PendingSet (ipi_mux_send_mask 32 (32 - 1) [0, 1] (init priv_both)) c =
          PendingSet (init priv_both) c ||| (1 <<< (32 - 1))) ∧
      (∀ c, c ∉ [0, 1] →
        PendingSet (ipi_mux_send_mask 32 (32 - 1) [0, 1] (init priv_both)) c =
          PendingSet (init priv_both) c)) ∧
     (ipi_mux_send_mask 32 32 [0, 1] (init priv_both)).log =
       (init priv_both).log ++ [0, 1].map (Event.set_bit 32) ++
         (if (init priv_both).ipi_mux_priv.send_ipi then [Event.send_ipi [0, 1]] else []) ∧
     (∀ c, PendingSet (ipi_mux_send_mask 32 32 [0, 1] (init priv_both)) c =
       PendingSet (init priv_both) c)) :=
  ⟨by decide, send_bit_width_boundary 32 [0, 1] (init priv_both) (by decide)⟩

/-- C12 fails as stated: a send with an index at or above `W` writes outside the
pending set. On width 32, `ipi_mux_send_mask` with `hwirq = 35` and mask `{1}` ORs
`1 << 3` into the word that follows the per-CPU variable `ipi_mux_bits` of CPU 1,
which was 0, and raises the physical IPI of CPU 1. -/
theorem send_out_of_range_writes_next_word :
    (init priv_both).ipi_mux_bits 1 1 = 0 ∧
    (ipi_mux_send_mask 32 35 [1] (init priv_both)).ipi_mux_bits 1 1 = 8 ∧
    (init priv_both).pending_ipi 1 = false ∧
    (ipi_mux_send_mask 32 35 [1] (init priv_both)).pending_ipi 1 = true := by
  decide

/-- C12 as amended: `ipi_mux_send_mask` called with an empty target set, whatever
the reason index, leaves every pending word, every physical line and
`ipi_mux_priv` unchanged. Called with any reason index `r` and target set `T` it
leaves `ipi_mux_priv` unchanged, ORs bit `r mod W` into the word `r / W` of the
per-CPU variable of every target and into no other word, and raises the physical
IPI on the targets exactly when a `send_ipi` callback is registered, the physical
lines staying as they are when there is none. With `r ≥ W` (`W > 0`) the word
written is the word `r / W ≥ 1` past the per-CPU variable, so that the pending
set of every CPU is unchanged. -/
theorem send_precondition_violation (W r : Nat) (T : List Nat) (s : State) :
    ((ipi_mux_send_mask W r [] s).ipi_mux_bits = s.ipi_mux_bits ∧
     (ipi_mux_send_mask W r [] s).pending_ipi = s.pending_ipi ∧
     (ipi_mux_send_mask W r [] s).ipi_mux_priv = s.ipi_mux_priv) ∧
    (ipi_mux_send_mask W r T s).ipi_mux_priv = s.ipi_mux_priv ∧
    (∀ c k, (ipi_mux_send_mask W r T s).ipi_mux_bits c k =
      if c ∈ T ∧ k = r / W then s.ipi_mux_bits c k ||| (1 <<< (r % W))
      else s.ipi_mux_bits c k) ∧
    (∀ c, (ipi_mux_send_mask W r T s).pending_ipi c =
      if s.ipi_mux_priv.send_ipi = true ∧ c ∈ T then true else s.pending_ipi c) ∧
    (s.ipi_mux_priv.send_ipi = true →
      ∀ c, c ∈ T → (ipi_mux_send_mask W r T s).pending_ipi c = true) ∧
    (s.ipi_mux_priv.send_ipi = false →
      (ipi_mux_send_mask W r T s).pending_ipi = s.pending_ipi) ∧
    (0 < W → W ≤ r →
      (∀ c, PendingSet (ipi_mux_send_mask W r T s) c = PendingSet s c) ∧ 1 ≤ r / W) := by
  refine ⟨send_mask_nil W r s, send_mask_priv W r T s, fun c k => send_mask_bits W r T s c k,
    fun c => send_mask_pending_ipi W r T s c, ?_, ?_, ?_⟩
  · intro hs c hc
    rw [send_mask_pending_ipi, if_pos ⟨hs, hc⟩]
  · intro hs
    funext c
    rw [send_mask_pending_ipi, if_neg]
    intro h
    rw [hs] at h
    exact absurd h.1 (by decide)
  · intro hW hr
    exact ⟨fun c => send_mask_out_of_range W r T s hW hr c, Nat.div_pos hr hW⟩

/-- A send of index 40 to CPUs 0 and 2 on width 32, with the `send_ipi` callback
registered: the pending sets are unchanged and the physical IPI is raised on the
two CPUs. -/
theorem send_precondition_violation_witness :
    (0 < 32 ∧ 32 ≤ 40 ∧ (init priv_both).ipi_mux_priv.send_ipi = true) ∧
    (((ipi_mux_send_mask 32 40 [] (init priv_both)).ipi_mux_bits = (init priv_both).ipi_mux_bits ∧
      (ipi_mux_send_mask 32 40 [] (init priv_both)).pending_ipi = (init priv_both).pending_ipi ∧
      (ipi_mux_send_mask 32 40 [] (init priv_both)).ipi_mux_priv =
        (init priv_both).ipi_mux_priv) ∧
     (ipi_mux_send_mask 32 40 [0, 2] (init priv_both)).ipi_mux_priv =
       (init priv_both).ipi_mux_priv ∧
     (∀ c k, (ipi_mux_send_mask 32 40 [0, 2] (init priv_both)).ipi_mux_bits c k =
       if c ∈ [0, 2] ∧ k = 40 / 32 then (init priv_both).ipi_mux_bits c k ||| (1 <<< (40 % 32))
       else (init priv_both).ipi_mux_bits c k) ∧
     (∀ c, (ipi_mux_send_mask 32 40 [0, 2] (init priv_both)).pending_ipi c =
       if (init priv_both).ipi_mux_priv.send_ipi = true ∧ c ∈ [0, 2] then true
       else (init priv_both).pending_ipi c) ∧
     (∀ c, c ∈ [0, 2] → (ipi_mux_send_mask 32 40 [0, 2] (init priv_both)).pending_ipi c = true) ∧
     ((∀ c, PendingSet (ipi_mux_send_mask 32 40 [0, 2] (init priv_both)) c =
       PendingSet (init priv_both) c) ∧ 1 ≤ 40 / 32)) :=
  ⟨⟨by decide, by decide, by decide⟩,
   (send_precondition_violation 32 40 [0, 2] (init priv_both)).1,
   (send_precondition_violation 32 40 [0, 2] (init priv_both)).2.1,
   (send_precondition_violation 32 40 [0, 2] (init priv_both)).2.2.1,
   (send_precondition_violation 32 40 [0, 2] (init priv_both)).2.2.2.1,
   (send_precondition_violation 32 40 [0, 2] (init priv_both)).2.2.2.2.1 (by decide),
   (send_precondition_violation 32 40 [0, 2] (init priv_both)).2.2.2.2.2.2 (by decide)
     (by decide)⟩

/-- C13: when a facility is installed (`ipi_mux_priv.domain` is not NULL),
`riscv_ipi_mux_create` returns NULL for every argument combination and every
answer of the platform, and the machine is left exactly as it was: the statics,
the domains, the mappings, the hotplug state and the virq range are unchanged and
no kernel service has been called. -/
theorem create_singleton (W : Nat) (pl : Platform) (us rf c s : Bool) (m : Machine)
    (h : m.st.ipi_mux_priv.domain ≠ 0) :
    (riscv_ipi_mux_create W pl us rf c s m).1 = 0 ∧
    (riscv_ipi_mux_create W pl us rf c s m).2 = m := by
  rw [create_of_active W pl us rf c s m (Or.inl h)]
  exact ⟨rfl, rfl⟩

/-- A second creation, this time with the soft irq, on the machine with an Active
facility. -/
theorem create_singleton_witness :
    machine_active.st.ipi_mux_priv.domain ≠ 0 ∧
    (riscv_ipi_mux_create 32 platform_soft true false true true machine_active).1 = 0 ∧
    (riscv_ipi_mux_create 32 platform_soft true false true true machine_active).2 =
      machine_active :=
  ⟨by decide, create_singleton 32 platform_soft true false true true machine_active (by decide)⟩

/-- C14: when the INTC domain is not found (`irq_find_matching_fwnode` returns NULL)
or the mapping of `RV_IRQ_SOFT` cannot be created (`irq_create_mapping` returns 0),
`riscv_ipi_mux_create` with `use_soft_irq` returns NULL. With `use_soft_irq` false
neither lookup is made (no such call is added and the INTC node is not asked
for), the result is the same on every platform that answers the other services
alike, and it does not depend on the two lookups: the call fails only on the
entry check, on the domain or on the lines. -/
theorem create_soft_irq_lookups (W : Nat) (pl pl' : Platform) (rf c s : Bool) (m : Machine)
    (hf : pl.intc_domain = 0 ∨ pl.soft_virq = 0)
    (h1 : pl'.new_domain = pl.new_domain) (h2 : pl'.virq_base = pl.virq_base) :
    (riscv_ipi_mux_create W pl true rf c s m).1 = 0 ∧
    ((riscv_ipi_mux_create W pl false rf c s m).2.calls.filter is_lookup =
        m.calls.filter is_lookup ∧
      (riscv_ipi_mux_create W pl false rf c s m).2.intc_fwnode = m.intc_fwnode) ∧
    riscv_ipi_mux_create W pl false rf c s m = riscv_ipi_mux_create W pl' false rf c s m ∧
    (riscv_ipi_mux_create W pl false rf c s m).1 =
      (if m.st.ipi_mux_priv.domain ≠ 0 ∨ riscv_ipi_have_virq_range m = true then 0
       else if pl.new_domain = 0 ∨ pl.virq_base ≤ 0 then 0
       else pl.new_domain) := by
  refine ⟨?_, create_no_soft_lookup W pl rf c s m,
    (create_no_soft_indep W pl pl' rf c s m h1 h2).symm, ?_⟩
  · rw [create_ret]
    by_cases ha : m.st.ipi_mux_priv.domain ≠ 0 ∨ riscv_ipi_have_virq_range m = true
    · rw [if_pos ha]
    · rw [if_neg ha, if_pos ⟨rfl, hf⟩]
  · rw [create_ret]
    simp

/-- From boot on `platform_ok`, where neither the INTC domain nor the mapping is
available: creation with the soft irq fails, creation without it succeeds, as it
does on `platform_soft`. -/
theorem create_soft_irq_lookups_witness :
    (platform_ok.intc_domain = 0 ∨ platform_ok.soft_virq = 0) ∧
    (riscv_ipi_mux_create 32 platform_ok false true true true boot).1 = 1 ∧
    ((riscv_ipi_mux_create 32 platform_ok true true true true boot).1 = 0 ∧
     ((riscv_ipi_mux_create 32 platform_ok false true true true boot).2.calls.filter is_lookup =
         boot.calls.filter is_lookup ∧
       (riscv_ipi_mux_create 32 platform_ok false true true true boot).2.intc_fwnode =
         boot.intc_fwnode) ∧
     riscv_ipi_mux_create 32 platform_ok false true true true boot =
       riscv_ipi_mux_create 32 platform_soft false true true true boot ∧
     (riscv_ipi_mux_create 32 platform_ok false true true true boot).1 =
       (if boot.st.ipi_mux_priv.domain ≠ 0 ∨ riscv_ipi_have_virq_range boot = true then 0
        else if platform_ok.new_domain = 0 ∨ platform_ok.virq_base ≤ 0 then 0
        else platform_ok.new_domain)) :=
  ⟨Or.inl rfl, by decide,
   create_soft_irq_lookups 32 platform_ok platform_soft true true true boot (Or.inl rfl) rfl rfl⟩

/-- C15: `riscv_ipi_mux_create` returns NULL only when a facility or a virq range
exists already, or `use_soft_irq` is asked for and the INTC domain or the mapping
is not obtained, or `irq_domain_add_linear` fails, or the lines are not
allocated. Whenever it returns NULL the statics of ipi-mux.c (`ipi_mux_priv`
among them) are unchanged, no hotplug state and no virq range has been
registered, no chained handler is left, and the domains, mappings and lines alive
are those alive before the call: what the call acquired it has released. The
only trace a failed call can leave is the INTC node `riscv_intc_fwnode` allocates
on its first use and caches in the static of irq.c. -/
theorem create_failure_atomic (W : Nat) (pl : Platform) (us rf c s : Bool) (m : Machine)
    (h : (riscv_ipi_mux_create W pl us rf c s m).1 = 0) :
    ((m.st.ipi_mux_priv.domain ≠ 0 ∨ riscv_ipi_have_virq_range m = true) ∨
      (us = true ∧ (pl.intc_domain = 0 ∨ pl.soft_virq = 0)) ∨
      pl.new_domain = 0 ∨ pl.virq_base ≤ 0) ∧
    (riscv_ipi_mux_create W pl us rf c s m).2.st = m.st ∧
    (riscv_ipi_mux_create W pl us rf c s m).2.cpuhp = m.cpuhp ∧
    (riscv_ipi_mux_create W pl us rf c s m).2.virq_range = m.virq_range ∧
    (riscv_ipi_mux_create W pl us rf c s m).2.chained = m.chained ∧
    (riscv_ipi_mux_create W pl us rf c s m).2.mappings = m.mappings ∧
    (riscv_ipi_mux_create W pl us rf c s m).2.domains = m.domains ∧
    (riscv_ipi_mux_create W pl us rf c s m).2.lines = m.lines ∧
    (riscv_ipi_mux_create W pl us rf c s m).2.percpu_enabled = m.percpu_enabled ∧
    ((riscv_ipi_mux_create W pl us rf c s m).2.intc_fwnode = m.intc_fwnode ∨
      (us = true ∧ m.intc_fwnode = 0 ∧
        (riscv_ipi_mux_create W pl us rf c s m).2.intc_fwnode = pl.fwnode_alloc)) := by
  obtain ⟨g1, g2, g3, g4, g5, g6, g7, g8⟩ := create_null W pl us rf c s m h
  refine ⟨?_, g1, g6, g7, g5, g3, g2, g4, g8, ?_⟩
  · rw [create_ret] at h
    by_cases ha : m.st.ipi_mux_priv.domain ≠ 0 ∨ riscv_ipi_have_virq_range m = true
    · exact Or.inl ha
    · rw [if_neg ha] at h
      by_cases hb : us = true ∧ (pl.intc_domain = 0 ∨ pl.soft_virq = 0)
      · exact Or.inr (Or.inl hb)
      · rw [if_neg hb] at h
        by_cases hc : pl.new_domain = 0 ∨ pl.virq_base ≤ 0
        · exact Or.inr (Or.inr hc)
        · rw [if_neg hc] at h
          exact absurd (Or.inl h) hc
  · rw [create_intc_fwnode]
    by_cases hx : (¬ (m.st.ipi_mux_priv.domain ≠ 0 ∨ riscv_ipi_have_virq_range m = true)) ∧
        us = true ∧ m.intc_fwnode = 0
    · rw [if_pos hx]; exact Or.inr ⟨hx.2.1, hx.2.2, rfl⟩
    · rw [if_neg hx]; exact Or.inl rfl

/-- From boot on `platform_no_virq` with the soft irq: the mapping is created, the
domain is built, the allocation of the lines fails, the domain is removed and the
mapping disposed of, NULL is returned. -/
theorem create_failure_atomic_witness :
    (riscv_ipi_mux_create 32 platform_no_virq true true true true boot).1 = 0 ∧
    (riscv_ipi_mux_create 32 platform_no_virq true true true true boot).2.calls =
      [KCall.irq_find_matching_fwnode 5, KCall.irq_create_mapping 2 1,
       KCall.irq_domain_add_linear 32, KCall.irq_domain_alloc_irqs 1 32 1 [0],
       KCall.irq_domain_remove 1, KCall.irq_dispose_mapping 3] ∧
    (((boot.st.ipi_mux_priv.domain ≠ 0 ∨ riscv_ipi_have_virq_range boot = true) ∨
      (true = true ∧ (platform_no_virq.intc_domain = 0 ∨ platform_no_virq.soft_virq = 0)) ∨
      platform_no_virq.new_domain = 0 ∨ platform_no_virq.virq_base ≤ 0) ∧
    (riscv_ipi_mux_create 32 platform_no_virq true true true true boot).2.st = boot.st ∧
    (riscv_ipi_mux_create 32 platform_no_virq true true true true boot).2.cpuhp = boot.cpuhp ∧
    (riscv_ipi_mux_create 32 platform_no_virq true true true true boot).2.virq_range =
      boot.virq_range ∧
    (riscv_ipi_mux_create 32 platform_no_virq true true true true boot).2.chained =
      boot.chained ∧
    (riscv_ipi_mux_create 32 platform_no_virq true true true true boot).2.mappings =
      boot.mappings ∧
    (riscv_ipi_mux_create 32 platform_no_virq true true true true boot).2.domains =
      boot.domains ∧
    (riscv_ipi_mux_create 32 platform_no_virq true true true true boot).2.lines = boot.lines ∧
    (riscv_ipi_mux_create 32 platform_no_virq true true true true boot).2.percpu_enabled =
      boot.percpu_enabled ∧
    ((riscv_ipi_mux_create 32 platform_no_virq true true true true boot).2.intc_fwnode =
        boot.intc_fwnode ∨
      (true = true ∧ boot.intc_fwnode = 0 ∧
        (riscv_ipi_mux_create 32 platform_no_virq true true true true boot).2.intc_fwnode =
          platform_no_virq.fwnode_alloc))) :=
  ⟨by decide, by decide,
   create_failure_atomic 32 platform_no_virq true true true true boot (by decide)⟩

/-- C16: on an Active facility with handle `h` (the installed domain, not NULL),
`riscv_ipi_mux_destroy(d)` leaves `ipi_mux_priv` all zero if and only if `d = h`;
`destroy(h)` removes the domain `h` and, when there is a parent virq, disposes of
its mapping, calling nothing else; for every `d` other than `h`, NULL included,
the machine is left exactly as it was. Destroying `h` twice leaves what
destroying it once leaves, and on an Uninitialized facility (`domain` NULL)
`destroy` leaves the machine as it was for every argument. -/
theorem destroy_iff_handle (m : Machine) (h : m.st.ipi_mux_priv.domain ≠ 0) :
    (∀ d, (riscv_ipi_mux_destroy d m).st.ipi_mux_priv = ipi_mux_zero ↔
      d = m.st.ipi_mux_priv.domain) ∧
    ((riscv_ipi_mux_destroy m.st.ipi_mux_priv.domain m).domains =
        m.domains.erase m.st.ipi_mux_priv.domain ∧
      (riscv_ipi_mux_destroy m.st.ipi_mux_priv.domain m).mappings =
        (if m.st.ipi_mux_priv.parent_virq ≠ 0 then
          m.mappings.erase m.st.ipi_mux_priv.parent_virq.toNat
         else m.mappings) ∧
      (riscv_ipi_mux_destroy m.st.ipi_mux_priv.domain m).calls =
        m.calls ++ [KCall.irq_domain_remove m.st.ipi_mux_priv.domain] ++
          (if m.st.ipi_mux_priv.parent_virq ≠ 0 then
            [KCall.irq_dispose_mapping m.st.ipi_mux_priv.parent_virq.toNat]
           else [])) ∧
    (∀ d, d ≠ m.st.ipi_mux_priv.domain → riscv_ipi_mux_destroy d m = m) ∧
    riscv_ipi_mux_destroy m.st.ipi_mux_priv.domain
        (riscv_ipi_mux_destroy m.st.ipi_mux_priv.domain m) =
      riscv_ipi_mux_destroy m.st.ipi_mux_priv.domain m ∧
    (∀ (m0 : Machine) (d : Nat), m0.st.ipi_mux_priv.domain = 0 →
      riscv_ipi_mux_destroy d m0 = m0) := by
  have hne : ∀ d, d ≠ m.st.ipi_mux_priv.domain → riscv_ipi_mux_destroy d m = m := by
    intro d hd
    exact destroy_of_mismatch d m (Or.inr (fun e => hd e.symm))
  refine ⟨?_, (destroy_of_match m h).2, hne, destroy_twice _ m,
    fun m0 d h0 => destroy_uninit d m0 h0⟩
  intro d
  constructor
  · intro hz
    by_contra hd
    rw [hne d hd] at hz
    apply h
    rw [hz]
    rfl
  · intro hd
    rw [hd]
    exact (destroy_of_match m h).1

/-- The facility created with the soft irq: handle 1, parent virq 3. -/
theorem destroy_iff_handle_witness :
    machine_soft.st.ipi_mux_priv.domain ≠ 0 ∧
    (riscv_ipi_mux_destroy 1 machine_soft).domains = [] ∧
    (riscv_ipi_mux_destroy 1 machine_soft).mappings = [] ∧
    ((∀ d, (riscv_ipi_mux_destroy d machine_soft).st.ipi_mux_priv = ipi_mux_zero ↔
      d = machine_soft.st.ipi_mux_priv.domain) ∧
    ((riscv_ipi_mux_destroy machine_soft.st.ipi_mux_priv.domain machine_soft).domains =
        machine_soft.domains.erase machine_soft.st.ipi_mux_priv.domain ∧
      (riscv_ipi_mux_destroy machine_soft.st.ipi_mux_priv.domain machine_soft).mappings =
        (if machine_soft.st.ipi_mux_priv.parent_virq ≠ 0 then
          machine_soft.mappings.erase machine_soft.st.ipi_mux_priv.parent_virq.toNat
         else machine_soft.mappings) ∧
      (riscv_ipi_mux_destroy machine_soft.st.ipi_mux_priv.domain machine_soft).calls =
        machine_soft.calls ++ [KCall.irq_domain_remove machine_soft.st.ipi_mux_priv.domain] ++
          (if machine_soft.st.ipi_mux_priv.parent_virq ≠ 0 then
            [KCall.irq_dispose_mapping machine_soft.st.ipi_mux_priv.parent_virq.toNat]
           else [])) ∧
    (∀ d, d ≠ machine_soft.st.ipi_mux_priv.domain → riscv_ipi_mux_destroy d machine_soft =
      machine_soft) ∧
    riscv_ipi_mux_destroy machine_soft.st.ipi_mux_priv.domain
        (riscv_ipi_mux_destroy machine_soft.st.ipi_mux_priv.domain machine_soft) =
      riscv_ipi_mux_destroy machine_soft.st.ipi_mux_priv.domain machine_soft ∧
    (∀ (m0 : Machine) (d : Nat), m0.st.ipi_mux_priv.domain = 0 →
      riscv_ipi_mux_destroy d m0 = m0)) :=
  ⟨by decide, by decide, by decide, destroy_iff_handle machine_soft (by decide)⟩

/-- C17 on the code: from boot on `platform_ok`, `riscv_ipi_mux_create` without the
soft irq returns the handle 1; `riscv_ipi_mux_destroy(1)` zeroes `ipi_mux_priv` and
removes the domain, but the virq range `(8, 32, true)` stays registered; the same
`riscv_ipi_mux_create` call then returns NULL and changes nothing. -/
theorem create_after_destroy_fails :
    (riscv_ipi_mux_create 32 platform_ok false true true true boot).1 = 1 ∧
    (riscv_ipi_mux_destroy 1
      (riscv_ipi_mux_create 32 platform_ok false true true true boot).2).st.ipi_mux_priv =
        ipi_mux_zero ∧
    (riscv_ipi_mux_destroy 1
      (riscv_ipi_mux_create 32 platform_ok false true true true boot).2).domains = [] ∧
    (riscv_ipi_mux_destroy 1
      (riscv_ipi_mux_create 32 platform_ok false true true true boot).2).virq_range =
        some (8, 32, true) ∧
    (riscv_ipi_mux_create 32 platform_ok false true true true
      (riscv_ipi_mux_destroy 1
        (riscv_ipi_mux_create 32 platform_ok false true true true boot).2)).1 = 0 := by
  decide

/-- C18: with a parent virq configured (`parent_virq` of the machine `m` not 0),
`ipi_mux_starting_cpu` returns 0 having made exactly one call, `enable_percpu_irq`
of the parent virq on the CPU, and `ipi_mux_dying_cpu` returns 0 having made
exactly one call, `disable_percpu_irq` of the parent virq on the CPU, the statics
of ipi-mux.c being left as they were. With no parent virq (`parent_virq` of the
machine `m0` is 0) both hooks return 0 and leave the machine exactly as it was;
so they do at boot, before any creation, and after the facility of `m` has been
destroyed. -/
theorem hotplug_hooks (cpu : Nat) (m m0 : Machine)
    (hv : m.st.ipi_mux_priv.parent_virq ≠ 0) (hd : m.st.ipi_mux_priv.domain ≠ 0)
    (h0 : m0.st.ipi_mux_priv.parent_virq = 0) :
    ((ipi_mux_starting_cpu cpu m).1 = 0 ∧
      (ipi_mux_starting_cpu cpu m).2.calls =
        m.calls ++ [KCall.enable_percpu_irq m.st.ipi_mux_priv.parent_virq.toNat cpu] ∧
      (ipi_mux_starting_cpu cpu m).2.percpu_enabled m.st.ipi_mux_priv.parent_virq.toNat cpu =
        true ∧
      (ipi_mux_starting_cpu cpu m).2.st = m.st) ∧
    ((ipi_mux_dying_cpu cpu m).1 = 0 ∧
      (ipi_mux_dying_cpu cpu m).2.calls =
        m.calls ++ [KCall.disable_percpu_irq m.st.ipi_mux_priv.parent_virq.toNat cpu] ∧
      (ipi_mux_dying_cpu cpu m).2.percpu_enabled m.st.ipi_mux_priv.parent_virq.toNat cpu =
        false ∧
      (ipi_mux_dying_cpu cpu m).2.st = m.st) ∧
    (ipi_mux_starting_cpu cpu m0 = (0, m0) ∧ ipi_mux_dying_cpu cpu m0 = (0, m0)) ∧
    (ipi_mux_starting_cpu cpu boot = (0, boot) ∧ ipi_mux_dying_cpu cpu boot = (0, boot)) ∧
    (ipi_mux_starting_cpu cpu (riscv_ipi_mux_destroy m.st.ipi_mux_priv.domain m) =
        (0, riscv_ipi_mux_destroy m.st.ipi_mux_priv.domain m) ∧
      ipi_mux_dying_cpu cpu (riscv_ipi_mux_destroy m.st.ipi_mux_priv.domain m) =
        (0, riscv_ipi_mux_destroy m.st.ipi_mux_priv.domain m)) := by
  have hz : (riscv_ipi_mux_destroy m.st.ipi_mux_priv.domain m).st.ipi_mux_priv.parent_virq =
      0 := by
    rw [(destroy_of_match m hd).1]
    rfl
  refine ⟨?_, ?_, ⟨starting_cpu_of_no_virq cpu m0 h0, dying_cpu_of_no_virq cpu m0 h0⟩,
    ⟨starting_cpu_of_no_virq cpu boot rfl, dying_cpu_of_no_virq cpu boot rfl⟩,
    ⟨starting_cpu_of_no_virq cpu _ hz, dying_cpu_of_no_virq cpu _ hz⟩⟩
  · rw [starting_cpu_of_virq cpu m hv]
    simp [enable_percpu_irq]
  · rw [dying_cpu_of_virq cpu m hv]
    simp [disable_percpu_irq]

/-- The hooks run for CPU 2 on the facility created with the soft irq (parent
virq 3) and on the one created without it. -/
theorem hotplug_hooks_witness :
    machine_soft.st.ipi_mux_priv.parent_virq ≠ 0 ∧
    machine_soft.st.ipi_mux_priv.domain ≠ 0 ∧
    machine_active.st.ipi_mux_priv.parent_virq = 0 ∧
    (((ipi_mux_starting_cpu 2 machine_soft).1 = 0 ∧
      (ipi_mux_starting_cpu 2 machine_soft).2.calls =
        machine_soft.calls ++
          [KCall.enable_percpu_irq machine_soft.st.ipi_mux_priv.parent_virq.toNat 2] ∧
      (ipi_mux_starting_cpu 2 machine_soft).2.percpu_enabled
        machine_soft.st.ipi_mux_priv.parent_virq.toNat 2 = true ∧
      (ipi_mux_starting_cpu 2 machine_soft).2.st = machine_soft.st) ∧
    ((ipi_mux_dying_cpu 2 machine_soft).1 = 0 ∧
      (ipi_mux_dying_cpu 2 machine_soft).2.calls =
        machine_soft.calls ++
          [KCall.disable_percpu_irq machine_soft.st.ipi_mux_priv.parent_virq.toNat 2] ∧
      (ipi_mux_dying_cpu 2 machine_soft).2.percpu_enabled
        machine_soft.st.ipi_mux_priv.parent_virq.toNat 2 = false ∧
      (ipi_mux_dying_cpu 2 machine_soft).2.st = machine_soft.st) ∧
    (ipi_mux_starting_cpu 2 machine_active = (0, machine_active) ∧
      ipi_mux_dying_cpu 2 machine_active = (0, machine_active)) ∧
    (ipi_mux_starting_cpu 2 boot = (0, boot) ∧ ipi_mux_dying_cpu 2 boot = (0, boot)) ∧
    (ipi_mux_starting_cpu 2
        (riscv_ipi_mux_destroy machine_soft.st.ipi_mux_priv.domain machine_soft) =
        (0, riscv_ipi_mux_destroy machine_soft.st.ipi_mux_priv.domain machine_soft) ∧
      ipi_mux_dying_cpu 2
        (riscv_ipi_mux_destroy machine_soft.st.ipi_mux_priv.domain machine_soft) =
        (0, riscv_ipi_mux_destroy machine_soft.st.ipi_mux_priv.domain machine_soft))) :=
  ⟨by decide, by decide, by decide,
   hotplug_hooks 2 machine_soft machine_active (by decide) (by decide) (by decide)⟩

/-- C19 fails as stated: `ipi_mux_starting_cpu` does not zero the pending set. From
boot, after a creation with the soft irq on `platform_soft` and a send of reason 3
to CPU 0, the pending set of CPU 0 is 8; `ipi_mux_starting_cpu` run for CPU 0
returns 0, enables the parent virq 3 on CPU 0, and the pending set of CPU 0 is
still 8. -/
theorem starting_cpu_keeps_pending_set :
    PendingSet (life_run env_passive
      [LifeOp.create platform_soft true true true true, LifeOp.send 3 [0]] boot).st 0 = 8 ∧
    (ipi_mux_starting_cpu 0 (life_run env_passive
      [LifeOp.create platform_soft true true true true, LifeOp.send 3 [0]] boot)).1 = 0 ∧
    (ipi_mux_starting_cpu 0 (life_run env_passive
      [LifeOp.create platform_soft true true true true, LifeOp.send 3 [0]] boot)).2.percpu_enabled
        3 0 = true ∧
    PendingSet (ipi_mux_starting_cpu 0 (life_run env_passive
      [LifeOp.create platform_soft true true true true, LifeOp.send 3 [0]] boot)).2.st 0 = 8 := by
  decide

/-- C19 as amended: every pending set is 0 from the static initialisation of
`ipi_mux_bits`, and neither `riscv_ipi_mux_create` nor `ipi_mux_starting_cpu` writes
a pending set. After any operations from boot (creations, destructions,
allocations of lines, sends on bound lines, drains, hotplug hooks), when
`riscv_ipi_mux_create` succeeds the
pending set of every CPU is 0, no bit having been set before; and after
`ipi_mux_starting_cpu` runs for a CPU every pending set is what it was before. -/
theorem pending_set_zero_at_create (env : Env) (ops : List LifeOp) (pl : Platform)
    (us rf c s : Bool)
    (h : (riscv_ipi_mux_create env.W pl us rf c s (life_run env ops boot)).1 ≠ 0) :
    (∀ cpu, PendingSet
      (riscv_ipi_mux_create env.W pl us rf c s (life_run env ops boot)).2.st cpu = 0) ∧
    (∀ cpu, PendingSet boot.st cpu = 0) ∧
    (∀ (W : Nat) (pl' : Platform) (us' rf' c' s' : Bool) (m : Machine) (cpu : Nat),
      PendingSet (riscv_ipi_mux_create W pl' us' rf' c' s' m).2.st cpu = PendingSet m.st cpu) ∧
    (∀ (m : Machine) (cpu cpu' : Nat),
      PendingSet (ipi_mux_starting_cpu cpu m).2.st cpu' = PendingSet m.st cpu') := by
  have hb : ∀ (W : Nat) (pl' : Platform) (us' rf' c' s' : Bool) (m : Machine) (cpu : Nat),
      PendingSet (riscv_ipi_mux_create W pl' us' rf' c' s' m).2.st cpu = PendingSet m.st cpu := by
    intro W pl' us' rf' c' s' m cpu
    unfold PendingSet
    rw [(create_bits W pl' us' rf' c' s' m).1]
  refine ⟨?_, fun _ => rfl, hb, ?_⟩
  · intro cpu
    rw [hb]
    exact life_run_boot_cold env ops (create_some env.W pl us rf c s _ h).1.2 cpu 0
  · intro m cpu cpu'
    rw [(starting_cpu_frame cpu m).1]

/-- The creation on `platform_ok` that follows a failed creation, a refused send,
a drain and a CPU coming online. -/
theorem pending_set_zero_at_create_witness :
    (riscv_ipi_mux_create env_passive.W platform_ok false true true true
      (life_run env_passive
        [LifeOp.create platform_no_virq true true true true, LifeOp.send 3 [0],
         LifeOp.drain 0 2, LifeOp.starting_cpu 1] boot)).1 ≠ 0 ∧
    ((∀ cpu, PendingSet
      (riscv_ipi_mux_create env_passive.W platform_ok false true true true
        (life_run env_passive
          [LifeOp.create platform_no_virq true true true true, LifeOp.send 3 [0],
           LifeOp.drain 0 2, LifeOp.starting_cpu 1] boot)).2.st cpu = 0) ∧
    (∀ cpu, PendingSet boot.st cpu = 0) ∧
    (∀ (W : Nat) (pl' : Platform) (us' rf' c' s' : Bool) (m : Machine) (cpu : Nat),
      PendingSet (riscv_ipi_mux_create W pl' us' rf' c' s' m).2.st cpu = PendingSet m.st cpu) ∧
    (∀ (m : Machine) (cpu cpu' : Nat),
      PendingSet (ipi_mux_starting_cpu cpu m).2.st cpu' = PendingSet m.st cpu')) :=
  ⟨by decide,
   pending_set_zero_at_create env_passive
     [LifeOp.create platform_no_virq true true true true, LifeOp.send 3 [0],
      LifeOp.drain 0 2, LifeOp.starting_cpu 1] platform_ok false true true true (by decide)⟩

/-- C20: when `riscv_ipi_mux_create` succeeds, the allocation it has requested is
of `W` lines with a one-cell descriptor whose cell is 0, and the lines bound by
the call are exactly the `W` bindings of virq `virq_base + i` to reason index `i`
of the new domain, for `i = 0, ..., W - 1` in this order; the first virq is the
positive `int` that `__irq_domain_alloc_irqs` returned, so below `2 ^ 31`, and `W`
is `BITS_PER_LONG`, taken here as any number up to `2 ^ 31`, so that no sum of
the loop wraps. When the machine is one reached from boot, no line was bound
before the call, so that these `W` lines are all the lines there are.
`ipi_mux_domain_alloc` itself, given a one-cell descriptor with cell `base`,
returns 0 and binds `virq + i`, computed in `unsigned int`, to the index
`base + i`, computed in `unsigned long`, for every `i < nr_irqs` and nothing
else; these are the numbers `virq + i` and `base + i` when `nr_irqs` is at most
`2 ^ 31` and neither sum reaches `2 ^ 32` and `2 ^ W`. -/
theorem create_lines_dense (W : Nat) (pl : Platform) (us rf c s : Bool) (m : Machine)
    (h : (riscv_ipi_mux_create W pl us rf c s m).1 ≠ 0)
    (hW : W ≤ 2 ^ 31) (hv : pl.virq_base < 2 ^ 31) :
    KCall.irq_domain_alloc_irqs pl.new_domain W 1 [0] ∈
      (riscv_ipi_mux_create W pl us rf c s m).2.calls ∧
    (riscv_ipi_mux_create W pl us rf c s m).2.lines =
      m.lines ++ (List.range W).map (fun i => (pl.new_domain, pl.virq_base.toNat + i, i)) ∧
    (riscv_ipi_mux_create W pl us rf c s m).2.lines.length = m.lines.length + W ∧
    (∀ (env : Env) (ops : List LifeOp), m = life_run env ops boot →
      (riscv_ipi_mux_create W pl us rf c s m).2.lines =
        (List.range W).map (fun i => (pl.new_domain, pl.virq_base.toNat + i, i))) ∧
    (∀ (d virq nr_irqs base : Nat) (m' : Machine),
      (ipi_mux_domain_alloc W d virq nr_irqs
        { fwnode := d, param_count := 1, param := [base] } m').1 = 0 ∧
      (ipi_mux_domain_alloc W d virq nr_irqs
        { fwnode := d, param_count := 1, param := [base] } m').2.lines =
        m'.lines ++ (List.range nr_irqs).map
          (fun i => (d, virq_plus virq i, hwirq_plus W base i)) ∧
      (∀ i, virq_plus virq i = (virq + i) % 2 ^ 32) ∧
      (∀ i, i < 2 ^ 31 → hwirq_plus W base i = (base + i) % 2 ^ W) ∧
      (nr_irqs ≤ 2 ^ 31 → virq + nr_irqs ≤ 2 ^ 32 → base + nr_irqs ≤ 2 ^ W →
        (ipi_mux_domain_alloc W d virq nr_irqs
          { fwnode := d, param_count := 1, param := [base] } m').2.lines =
          m'.lines ++ (List.range nr_irqs).map (fun i => (d, virq + i, base + i)))) := by
  have hW' : W ≤ 2 ^ W := le_of_lt (Nat.lt_two_pow W)
  have hvb : pl.virq_base.toNat + W ≤ 2 ^ 32 := by omega
  have hl : (riscv_ipi_mux_create W pl us rf c s m).2.lines =
      m.lines ++ (List.range W).map
        (fun i => (pl.new_domain, pl.virq_base.toNat + i, i)) := by
    rw [(create_some W pl us rf c s m h).2.2.2.1,
      map_plus_of_no_wrap W pl.new_domain pl.virq_base.toNat 0 W hW hvb (by omega)]
    simp
  refine ⟨create_requests_line_zero W pl us rf c s m h, hl, ?_, ?_, ?_⟩
  · rw [hl]
    simp
  · intro env ops e
    have hv : m.virq_range = none := (create_some W pl us rf c s m h).1.2
    rw [hl]
    rw [e] at hv ⊢
    rw [(life_run_cold env ops boot (fun _ => ⟨rfl, rfl, fun _ _ => rfl⟩) hv).2.1]
    rfl
  · intro d virq nr_irqs base m'
    obtain ⟨h1, h2⟩ := domain_alloc_ok W d virq nr_irqs
      { fwnode := d, param_count := 1, param := [base] } m' (le_refl _)
    have h2' : (ipi_mux_domain_alloc W d virq nr_irqs
        { fwnode := d, param_count := 1, param := [base] } m').2.lines =
        m'.lines ++ (List.range nr_irqs).map
          (fun i => (d, virq_plus virq i, hwirq_plus W base i)) := h2
    refine ⟨h1, h2', fun i => virq_plus_eq virq i, fun i hi => hwirq_plus_eq W base i hi, ?_⟩
    intro hn hvq hb
    rw [h2', map_plus_of_no_wrap W d virq base nr_irqs hn hvq hb]

/-- The creation on `platform_ok` from boot, with width 4: the lines are virq 8 to
11 bound to indices 0 to 3 of domain 1. -/
theorem create_lines_dense_witness :
    (riscv_ipi_mux_create 4 platform_ok false true true true boot).1 ≠ 0 ∧
    4 ≤ 2 ^ 31 ∧ platform_ok.virq_base < 2 ^ 31 ∧
    (riscv_ipi_mux_create 4 platform_ok false true true true boot).2.lines =
      [(1, 8, 0), (1, 9, 1), (1, 10, 2), (1, 11, 3)] ∧
    (KCall.irq_domain_alloc_irqs platform_ok.new_domain 4 1 [0] ∈
      (riscv_ipi_mux_create 4 platform_ok false true true true boot).2.calls ∧
    (riscv_ipi_mux_create 4 platform_ok false true true true boot).2.lines =
      boot.lines ++
        (List.range 4).map (fun i => (platform_ok.new_domain, platform_ok.virq_base.toNat + i, i)) ∧
    (riscv_ipi_mux_create 4 platform_ok false true true true boot).2.lines.length =
      boot.lines.length + 4 ∧
    (∀ (env : Env) (ops : List LifeOp), boot = life_run env ops boot →
      (riscv_ipi_mux_create 4 platform_ok false true true true boot).2.lines =
        (List.range 4).map
          (fun i => (platform_ok.new_domain, platform_ok.virq_base.toNat + i, i))) ∧
    (∀ (d virq nr_irqs base : Nat) (m' : Machine),
      (ipi_mux_domain_alloc 4 d virq nr_irqs
        { fwnode := d, param_count := 1, param := [base] } m').1 = 0 ∧
      (ipi_mux_domain_alloc 4 d virq nr_irqs
        { fwnode := d, param_count := 1, param := [base] } m').2.lines =
        m'.lines ++ (List.range nr_irqs).map
          (fun i => (d, virq_plus virq i, hwirq_plus 4 base i)) ∧
      (∀ i, virq_plus virq i = (virq + i) % 2 ^ 32) ∧
      (∀ i, i < 2 ^ 31 → hwirq_plus 4 base i = (base + i) % 2 ^ 4) ∧
      (nr_irqs ≤ 2 ^ 31 → virq + nr_irqs ≤ 2 ^ 32 → base + nr_irqs ≤ 2 ^ 4 →
        (ipi_mux_domain_alloc 4 d virq nr_irqs
          { fwnode := d, param_count := 1, param := [base] } m').2.lines =
          m'.lines ++ (List.range nr_irqs).map (fun i => (d, virq + i, base + i))))) :=
  ⟨by decide, by decide, by decide, by decide,
   create_lines_dense 4 platform_ok false true true true boot (by decide) (by decide)
     (by decide)⟩

/-- C21 fails as stated: `ipi_mux_domain_alloc` has no capacity check. On the
facility created with width 32 (lines 0 to 31 bound), an allocation of 4 lines
with the descriptor cell 30, for which base index + count = 34 > 32, returns 0
and binds virq 40 to 43 to the indices 30, 31, 32 and 33. -/
theorem domain_alloc_beyond_capacity :
    machine_active.lines.length = 32 ∧
    (ipi_mux_domain_alloc 32 1 40 4 { fwnode := 1, param_count := 1, param := [30] }
      machine_active).1 = 0 ∧
    (ipi_mux_domain_alloc 32 1 40 4 { fwnode := 1, param_count := 1, param := [30] }
      machine_active).2.lines.drop 32 = [(1, 40, 30), (1, 41, 31), (1, 42, 32), (1, 43, 33)] := by
  decide

/-- C21 as amended: `ipi_mux_domain_alloc` returns the error of the translation
(`-EINVAL`) and binds no line, leaving the machine as it was, when the descriptor
is malformed (translation fails: no cell); with any other descriptor it returns 0
and binds `virq + i`, computed in `unsigned int`, to the index `base + i`,
computed in `unsigned long` of `W` bits, for every `i < nr_irqs`, `base` being
the cell of the descriptor, whatever the base and the count are: the count is
compared with nothing. The two sums are those of the numbers modulo `2 ^ 32` and,
below `2 ^ 31` iterations, modulo `2 ^ W`; when the count is at most `2 ^ 31` and
neither sum reaches its modulus, the bindings are `virq + i` to `base + i`. -/
theorem domain_alloc_result (W d virq nr_irqs : Nat) (bad good : irq_fwspec) (m : Machine)
    (hb : (irq_domain_translate_onecell bad).1 ≠ 0)
    (hg : (irq_domain_translate_onecell good).1 = 0) :
    ipi_mux_domain_alloc W d virq nr_irqs bad m = (-22, m) ∧
    (ipi_mux_domain_alloc W d virq nr_irqs good m).1 = 0 ∧
    (ipi_mux_domain_alloc W d virq nr_irqs good m).2.lines =
      m.lines ++ (List.range nr_irqs).map
        (fun i => (d, virq_plus virq i,
          hwirq_plus W (irq_domain_translate_onecell good).2 i)) ∧
    (∀ i, virq_plus virq i = (virq + i) % 2 ^ 32) ∧
    (∀ i, i < 2 ^ 31 →
      hwirq_plus W (irq_domain_translate_onecell good).2 i =
        ((irq_domain_translate_onecell good).2 + i) % 2 ^ W) ∧
    (nr_irqs ≤ 2 ^ 31 → virq + nr_irqs ≤ 2 ^ 32 →
      (irq_domain_translate_onecell good).2 + nr_irqs ≤ 2 ^ W →
      (ipi_mux_domain_alloc W d virq nr_irqs good m).2.lines =
        m.lines ++ (List.range nr_irqs).map
          (fun i => (d, virq + i, (irq_domain_translate_onecell good).2 + i))) := by
  have h1 : bad.param_count < 1 := by
    by_contra e
    apply hb
    unfold irq_domain_translate_onecell
    rw [if_neg e]
  have h2 : 1 ≤ good.param_count := by
    by_contra e
    have e' : good.param_count < 1 := by omega
    unfold irq_domain_translate_onecell at hg
    rw [if_pos e'] at hg
    exact absurd hg (by decide)
  have h3 : (irq_domain_translate_onecell good).2 = good.param.getD 0 0 := by
    unfold irq_domain_translate_onecell
    rw [if_neg (by omega)]
  rw [h3]
  obtain ⟨g1, g2⟩ := domain_alloc_ok W d virq nr_irqs good m h2
  refine ⟨domain_alloc_of_bad W d virq nr_irqs bad m h1, g1, g2,
    fun i => virq_plus_eq virq i, fun i hi => hwirq_plus_eq W _ i hi, ?_⟩
  intro hn hvq hbq
  rw [g2, map_plus_of_no_wrap W d virq _ nr_irqs hn hvq hbq]

/-- An allocation of 3 lines from virq 4294967295, the largest `unsigned int`, on
the booted machine with width 32: refused with a descriptor without cell; made
with the descriptor of cell 5, the second and the third virq being 0 and 1. -/
theorem domain_alloc_result_witness :
    (irq_domain_translate_onecell { fwnode := 1, param_count := 0, param := [] }).1 ≠ 0 ∧
    (irq_domain_translate_onecell { fwnode := 1, param_count := 1, param := [5] }).1 = 0 ∧
    (ipi_mux_domain_alloc 32 1 4294967295 3 { fwnode := 1, param_count := 1, param := [5] }
      boot).2.lines = [(1, 4294967295, 5), (1, 0, 6), (1, 1, 7)] ∧
    (ipi_mux_domain_alloc 32 1 4294967295 3 { fwnode := 1, param_count := 0, param := [] } boot =
      (-22, boot) ∧
    (ipi_mux_domain_alloc 32 1 4294967295 3 { fwnode := 1, param_count := 1, param := [5] }
      boot).1 = 0 ∧
    (ipi_mux_domain_alloc 32 1 4294967295 3 { fwnode := 1, param_count := 1, param := [5] }
      boot).2.lines =
      boot.lines ++ (List.range 3).map
        (fun i => (1, virq_plus 4294967295 i,
          hwirq_plus 32
            (irq_domain_translate_onecell { fwnode := 1, param_count := 1, param := [5] }).2
            i)) ∧
    (∀ i, virq_plus 4294967295 i = (4294967295 + i) % 2 ^ 32) ∧
    (∀ i, i < 2 ^ 31 →
      hwirq_plus 32
          (irq_domain_translate_onecell { fwnode := 1, param_count := 1, param := [5] }).2 i =
        ((irq_domain_translate_onecell { fwnode := 1, param_count := 1, param := [5] }).2 + i)
          % 2 ^ 32) ∧
    (3 ≤ 2 ^ 31 → 4294967295 + 3 ≤ 2 ^ 32 →
      (irq_domain_translate_onecell { fwnode := 1, param_count := 1, param := [5] }).2 + 3 ≤
        2 ^ 32 →
      (ipi_mux_domain_alloc 32 1 4294967295 3 { fwnode := 1, param_count := 1, param := [5] }
        boot).2.lines =
        boot.lines ++ (List.range 3).map
          (fun i => (1, 4294967295 + i,
            (irq_domain_translate_onecell
              { fwnode := 1, param_count := 1, param := [5] }).2 + i)))) :=
  ⟨by decide, by decide, by decide,
   domain_alloc_result 32 1 4294967295 3 { fwnode := 1, param_count := 0, param := [] }
     { fwnode := 1, param_count := 1, param := [5] } boot (by decide) (by decide)⟩

/-- C22 fails as stated: with the handler of line 2 sending reason 2 to the CPU it
runs on, the drain entered on CPU 0 with bit 2 pending does not return, whatever
the number of passes it is given. -/
theorem drain_never_returns :
    ¬ ∃ fuel s', riscv_ipi_mux_handle_irq env_restart 0 fuel
        (ipi_mux_send_mask 32 2 [0] (init priv_both)) = some s' := by
  rintro ⟨fuel, s', h⟩
  have hb : ((ipi_mux_send_mask 32 2 [0] (init priv_both)).ipi_mux_bits 0 0).testBit 2 = true := by
    decide
  have hr := handle_irq_loop_restart 0 fuel _ hb
  unfold riscv_ipi_mux_handle_irq at h
  simp only [hr] at h
  exact absurd h (by simp)

/-- C22 as amended: for every initial state, so for every pending set of the
calling CPU, and every choice of handlers of which none sends to the CPU being
drained (they may send to any other CPU), `riscv_ipi_mux_handle_irq` returns
within two passes, and returns with the pending set of the calling CPU 0. -/
theorem drain_bounded (env : Env) (c fuel : Nat) (s : State)
    (hq : ∀ i st, ∀ sd ∈ env.handler c i st, c ∉ sd.2) :
    ∃ s', riscv_ipi_mux_handle_irq env c (fuel + 2) s = some s' ∧ PendingSet s' c = 0 := by
  obtain ⟨h1, _, h3, _⟩ := drain_quiet env c hq fuel s
  exact ⟨_, handle_irq_of_loop env c (fuel + 2) s h1, h3⟩

/-- The handler of line 1 sends reason 3 to CPU 0; the drain runs on CPU 1 with
the bits 1 and 3 pending. -/
theorem drain_bounded_witness :
    (∀ i st, ∀ sd ∈ env_resend.handler 1 i st, 1 ∉ sd.2) ∧
    ∃ s', riscv_ipi_mux_handle_irq env_resend 1 (0 + 2)
        (ipi_mux_send_mask 32 3 [1] (ipi_mux_send_mask 32 1 [1] (init priv_both))) = some s' ∧
      PendingSet s' 1 = 0 :=
  ⟨by intro i st sd h; simp only [env_resend] at h; split at h <;> simp_all,
   drain_bounded env_resend 1 0
     (ipi_mux_send_mask 32 3 [1] (ipi_mux_send_mask 32 1 [1] (init priv_both)))
     (by intro i st sd h; simp only [env_resend] at h; split at h <;> simp_all)⟩

/-- C23: the mask and unmask operations of `ipi_mux_chip` leave the machine
exactly as it was for every line, so that no pending set and no facility state
is changed; and a reason `r < W` that is masked and then sent to a CPU `c` is
delivered by the next drain on `c`, whose first pass calls
`generic_handle_domain_irq` for `r`, whatever the handlers do. -/
theorem mask_unmask_noop (env : Env) (d c r fuel : Nat) (T : List Nat) (m : Machine)
    (hr : r < env.W) (hc : c ∈ T) :
    (ipi_mux_chip env.W).irq_mask d m = m ∧
    (ipi_mux_chip env.W).irq_unmask d m = m ∧
    ((ipi_mux_chip env.W).ipi_send_mask r T ((ipi_mux_chip env.W).irq_mask r m)).st.log.count
        (Event.deliver c r) + 1 ≤
      (handle_irq_loop env c (fuel + 1)
        ((ipi_mux_chip env.W).ipi_send_mask r T
          ((ipi_mux_chip env.W).irq_mask r m)).st).1.log.count (Event.deliver c r) := by
  refine ⟨rfl, rfl, ?_⟩
  apply first_pass_delivers env c fuel r _ hr
  show (PendingSet (ipi_mux_send_mask env.W r T m.st) c).testBit r = true
  rw [send_mask_PendingSet env.W r hr, if_pos hc, testBit_lor_one_shiftLeft]
  simp

/-- Line 5 masked on the Active facility, then sent to CPUs 0 and 1, then the
drain on CPU 1. -/
theorem mask_unmask_noop_witness :
    5 < env_passive.W ∧ 1 ∈ [0, 1] ∧
    ((ipi_mux_chip env_passive.W).irq_mask 5 machine_active = machine_active ∧
    (ipi_mux_chip env_passive.W).irq_unmask 5 machine_active = machine_active ∧
    ((ipi_mux_chip env_passive.W).ipi_send_mask 5 [0, 1]
        ((ipi_mux_chip env_passive.W).irq_mask 5 machine_active)).st.log.count
        (Event.deliver 1 5) + 1 ≤
      (handle_irq_loop env_passive 1 (1 + 1)
        ((ipi_mux_chip env_passive.W).ipi_send_mask 5 [0, 1]
          ((ipi_mux_chip env_passive.W).irq_mask 5 machine_active)).st).1.log.count
        (Event.deliver 1 5)) :=
  ⟨by decide, by decide,
   mask_unmask_noop env_passive 5 1 5 1 [0, 1] machine_active (by decide) (by decide)⟩

/-- C24 fails as stated: on a facility created without a `clear_ipi` callback the
trace of a drain holds no `clear_ipi` call. After `send(5, {0})` the drain on CPU 0
returns having made the exchange that read 32, the delivery of line 5 and the
exchange that read 0, which is not of the form the claim gives. -/
theorem drain_trace_without_clear :
    (riscv_ipi_mux_handle_irq env_passive 0 2
      (ipi_mux_send_mask 32 5 [0] (init priv_no_clear))).map
      (fun s' => loop_events 0 s'.log) =
        some [Event.xchg 0 32, Event.deliver 0 5, Event.xchg 0 0] ∧
    is_drain_trace true 0 TracePos.head
      [Event.xchg 0 32, Event.deliver 0 5, Event.xchg 0 0] = false := by
  decide

/-- C24 as amended: when `riscv_ipi_mux_handle_irq` returns, the events its loop
has added to the log (the `clear_ipi` calls, the exchanges and the deliveries on
the calling CPU) are, with a `clear_ipi` callback registered, of the form
(clear, exchange reading a value other than 0, deliveries)* followed by clear
and an exchange reading 0; with no callback registered they are of the same form
without the clear calls. In both cases the loop is left only right after an
exchange that read 0. -/
theorem drain_trace_form (env : Env) (c fuel : Nat) (s s' : State)
    (h : riscv_ipi_mux_handle_irq env c fuel s = some s') :
    ∃ ev, s'.log = s.log ++ ev ∧
      is_drain_trace s.ipi_mux_priv.clear_ipi c TracePos.head (loop_events c ev) = true := by
  have hs := handle_irq_eq_some env c fuel s s' h
  have hfin : (handle_irq_loop env c fuel s).2 = true := by
    unfold riscv_ipi_mux_handle_irq at h
    by_contra e
    simp only [e] at h
    exact absurd h (by simp)
  obtain ⟨X, hX⟩ := handle_irq_loop_log_grows env c fuel s
  obtain ⟨ev, h1, h2⟩ := handle_irq_loop_trace env c fuel s hfin
  refine ⟨X, by rw [hs, hX], ?_⟩
  have e : loop_events c X = ev := by
    rw [← hX] at h1
    unfold loop_events at h1 ⊢
    rw [List.filterMap_append] at h1
    exact List.append_cancel_left h1
  rw [e]
  exact h2

/-- The drain on CPU 0 after `send(5, {0})` and `send(0, {0})`, with both
callbacks registered. -/
theorem drain_trace_form_witness :
    riscv_ipi_mux_handle_irq env_passive 0 2
        (ipi_mux_send_mask 32 0 [0] (ipi_mux_send_mask 32 5 [0] (init priv_both))) =
      some (handle_irq_loop env_passive 0 2
        (ipi_mux_send_mask 32 0 [0] (ipi_mux_send_mask 32 5 [0] (init priv_both)))).1 ∧
    loop_events 0 (handle_irq_loop env_passive 0 2
        (ipi_mux_send_mask 32 0 [0] (ipi_mux_send_mask 32 5 [0] (init priv_both)))).1.log =
      [Event.clear_ipi 0, Event.xchg 0 33, Event.deliver 0 0, Event.deliver 0 5,
       Event.clear_ipi 0, Event.xchg 0 0] ∧
    ∃ ev, (handle_irq_loop env_passive 0 2
        (ipi_mux_send_mask 32 0 [0] (ipi_mux_send_mask 32 5 [0] (init priv_both)))).1.log =
        (ipi_mux_send_mask 32 0 [0] (ipi_mux_send_mask 32 5 [0] (init priv_both))).log ++ ev ∧
      is_drain_trace
        (ipi_mux_send_mask 32 0 [0]
          (ipi_mux_send_mask 32 5 [0] (init priv_both))).ipi_mux_priv.clear_ipi
        0 TracePos.head (loop_events 0 ev) = true :=
  ⟨handle_irq_of_loop _ _ _ _ (by decide), by decide,
   drain_trace_form env_passive 0 2
     (ipi_mux_send_mask 32 0 [0] (ipi_mux_send_mask 32 5 [0] (init priv_both))) _
     (handle_irq_of_loop _ _ _ _ (by decide))⟩

/-- C25: a bit `r < W` present in the pending set of the calling CPU at the head
of a pass of the drain (set by a handler of the pass before or by any other
sender) is delivered by that pass, whatever the handlers do, and when the drain
returns the pending set of the calling CPU is 0. In the interleaved system,
reached from creation by any schedule of sends and drains: when the drain of `C`
is about to make its exchange and bit `r` is set, the loop does not return but
starts a pass on the captured set with `r` still to deliver; and when the
exchange lets the drain return, the pending set it read was 0 and every `set_bit`
of `r` on `C` made so far is followed by a delivery of `r` on `C`. -/
theorem loop_until_empty (env : Env) (p : ipi_mux) (acts : List Action) (C r fuel : Nat)
    (s : State) (hr : r < env.W)
    (hx : (run env acts (Sys.init p)).drain C = DrainPC.at_xchg)
    (hb : (PendingSet s C).testBit r = true) :
    s.log.count (Event.deliver C r) + 1 ≤
      (handle_irq_loop env C (fuel + 1) s).1.log.count (Event.deliver C r) ∧
    (∀ s', riscv_ipi_mux_handle_irq env C fuel s = some s' → PendingSet s' C = 0) ∧
    ((PendingSet (run env acts (Sys.init p)).st C).testBit r = true →
      ∃ bit, (step env (Action.irq_step C) (run env acts (Sys.init p))).drain C =
          DrainPC.delivering (PendingSet (run env acts (Sys.init p)).st C) bit ∧ bit ≤ r) ∧
    ((step env (Action.irq_step C) (run env acts (Sys.init p))).drain C = DrainPC.idle →
      PendingSet (run env acts (Sys.init p)).st C = 0 ∧
      NoLost C r (step env (Action.irq_step C) (run env acts (Sys.init p))).st.log) := by
  refine ⟨first_pass_delivers env C fuel r s hr hb, ?_, ?_, ?_⟩
  · intro s' h
    have hs := handle_irq_eq_some env C fuel s s' h
    have hfin : (handle_irq_loop env C fuel s).2 = true := by
      unfold riscv_ipi_mux_handle_irq at h
      by_contra e
      simp only [e] at h
      exact absurd h (by simp)
    unfold PendingSet
    rw [hs]
    exact handle_irq_loop_returns_empty env C fuel s hfin
  · intro ht
    have hne : (xchg C (run env acts (Sys.init p)).st).1 ≠ 0 := by
      intro e
      have : (xchg C (run env acts (Sys.init p)).st).1 =
          PendingSet (run env acts (Sys.init p)).st C := rfl
      rw [this] at e
      rw [e] at ht
      simp at ht
    refine ⟨find_first_bit (PendingSet (run env acts (Sys.init p)).st C) env.W, ?_,
      find_next_bit_le_of_testBit _ _ _ _ ht (Nat.zero_le _) hr⟩
    show (irq_step env C (run env acts (Sys.init p))).drain C = _
    rw [irq_step_at_xchg env C _ hx]
    simp only [if_true, hne, if_false]
    rfl
  · intro hi
    have hinv := armedInv_step env (Action.irq_step C) _
      (armedInv_run env acts _ (armedInv_init env p))
    have hst : step env (Action.irq_step C) (run env acts (Sys.init p)) =
        irq_step env C (run env acts (Sys.init p)) := rfl
    have hz : PendingSet (run env acts (Sys.init p)).st C = 0 := by
      rw [hst, irq_step_at_xchg env C _ hx] at hi
      simp only [if_true] at hi
      by_contra hne
      have hne' : (xchg C (run env acts (Sys.init p)).st).1 ≠ 0 := hne
      rw [if_neg hne'] at hi
      cases hi
    refine ⟨hz, ?_⟩
    rw [noLost_iff_armed]
    by_contra hne
    have ha : armed C r (step env (Action.irq_step C) (run env acts (Sys.init p))).st.log =
        true := by simpa using hne
    rcases hinv C r hr ha with h1 | ⟨irqs, bit, h1, _, _⟩
    · have hbz : (step env (Action.irq_step C) (run env acts (Sys.init p))).st.ipi_mux_bits C 0 =
          0 := by
        rw [hst, irq_step_at_xchg env C _ hx]
        simp [xchg]
      rw [hbz] at h1
      simp at h1
    · rw [hi] at h1
      cases h1

/-- A send of reason 5 to CPU 0 has set its bit; the drain of CPU 0 has entered
and made its `clear_ipi` call, and is about to make the exchange. -/
theorem loop_until_empty_witness :
    5 < env_passive.W ∧
    (run env_passive
      [Action.send_call 5 [0], Action.send_step 0, Action.irq_step 0, Action.irq_step 0]
      (Sys.init priv_both)).drain 0 = DrainPC.at_xchg ∧
    (PendingSet (ipi_mux_send_mask 32 5 [0] (init priv_both)) 0).testBit 5 = true ∧
    ((ipi_mux_send_mask 32 5 [0] (init priv_both)).log.count (Event.deliver 0 5) + 1 ≤
      (handle_irq_loop env_passive 0 (1 + 1)
        (ipi_mux_send_mask 32 5 [0] (init priv_both))).1.log.count (Event.deliver 0 5) ∧
    (∀ s', riscv_ipi_mux_handle_irq env_passive 0 1
        (ipi_mux_send_mask 32 5 [0] (init priv_both)) = some s' → PendingSet s' 0 = 0) ∧
    ((PendingSet (run env_passive
        [Action.send_call 5 [0], Action.send_step 0, Action.irq_step 0, Action.irq_step 0]
        (Sys.init priv_both)).st 0).testBit 5 = true →
      ∃ bit, (step env_passive (Action.irq_step 0) (run env_passive
          [Action.send_call 5 [0], Action.send_step 0, Action.irq_step 0, Action.irq_step 0]
          (Sys.init priv_both))).drain 0 =
          DrainPC.delivering (PendingSet (run env_passive
            [Action.send_call 5 [0], Action.send_step 0, Action.irq_step 0, Action.irq_step 0]
            (Sys.init priv_both)).st 0) bit ∧ bit ≤ 5) ∧
    ((step env_passive (Action.irq_step 0) (run env_passive
        [Action.send_call 5 [0], Action.send_step 0, Action.irq_step 0, Action.irq_step 0]
        (Sys.init priv_both))).drain 0 = DrainPC.idle →
      PendingSet (run env_passive
        [Action.send_call 5 [0], Action.send_step 0, Action.irq_step 0, Action.irq_step 0]
        (Sys.init priv_both)).st 0 = 0 ∧
      NoLost 0 5 (step env_passive (Action.irq_step 0) (run env_passive
        [Action.send_call 5 [0], Action.send_step 0, Action.irq_step 0, Action.irq_step 0]
        (Sys.init priv_both))).st.log)) :=
  ⟨by decide, by decide, by decide,
   loop_until_empty env_passive priv_both
     [Action.send_call 5 [0], Action.send_step 0, Action.irq_step 0, Action.irq_step 0]
     0 5 1 (ipi_mux_send_mask 32 5 [0] (init priv_both)) (by decide) (by decide) (by decide)⟩

/-- C26: with an IPI virq range registered, and so also when no facility is
installed (`ipi_mux_priv.domain` NULL), `riscv_ipi_mux_create` returns NULL and
leaves the machine exactly as it was, for every argument combination. When it
succeeds (on a
machine `m'`), no range was registered before, it has registered the range
(first virq of the lines, `W`, `use_for_rfence`) by exactly one
`riscv_ipi_set_virq_range` call, and the handle it returns is the installed
`ipi_mux_priv.domain`, not NULL, stored with the `clear_ipi` and `send_ipi`
callbacks given. -/
theorem create_virq_range (W : Nat) (pl : Platform) (us rf c s : Bool) (m m' : Machine)
    (hv : riscv_ipi_have_virq_range m = true)
    (hs : (riscv_ipi_mux_create W pl us rf c s m').1 ≠ 0) :
    riscv_ipi_mux_create W pl us rf c s m = (0, m) ∧
    m'.virq_range = none ∧
    (riscv_ipi_mux_create W pl us rf c s m').2.virq_range = some (pl.virq_base, W, rf) ∧
    (riscv_ipi_mux_create W pl us rf c s m').2.calls.filter is_set_range =
      m'.calls.filter is_set_range ++ [KCall.riscv_ipi_set_virq_range pl.virq_base W rf] ∧
    (riscv_ipi_mux_create W pl us rf c s m').1 =
      (riscv_ipi_mux_create W pl us rf c s m').2.st.ipi_mux_priv.domain ∧
    (riscv_ipi_mux_create W pl us rf c s m').2.st.ipi_mux_priv.clear_ipi = c ∧
    (riscv_ipi_mux_create W pl us rf c s m').2.st.ipi_mux_priv.send_ipi = s := by
  obtain ⟨g0, g1, g2, _, g4, _⟩ := create_some W pl us rf c s m' hs
  refine ⟨create_of_active W pl us rf c s m (Or.inr hv), g0.2, g4,
    create_set_range W pl us rf c s m' hs, ?_, ?_, ?_⟩
  · rw [g1, g2]
  · rw [g2]
  · rw [g2]

/-- The machine left by a creation and the destruction of its handle, on which
the range is still registered, and the booted machine, on which creation
succeeds. -/
theorem create_virq_range_witness :
    machine_destroyed.st.ipi_mux_priv.domain = 0 ∧
    riscv_ipi_have_virq_range machine_destroyed = true ∧
    (riscv_ipi_mux_create 32 platform_ok false true true false boot).1 ≠ 0 ∧
    (riscv_ipi_mux_create 32 platform_ok false true true false machine_destroyed =
      (0, machine_destroyed) ∧
    boot.virq_range = none ∧
    (riscv_ipi_mux_create 32 platform_ok false true true false boot).2.virq_range =
      some (platform_ok.virq_base, 32, true) ∧
    (riscv_ipi_mux_create 32 platform_ok false true true false boot).2.calls.filter is_set_range =
      boot.calls.filter is_set_range ++
        [KCall.riscv_ipi_set_virq_range platform_ok.virq_base 32 true] ∧
    (riscv_ipi_mux_create 32 platform_ok false true true false boot).1 =
      (riscv_ipi_mux_create 32 platform_ok false true true false boot).2.st.ipi_mux_priv.domain ∧
    (riscv_ipi_mux_create 32 platform_ok false true true false boot).2.st.ipi_mux_priv.clear_ipi =
      true ∧
    (riscv_ipi_mux_create 32 platform_ok false true true false boot).2.st.ipi_mux_priv.send_ipi =
      false) :=
  ⟨by decide, by decide, by decide,
   create_virq_range 32 platform_ok false true true false machine_destroyed boot
     (by decide) (by decide)⟩

end IpiMux

namespace Sun8iPwm

/-! ## Properties of pwm-sun8i-v536.c -/

/-- With a period below `2 ^ 32` ns, so that `do_div` sees the whole divisor, a
duty cycle not above the period and `entire_cycles` within its maximum,
`calc_end` gives an `active_cycles` not above the `entire_cycles` of the loops. -/
theorem calc_end_le (W entire_cycles duty_ns period_ns : Nat) (hp : 0 < period_ns)
    (hp32 : period_ns < 2 ^ 32) (hd : duty_ns ≤ period_ns)
    (he : entire_cycles ≤ PWM_ENTIRE_CYCLE_MAX) :
    ∃ a, calc_end W entire_cycles duty_ns period_ns = some a ∧ a.1 ≤ entire_cycles := by
  have hmod : period_ns % 2 ^ 32 = period_ns := Nat.mod_eq_of_lt hp32
  have hprod : entire_cycles * duty_ns ≤ 65536 * period_ns :=
    Nat.mul_le_mul he hd
  have h1 : (entire_cycles * duty_ns) % 2 ^ 64 = entire_cycles * duty_ns :=
    Nat.mod_eq_of_lt (by omega)
  have h2 : (entire_cycles * duty_ns + period_ns / 2) % 2 ^ 64 =
      entire_cycles * duty_ns + period_ns / 2 := Nat.mod_eq_of_lt (by omega)
  have hq : (entire_cycles * duty_ns + period_ns / 2) / period_ns ≤ entire_cycles := by
    have hlt : entire_cycles * duty_ns + period_ns / 2 < (entire_cycles + 1) * period_ns := by
      have : entire_cycles * duty_ns ≤ entire_cycles * period_ns := Nat.mul_le_mul_left _ hd
      have : period_ns / 2 < period_ns := Nat.div_lt_self hp (by decide)
      rw [Nat.add_mul, Nat.one_mul]
      omega
    have := (Nat.div_lt_iff_lt_mul hp).2 hlt
    omega
  unfold calc_end DIV_ROUND_CLOSEST_ULL do_div
  rw [h1, h2, hmod, if_neg (by omega)]
  refine ⟨_, rfl, ?_⟩
  exact le_trans (Nat.mod_le _ _) hq

/-! ## The claim on pwm-sun8i-v536.c -/

/-- C27: with `BITS_PER_LONG = 64`, on channel 0 and with the 24 MHz clock, for
`period_ns = duty_ns = 2730667` the loops of `sun8i_pwm_config` are left at once
with `entire_cycles = 65536`, the function computes `active_cycles = 65536`, which
does not fit the 16-bit field, returns 0, and the period register it has written
holds `ACT_CYCLE = 0` and `ENTIRE_CYCLE = 65535`: the 100% duty request is
programmed as active = 0. For `period_ns = duty_ns = 1000000` the register holds
`ACT_CYCLE = 24000` and `ENTIRE_CYCLE = 23999`. -/
theorem config_full_duty_wraps :
    config_cycles 64 PWM_OSC_CLK { period := 2730667, duty_cycle := 2730667 } =
      some (0, 0, 65536, 65536) ∧
    (sun8i_pwm_config 64 0 { period := 2730667, duty_cycle := 2730667 } chip0).map
      (fun r => (r.1, act_cycle (r.2.regs (PWM_PERIOD_REG 0)),
        entire_cycle (r.2.regs (PWM_PERIOD_REG 0)))) = some (0, 0, 65535) ∧
    config_cycles 64 PWM_OSC_CLK { period := 1000000, duty_cycle := 1000000 } =
      some (0, 0, 24000, 24000) ∧
    (sun8i_pwm_config 64 0 { period := 1000000, duty_cycle := 1000000 } chip0).map
      (fun r => (r.1, act_cycle (r.2.regs (PWM_PERIOD_REG 0)),
        entire_cycle (r.2.regs (PWM_PERIOD_REG 0)))) = some (0, 24000, 23999) := by
  decide

end Sun8iPwm

namespace Sun20iIntc

/-! ## Properties of irq-sun20i.c -/

theorem set_loop_parent (W : Nat) : ∀ (n virq hwirq : Nat) (h : Hierarchy),
    (set_loop W n virq hwirq h).parent = h.parent := by
  intro n
  induction n with
  | zero => intro virq hwirq h; rfl
  | succ n ih => intro virq hwirq h; rw [set_loop, ih]; rfl

/-- The bindings made by the loop, as long as the line numbers do not wrap. -/
theorem set_loop_bound (W : Nat) : ∀ (n virq hwirq : Nat) (h : Hierarchy),
    virq < 2 ^ 32 → hwirq + n < 2 ^ W →
    (set_loop W n virq hwirq h).bound =
      h.bound ++ (List.range n).map (fun i => ((virq + i) % 2 ^ 32, hwirq + i)) := by
  intro n
  induction n with
  | zero => intro virq hwirq h _ _; simp [set_loop]
  | succ n ih =>
    intro virq hwirq h hv hw
    have h1 : (hwirq + 1) % 2 ^ W = hwirq + 1 := Nat.mod_eq_of_lt (by omega)
    rw [set_loop, h1, ih _ _ _ (Nat.mod_lt _ (by positivity)) (by omega)]
    simp only [irq_domain_set_hwirq_and_chip, List.append_assoc, List.singleton_append]
    rw [List.range_succ_eq_map, List.map_cons, List.map_map]
    congr 1
    simp only [Nat.add_zero, List.cons.injEq]
    refine ⟨by rw [Nat.mod_eq_of_lt hv], ?_⟩
    apply List.map_congr_left
    intro i _
    simp only [Function.comp, Nat.succ_eq_add_one]
    refine Prod.ext ?_ ?_
    · show ((virq + 1) % 2 ^ 32 + i) % 2 ^ 32 = (virq + (i + 1)) % 2 ^ 32
      rw [Nat.mod_add_mod]; congr 1; omega
    · show hwirq + 1 + i = hwirq + (i + 1)
      omega

theorem translate_error_iff (fwspec : irq_fwspec) :
    sun20i_intc_domain_translate fwspec = Except.error (-EINVAL) ↔
      (fwspec.param_count < 2 ∨ fwspec.param 0 < SUN20I_HWIRQ_OFFSET) := by
  unfold sun20i_intc_domain_translate
  by_cases h1 : fwspec.param_count < 2
  · simp [h1]
  · by_cases h2 : fwspec.param 0 < SUN20I_HWIRQ_OFFSET
    · simp [h1, h2]
    · simp [h1, h2]

theorem translate_ok (fwspec : irq_fwspec)
    (h : ¬ (fwspec.param_count < 2 ∨ fwspec.param 0 < SUN20I_HWIRQ_OFFSET)) :
    sun20i_intc_domain_translate fwspec =
      Except.ok (fwspec.param 0, fwspec.param 1 &&& IRQ_TYPE_SENSE_MASK) := by
  unfold sun20i_intc_domain_translate
  rw [if_neg (fun e => h (Or.inl e)), if_neg (fun e => h (Or.inr e))]


theorem alloc_of_error (W : Nat) (ret : Int) (virq nr_irqs : Nat) (fwspec : irq_fwspec)
    (h : Hierarchy) (e : Int) (he : sun20i_intc_domain_translate fwspec = Except.error e) :
    sun20i_intc_domain_alloc W ret virq nr_irqs fwspec h = (e, h) := by
  unfold sun20i_intc_domain_alloc
  rw [he]

theorem alloc_of_ok (W : Nat) (ret : Int) (virq nr_irqs : Nat) (fwspec : irq_fwspec)
    (h : Hierarchy) (t : Nat × Nat) (he : sun20i_intc_domain_translate fwspec = Except.ok t) :
    sun20i_intc_domain_alloc W ret virq nr_irqs fwspec h =
      if (t.1 + nr_irqs) % 2 ^ W > SUN20I_HWIRQ_OFFSET + SUN20I_NR_HWIRQS then (-EINVAL, h)
      else if ret ≠ 0 then (ret, { h with parent := h.parent ++ [(virq, nr_irqs)] })
      else (0, set_loop W nr_irqs virq t.1 { h with parent := h.parent ++ [(virq, nr_irqs)] }) := by
  unfold sun20i_intc_domain_alloc
  rw [he]
  rfl

/-! ## The claim on irq-sun20i.c -/

/-- C28: with `BITS_PER_LONG = 64` and the cells, `virq` and `nr_irqs` being 32-bit
values, `sun20i_intc_domain_translate` returns `-EINVAL` if and only if
`param_count < 2` or `param[0] < 16`, and otherwise yields `hwirq = param[0]` and
`type = param[1] & IRQ_TYPE_SENSE_MASK`; `sun20i_intc_domain_alloc` returns
`-EINVAL` and leaves the hierarchy as it was whenever `hwirq + nr_irqs > 176`; it
binds nothing when it returns an error; and when it returns 0 it has bound
`virq + i` to `param[0] + i` for `i < nr_irqs` and nothing else, every such
hardware interrupt number lying in `[16, 176)`. -/
theorem intc_alloc_in_range (ret : Int) (virq nr_irqs : Nat) (fwspec : irq_fwspec)
    (h : Hierarchy) (hp : fwspec.param 0 < 2 ^ 32) (hn : nr_irqs < 2 ^ 32)
    (hv : virq < 2 ^ 32) :
    (sun20i_intc_domain_translate fwspec = Except.error (-EINVAL) ↔
      (fwspec.param_count < 2 ∨ fwspec.param 0 < 16)) ∧
    (¬ (fwspec.param_count < 2 ∨ fwspec.param 0 < 16) →
      sun20i_intc_domain_translate fwspec =
        Except.ok (fwspec.param 0, fwspec.param 1 &&& IRQ_TYPE_SENSE_MASK)) ∧
    (¬ (fwspec.param_count < 2 ∨ fwspec.param 0 < 16) → fwspec.param 0 + nr_irqs > 176 →
      sun20i_intc_domain_alloc 64 ret virq nr_irqs fwspec h = (-EINVAL, h)) ∧
    ((sun20i_intc_domain_alloc 64 ret virq nr_irqs fwspec h).1 ≠ 0 →
      (sun20i_intc_domain_alloc 64 ret virq nr_irqs fwspec h).2.bound = h.bound) ∧
    ((sun20i_intc_domain_alloc 64 ret virq nr_irqs fwspec h).1 = 0 →
      (sun20i_intc_domain_alloc 64 ret virq nr_irqs fwspec h).2.bound =
        h.bound ++ (List.range nr_irqs).map
          (fun i => ((virq + i) % 2 ^ 32, fwspec.param 0 + i)) ∧
      ∀ i, i < nr_irqs → 16 ≤ fwspec.param 0 + i ∧ fwspec.param 0 + i < 176) := by
  have hsum : (fwspec.param 0 + nr_irqs) % 2 ^ 64 = fwspec.param 0 + nr_irqs :=
    Nat.mod_eq_of_lt (by omega)
  refine ⟨translate_error_iff fwspec, translate_ok fwspec, ?_, ?_, ?_⟩
  · intro hok hgt
    rw [alloc_of_ok 64 ret virq nr_irqs fwspec h _ (translate_ok fwspec hok)]
    simp only [hsum]
    rw [if_pos (by simpa [SUN20I_HWIRQ_OFFSET, SUN20I_NR_HWIRQS] using hgt)]
  · intro hne
    by_cases hok : fwspec.param_count < 2 ∨ fwspec.param 0 < 16
    · rw [alloc_of_error 64 ret virq nr_irqs fwspec h _ ((translate_error_iff fwspec).2 hok)]
    · rw [alloc_of_ok 64 ret virq nr_irqs fwspec h _ (translate_ok fwspec hok)] at hne ⊢
      simp only [hsum] at hne ⊢
      by_cases hgt : fwspec.param 0 + nr_irqs > SUN20I_HWIRQ_OFFSET + SUN20I_NR_HWIRQS
      · rw [if_pos hgt]
      · rw [if_neg hgt] at hne ⊢
        by_cases hr : ret ≠ 0
        · rw [if_pos hr]
        · rw [if_neg hr] at hne
          exact absurd rfl hne
  · intro hz
    by_cases hok : fwspec.param_count < 2 ∨ fwspec.param 0 < 16
    · rw [alloc_of_error 64 ret virq nr_irqs fwspec h _ ((translate_error_iff fwspec).2 hok)] at hz
      have hz' : -EINVAL = 0 := hz
      exact absurd hz' (by decide)
    · rw [alloc_of_ok 64 ret virq nr_irqs fwspec h _ (translate_ok fwspec hok)] at hz ⊢
      simp only [hsum] at hz ⊢
      by_cases hgt : fwspec.param 0 + nr_irqs > SUN20I_HWIRQ_OFFSET + SUN20I_NR_HWIRQS
      · rw [if_pos hgt] at hz
        have hz' : -EINVAL = 0 := hz
        exact absurd hz' (by decide)
      · rw [if_neg hgt] at hz ⊢
        have hle : fwspec.param 0 + nr_irqs ≤ 176 := by
          simpa [SUN20I_HWIRQ_OFFSET, SUN20I_NR_HWIRQS] using hgt
        have h16 : 16 ≤ fwspec.param 0 := by
          by_contra e; exact hok (Or.inr (by omega))
        by_cases hr : ret ≠ 0
        · rw [if_pos hr] at hz
          exact absurd hz hr
        · rw [if_neg hr]
          refine ⟨?_, fun i hi => ⟨by omega, by omega⟩⟩
          rw [set_loop_bound 64 nr_irqs virq (fwspec.param 0) _ hv (by omega)]

/-- Three interrupts from hardware number 20 on, virq 100 to 102, the parent
domain accepting. -/
theorem intc_alloc_in_range_witness :
    (fwspec_of 20 4).param 0 < 2 ^ 32 ∧ (3 : Nat) < 2 ^ 32 ∧ (100 : Nat) < 2 ^ 32 ∧
    (sun20i_intc_domain_alloc 64 0 100 3 (fwspec_of 20 4) empty).2.bound =
      [(100, 20), (101, 21), (102, 22)] ∧
    ((sun20i_intc_domain_translate (fwspec_of 20 4) = Except.error (-EINVAL) ↔
      ((fwspec_of 20 4).param_count < 2 ∨ (fwspec_of 20 4).param 0 < 16)) ∧
    (¬ ((fwspec_of 20 4).param_count < 2 ∨ (fwspec_of 20 4).param 0 < 16) →
      sun20i_intc_domain_translate (fwspec_of 20 4) =
        Except.ok ((fwspec_of 20 4).param 0, (fwspec_of 20 4).param 1 &&& IRQ_TYPE_SENSE_MASK)) ∧
    (¬ ((fwspec_of 20 4).param_count < 2 ∨ (fwspec_of 20 4).param 0 < 16) →
      (fwspec_of 20 4).param 0 + 3 > 176 →
      sun20i_intc_domain_alloc 64 0 100 3 (fwspec_of 20 4) empty = (-EINVAL, empty)) ∧
    ((sun20i_intc_domain_alloc 64 0 100 3 (fwspec_of 20 4) empty).1 ≠ 0 →
      (sun20i_intc_domain_alloc 64 0 100 3 (fwspec_of 20 4) empty).2.bound = empty.bound) ∧
    ((sun20i_intc_domain_alloc 64 0 100 3 (fwspec_of 20 4) empty).1 = 0 →
      (sun20i_intc_domain_alloc 64 0 100 3 (fwspec_of 20 4) empty).2.bound =
        empty.bound ++ (List.range 3).map
          (fun i => ((100 + i) % 2 ^ 32, (fwspec_of 20 4).param 0 + i)) ∧
      ∀ i, i < 3 → 16 ≤ (fwspec_of 20 4).param 0 + i ∧ (fwspec_of 20 4).param 0 + i < 176)) :=
  ⟨by decide, by decide, by decide, by decide,
   intc_alloc_in_range 0 100 3 (fwspec_of 20 4) empty (by decide) (by decide) (by decide)⟩

end Sun20iIntc

namespace Sun50iLedc

/-! ## Properties of leds-sun50i-r329.c -/

theorem writel_frame (val offset : Nat) (priv : sun50i_r329_ledc) :
    (writel val offset priv).next_length = priv.next_length ∧
    (writel val offset priv).xfer_active = priv.xfer_active ∧
    (writel val offset priv).buffer = priv.buffer ∧
    (writel val offset priv).log = priv.log :=
  ⟨rfl, rfl, rfl, rfl⟩

theorem pio_xfer_frame (length : Int) (priv : sun50i_r329_ledc) :
    (sun50i_r329_ledc_pio_xfer length priv).next_length = priv.next_length ∧
    (sun50i_r329_ledc_pio_xfer length priv).xfer_active = priv.xfer_active ∧
    (sun50i_r329_ledc_pio_xfer length priv).buffer = priv.buffer ∧
    started (sun50i_r329_ledc_pio_xfer length priv).log = started priv.log := by
  unfold sun50i_r329_ledc_pio_xfer
  simp only []
  split_ifs <;>
    simp [writel, started, List.filterMap_append, start_length]

theorem dma_xfer_frame (ans : DmaAnswer) (length : Int) (priv : sun50i_r329_ledc) :
    (sun50i_r329_ledc_dma_xfer ans length priv).2.next_length = priv.next_length ∧
    (sun50i_r329_ledc_dma_xfer ans length priv).2.xfer_active = priv.xfer_active ∧
    (sun50i_r329_ledc_dma_xfer ans length priv).2.buffer = priv.buffer ∧
    started (sun50i_r329_ledc_dma_xfer ans length priv).2.log = started priv.log := by
  simp [sun50i_r329_ledc_dma_xfer, started, List.filterMap_append, start_length]

/-- `sun50i_r329_ledc_start_xfer` starts one transfer, of the length it is given,
and leaves `next_length` and `xfer_active` as they are. -/
theorem start_xfer_frame (ans : DmaAnswer) (length : Int) (priv : sun50i_r329_ledc) :
    (sun50i_r329_ledc_start_xfer ans length priv).next_length = priv.next_length ∧
    (sun50i_r329_ledc_start_xfer ans length priv).xfer_active = priv.xfer_active ∧
    (sun50i_r329_ledc_start_xfer ans length priv).buffer = priv.buffer ∧
    started (sun50i_r329_ledc_start_xfer ans length priv).log = started priv.log ++ [length] := by
  have hs : started (priv.log ++ [Event.start_xfer length]) = started priv.log ++ [length] := by
    simp [started, List.filterMap_append, start_length]
  unfold sun50i_r329_ledc_start_xfer
  simp only []
  split_ifs
  · obtain ⟨h1, h2, h3, h4⟩ := dma_xfer_frame ans length
      (writel ((readl { priv with log := priv.log ++ [Event.start_xfer length] }
          LEDC_CTRL_REG &&& lnot32 LEDC_CTRL_REG_DATA_LENGTH) |||
        (((u32_of_int length <<< 16) % 2 ^ 32) ||| LEDC_CTRL_REG_LEDC_EN))
        LEDC_CTRL_REG { priv with log := priv.log ++ [Event.start_xfer length] })
    rw [h1, h2, h3, h4]
    exact ⟨rfl, rfl, rfl, hs⟩
  · obtain ⟨h1, h2, h3, h4⟩ := dma_xfer_frame ans length
      (writel ((readl { priv with log := priv.log ++ [Event.start_xfer length] }
          LEDC_CTRL_REG &&& lnot32 LEDC_CTRL_REG_DATA_LENGTH) |||
        (((u32_of_int length <<< 16) % 2 ^ 32) ||| LEDC_CTRL_REG_LEDC_EN))
        LEDC_CTRL_REG { priv with log := priv.log ++ [Event.start_xfer length] })
    obtain ⟨g1, g2, g3, g4⟩ := pio_xfer_frame length
      { (sun50i_r329_ledc_dma_xfer ans length
          (writel ((readl { priv with log := priv.log ++ [Event.start_xfer length] }
              LEDC_CTRL_REG &&& lnot32 LEDC_CTRL_REG_DATA_LENGTH) |||
            (((u32_of_int length <<< 16) % 2 ^ 32) ||| LEDC_CTRL_REG_LEDC_EN))
            LEDC_CTRL_REG { priv with log := priv.log ++ [Event.start_xfer length] })).2 with
        log := (sun50i_r329_ledc_dma_xfer ans length
          (writel ((readl { priv with log := priv.log ++ [Event.start_xfer length] }
              LEDC_CTRL_REG &&& lnot32 LEDC_CTRL_REG_DATA_LENGTH) |||
            (((u32_of_int length <<< 16) % 2 ^ 32) ||| LEDC_CTRL_REG_LEDC_EN))
            LEDC_CTRL_REG { priv with log := priv.log ++ [Event.start_xfer length] })).2.log ++
          [Event.dma_warn (sun50i_r329_ledc_dma_xfer ans length
            (writel ((readl { priv with log := priv.log ++ [Event.start_xfer length] }
                LEDC_CTRL_REG &&& lnot32 LEDC_CTRL_REG_DATA_LENGTH) |||
              (((u32_of_int length <<< 16) % 2 ^ 32) ||| LEDC_CTRL_REG_LEDC_EN))
              LEDC_CTRL_REG { priv with log := priv.log ++ [Event.start_xfer length] })).1] }
    rw [g1, g2, g3, g4]
    refine ⟨h1, h2, h3, ?_⟩
    have : started ((sun50i_r329_ledc_dma_xfer ans length
          (writel ((readl { priv with log := priv.log ++ [Event.start_xfer length] }
              LEDC_CTRL_REG &&& lnot32 LEDC_CTRL_REG_DATA_LENGTH) |||
            (((u32_of_int length <<< 16) % 2 ^ 32) ||| LEDC_CTRL_REG_LEDC_EN))
            LEDC_CTRL_REG { priv with log := priv.log ++ [Event.start_xfer length] })).2.log ++
          [Event.dma_warn (sun50i_r329_ledc_dma_xfer ans length
            (writel ((readl { priv with log := priv.log ++ [Event.start_xfer length] }
                LEDC_CTRL_REG &&& lnot32 LEDC_CTRL_REG_DATA_LENGTH) |||
              (((u32_of_int length <<< 16) % 2 ^ 32) ||| LEDC_CTRL_REG_LEDC_EN))
              LEDC_CTRL_REG { priv with log := priv.log ++ [Event.start_xfer length] })).1]) =
        started (sun50i_r329_ledc_dma_xfer ans length
          (writel ((readl { priv with log := priv.log ++ [Event.start_xfer length] }
              LEDC_CTRL_REG &&& lnot32 LEDC_CTRL_REG_DATA_LENGTH) |||
            (((u32_of_int length <<< 16) % 2 ^ 32) ||| LEDC_CTRL_REG_LEDC_EN))
            LEDC_CTRL_REG { priv with log := priv.log ++ [Event.start_xfer length] })).2.log := by
      simp [started, List.filterMap_append, start_length]
    show started (_ ++ _) = _
    rw [this, h4]
    exact hs
  · obtain ⟨g1, g2, g3, g4⟩ := pio_xfer_frame length
      (writel ((readl { priv with log := priv.log ++ [Event.start_xfer length] }
          LEDC_CTRL_REG &&& lnot32 LEDC_CTRL_REG_DATA_LENGTH) |||
        (((u32_of_int length <<< 16) % 2 ^ 32) ||| LEDC_CTRL_REG_LEDC_EN))
        LEDC_CTRL_REG { priv with log := priv.log ++ [Event.start_xfer length] })
    rw [g1, g2, g3, g4]
    exact ⟨rfl, rfl, rfl, hs⟩


/-- What `sun50i_r329_ledc_brightness_set` does to the update state: a transfer
is active afterwards; when one was active the length asked for next is raised to
`addr + 1` at least and nothing is started; when none was, a transfer of
`max(next_length, addr + 1)` LEDs is started and `next_length` stays. -/
theorem brightness_set_state (ans : DmaAnswer) (addr b0 b1 b2 : Nat) (p : sun50i_r329_ledc) :
    (sun50i_r329_ledc_brightness_set ans addr b0 b1 b2 p).xfer_active = true ∧
    (sun50i_r329_ledc_brightness_set ans addr b0 b1 b2 p).next_length =
      (if p.xfer_active then max p.next_length (Int.ofNat addr + 1) else p.next_length) ∧
    started (sun50i_r329_ledc_brightness_set ans addr b0 b1 b2 p).log =
      started p.log ++
        (if p.xfer_active then [] else [max p.next_length (Int.ofNat addr + 1)]) := by
  unfold sun50i_r329_ledc_brightness_set
  simp only []
  cases ha : p.xfer_active with
  | true => simp
  | false =>
    simp only [Bool.not_false, if_true, Bool.false_eq_true, if_false]
    obtain ⟨h1, h2, _, h4⟩ := start_xfer_frame ans (max p.next_length (Int.ofNat addr + 1))
      { p with
        buffer := fun a =>
          if a = addr then ((b0 <<< 16) ||| (b1 <<< 8) ||| b2) % 2 ^ 32 else p.buffer a
        xfer_active := true }
    rw [h1, h2, h4]
    simp

/-- What `sun50i_r329_ledc_irq` does to the update state when the transfer has
finished: with a next length asked for, it is reset to 0 and one transfer of
exactly that length is started, a transfer staying active; with none, no
transfer is active any more and nothing is started. -/
theorem irq_finish_state (ans : DmaAnswer) (val : Nat) (p : sun50i_r329_ledc)
    (hv : val &&& LEDC_INT_STS_REG_TRANS_FINISH_INT ≠ 0) :
    (sun50i_r329_ledc_irq ans val p).next_length = 0 ∧
    (sun50i_r329_ledc_irq ans val p).xfer_active =
      (if p.next_length ≠ 0 then p.xfer_active else false) ∧
    started (sun50i_r329_ledc_irq ans val p).log =
      started p.log ++ (if p.next_length ≠ 0 then [p.next_length] else []) := by
  unfold sun50i_r329_ledc_irq
  simp only [hv, ne_eq, not_false_eq_true, if_true]
  by_cases hn : p.next_length = 0
  · simp [hn, writel]
  · simp only [hn, not_false_eq_true, if_true]
    obtain ⟨h1, h2, _, h4⟩ := start_xfer_frame ans p.next_length { p with next_length := 0 }
    refine ⟨?_, ?_, ?_⟩
    · show (sun50i_r329_ledc_start_xfer ans p.next_length { p with next_length := 0 }).next_length = 0
      rw [h1]
    · show (sun50i_r329_ledc_start_xfer ans p.next_length { p with next_length := 0 }).xfer_active = _
      rw [h2]
    · show started (sun50i_r329_ledc_start_xfer ans p.next_length
        { p with next_length := 0 }).log = _
      rw [h4]

/-- When the transfer has not finished the interrupt handler leaves the update
state as it is. -/
theorem irq_other_state (ans : DmaAnswer) (val : Nat) (p : sun50i_r329_ledc)
    (hv : val &&& LEDC_INT_STS_REG_TRANS_FINISH_INT = 0) :
    (sun50i_r329_ledc_irq ans val p).next_length = p.next_length ∧
    (sun50i_r329_ledc_irq ans val p).xfer_active = p.xfer_active ∧
    started (sun50i_r329_ledc_irq ans val p).log = started p.log := by
  unfold sun50i_r329_ledc_irq
  simp only [hv, ne_eq, not_true_eq_false, if_false]
  rw [(writel_frame _ _ _).1, (writel_frame _ _ _).2.1, (writel_frame _ _ _).2.2.2]
  split_ifs
  · exact ⟨rfl, rfl, rfl⟩
  · obtain ⟨h1, h2, _, h4⟩ := pio_xfer_frame 0 p
    exact ⟨h1, h2, h4⟩

theorem ofNat_succ_pos (a : Nat) : (0 : Int) < Int.ofNat a + 1 := by
  have h : (0 : Int) ≤ Int.ofNat a := Int.ofNat_nonneg a
  omega

theorem max_zero_succ (a : Nat) : max (0 : Int) (Int.ofNat a + 1) = Int.ofNat a + 1 :=
  max_eq_right (le_of_lt (ofNat_succ_pos a))

/-- One operation keeps: a next length asked for implies a transfer active. -/
theorem step_inv (op : Op) (p : sun50i_r329_ledc)
    (h : p.next_length ≠ 0 → p.xfer_active = true) :
    (step op p).next_length ≠ 0 → (step op p).xfer_active = true := by
  cases op with
  | brightness_set ans addr b0 b1 b2 =>
    intro _
    exact (brightness_set_state ans addr b0 b1 b2 p).1
  | irq ans val =>
    show (sun50i_r329_ledc_irq ans val p).next_length ≠ 0 →
      (sun50i_r329_ledc_irq ans val p).xfer_active = true
    by_cases hv : val &&& LEDC_INT_STS_REG_TRANS_FINISH_INT = 0
    · obtain ⟨h1, h2, _⟩ := irq_other_state ans val p hv
      rw [h1, h2]
      exact h
    · intro hn
      exact absurd (irq_finish_state ans val p hv).1 hn

theorem run_inv : ∀ (ops : List Op) (p : sun50i_r329_ledc),
    (p.next_length ≠ 0 → p.xfer_active = true) →
    (run ops p).next_length ≠ 0 → (run ops p).xfer_active = true := by
  intro ops
  induction ops with
  | nil => intro p h; exact h
  | cons op ops ih =>
    intro p h
    show (run ops (step op p)).next_length ≠ 0 → _
    exact ih _ (step_inv op p h)

/-- The update protocol at a state where a next length asked for implies a
transfer active. -/
theorem update_protocol (p : sun50i_r329_ledc) (ans ans' : DmaAnswer)
    (addr b0 b1 b2 val : Nat) (hv : val &&& LEDC_INT_STS_REG_TRANS_FINISH_INT ≠ 0)
    (hinv : p.next_length ≠ 0 → p.xfer_active = true) :
    ((sun50i_r329_ledc_brightness_set ans addr b0 b1 b2 p).xfer_active = true ∧
      (p.xfer_active = false →
        started (sun50i_r329_ledc_brightness_set ans addr b0 b1 b2 p).log =
          started p.log ++ [Int.ofNat addr + 1]) ∧
      (p.xfer_active = true →
        started (sun50i_r329_ledc_brightness_set ans addr b0 b1 b2 p).log = started p.log ∧
        Int.ofNat addr + 1 ≤ (sun50i_r329_ledc_brightness_set ans addr b0 b1 b2 p).next_length)) ∧
    ((sun50i_r329_ledc_irq ans val p).next_length = 0 ∧
      started (sun50i_r329_ledc_irq ans val p).log =
        started p.log ++ (if p.next_length ≠ 0 then [p.next_length] else []) ∧
      (sun50i_r329_ledc_irq ans val p).xfer_active = decide (p.next_length ≠ 0)) ∧
    (∃ L, Int.ofNat addr + 1 ≤ L ∧
      started (sun50i_r329_ledc_irq ans' val
          (sun50i_r329_ledc_brightness_set ans addr b0 b1 b2 p)).log = started p.log ++ [L]) := by
  obtain ⟨b1', b2', b3'⟩ := brightness_set_state ans addr b0 b1 b2 p
  obtain ⟨i1, i2, i3⟩ := irq_finish_state ans val p hv
  obtain ⟨_, _, j3⟩ := irq_finish_state ans' val
    (sun50i_r329_ledc_brightness_set ans addr b0 b1 b2 p) hv
  have hidle : p.xfer_active = false → p.next_length = 0 := by
    intro ha
    by_contra hn
    rw [hinv hn] at ha
    cases ha
  refine ⟨⟨b1', ?_, ?_⟩, ⟨i1, i3, ?_⟩, ?_⟩
  · intro ha
    rw [b3', ha, hidle ha, max_zero_succ]
    simp
  · intro ha
    rw [b3', b2', ha]
    exact ⟨by simp, by simp⟩
  · rw [i2]
    by_cases hn : p.next_length = 0
    · simp [hn]
    · simp [hn, hinv hn]
  · rw [j3, b3', b2']
    cases ha : p.xfer_active with
    | false =>
      refine ⟨Int.ofNat addr + 1, le_refl _, ?_⟩
      rw [hidle ha, max_zero_succ]
      simp only [Bool.false_eq_true, if_false, ne_eq, not_true_eq_false, List.append_nil]
    | true =>
      have h1 : Int.ofNat addr + 1 ≤ max p.next_length (Int.ofNat addr + 1) := le_max_right _ _
      have hpos : max p.next_length (Int.ofNat addr + 1) ≠ 0 := by
        have hp := ofNat_succ_pos addr
        intro h0
        rw [h0] at h1
        exact absurd (lt_of_lt_of_le hp h1) (lt_irrefl _)
      refine ⟨max p.next_length (Int.ofNat addr + 1), h1, ?_⟩
      simp only [if_true, ne_eq, hpos, not_false_eq_true, List.append_nil]

/-! ## The claim on leds-sun50i-r329.c -/

/-- C29: in every state `p` reached from probe through
`sun50i_r329_ledc_brightness_set` and the interrupt handler, `next_length != 0`
implies `xfer_active`. `brightness_set` for LED index `addr` on `p` leaves a
transfer active; when none was active it starts one transfer, of length
`addr + 1`; when one was, it starts none and leaves `next_length >= addr + 1`. The
transfer-finished interrupt on `p` with `next_length != 0` starts one transfer, of
exactly `next_length`, and resets `next_length` to 0; with `next_length = 0` it
starts none and no transfer is active afterwards. So after `brightness_set` for
`addr` and the transfer-finished interrupt that follows, exactly one transfer was
started since, of length `addr + 1` at least. -/
theorem ledc_no_update_lost (ops : List Op) (regs buffer : Nat → Nat) (ans ans' : DmaAnswer)
    (addr b0 b1 b2 val : Nat) (hv : val &&& LEDC_INT_STS_REG_TRANS_FINISH_INT ≠ 0) :
    ((run ops (probe regs buffer)).next_length ≠ 0 →
      (run ops (probe regs buffer)).xfer_active = true) ∧
    ((sun50i_r329_ledc_brightness_set ans addr b0 b1 b2
        (run ops (probe regs buffer))).xfer_active = true ∧
      ((run ops (probe regs buffer)).xfer_active = false →
        started (sun50i_r329_ledc_brightness_set ans addr b0 b1 b2
            (run ops (probe regs buffer))).log =
          started (run ops (probe regs buffer)).log ++ [Int.ofNat addr + 1]) ∧
      ((run ops (probe regs buffer)).xfer_active = true →
        started (sun50i_r329_ledc_brightness_set ans addr b0 b1 b2
            (run ops (probe regs buffer))).log = started (run ops (probe regs buffer)).log ∧
        Int.ofNat addr + 1 ≤ (sun50i_r329_ledc_brightness_set ans addr b0 b1 b2
            (run ops (probe regs buffer))).next_length)) ∧
    ((sun50i_r329_ledc_irq ans val (run ops (probe regs buffer))).next_length = 0 ∧
      started (sun50i_r329_ledc_irq ans val (run ops (probe regs buffer))).log =
        started (run ops (probe regs buffer)).log ++
          (if (run ops (probe regs buffer)).next_length ≠ 0 then
            [(run ops (probe regs buffer)).next_length] else []) ∧
      (sun50i_r329_ledc_irq ans val (run ops (probe regs buffer))).xfer_active =
        decide ((run ops (probe regs buffer)).next_length ≠ 0)) ∧
    (∃ L, Int.ofNat addr + 1 ≤ L ∧
      started (sun50i_r329_ledc_irq ans' val
          (sun50i_r329_ledc_brightness_set ans addr b0 b1 b2
            (run ops (probe regs buffer)))).log =
        started (run ops (probe regs buffer)).log ++ [L]) :=
  ⟨run_inv ops (probe regs buffer) (fun h => absurd rfl h),
    update_protocol (run ops (probe regs buffer)) ans ans' addr b0 b1 b2 val hv
      (run_inv ops (probe regs buffer) (fun h => absurd rfl h))⟩

/-- After two brightness updates a transfer is active and 5 LEDs are asked for next;
then LED 1 is set and the transfer-finished interrupt arrives. -/
theorem ledc_no_update_lost_witness :
    1 &&& LEDC_INT_STS_REG_TRANS_FINISH_INT ≠ 0 ∧
    (run two_updates (probe all_zero all_zero)).next_length = 5 ∧
    ((run two_updates (probe all_zero all_zero)).next_length ≠ 0 →
      (run two_updates (probe all_zero all_zero)).xfer_active = true) ∧
    ((sun50i_r329_ledc_brightness_set DmaAnswer.submit_error 1 7 8 9
        (run two_updates (probe all_zero all_zero))).xfer_active = true ∧
      ((run two_updates (probe all_zero all_zero)).xfer_active = false →
        started (sun50i_r329_ledc_brightness_set DmaAnswer.submit_error 1 7 8 9
            (run two_updates (probe all_zero all_zero))).log =
          started (run two_updates (probe all_zero all_zero)).log ++ [Int.ofNat 1 + 1]) ∧
      ((run two_updates (probe all_zero all_zero)).xfer_active = true →
        started (sun50i_r329_ledc_brightness_set DmaAnswer.submit_error 1 7 8 9
            (run two_updates (probe all_zero all_zero))).log =
          started (run two_updates (probe all_zero all_zero)).log ∧
        Int.ofNat 1 + 1 ≤ (sun50i_r329_ledc_brightness_set DmaAnswer.submit_error 1 7 8 9
            (run two_updates (probe all_zero all_zero))).next_length)) ∧
    ((sun50i_r329_ledc_irq DmaAnswer.issued 1
        (run two_updates (probe all_zero all_zero))).next_length = 0 ∧
      started (sun50i_r329_ledc_irq DmaAnswer.issued 1
          (run two_updates (probe all_zero all_zero))).log =
        started (run two_updates (probe all_zero all_zero)).log ++
          (if (run two_updates (probe all_zero all_zero)).next_length ≠ 0 then
            [(run two_updates (probe all_zero all_zero)).next_length] else []) ∧
      (sun50i_r329_ledc_irq DmaAnswer.issued 1
          (run two_updates (probe all_zero all_zero))).xfer_active =
        decide ((run two_updates (probe all_zero all_zero)).next_length ≠ 0)) ∧
    (∃ L, Int.ofNat 1 + 1 ≤ L ∧
      started (sun50i_r329_ledc_irq DmaAnswer.issued 1
          (sun50i_r329_ledc_brightness_set DmaAnswer.submit_error 1 7 8 9
            (run two_updates (probe all_zero all_zero)))).log =
        started (run two_updates (probe all_zero all_zero)).log ++ [L]) :=
  ⟨by decide, by decide,
    ledc_no_update_lost two_updates all_zero all_zero DmaAnswer.submit_error DmaAnswer.issued
      1 7 8 9 1 (by decide)⟩

end Sun50iLedc

namespace WiringCPi

/-! ## Properties of wiringCPi.c -/

theorem fault_of_pin_mask_at (bank index : Int) :
    fault_of (pin_mask_at bank index) =
      if 0 ≤ bank ∧ bank < 6 ∧ 0 ≤ index ∧ index < 32 then none
      else some { bank := bank, index := index } := by
  unfold pin_mask_at
  split_ifs <;> rfl

/-- `CPi_set_gpio_mode` faults as its subscript of `CPI_PIN_MASK` does. -/
theorem fault_of_set_gpio_mode (pin mode : Int) (w : World) :
    fault_of (CPi_set_gpio_mode pin mode w) =
      fault_of (pin_mask_at (Int.ofNat (to_unsigned (asr pin 5)))
        (Int.ofNat ((to_unsigned pin + 2 ^ 32 - (to_unsigned (asr pin 5) <<< 5) % 2 ^ 32)
          % 2 ^ 32))) := by
  unfold CPi_set_gpio_mode
  simp only []
  cases pin_mask_at (Int.ofNat (to_unsigned (asr pin 5)))
      (Int.ofNat ((to_unsigned pin + 2 ^ 32 - (to_unsigned (asr pin 5) <<< 5) % 2 ^ 32)
        % 2 ^ 32)) with
  | error f => rfl
  | ok m =>
    simp only []
    split_ifs <;> rfl

/-- `CPi_digitalWrite` faults as its subscript of `CPI_PIN_MASK` does. -/
theorem fault_of_digitalWrite (pin value : Int) (w : World) :
    fault_of (CPi_digitalWrite pin value w) =
      fault_of (pin_mask_at (Int.ofNat (to_unsigned (asr pin 5)))
        (Int.ofNat ((to_unsigned pin + 2 ^ 32 - (to_unsigned (asr pin 5) <<< 5) % 2 ^ 32)
          % 2 ^ 32))) := by
  unfold CPi_digitalWrite
  simp only []
  cases pin_mask_at (Int.ofNat (to_unsigned (asr pin 5)))
      (Int.ofNat ((to_unsigned pin + 2 ^ 32 - (to_unsigned (asr pin 5) <<< 5) % 2 ^ 32)
        % 2 ^ 32)) with
  | error f => rfl
  | ok m =>
    simp only []
    split_ifs <;> rfl

/-- `CPi_digitalRead` faults as its subscript of `CPI_PIN_MASK` does. -/
theorem fault_of_digitalRead (pin : Int) (w : World) :
    fault_of (CPi_digitalRead pin w) =
      fault_of (pin_mask_at (asr pin 5) (pin - (asr pin 5) * 2 ^ 5)) := by
  unfold CPi_digitalRead
  simp only []
  cases pin_mask_at (asr pin 5) (pin - (asr pin 5) * 2 ^ 5) with
  | error f => rfl
  | ok m =>
    simp only []
    split_ifs <;> rfl

theorem fault_of_map {α β : Type} (f : α → β) (r : Except Fault α) :
    fault_of (r.map f) = fault_of r := by
  cases r <;> rfl

/-- The `unsigned int` subscripts of `CPi_set_gpio_mode` and `CPi_digitalWrite`
are inside the table exactly for the pins 0 to 191. -/
theorem unsigned_subscripts_inside (pin : Int) (hlo : -2 ^ 31 ≤ pin) (hhi : pin < 2 ^ 31) :
    (0 ≤ Int.ofNat (to_unsigned (asr pin 5)) ∧ Int.ofNat (to_unsigned (asr pin 5)) < 6 ∧
      0 ≤ Int.ofNat ((to_unsigned pin + 2 ^ 32 - (to_unsigned (asr pin 5) <<< 5) % 2 ^ 32)
        % 2 ^ 32) ∧
      Int.ofNat ((to_unsigned pin + 2 ^ 32 - (to_unsigned (asr pin 5) <<< 5) % 2 ^ 32)
        % 2 ^ 32) < 32) ↔ (0 ≤ pin ∧ pin < 192) := by
  unfold to_unsigned asr
  rw [Nat.shiftLeft_eq]
  simp only [Int.ofNat_eq_coe]
  norm_num
  omega

/-- The `int` subscripts of `CPi_digitalRead` are inside the table exactly for
the pins 0 to 191. -/
theorem int_subscripts_inside (pin : Int) :
    (0 ≤ asr pin 5 ∧ asr pin 5 < 6 ∧ 0 ≤ pin - (asr pin 5) * 2 ^ 5 ∧
      pin - (asr pin 5) * 2 ^ 5 < 32) ↔ (0 ≤ pin ∧ pin < 192) := by
  unfold asr
  norm_num
  omega

/-- In BCM mode the pins 46 to 63, which `bcmToGpioCPi` maps to -1, are those whose
subscripts are outside the table. -/
theorem bcm_subscripts (n : Nat) (hn : n < 64) :
    (fault_of (pin_mask_at (Int.ofNat (to_unsigned (asr (bcmToGpioCPi.getD n 0) 5)))
        (Int.ofNat ((to_unsigned (bcmToGpioCPi.getD n 0) + 2 ^ 32 -
          (to_unsigned (asr (bcmToGpioCPi.getD n 0) 5) <<< 5) % 2 ^ 32) % 2 ^ 32))) ≠ none ↔
      46 ≤ n) ∧
    (fault_of (pin_mask_at (asr (bcmToGpioCPi.getD n 0) 5)
        (bcmToGpioCPi.getD n 0 - asr (bcmToGpioCPi.getD n 0) 5 * 2 ^ 5)) ≠ none ↔ 46 ≤ n) := by
  interval_cases n <;> decide

theorem size_t_check (pin : Int) (hlo : -2 ^ 31 ≤ pin) (hhi : pin < 2 ^ 31) :
    to_size_t pin ≥ bcmToGpioCPi.length ↔ pin < 0 ∨ 64 ≤ pin := by
  have hl : bcmToGpioCPi.length = 64 := by decide
  rw [hl]
  unfold to_size_t
  omega

/-- Which pins make `CPi_set_gpio_mode` and `CPi_digitalWrite` fault. -/
theorem unsigned_fault_iff (pin : Int) (hlo : -2 ^ 31 ≤ pin) (hhi : pin < 2 ^ 31) :
    fault_of (pin_mask_at (Int.ofNat (to_unsigned (asr pin 5)))
      (Int.ofNat ((to_unsigned pin + 2 ^ 32 - (to_unsigned (asr pin 5) <<< 5) % 2 ^ 32)
        % 2 ^ 32))) ≠ none ↔ pin < 0 ∨ 192 ≤ pin := by
  rw [fault_of_pin_mask_at]
  have h := unsigned_subscripts_inside pin hlo hhi
  split_ifs with hc
  · have := h.1 hc
    simp only [ne_eq, not_true_eq_false, false_iff]
    omega
  · have : ¬ (0 ≤ pin ∧ pin < 192) := fun hp => hc (h.2 hp)
    simp only [ne_eq, reduceCtorEq, not_false_eq_true, true_iff]
    omega

/-- Which pins make `CPi_digitalRead` fault. -/
theorem int_fault_iff (pin : Int) :
    fault_of (pin_mask_at (asr pin 5) (pin - asr pin 5 * 2 ^ 5)) ≠ none ↔
      pin < 0 ∨ 192 ≤ pin := by
  rw [fault_of_pin_mask_at]
  have h := int_subscripts_inside pin
  split_ifs with hc
  · have := h.1 hc
    simp only [ne_eq, not_true_eq_false, false_iff]
    omega
  · have : ¬ (0 ≤ pin ∧ pin < 192) := fun hp => hc (h.2 hp)
    simp only [ne_eq, reduceCtorEq, not_false_eq_true, true_iff]
    omega

/-- The faults behind the range checks of a pin function, given those of the
function it calls. -/
theorem checked_fault_iff {α : Type} (pin : Int) (w : World) (rejected : α)
    (call : Int → Except Fault α) (hlo : -2 ^ 31 ≤ pin) (hhi : pin < 2 ^ 31)
    (hraw : fault_of (call pin) ≠ none ↔ pin < 0 ∨ 192 ≤ pin)
    (hbcm : ∀ n : Nat, n < 64 → (fault_of (call (bcmToGpioCPi.getD n 0)) ≠ none ↔ 46 ≤ n)) :
    (w.wpimode ≠ WPI_MODE_BCM →
      (fault_of
        (if pin ≥ GPIO_NUM then Except.ok rejected
         else if w.wpimode = WPI_MODE_BCM then
           if to_size_t pin ≥ bcmToGpioCPi.length then Except.ok rejected
           else call (bcmToGpioCPi.getD pin.toNat 0)
         else call pin) ≠ none ↔ pin < 0 ∨ (192 ≤ pin ∧ pin < 256))) ∧
    (w.wpimode = WPI_MODE_BCM →
      (fault_of
        (if pin ≥ GPIO_NUM then Except.ok rejected
         else if w.wpimode = WPI_MODE_BCM then
           if to_size_t pin ≥ bcmToGpioCPi.length then Except.ok rejected
           else call (bcmToGpioCPi.getD pin.toNat 0)
         else call pin) ≠ none ↔ 46 ≤ pin ∧ pin < 64)) := by
  have hg : GPIO_NUM = 256 := rfl
  have hs := size_t_check pin hlo hhi
  constructor
  · intro hm
    rw [hg]
    by_cases h1 : pin ≥ 256
    · simp only [h1, if_true, fault_of, ne_eq, not_true_eq_false, false_iff]
      omega
    · simp only [h1, if_false, hm]
      rw [hraw]
      omega
  · intro hm
    rw [hg]
    by_cases h1 : pin ≥ 256
    · simp only [h1, if_true, fault_of, ne_eq, not_true_eq_false, false_iff]
      omega
    · simp only [h1, if_false, hm, if_true]
      by_cases h2 : to_size_t pin ≥ bcmToGpioCPi.length
      · simp only [h2, if_true, fault_of, ne_eq, not_true_eq_false, false_iff]
        have := hs.1 h2
        omega
      · simp only [h2, if_false]
        have h3 : ¬ (pin < 0 ∨ 64 ≤ pin) := fun h => h2 (hs.2 h)
        have h4 : pin.toNat < 64 := by omega
        rw [hbcm pin.toNat h4]
        omega

/-! ## The claim on wiringCPi.c -/

/-- C30: the range checks of `CPiPinMode`, `CPiDigitalWrite` and `CPiDigitalRead`
do not keep the subscripts of `CPI_PIN_MASK[6][32]` inside the table. `GPIO_NUM`
is 256 where the table has 6 banks of 32. In raw mode a pin passes the checks
when it is below 256, and the subscript is outside the table for the pins below
0 and the pins 192 to 255. In BCM mode a pin passes when it is 0 to 63, and the
subscript is outside the table for the pins 46 to 63, which `bcmToGpioCPi` maps
to -1: they are not rejected before the table is indexed. Raw pin 200 indexes
bank 6; BCM pin 46 and raw pin -1 index bank 4294967295 as `unsigned int` and
bank -1 as `int`. -/
theorem pin_checks_leave_table (pin mode value : Int) (w : World)
    (hlo : -2 ^ 31 ≤ pin) (hhi : pin < 2 ^ 31) :
    (GPIO_NUM = 256 ∧ CPI_PIN_MASK.length = 6 ∧ bcmToGpioCPi.length = 64) ∧
    (w.wpimode ≠ WPI_MODE_BCM →
      (fault_of (CPiPinMode pin mode w) ≠ none ↔ pin < 0 ∨ (192 ≤ pin ∧ pin < 256)) ∧
      (fault_of (CPiDigitalWrite pin value w) ≠ none ↔ pin < 0 ∨ (192 ≤ pin ∧ pin < 256)) ∧
      (fault_of (CPiDigitalRead pin w) ≠ none ↔ pin < 0 ∨ (192 ≤ pin ∧ pin < 256))) ∧
    (w.wpimode = WPI_MODE_BCM →
      (fault_of (CPiPinMode pin mode w) ≠ none ↔ 46 ≤ pin ∧ pin < 64) ∧
      (fault_of (CPiDigitalWrite pin value w) ≠ none ↔ 46 ≤ pin ∧ pin < 64) ∧
      (fault_of (CPiDigitalRead pin w) ≠ none ↔ 46 ≤ pin ∧ pin < 64)) ∧
    (fault_of (CPiPinMode 200 OUTPUT world_raw) = some { bank := 6, index := 8 } ∧
      fault_of (CPiDigitalWrite 200 1 world_raw) = some { bank := 6, index := 8 } ∧
      fault_of (CPiDigitalRead 200 world_raw) = some { bank := 6, index := 8 }) ∧
    (bcmToGpioCPi.getD 46 0 = -1 ∧
      fault_of (CPiPinMode 46 OUTPUT world_bcm) = some { bank := 4294967295, index := 31 } ∧
      fault_of (CPiDigitalWrite 46 1 world_bcm) = some { bank := 4294967295, index := 31 } ∧
      fault_of (CPiDigitalRead 46 world_bcm) = some { bank := -1, index := 31 }) ∧
    (fault_of (CPiPinMode (-1) OUTPUT world_raw) = some { bank := 4294967295, index := 31 } ∧
      fault_of (CPiDigitalRead (-1) world_raw) = some { bank := -1, index := 31 }) := by
  have hmode := checked_fault_iff pin w { w with out := w.out ++ [Message.invalid_pin pin] }
    (fun p => CPi_set_gpio_mode p mode w) hlo hhi
    (by rw [fault_of_set_gpio_mode]; exact unsigned_fault_iff pin hlo hhi)
    (fun n hn => by rw [fault_of_set_gpio_mode]; exact (bcm_subscripts n hn).1)
  have hwrite := checked_fault_iff pin w { w with out := w.out ++ [Message.invalid_pin pin] }
    (fun p => CPi_digitalWrite p value w) hlo hhi
    (by rw [fault_of_digitalWrite]; exact unsigned_fault_iff pin hlo hhi)
    (fun n hn => by rw [fault_of_digitalWrite]; exact (bcm_subscripts n hn).1)
  have hread := checked_fault_iff pin w
    ((-1 : Int), { w with out := w.out ++ [Message.invalid_pin pin] })
    (fun p => (CPi_digitalRead p w).map (fun value => (value, w))) hlo hhi
    (by rw [fault_of_map, fault_of_digitalRead]; exact int_fault_iff pin)
    (fun n hn => by rw [fault_of_map, fault_of_digitalRead]; exact (bcm_subscripts n hn).2)
  refine ⟨by decide, fun hm => ⟨hmode.1 hm, hwrite.1 hm, hread.1 hm⟩,
    fun hm => ⟨hmode.2 hm, hwrite.2 hm, hread.2 hm⟩, by decide, by decide, by decide⟩

/-- Raw pin 200 on the state after `CPiSetupRaw`, which is not in BCM mode. -/
theorem pin_checks_leave_table_witness :
    (-2 ^ 31 ≤ (200 : Int) ∧ (200 : Int) < 2 ^ 31) ∧
    world_raw.wpimode ≠ WPI_MODE_BCM ∧
    (GPIO_NUM = 256 ∧ CPI_PIN_MASK.length = 6 ∧ bcmToGpioCPi.length = 64) ∧
    (world_raw.wpimode ≠ WPI_MODE_BCM →
      (fault_of (CPiPinMode 200 OUTPUT world_raw) ≠ none ↔
        (200 : Int) < 0 ∨ (192 ≤ (200 : Int) ∧ (200 : Int) < 256)) ∧
      (fault_of (CPiDigitalWrite 200 1 world_raw) ≠ none ↔
        (200 : Int) < 0 ∨ (192 ≤ (200 : Int) ∧ (200 : Int) < 256)) ∧
      (fault_of (CPiDigitalRead 200 world_raw) ≠ none ↔
        (200 : Int) < 0 ∨ (192 ≤ (200 : Int) ∧ (200 : Int) < 256))) ∧
    (world_raw.wpimode = WPI_MODE_BCM →
      (fault_of (CPiPinMode 200 OUTPUT world_raw) ≠ none ↔ 46 ≤ (200 : Int) ∧ (200 : Int) < 64) ∧
      (fault_of (CPiDigitalWrite 200 1 world_raw) ≠ none ↔ 46 ≤ (200 : Int) ∧ (200 : Int) < 64) ∧
      (fault_of (CPiDigitalRead 200 world_raw) ≠ none ↔ 46 ≤ (200 : Int) ∧ (200 : Int) < 64)) ∧
    (fault_of (CPiPinMode 200 OUTPUT world_raw) = some { bank := 6, index := 8 } ∧
      fault_of (CPiDigitalWrite 200 1 world_raw) = some { bank := 6, index := 8 } ∧
      fault_of (CPiDigitalRead 200 world_raw) = some { bank := 6, index := 8 }) ∧
    (bcmToGpioCPi.getD 46 0 = -1 ∧
      fault_of (CPiPinMode 46 OUTPUT world_bcm) = some { bank := 4294967295, index := 31 } ∧
      fault_of (CPiDigitalWrite 46 1 world_bcm) = some { bank := 4294967295, index := 31 } ∧
      fault_of (CPiDigitalRead 46 world_bcm) = some { bank := -1, index := 31 }) ∧
    (fault_of (CPiPinMode (-1) OUTPUT world_raw) = some { bank := 4294967295, index := 31 } ∧
      fault_of (CPiDigitalRead (-1) world_raw) = some { bank := -1, index := 31 }) :=
  ⟨by decide, by decide,
    pin_checks_leave_table 200 OUTPUT 1 world_raw (by decide) (by decide)⟩

end WiringCPi
